import Mathlib

/-!
# Render driver and test nodes of the tracktion graph engine

A shallow embedding of `NodeRenderContext`
(`modules/tracktion_engine/playback/graph/tracktion_NodeRenderContext.{h,cpp}`), of the test
nodes of `modules/tracktion_graph/tracktion_graph/tracktion_graph_tests_TestAudioNodes.h`, and
of the players and the rack that
`modules/tracktion_engine/playback/graph/tracktion_engine_tests_RackNode.cpp` exercises.

Conventions of the embedding

* `double` and `float` values are exact rationals (`ℚ`): every statement below is a
  statement in exact arithmetic.
* C++ `int` / `int64_t` values are `Int`; a conversion to `size_t` is made explicit by
  `toSizeT` (reduction modulo `2^64`).
* The mutable object is an explicit record, `NodeRenderContext`; a member function takes the
  record and returns the new one.  What the function reads from its collaborators during one
  call (the cancellation predicate, the readiness of the leaf nodes, the rendered samples, the
  answer of the writer, the clock) is the `BlockInput` of that call.
* Library routines whose code is outside the repository sources that are embedded here
  (`juce::roundToInt`, `timeToSample`, `getRMSLevel`, `Ditherer::process`,
  `Edit::maximumLength`) are the fields of `Externals`.
* A loop that need not end takes a bound on its rounds and returns `none` when the bound does
  not suffice; the statements about it give a bound that suffices.
* A pointer to a node is the address of the node in a `NodeGraph`; a member function of a node
  takes what the virtual calls on its inputs return.
-/

namespace tracktion_engine

/-! ## Data model -/

/-- A `juce::File`, by its path; the empty path is the default `juce::File()`. -/
abbrev File := String

/-- A `juce::Result`: ok, or a failure carrying the message to display. -/
inductive Result where
  | ok
  | fail (message : String)
  deriving DecidableEq, Repr

/-- Member `juce::Result::wasOk`. -/
def Result.wasOk : Result → Bool
  | Result.ok => true
  | Result.fail _ => false

/-- Member `juce::Result::failed`. -/
def Result.failed (res : Result) : Bool := !res.wasOk

/-- The `tracktion_graph::NodeProperties` a node declares. -/
structure NodeProperties where
  hasAudio : Bool
  hasMidi : Bool
  numberOfChannels : Int
  latencyNumSamples : Int
  deriving DecidableEq, Repr

/-- An `EditTimeRange`; `endTime` is the member `end`. -/
structure EditTimeRange where
  start : ℚ
  endTime : ℚ
  deriving DecidableEq

/-- Member `EditTimeRange::getStart`. -/
def EditTimeRange.getStart (t : EditTimeRange) : ℚ := t.start

/-- Member `EditTimeRange::getEnd`. -/
def EditTimeRange.getEnd (t : EditTimeRange) : ℚ := t.endTime

/-- Member `EditTimeRange::getLength`. -/
def EditTimeRange.getLength (t : EditTimeRange) : ℚ := t.endTime - t.start

/-- The fields of `Renderer::Parameters` that the render context reads or writes. -/
structure Parameters where
  destFile : File
  time : EditTimeRange
  endAllowance : ℚ
  sampleRateForAudio : ℚ
  blockSizeForAudio : Int
  bitDepth : Int
  ditheringEnabled : Bool
  shouldNormalise : Bool
  trimSilenceAtEnds : Bool
  shouldNormaliseByRMS : Bool
  mustRenderInMono : Bool
  canRenderInMono : Bool
  realTimeRender : Bool
  resultMagnitude : ℚ
  resultRMS : ℚ
  resultAudioDuration : ℚ
  deriving DecidableEq

/-- Samples of one block: `channels` holds the data, `numSamples` is the length the C++ object
reports (`getNumSamples`), which the code takes from a sample range and not from the data. -/
structure AudioBlock where
  channels : List (List ℚ)
  numSamples : Nat
  deriving DecidableEq

/-- Member `AudioBlock::getChannelPointer`: the samples of channel `i`. -/
def AudioBlock.getChannelPointer (b : AudioBlock) (i : Nat) : List ℚ := b.channels.getD i []

/-- Member `AudioBlock::getSubBlock (offset, size)`. -/
def AudioBlock.getSubBlock (b : AudioBlock) (offset size : Nat) : AudioBlock :=
  { channels := b.channels.map (fun c => (c.drop offset).take size), numSamples := size }

/-- Largest absolute value among the samples `start .. start + num - 1` of one channel. -/
def channelMagnitude (c : List ℚ) (start num : Nat) : ℚ :=
  ((c.drop start).take num).foldl (fun m x => max m |x|) 0

/-- Member `AudioBuffer::getMagnitude (startSample, numSamples)`: the largest absolute sample
value over every channel of the buffer. -/
def AudioBlock.getMagnitude (b : AudioBlock) (start num : Nat) : ℚ :=
  b.channels.foldl (fun m c => max m (channelMagnitude c start num)) 0

/-- Member `AudioBuffer::getNumChannels`. -/
def AudioBlock.getNumChannels (b : AudioBlock) : Int := b.channels.length

/-- Routines called by the render context whose code is not part of the embedded sources. -/
structure Externals where
  /-- Function `juce::roundToInt`. -/
  roundToInt : ℚ → Int
  /-- Function `tracktion_graph::timeToSample (time, sampleRate)`. -/
  timeToSample : ℚ → ℚ → Int
  /-- Member `AudioBuffer::getRMSLevel (channel, 0, numSamples)`, on the samples of the channel. -/
  getRMSLevel : List ℚ → ℚ
  /-- Member `Ditherer::process` of ditherer number `i`, on `numSamples` samples of one channel. -/
  dithererProcess : Nat → List ℚ → Int → List ℚ
  /-- Constant `Edit::maximumLength`. -/
  maximumLength : ℚ

/-- Modelled from the spec: `tracktion_graph::sampleToTime` is not in the embedded sources; the
latency in samples is turned into a time by dividing by the sample rate. -/
def sampleToTime (numSamples : Int) (sampleRate : ℚ) : ℚ := (numSamples : ℚ) / sampleRate

/-- A C++ conversion of a `double` to `int`: truncation towards zero. -/
def truncToInt (x : ℚ) : Int := if 0 ≤ x then ⌊x⌋ else ⌈x⌉

/-- A C++ conversion of a signed integer to `size_t` (64 bit). -/
def toSizeT (x : Int) : Nat := (x % 2 ^ 64).toNat

/-- A C++ conversion of a `size_t` to `int` (32 bit, two's complement). -/
def sizeTToInt (n : Nat) : Int := ((n : Int) + 2 ^ 31) % 2 ^ 32 - 2 ^ 31

/-- The value `std::numeric_limits<int64_t>::max()`. -/
def int64Max : Int := 2 ^ 63 - 1

/-- Function `juce::jlimit (lower, upper, value)`. -/
def jlimit (lower upper value : ℚ) : ℚ :=
  if value < lower then lower else if upper < value then upper else value

/-- Modelled from the spec: the class `tracktion_graph::PlayHead` is not in the embedded
sources.  It is constructed stopped; `stop`, `setPosition` and `playSyncedToRange` mutate it, and
it reports a position and a play/stop status. -/
structure PlayHead where
  isPlaying : Bool
  position : Int
  syncedRange : Option (Int × Int)
  deriving DecidableEq, Repr

/-- Modelled from the spec: `PlayHead::stop` puts the playhead into the stopped state. -/
def PlayHead.stop (p : PlayHead) : PlayHead := { p with isPlaying := false }

/-- Modelled from the spec: `PlayHead::setPosition` sets the next read position. -/
def PlayHead.setPosition (p : PlayHead) (sample : Int) : PlayHead := { p with position := sample }

/-- Modelled from the spec: `PlayHead::playSyncedToRange` starts playing, synced to the range. -/
def PlayHead.playSyncedToRange (p : PlayHead) (range : Int × Int) : PlayHead :=
  { p with isPlaying := true, position := range.1, syncedRange := some range }

/-- The `AudioFileWriter` owned by the context: whether it is open, the channel count it was
created with, and the sizes of the blocks appended so far (oldest first). -/
structure AudioFileWriter where
  isOpen : Bool
  numChannels : Int
  appended : List Int
  deriving DecidableEq, Repr

/-- Member `AudioFileWriter::closeForWriting`. -/
def AudioFileWriter.closeForWriting (w : AudioFileWriter) : AudioFileWriter :=
  { w with isOpen := false }

/-- Member `AudioFileWriter::appendBuffer` when the underlying writer accepts the block. -/
def AudioFileWriter.appendBuffer (w : AudioFileWriter) (numSamples : Int) : AudioFileWriter :=
  { w with appended := w.appended ++ [numSamples] }

/-- Total number of samples appended to a writer. -/
def AudioFileWriter.samplesAppended (w : AudioFileWriter) : Int := w.appended.sum

/-- The return type of `writeAudioBlock`. -/
inductive WriteResult where
  | succeeded
  | failed
  deriving DecidableEq, Repr

/-- The constant `NodeRenderContext::sleepCounterMax`. -/
def sleepCounterMax : Int := 100

/-- The members of `NodeRenderContext`, and the observable effects of its calls on the
collaborators it owns: `destFileDeleted` (the destination file was deleted by the context),
`pluginsRealtime` (last argument of `setAllPluginsRealtime`), `numProcessCalls` (calls of
`nodePlayer->process`), `sleptMs` (milliseconds passed to `Thread::sleep`), `tempoTime` (last
argument of `currentTempoPosition->setTime`), `postPassCalls` (calls of
`performNormalisingAndTrimming`), `analysedBlocks` (the buffers measured by the calls of
`writeAudioBlock`, oldest first). -/
structure NodeRenderContext where
  r : Parameters
  originalParams : Parameters
  ownerParams : Parameters
  needsToNormaliseAndTrim : Bool
  playHead : PlayHead
  playHeadStateRange : Option (Int × Int)
  hasNodePlayer : Bool
  numOutputChans : Int
  writer : Option AudioFileWriter
  status : Result
  thresholdForStopping : ℚ
  blockLength : ℚ
  numPreRenderBlocks : Int
  realTimePerBlock : Int
  lastTime : ℚ
  sleepCounter : Int
  tempoTime : Option ℚ
  peak : ℚ
  rmsTotal : ℚ
  rmsNumSamps : Int
  numNonZeroSamps : Int
  precount : Int
  streamTime : ℚ
  samplesTrimmed : Int
  hasStartedSavingToFile : Bool
  samplesToWrite : Int
  numLatencySamplesToDrop : Int
  intermediateFile : Option File
  hasSourceToUpdate : Bool
  numSamplesWrittenToSource : Int
  destFileDeleted : Bool
  pluginsRealtime : Bool
  numProcessCalls : Nat
  sleptMs : Int
  postPassCalls : Nat
  analysedBlocks : List AudioBlock

/-- What the constructor learns from its collaborators: the file a `juce::TemporaryFile` picks for
the intermediate render, whether the `AudioFileWriter` could be opened on the destination,
the clock, and whether a thumbnail source was passed. -/
structure SetupInput where
  intermediateFile : File
  writerOpens : Bool
  timeNow : ℚ
  hasSourceToUpdate : Bool

/-- What one call of `renderNextBlock` reads from its collaborators. -/
structure BlockInput where
  /-- Value of `owner.shouldExit()` at the top of the call. -/
  shouldExit : Bool
  /-- Value of `owner.shouldExit()` in the leaf-readiness test (read only if a leaf is not ready). -/
  shouldExitWhileWaiting : Bool
  /-- Whether every node without direct inputs reports `isReadyToProcess`. -/
  leafNodesReady : Bool
  /-- Value of `juce::Time::getMillisecondCounterHiRes()`. -/
  timeNow : ℚ
  /-- Channels of the destination block after `nodePlayer->process`. -/
  rendered : List (List ℚ)
  /-- Result of `writer->appendBuffer`, if it is called. -/
  appendOk : Bool
  /-- Value of `renderingBuffer.getMagnitude (0, r.blockSizeForAudio)` at the termination test. -/
  magnitudeAtEnd : ℚ

/-- What a call of `renderNextBlock` yields: the returned flag, the context and the value of
the progress variable passed by reference. -/
structure StepResult where
  finished : Bool
  ctx : NodeRenderContext
  progress : ℚ

/-! ## Construction -/

/-- The values the member initialisers of the header and the constructor's initialiser list
give to a context, before the constructor body runs. -/
def NodeRenderContext.initial (p ownerParams : Parameters) (playHead : PlayHead)
    (hasSourceToUpdate : Bool) : NodeRenderContext :=
  { r := p, originalParams := p, ownerParams := ownerParams,
    needsToNormaliseAndTrim := false,
    playHead := playHead, playHeadStateRange := none, hasNodePlayer := false,
    numOutputChans := 0, writer := none, status := Result.ok,
    thresholdForStopping := 0, blockLength := 0, numPreRenderBlocks := 0, realTimePerBlock := 0,
    lastTime := 0, sleepCounter := 0, tempoTime := none,
    peak := 0, rmsTotal := 0, rmsNumSamps := 0, numNonZeroSamps := 0,
    precount := 0, streamTime := 0,
    samplesTrimmed := 0, hasStartedSavingToFile := false, samplesToWrite := 0,
    numLatencySamplesToDrop := 0, intermediateFile := none,
    hasSourceToUpdate := hasSourceToUpdate, numSamplesWrittenToSource := 0,
    destFileDeleted := false, pluginsRealtime := true, numProcessCalls := 0, sleptMs := 0,
    postPassCalls := 0, analysedBlocks := [] }

/-- Constructor, lines 60-85: the node player is created, the latency of the root node is
recorded and added to the end of the render range, and a requested normalise/trim is turned
into a render to an intermediate file with the three flags cleared. -/
def NodeRenderContext.setupLatencyAndPostPass (c : NodeRenderContext) (props : NodeProperties)
    (sys : SetupInput) : NodeRenderContext :=
  let c := { c with hasNodePlayer := true }
  let c := { c with numLatencySamplesToDrop := props.latencyNumSamples }
  let latencyTime := sampleToTime c.numLatencySamplesToDrop c.r.sampleRateForAudio
  let time := { c.r.time with endTime := c.r.time.endTime + latencyTime }
  let c := { c with r := { c.r with time := time } }
  if c.r.shouldNormalise || c.r.trimSilenceAtEnds || c.r.shouldNormaliseByRMS then
    { c with needsToNormaliseAndTrim := true,
             intermediateFile := some sys.intermediateFile,
             r := { c.r with destFile := sys.intermediateFile,
                             shouldNormalise := false,
                             trimSilenceAtEnds := false,
                             shouldNormaliseByRMS := false } }
  else c

/-- Constructor, lines 114-151: the bookkeeping set up once the writer is open. -/
def NodeRenderContext.setupBookkeeping (E : Externals) (c : NodeRenderContext)
    (sys : SetupInput) : NodeRenderContext :=
  let c := { c with blockLength := (c.r.blockSizeForAudio : ℚ) / c.r.sampleRateForAudio }
  let warmUp := truncToInt ((c.r.sampleRateForAudio / 2) / (c.r.blockSizeForAudio : ℚ) + 1)
  let c := { c with numPreRenderBlocks := warmUp }
  let c := { c with realTimePerBlock := truncToInt (c.blockLength * 1000 + 99 / 100) }
  let c := { c with lastTime := sys.timeNow, sleepCounter := 10 }
  let c := { c with peak := 1 / 10000, rmsTotal := 0, rmsNumSamps := 0, numNonZeroSamps := 0 }
  let c := { c with streamTime := c.r.time.getStart }
  let c := { c with precount := c.numPreRenderBlocks }
  let c := { c with streamTime := c.streamTime - (c.precount : ℚ) * c.blockLength }
  let c := { c with pluginsRealtime := c.r.realTimeRender }
  let c := { c with samplesTrimmed := 0, hasStartedSavingToFile := !c.r.trimSilenceAtEnds }
  let startSample := E.timeToSample c.r.time.getStart c.r.sampleRateForAudio
  let c := { c with playHead := (c.playHead.stop).setPosition startSample }
  let budget := E.roundToInt ((c.r.time.getLength + c.r.endAllowance) * c.r.sampleRateForAudio)
  { c with samplesToWrite := budget }

/-- The constructor `NodeRenderContext::NodeRenderContext`.  The root node is represented by the
properties it declares. -/
def NodeRenderContext.construct (E : Externals) (p ownerParams : Parameters)
    (props : NodeProperties) (playHead : PlayHead) (sys : SetupInput) : NodeRenderContext :=
  let c := NodeRenderContext.initial p ownerParams playHead sys.hasSourceToUpdate
  let c := c.setupLatencyAndPostPass props sys
  let c := { c with numOutputChans := 2 }
  if !props.hasAudio then
    { c with status := Result.fail "Didn't find any audio to render" }
  else
    let c := if c.r.mustRenderInMono || (c.r.canRenderInMono && decide (props.numberOfChannels < 2))
             then { c with numOutputChans := 1 } else c
    let w : AudioFileWriter :=
      { isOpen := sys.writerOpens, numChannels := c.numOutputChans, appended := [] }
    let c := { c with writer := some w }
    if c.r.destFile != "" && !sys.writerOpens then
      { c with status := Result.fail "Couldn't write to target file" }
    else
      c.setupBookkeeping E sys

/-- Member `NodeRenderContext::getStatus`. -/
def NodeRenderContext.getStatus (c : NodeRenderContext) : Result := c.status

/-- The destructor `NodeRenderContext::~NodeRenderContext`. -/
def NodeRenderContext.destroy (c : NodeRenderContext) : NodeRenderContext :=
  let rms : ℚ := if c.rmsNumSamps > 0 then c.rmsTotal / (c.rmsNumSamps : ℚ) else 0
  let duration : ℚ := (c.numNonZeroSamps : ℚ) / c.ownerParams.sampleRateForAudio
  let r := { c.r with resultMagnitude := c.peak, resultRMS := rms, resultAudioDuration := duration }
  let ownerParams :=
    { c.ownerParams with resultMagnitude := c.peak, resultRMS := rms, resultAudioDuration := duration }
  let c := { c with r := r, ownerParams := ownerParams }
  let c := { c with playHead := c.playHead.stop, pluginsRealtime := true }
  let c := { c with writer := c.writer.map AudioFileWriter.closeForWriting }
  let c := { c with hasNodePlayer := false }
  if c.needsToNormaliseAndTrim then { c with postPassCalls := c.postPassCalls + 1 } else c

/-! ## The write path -/

/-- Member `Ditherers::apply` of the header: ditherer `i` processes channel `i`. -/
def Ditherers.apply (E : Externals) (buffer : AudioBlock) (numSamples : Int) : AudioBlock :=
  let processed := (List.range buffer.channels.length).map
    (fun i => E.dithererProcess i (buffer.getChannelPointer i) numSamples)
  { buffer with channels := processed }

/-- The loop of lines 337-341: for every channel of the buffer, from the last to the first, the
RMS level of the channel is added to `rmsTotal` and `rmsNumSamps` is incremented. -/
def accumulateRMS (E : Externals) (buffer : AudioBlock) (blockSizeSamples : Int)
    (c : NodeRenderContext) : NodeRenderContext :=
  (List.range buffer.getNumChannels.toNat).reverse.foldl
    (fun c i =>
      let level := E.getRMSLevel ((buffer.getChannelPointer i).take blockSizeSamples.toNat)
      { c with rmsTotal := c.rmsTotal + level, rmsNumSamps := c.rmsNumSamps + 1 }) c

/-- The loop of lines 343-345: every sample position whose magnitude exceeds 0.0001 is counted. -/
def countNonZero (buffer : AudioBlock) (blockSizeSamples : Int)
    (c : NodeRenderContext) : NodeRenderContext :=
  (List.range blockSizeSamples.toNat).reverse.foldl
    (fun c i => if buffer.getMagnitude i 1 > 1 / 10000
                then { c with numNonZeroSamps := c.numNonZeroSamps + 1 } else c) c

/-- Sum of the RMS levels of the channels of a buffer, in the order `accumulateRMS` adds them. -/
def rmsLevelSum (E : Externals) (buffer : AudioBlock) (blockSizeSamples : Int) : ℚ :=
  (((List.range buffer.getNumChannels.toNat).reverse).map
    (fun i => E.getRMSLevel ((buffer.getChannelPointer i).take blockSizeSamples.toNat))).sum

/-- Number of sample positions of a buffer whose magnitude exceeds 0.0001. -/
def nonZeroCount (buffer : AudioBlock) (blockSizeSamples : Int) : Int :=
  (((List.range blockSizeSamples.toNat).reverse).filter
    (fun i => decide (buffer.getMagnitude i 1 > 1 / 10000))).length

/-- Lines 318-329 of `writeAudioBlock`: the buffer built on the first `numOutputChans` channel
pointers of the block, dithered when dithering is enabled and the bit depth is below 32. -/
def NodeRenderContext.bufferToWrite (E : Externals) (c : NodeRenderContext) (block : AudioBlock) :
    AudioBlock :=
  let blockSizeSamples : Int := sizeTToInt block.numSamples
  let buffer : AudioBlock :=
    { channels := (List.range c.numOutputChans.toNat).map (fun i => block.getChannelPointer i),
      numSamples := blockSizeSamples.toNat }
  if c.r.ditheringEnabled && decide (c.r.bitDepth < 32)
  then Ditherers.apply E buffer blockSizeSamples else buffer

/-- Lines 331-355 of `writeAudioBlock`: peak, "started saving" flag, RMS and non-zero
accumulators, trimmed samples and the thumbnail position. -/
def NodeRenderContext.analyseBlock (E : Externals) (c : NodeRenderContext) (block : AudioBlock) :
    NodeRenderContext :=
  let blockSizeSamples : Int := sizeTToInt block.numSamples
  let buffer := c.bufferToWrite E block
  let c := { c with analysedBlocks := c.analysedBlocks ++ [buffer] }
  let mag := buffer.getMagnitude 0 blockSizeSamples.toNat
  let c := { c with peak := max c.peak mag }
  let c := if !c.hasStartedSavingToFile
           then { c with hasStartedSavingToFile := decide (mag > 0) } else c
  let c := accumulateRMS E buffer blockSizeSamples c
  let c := countNonZero buffer blockSizeSamples c
  let c := if !c.hasStartedSavingToFile
           then { c with samplesTrimmed := c.samplesTrimmed + blockSizeSamples } else c
  if c.hasSourceToUpdate && decide (blockSizeSamples > 0)
  then { c with numSamplesWrittenToSource := c.numSamplesWrittenToSource + blockSizeSamples }
  else c

/-- Member `NodeRenderContext::writeAudioBlock`: the block is analysed, and appended to the
writer when it is not empty, saving has started and the writer is open.  The result is `none`
when the call reaches `writer->isOpen()` with no writer. -/
def NodeRenderContext.writeAudioBlock (E : Externals) (c : NodeRenderContext) (block : AudioBlock)
    (appendOk : Bool) : Option (WriteResult × NodeRenderContext) :=
  let blockSizeSamples : Int := sizeTToInt block.numSamples
  let c := c.analyseBlock E block
  if decide (blockSizeSamples > 0) && c.hasStartedSavingToFile then
    match c.writer with
    | none => none
    | some w =>
      if w.isOpen then
        if appendOk then
          some (WriteResult.succeeded, { c with writer := some (w.appendBuffer blockSizeSamples) })
        else
          some (WriteResult.failed, c)
      else
        some (WriteResult.succeeded, c)
  else
    some (WriteResult.succeeded, c)

/-! ## One block -/

/-- Lines 178-182 of `renderNextBlock`: every `sleepCounterMax` calls the thread sleeps 1 ms. -/
def NodeRenderContext.tickSleepCounter (c : NodeRenderContext) : NodeRenderContext :=
  let c := { c with sleepCounter := c.sleepCounter - 1 }
  if c.sleepCounter ≤ 0 then
    { c with sleepCounter := sleepCounterMax, sleptMs := c.sleptMs + 1 }
  else c

/-- Lines 186-192 of `renderNextBlock`, the body of the cancellation branch: the writer is
closed, the destination file deleted, the playhead stopped.  The result is `none` when there is
no writer to close. -/
def NodeRenderContext.cancelRender (c : NodeRenderContext) : Option NodeRenderContext :=
  match c.writer with
  | none => none
  | some w =>
    some { c with writer := some w.closeForWriting, destFileDeleted := true,
                  playHead := c.playHead.stop, pluginsRealtime := true }

/-- Lines 195-212 of `renderNextBlock`: the end of the block is computed, the playhead is
positioned during the warm-up, and at `precount == 0` the stream time is reset to the start of
the render and the playhead synced to the render range.  Returns the context and `blockEnd`. -/
def NodeRenderContext.positionPlayHead (E : Externals) (c : NodeRenderContext) :
    NodeRenderContext × ℚ :=
  let sampleRate := c.r.sampleRateForAudio
  let blockEnd := c.streamTime + c.blockLength
  let blockEnd := if c.precount > 0 then min c.r.time.getStart blockEnd else blockEnd
  let c :=
    if c.precount > c.numPreRenderBlocks.tdiv 2 then
      { c with playHead := c.playHead.setPosition (E.timeToSample c.streamTime sampleRate) }
    else if c.precount = c.numPreRenderBlocks.tdiv 2 then
      { c with playHead :=
          c.playHead.playSyncedToRange (E.timeToSample c.streamTime sampleRate, int64Max) }
    else c
  if c.precount = 0 then
    let c := { c with streamTime := c.r.time.getStart }
    let blockEnd := c.streamTime + c.blockLength
    let playRange := (E.timeToSample c.streamTime sampleRate, E.timeToSample E.maximumLength sampleRate)
    let c := { c with playHead := c.playHead.playSyncedToRange playRange }
    let blockRange := (E.timeToSample c.streamTime sampleRate, E.timeToSample blockEnd sampleRate)
    let c := { c with playHeadStateRange := some blockRange }
    (c, blockEnd)
  else
    (c, blockEnd)

/-- Lines 214-222 of `renderNextBlock`: real-time pacing. -/
def NodeRenderContext.pace (c : NodeRenderContext) (timeNow : ℚ) : NodeRenderContext :=
  if c.r.realTimeRender then
    let timeToWait := truncToInt ((c.realTimePerBlock : ℚ) - (timeNow - c.lastTime))
    let c := { c with lastTime := timeNow }
    if timeToWait > 0 then { c with sleptMs := c.sleptMs + timeToWait } else c
  else c

/-- The sub-block chosen by lines 258-272. -/
structure WritePlan where
  ctx : NodeRenderContext
  blockSize : Nat
  blockOffset : Nat

/-- Lines 258-272 of `renderNextBlock`: up to `blockSizeForAudio` samples are taken from the
budget `samplesToWrite`, and up to `numLatencySamplesToDrop` of them are dropped. -/
def NodeRenderContext.planWrite (c : NodeRenderContext) (destNumSamples : Nat) : WritePlan :=
  let numSamplesDone : Int := min c.samplesToWrite c.r.blockSizeForAudio
  let c := { c with samplesToWrite := c.samplesToWrite - numSamplesDone }
  let blockSize : Nat := toSizeT numSamplesDone
  let blockOffset : Nat := 0
  if c.numLatencySamplesToDrop > 0 then
    let numToDrop : Int := min c.numLatencySamplesToDrop numSamplesDone
    let c := { c with numLatencySamplesToDrop := c.numLatencySamplesToDrop - numToDrop }
    let numSamplesDone := numSamplesDone - numToDrop
    let blockSize : Nat := toSizeT numSamplesDone
    let blockOffset : Nat := toSizeT ((destNumSamples : Int) - (blockSize : Int))
    { ctx := c, blockSize := blockSize, blockOffset := blockOffset }
  else
    { ctx := c, blockSize := blockSize, blockOffset := blockOffset }

/-- Lines 254-286 of `renderNextBlock`: in the steady state the planned sub-block goes to
`writeAudioBlock`; during the warm-up the thread sleeps for one block length. -/
def NodeRenderContext.writeOrWarmUp (E : Externals) (c : NodeRenderContext) (destBlock : AudioBlock)
    (appendOk : Bool) : Option (WriteResult × NodeRenderContext) :=
  if c.precount ≤ 0 then
    let plan := c.planWrite destBlock.numSamples
    if plan.blockSize > 0 then
      plan.ctx.writeAudioBlock E (destBlock.getSubBlock plan.blockOffset plan.blockSize) appendOk
    else
      some (WriteResult.succeeded, plan.ctx)
  else
    some (WriteResult.succeeded, { c with sleptMs := c.sleptMs + truncToInt (c.blockLength * 1000) })

/-- Lines 288-310 of `renderNextBlock`: the termination test, and otherwise the progress
report and the advance to the next block. -/
def NodeRenderContext.finishBlock (c : NodeRenderContext) (blockEnd progressToUpdate magnitude : ℚ) :
    StepResult :=
  if c.streamTime > c.r.time.getEnd + c.r.endAllowance then
    { finished := true, ctx := c, progress := progressToUpdate }
  else if c.streamTime > c.r.time.getEnd ∧ magnitude ≤ c.thresholdForStopping then
    { finished := true, ctx := c, progress := progressToUpdate }
  else
    let prog := (c.streamTime - c.r.time.getStart) / max 1 c.r.time.getLength
    let prog := if c.needsToNormaliseAndTrim then prog * (9 / 10) else prog
    { finished := false,
      ctx := { c with precount := c.precount - 1, streamTime := blockEnd },
      progress := jlimit 0 1 prog }

/-- Member `NodeRenderContext::renderNextBlock`.  `progressToUpdate` is the value of the
progress variable on entry; the result carries its value on exit. -/
def NodeRenderContext.renderNextBlock (E : Externals) (c : NodeRenderContext) (progressToUpdate : ℚ)
    (inp : BlockInput) : Option StepResult :=
  let c := c.tickSleepCounter
  if inp.shouldExit then
    match c.cancelRender with
    | none => none
    | some c => some { finished := true, ctx := c, progress := progressToUpdate }
  else
    let positioned := c.positionPlayHead E
    let c := positioned.1
    let blockEnd := positioned.2
    let c := c.pace inp.timeNow
    let c := { c with tempoTime := some c.streamTime }
    if !(inp.leafNodesReady || inp.shouldExitWhileWaiting) then
      some { finished := false, ctx := c, progress := progressToUpdate }
    else
      let rangeStart := E.timeToSample c.streamTime c.originalParams.sampleRateForAudio
      let rangeEnd := E.timeToSample blockEnd c.originalParams.sampleRateForAudio
      let destBlock : AudioBlock :=
        { channels := inp.rendered, numSamples := toSizeT (rangeEnd - rangeStart) }
      let c := { c with numProcessCalls := c.numProcessCalls + 1 }
      match c.writeOrWarmUp E destBlock inp.appendOk with
      | none => none
      | some (WriteResult.failed, c) =>
        some { finished := true, ctx := c, progress := progressToUpdate }
      | some (WriteResult.succeeded, c) =>
        some (c.finishBlock blockEnd progressToUpdate inp.magnitudeAtEnd)

/-- Modelled from the spec: the loop of the render task that owns the context (its code is not
in the embedded sources) calls `renderNextBlock` until it returns true.  `renderBlocks` runs that
loop on the inputs of the successive calls, from the outcome `res` of the calls made so far:
no further call is made once a call has returned true, and the result is `none` when a call
dereferences a missing writer. -/
def renderBlocks (E : Externals) : StepResult → List BlockInput → Option StepResult
  | res, [] => some res
  | res, inp :: rest =>
    if res.finished then some res
    else
      match res.ctx.renderNextBlock E res.progress inp with
      | none => none
      | some next => renderBlocks E next rest

/-- The outcome before the first call: nothing finished, progress at 0. -/
def NodeRenderContext.start (c : NodeRenderContext) : StepResult :=
  { finished := false, ctx := c, progress := 0 }

/-! ## Derived quantities used in the statements -/

/-- The end of the block of a call, as lines 195-208 compute it. -/
def NodeRenderContext.blockEnd (c : NodeRenderContext) : ℚ :=
  if c.precount = 0 then c.r.time.getStart + c.blockLength
  else if c.precount > 0 then min c.r.time.getStart (c.streamTime + c.blockLength)
  else c.streamTime + c.blockLength

/-- The stream time at which the block of a call starts. -/
def NodeRenderContext.blockStart (c : NodeRenderContext) : ℚ :=
  if c.precount = 0 then c.r.time.getStart else c.streamTime

/-- The playhead as lines 200-210 leave it. -/
def NodeRenderContext.positionedPlayHead (E : Externals) (c : NodeRenderContext) : PlayHead :=
  let sampleRate := c.r.sampleRateForAudio
  let ph :=
    if c.precount > c.numPreRenderBlocks.tdiv 2 then
      c.playHead.setPosition (E.timeToSample c.streamTime sampleRate)
    else if c.precount = c.numPreRenderBlocks.tdiv 2 then
      c.playHead.playSyncedToRange (E.timeToSample c.streamTime sampleRate, int64Max)
    else c.playHead
  if c.precount = 0 then
    ph.playSyncedToRange
      (E.timeToSample c.r.time.getStart sampleRate, E.timeToSample E.maximumLength sampleRate)
  else ph

/-- Samples taken from the budget by a steady-state block (line 258). -/
def NodeRenderContext.samplesTaken (c : NodeRenderContext) : Int :=
  min c.samplesToWrite c.r.blockSizeForAudio

/-- Samples dropped for latency compensation by a steady-state block (line 266). -/
def NodeRenderContext.samplesDropped (c : NodeRenderContext) : Int :=
  if c.numLatencySamplesToDrop > 0 then min c.numLatencySamplesToDrop c.samplesTaken else 0

/-- The context as lines 178-231 of `renderNextBlock` leave it when no cancellation is pending:
just before the readiness of the leaf nodes is tested. -/
def NodeRenderContext.beforeProcess (E : Externals) (c : NodeRenderContext) (inp : BlockInput) :
    NodeRenderContext :=
  let c := c.tickSleepCounter
  let c := (c.positionPlayHead E).1
  let c := c.pace inp.timeNow
  { c with tempoTime := some c.streamTime }

/-- The destination block handed to `nodePlayer->process` (lines 249-252). -/
def NodeRenderContext.destBlock (E : Externals) (c : NodeRenderContext) (inp : BlockInput) :
    AudioBlock :=
  { channels := inp.rendered,
    numSamples := toSizeT (E.timeToSample c.blockEnd c.originalParams.sampleRateForAudio
      - E.timeToSample c.blockStart c.originalParams.sampleRateForAudio) }

/-- The members that only the constructor assigns have the same value in `c'` as in `c`. -/
structure SameSetup (c c' : NodeRenderContext) : Prop where
  r_eq : c'.r = c.r
  originalParams_eq : c'.originalParams = c.originalParams
  ownerParams_eq : c'.ownerParams = c.ownerParams
  needs_eq : c'.needsToNormaliseAndTrim = c.needsToNormaliseAndTrim
  numOutputChans_eq : c'.numOutputChans = c.numOutputChans
  status_eq : c'.status = c.status
  threshold_eq : c'.thresholdForStopping = c.thresholdForStopping
  blockLength_eq : c'.blockLength = c.blockLength
  numPreRenderBlocks_eq : c'.numPreRenderBlocks = c.numPreRenderBlocks
  realTimePerBlock_eq : c'.realTimePerBlock = c.realTimePerBlock
  intermediateFile_eq : c'.intermediateFile = c.intermediateFile
  hasSourceToUpdate_eq : c'.hasSourceToUpdate = c.hasSourceToUpdate
  postPassCalls_eq : c'.postPassCalls = c.postPassCalls

/-- The bookkeeping of a context `c` after `k` steady-state blocks of a render that started
from `c0`: the budget and the latency still to drop have each gone down by the samples of `k`
blocks (as far as they reach), saving has started, nothing was trimmed, and an open writer holds
the samples taken minus the samples dropped. -/
structure Written (c0 : NodeRenderContext) (k : Int) (c : NodeRenderContext) : Prop where
  started : c.hasStartedSavingToFile = true
  trimmed : c.samplesTrimmed = 0
  budget_eq : c.samplesToWrite
    = c0.samplesToWrite - min c0.samplesToWrite (k * c0.r.blockSizeForAudio)
  drop_eq : c.numLatencySamplesToDrop
    = c0.numLatencySamplesToDrop - min c0.numLatencySamplesToDrop (k * c0.r.blockSizeForAudio)
  writer_ok : ∃ w w0, c.writer = some w ∧ c0.writer = some w0 ∧ w.isOpen = w0.isOpen ∧
    (w0.isOpen = true → w.samplesAppended
      = w0.samplesAppended + (min c0.samplesToWrite (k * c0.r.blockSizeForAudio)
          - min c0.numLatencySamplesToDrop (k * c0.r.blockSizeForAudio)))

/-- The invariant of the block loop at the entry of a call, for a render that started from the
context `c0`: the setup is that of `c0`, the stream time is the render start minus `precount`
block lengths, and the bookkeeping is that of `max 0 (-precount)` steady-state blocks. -/
structure RenderInv (c0 c : NodeRenderContext) : Prop where
  setup : SameSetup c0 c
  precount_le : c.precount ≤ c0.precount
  time_eq : c.streamTime = c0.r.time.getStart - (c.precount : ℚ) * c0.blockLength
  written : Written c0 (max 0 (-c.precount)) c

/-- What the loop invariant needs from the context `c0` a render starts from: a positive block
size that fits an `int`, a positive block length, a render range that does not end before it
starts, a non-negative end allowance, a latency between 0 and the budget, a non-negative
warm-up count, the stream time of the first warm-up block, a block length of `blockSize /
sampleRate`, a budget that is the rounded length of the render plus end allowance in samples,
and a latency that the extended render range covers. -/
structure ValidStart (c0 : NodeRenderContext) : Prop where
  blockSize_pos : 0 < c0.r.blockSizeForAudio
  blockSize_lt : c0.r.blockSizeForAudio < 2 ^ 31
  blockLength_pos : 0 < c0.blockLength
  range_ok : c0.r.time.getStart ≤ c0.r.time.getEnd
  allowance_nonneg : 0 ≤ c0.r.endAllowance
  latency_nonneg : 0 ≤ c0.numLatencySamplesToDrop
  latency_le : c0.numLatencySamplesToDrop ≤ c0.samplesToWrite
  precount_nonneg : 0 ≤ c0.precount
  time_eq : c0.streamTime = c0.r.time.getStart - (c0.precount : ℚ) * c0.blockLength
  started : c0.hasStartedSavingToFile = true
  trimmed : c0.samplesTrimmed = 0
  has_writer : ∃ w0, c0.writer = some w0
  rate_pos : 0 < c0.r.sampleRateForAudio
  blockLength_eq : c0.blockLength = (c0.r.blockSizeForAudio : ℚ) / c0.r.sampleRateForAudio
  budget_near : |(c0.samplesToWrite : ℚ)
    - (c0.r.time.getLength + c0.r.endAllowance) * c0.r.sampleRateForAudio| ≤ 1 / 2
  latency_fits : (c0.numLatencySamplesToDrop : ℚ)
    ≤ c0.r.time.getLength * c0.r.sampleRateForAudio

/-- The members a call leaves alone until the write path: `c'` has them as `c` has. -/
structure SameBooks (c c' : NodeRenderContext) : Prop where
  budget_eq : c'.samplesToWrite = c.samplesToWrite
  drop_eq : c'.numLatencySamplesToDrop = c.numLatencySamplesToDrop
  started_eq : c'.hasStartedSavingToFile = c.hasStartedSavingToFile
  trimmed_eq : c'.samplesTrimmed = c.samplesTrimmed
  writer_eq : c'.writer = c.writer
  peak_eq : c'.peak = c.peak
  rmsTotal_eq : c'.rmsTotal = c.rmsTotal
  rmsNumSamps_eq : c'.rmsNumSamps = c.rmsNumSamps
  numNonZeroSamps_eq : c'.numNonZeroSamps = c.numNonZeroSamps
  analysed_eq : c'.analysedBlocks = c.analysedBlocks
  deleted_eq : c'.destFileDeleted = c.destFileDeleted

/-- The termination test of lines 288-298, on the stream time at which the block starts. -/
def NodeRenderContext.terminates (c : NodeRenderContext) (magnitude : ℚ) : Prop :=
  c.blockStart > c.r.time.getEnd + c.r.endAllowance ∨
    (c.blockStart > c.r.time.getEnd ∧ magnitude ≤ c.thresholdForStopping)

/-- The progress value of lines 300-306, on the stream time at which the block starts. -/
def NodeRenderContext.progressValue (c : NodeRenderContext) : ℚ :=
  let prog := (c.blockStart - c.r.time.getStart) / max 1 c.r.time.getLength
  jlimit 0 1 (if c.needsToNormaliseAndTrim then prog * (9 / 10) else prog)

/-- The context on which `nodePlayer->process` has just run (line 252). -/
def NodeRenderContext.processed (E : Externals) (c : NodeRenderContext) (inp : BlockInput) :
    NodeRenderContext :=
  { c.beforeProcess E inp with numProcessCalls := c.numProcessCalls + 1 }

/-- Whether the parameters ask for the normalise/trim post-pass (line 73). -/
def Parameters.wantsPostPass (p : Parameters) : Bool :=
  p.shouldNormalise || p.trimSilenceAtEnds || p.shouldNormaliseByRMS

/-- The file the render writes to: the intermediate file when a post-pass was requested
(lines 79-80), the destination of the parameters otherwise. -/
def workingDestFile (p : Parameters) (sys : SetupInput) : File :=
  if p.wantsPostPass then sys.intermediateFile else p.destFile

/-- The output channel count chosen by lines 87-100 for a root that declares audio. -/
def outputChannels (p : Parameters) (props : NodeProperties) : Int :=
  if p.mustRenderInMono || (p.canRenderInMono && decide (props.numberOfChannels < 2)) then 1 else 2

/-- The context as the constructor leaves it at line 112 when the root declares audio:
the channel count is chosen and the writer created. -/
def NodeRenderContext.withWriter (p ownerParams : Parameters) (props : NodeProperties)
    (playHead : PlayHead) (sys : SetupInput) : NodeRenderContext :=
  { (NodeRenderContext.initial p ownerParams playHead
        sys.hasSourceToUpdate).setupLatencyAndPostPass props sys with
    numOutputChans := outputChannels p props,
    writer := some { isOpen := sys.writerOpens, numChannels := outputChannels p props,
                     appended := [] } }

/-- What the statements about whole renders assume of the parameters: a positive sample rate,
a positive block size that fits an `int`, a render range of positive length (asserted at line
58), a non-negative end allowance, and a root that declares audio with a non-negative
latency. -/
structure ValidParams (E : Externals) (p : Parameters) (props : NodeProperties) : Prop where
  sampleRate_pos : 0 < p.sampleRateForAudio
  blockSize_pos : 0 < p.blockSizeForAudio
  blockSize_lt : p.blockSizeForAudio < 2 ^ 31
  length_pos : p.time.start < p.time.endTime
  allowance_nonneg : 0 ≤ p.endAllowance
  hasAudio : props.hasAudio = true
  latency_nonneg : 0 ≤ props.latencyNumSamples

/-- The length of the render in samples, latency and end allowance included: the argument of
`roundToInt` at line 148. -/
def budgetInSamples (p : Parameters) (props : NodeProperties) : ℚ :=
  (p.time.endTime + sampleToTime props.latencyNumSamples p.sampleRateForAudio - p.time.start
    + p.endAllowance) * p.sampleRateForAudio

/-- The sample budget of the render fits an `int`: the length of the render in samples, latency
and end allowance included, is at most 2^31 - 1, and on arguments from 0 to 2^31 - 1
`roundToInt` returns an integer nearest to its argument (beyond that range the `int` that
`juce::roundToInt` returns has wrapped). -/
structure BudgetFits (E : Externals) (p : Parameters) (props : NodeProperties) : Prop where
  budget_le : budgetInSamples p props ≤ 2 ^ 31 - 1
  round_near : ∀ x : ℚ, 0 ≤ x → x ≤ 2 ^ 31 - 1 → |((E.roundToInt x : Int) : ℚ) - x| ≤ 1 / 2

/-- External routines for the concrete examples: `roundToInt` and `timeToSample` round to the
nearest integer (half-way cases up), the RMS level is replaced by the mean absolute value
(the two agree on the constant channels of the examples), the ditherers leave the samples
unchanged, and the maximum edit length is 48 hours. -/
def referenceExternals : Externals :=
  { roundToInt := fun x => ⌊x + 1 / 2⌋,
    timeToSample := fun t sampleRate => ⌊t * sampleRate + 1 / 2⌋,
    getRMSLevel := fun c => (c.map (fun x => |x|)).sum / max 1 (c.length : ℚ),
    dithererProcess := fun _ c _ => c,
    maximumLength := 172800 }

/-- Parameters of a 2 s render at 44.1 kHz in blocks of 512 samples, to "out.wav", without end
allowance, dithering, normalising or trimming. -/
def exampleParams : Parameters :=
  { destFile := "out.wav", time := { start := 0, endTime := 2 }, endAllowance := 0,
    sampleRateForAudio := 44100, blockSizeForAudio := 512, bitDepth := 16,
    ditheringEnabled := false, shouldNormalise := false, trimSilenceAtEnds := false,
    shouldNormaliseByRMS := false, mustRenderInMono := false, canRenderInMono := false,
    realTimeRender := false, resultMagnitude := 0, resultRMS := 0, resultAudioDuration := 0 }

/-- A stereo audio root node that declares a latency of `latency` samples. -/
def exampleProps (latency : Int) : NodeProperties :=
  { hasAudio := true, hasMidi := false, numberOfChannels := 2, latencyNumSamples := latency }

/-- A playhead as constructed: stopped at position 0. -/
def stoppedPlayHead : PlayHead := { isPlaying := false, position := 0, syncedRange := none }

/-- A setup in which the writer opens and no thumbnail source is attached. -/
def exampleSetup : SetupInput :=
  { intermediateFile := "out.tmp.wav", writerOpens := true, timeNow := 0,
    hasSourceToUpdate := false }

/-- A call in which the leaves are ready, nothing is cancelled, the graph renders two channels
of `n` samples holding the constant `v`, and the writer accepts the block. -/
def constantInput (n : Nat) (v : ℚ) : BlockInput :=
  { shouldExit := false, shouldExitWhileWaiting := false, leafNodesReady := true, timeNow := 0,
    rendered := [List.replicate n v, List.replicate n v], appendOk := true,
    magnitudeAtEnd := |v| }

/-- A call of the 44.1 kHz example that renders the constant 1/2. -/
def readyInput : BlockInput := constantInput 512 (1 / 2)

/-- The outcome of a render that has returned true on the termination test: the finishing
call was the steady-state call number `k` (counted from 0), so `k + 1` blocks went through the
write path, and the block of that call started after the end of the render range. -/
structure FinishedAt (c0 : NodeRenderContext) (k : Int) (res : StepResult) : Prop where
  k_pos : 0 < k
  setup : SameSetup c0 res.ctx
  written : Written c0 (k + 1) res.ctx
  precount_eq : res.ctx.precount = -k
  past_end : c0.r.time.getEnd < c0.r.time.getStart + (k : ℚ) * c0.blockLength
  reason : c0.r.time.getEnd + c0.r.endAllowance < c0.r.time.getStart + (k : ℚ) * c0.blockLength
    ∨ ∃ mag : ℚ, mag ≤ c0.thresholdForStopping

/-- Inputs of calls in which no cancellation is pending and the writer accepts what is
appended. -/
def BlockInput.accepted (inp : BlockInput) : Prop :=
  inp.shouldExit = false ∧ inp.appendOk = true

/-- Inputs of calls in which, moreover, every leaf node is ready. -/
def BlockInput.ready (inp : BlockInput) : Prop :=
  inp.accepted ∧ inp.leafNodesReady = true

/-- A number of calls of `renderNextBlock` within which a render with ready leaves finishes:
the warm-up blocks, the blocks that fit into the render length (extended by the latency
time) plus the end allowance, and two more. -/
def callBound (p : Parameters) (props : NodeProperties) : Int :=
  truncToInt ((p.sampleRateForAudio / 2) / (p.blockSizeForAudio : ℚ) + 1)
    + ⌊(p.time.endTime + sampleToTime props.latencyNumSamples p.sampleRateForAudio
          - p.time.start + p.endAllowance)
        / ((p.blockSizeForAudio : ℚ) / p.sampleRateForAudio)⌋ + 2

/-- A call at whose entry the should-exit predicate is true. -/
def cancelInput : BlockInput := { readyInput with shouldExit := true }

/-- Parameters of a short render: 7/8 s at 1 kHz in blocks of 750 samples, so that there is one
warm-up block and the block length is 3/4 s; `trim` requests the trimming of silence. -/
def smallParams (trim : Bool) : Parameters :=
  { exampleParams with
    time := { start := 0, endTime := 7 / 8 }, sampleRateForAudio := 1000,
    blockSizeForAudio := 750, trimSilenceAtEnds := trim }

/-- The context constructed for the short render, through a root without latency. -/
def smallContext (trim : Bool) : NodeRenderContext :=
  NodeRenderContext.construct referenceExternals (smallParams trim) (smallParams trim)
    (exampleProps 0) stoppedPlayHead exampleSetup

/-- The outcome of the first call (the warm-up block) of the short render. -/
def smallWarmedUp (trim : Bool) : StepResult :=
  ((smallContext trim).renderNextBlock referenceExternals 0 (constantInput 750 (1 / 2))).getD
    (smallContext trim).start

/-- The outcome of the second call (the first steady-state block) of the short render, when
the graph renders the constant `v`. -/
def smallSteady (trim : Bool) (v : ℚ) : StepResult :=
  ((smallWarmedUp trim).ctx.renderNextBlock referenceExternals (smallWarmedUp trim).progress
    (constantInput 750 v)).getD (smallWarmedUp trim)

/-- A call in which the writer rejects the block that is appended. -/
def rejectInput : BlockInput := { constantInput 750 (1 / 2) with appendOk := false }

/-- Parameters without a destination file. -/
def noDestParams : Parameters := { exampleParams with destFile := "" }

/-- A setup in which the writer cannot be opened. -/
def closedSetup : SetupInput := { exampleSetup with writerOpens := false }

/-- The progress value as the specification words it: elapsed over total, limited to [0, 1],
and that fraction multiplied by 0.9 when a normalise/trim post-pass will follow. -/
def progressBySpec (c : NodeRenderContext) : ℚ :=
  let fraction := jlimit 0 1 ((c.blockStart - c.r.time.getStart) / c.r.time.getLength)
  if c.needsToNormaliseAndTrim then fraction * (9 / 10) else fraction

/-- The RMS figure the destructor reports (line 158). -/
def NodeRenderContext.reportedRMS (c : NodeRenderContext) : ℚ :=
  if c.rmsNumSamps > 0 then c.rmsTotal / (c.rmsNumSamps : ℚ) else 0

/-- The RMS accumulators agree with the blocks that reached the write path: `rmsNumSamps`
counts one per output channel and block, and `rmsTotal` is the sum of the RMS levels of the
channels of those blocks. -/
structure RmsBooked (E : Externals) (c : NodeRenderContext) : Prop where
  count_eq : c.rmsNumSamps = (c.numOutputChans.toNat : Int) * (c.analysedBlocks.length : Int)
  total_eq : c.rmsTotal
    = (c.analysedBlocks.map (fun b => rmsLevelSum E b (b.numSamples : Int))).sum

/-! ## The MIDI render -/

/-- A MIDI message of a `MidiMessageArray` or `juce::MidiMessageSequence`: its time stamp and
its bytes. -/
structure MidiMessage where
  timeStamp : ℚ
  bytes : List Nat
  deriving DecidableEq

/-- Member `juce::MidiMessageSequence::addEvent`: the event goes behind the last event whose
time stamp is not later than its own. -/
def MidiMessageSequence.addEvent : List MidiMessage → MidiMessage → List MidiMessage
  | [], m => [m]
  | e :: es, m =>
    if (e :: es).all (fun x => decide (m.timeStamp < x.timeStamp)) then m :: e :: es
    else e :: MidiMessageSequence.addEvent es m

/-- The tempo sequence of the edit, as `renderMidi` uses it: the constant
`Edit::ticksPerQuarterNote` and the position in quarter notes (`getPPQTime`) of a
`TempoSequencePosition` set to a time. -/
structure TempoSequence where
  ticksPerQuarterNote : ℚ
  getPPQTime : ℚ → ℚ

/-- What one call of `renderMidi` reads from its collaborators: the answer of the `n`-th
evaluation of `leafNodesReady ()` (line 404), the answer of `owner.shouldExit ()` after the
`n`-th sleep of the wait (line 408) and at the top of pass `k` of the block loop (line 421), the
messages that `nodePlayer->process` leaves in `blockMidiBuffer` in pass `k` (line 441), and the
answer of `addMidiMetaDataAndWriteToFile` (line 462). -/
structure MidiRenderInput where
  leafNodesReady : Nat → Bool
  shouldExitWhileWaiting : Nat → Bool
  shouldExitAtBlock : Nat → Bool
  blockMidi : Nat → List MidiMessage
  writeToFile : File → List MidiMessage → Bool

/-- The locals of the block loop of `renderMidi` (lines 419-455) together with the number of
passes that reached `nodePlayer->process`. -/
structure MidiLoopState where
  streamTime : ℚ
  outputSequence : List MidiMessage
  progress : ℚ
  numProcessCalls : Nat

/-- What a call of `renderMidi` returns and leaves behind: the returned string, the playhead, the
range last given to `playHeadState->update`, the value of `progress`, the collected sequence,
the number of calls of `nodePlayer->process`, the number of sleeps of the wait, and the sequence
handed to `addMidiMetaDataAndWriteToFile` if that was called. -/
structure MidiRenderResult where
  message : String
  playHead : PlayHead
  playHeadStateRange : Option (Int × Int)
  progress : ℚ
  outputSequence : List MidiMessage
  numProcessCalls : Nat
  numSleeps : Nat
  written : Option (List MidiMessage)

/-- The wait for the leaf nodes (lines 404-410), from evaluation `n` on: `(true, sleeps)` when the
cancellation is seen, `(false, sleeps)` when the leaf nodes are ready; `none` when the
evaluations allowed by the first argument do not suffice. -/
def waitForLeafNodes (inp : MidiRenderInput) : Nat → Nat → Option (Bool × Nat)
  | 0, _ => none
  | fuel + 1, n =>
    if inp.leafNodesReady n then some (false, n)
    else if inp.shouldExitWhileWaiting n then some (true, n + 1)
    else waitForLeafNodes inp fuel (n + 1)

/-- The value stored in `progress` at line 454.  The quotient of the C++ code is a floating-point
one: for a range of length zero it is infinite and `jlimit` gives a bound. -/
def midiProgress (elapsed length : ℚ) : ℚ :=
  if length = 0 then (if 0 < elapsed then 1 else 0) else jlimit 0 1 (elapsed / length)

/-- The messages of one block stamped as lines 444-450 stamp them, added to the sequence. -/
def addBlockEvents (T : TempoSequence) (r : Parameters) (streamTime : ℚ)
    (outputSequence blockMidiBuffer : List MidiMessage) : List MidiMessage :=
  blockMidiBuffer.foldl
    (fun seq m => MidiMessageSequence.addEvent seq
      { m with timeStamp :=
          T.ticksPerQuarterNote * T.getPPQTime (m.timeStamp + streamTime - r.time.getStart) })
    outputSequence

/-- The block loop of `renderMidi` (lines 419-455): `(true, s)` when it is left by the
cancellation at line 422, `(false, s)` when it is left by the `break` of line 425; `none` when
the passes allowed by the first argument do not suffice. -/
def renderMidiBlocks (T : TempoSequence) (r : Parameters) (inp : MidiRenderInput) :
    Nat → MidiLoopState → Option (Bool × MidiLoopState)
  | 0, _ => none
  | fuel + 1, s =>
    if inp.shouldExitAtBlock s.numProcessCalls then some (true, s)
    else if s.streamTime > r.time.getEnd then some (false, s)
    else
      let blockLength := sampleToTime r.blockSizeForAudio r.sampleRateForAudio
      let blockEnd := s.streamTime + blockLength
      let seq := addBlockEvents T r s.streamTime s.outputSequence (inp.blockMidi s.numProcessCalls)
      renderMidiBlocks T r inp fuel
        { streamTime := blockEnd,
          outputSequence := seq,
          progress := midiProgress (blockEnd - r.time.getStart) r.time.getLength,
          numProcessCalls := s.numProcessCalls + 1 }

/-- Function `NodeRenderContext::renderMidi` (lines 368-466).  The first argument bounds the
number of rounds of each of its two loops. -/
def renderMidi (E : Externals) (T : TempoSequence) (r : Parameters) (playHead : PlayHead)
    (progress : ℚ) (inp : MidiRenderInput) (fuel : Nat) : Option MidiRenderResult :=
  let sampleRate := r.sampleRateForAudio
  let blockLength := sampleToTime r.blockSizeForAudio sampleRate
  let streamTime := r.time.getStart
  let playHead := playHead.stop
  let playHead := playHead.setPosition (E.timeToSample streamTime sampleRate)
  let playHead := playHead.playSyncedToRange
    (E.timeToSample streamTime sampleRate, E.timeToSample E.maximumLength sampleRate)
  let stateRange : Option (Int × Int) :=
    some (E.timeToSample streamTime sampleRate, E.timeToSample (streamTime + blockLength) sampleRate)
  match waitForLeafNodes inp fuel 0 with
  | none => none
  | some (true, sleeps) =>
    some { message := "Render cancelled", playHead := playHead, playHeadStateRange := stateRange,
           progress := progress, outputSequence := [], numProcessCalls := 0, numSleeps := sleeps,
           written := none }
  | some (false, sleeps) =>
    match renderMidiBlocks T r inp fuel
        { streamTime := streamTime, outputSequence := [], progress := progress,
          numProcessCalls := 0 } with
    | none => none
    | some (true, s) =>
      some { message := "Render cancelled", playHead := playHead, playHeadStateRange := stateRange,
             progress := s.progress, outputSequence := s.outputSequence,
             numProcessCalls := s.numProcessCalls, numSleeps := sleeps, written := none }
    | some (false, s) =>
      let playHead := playHead.stop
      if s.outputSequence.length = 0 then
        some { message := "No MIDI found to render", playHead := playHead,
               playHeadStateRange := stateRange, progress := s.progress,
               outputSequence := s.outputSequence, numProcessCalls := s.numProcessCalls,
               numSleeps := sleeps, written := none }
      else if !inp.writeToFile r.destFile s.outputSequence then
        some { message := "Unable to write to destination file", playHead := playHead,
               playHeadStateRange := stateRange, progress := s.progress,
               outputSequence := s.outputSequence, numProcessCalls := s.numProcessCalls,
               numSleeps := sleeps, written := some s.outputSequence }
      else
        some { message := "", playHead := playHead, playHeadStateRange := stateRange,
               progress := s.progress, outputSequence := s.outputSequence,
               numProcessCalls := s.numProcessCalls, numSleeps := sleeps,
               written := some s.outputSequence }

/-- The number of passes of the block loop of `renderMidi` that reach `nodePlayer->process`
when no cancellation is seen and the block length is positive: the stream times
`start + k * blockLength` that are not behind the end of the range. -/
def midiBlockCount (r : Parameters) : Nat :=
  if r.time.getEnd < r.time.getStart then 0
  else ⌊(r.time.getEnd - r.time.getStart)
      / sampleToTime r.blockSizeForAudio r.sampleRateForAudio⌋.toNat + 1

/-- The cancellation is seen during the wait for the leaf nodes: some evaluation finds the
predicate true while the leaf nodes have not been ready up to then. -/
def MidiRenderInput.cancelledWhileWaiting (inp : MidiRenderInput) : Prop :=
  ∃ n, (∀ j, j ≤ n → inp.leafNodesReady j = false) ∧ inp.shouldExitWhileWaiting n = true

/-- The cancellation is seen at the top of a pass of the block loop. -/
def MidiRenderInput.cancelledAtBlock (inp : MidiRenderInput) (r : Parameters) : Prop :=
  ∃ k, k ≤ midiBlockCount r ∧ inp.shouldExitAtBlock k = true

/-- The cancellation is seen by the call. -/
def MidiRenderInput.cancelObserved (inp : MidiRenderInput) (r : Parameters) : Prop :=
  inp.cancelledWhileWaiting ∨ inp.cancelledAtBlock r

/-- The messages that the graph produces over the blocks of the render range. -/
def MidiRenderInput.harvested (inp : MidiRenderInput) (r : Parameters) : List MidiMessage :=
  (List.range (midiBlockCount r)).flatMap inp.blockMidi

/-- One pass of the block loop of `renderMidi` that reaches `nodePlayer->process`
(lines 427-454). -/
def midiBlockStep (T : TempoSequence) (r : Parameters) (inp : MidiRenderInput)
    (s : MidiLoopState) : MidiLoopState :=
  let blockEnd := s.streamTime + sampleToTime r.blockSizeForAudio r.sampleRateForAudio
  { streamTime := blockEnd,
    outputSequence :=
      addBlockEvents T r s.streamTime s.outputSequence (inp.blockMidi s.numProcessCalls),
    progress := midiProgress (blockEnd - r.time.getStart) r.time.getLength,
    numProcessCalls := s.numProcessCalls + 1 }

/-- The locals of the block loop of `renderMidi` after `m` passes that reached
`nodePlayer->process`. -/
def midiStateAfter (T : TempoSequence) (r : Parameters) (inp : MidiRenderInput) (progress : ℚ) :
    Nat → MidiLoopState
  | 0 => { streamTime := r.time.getStart, outputSequence := [], progress := progress,
           numProcessCalls := 0 }
  | m + 1 => midiBlockStep T r inp (midiStateAfter T r inp progress m)

/-- A tempo sequence of 120 quarter notes per minute with 960 ticks per quarter note. -/
def exampleTempo : TempoSequence := { ticksPerQuarterNote := 960, getPPQTime := fun t => 2 * t }

/-- A run in which the leaf nodes are ready at the second evaluation, no cancellation is
requested, the first block yields one note-on message, and the file is written. -/
def exampleMidiInput : MidiRenderInput :=
  { leafNodesReady := fun n => decide (1 ≤ n),
    shouldExitWhileWaiting := fun _ => false,
    shouldExitAtBlock := fun _ => false,
    blockMidi := fun k => if k = 0 then [{ timeStamp := 1 / 4, bytes := [144, 60, 100] }] else [],
    writeToFile := fun _ _ => true }

/-! ## The test nodes of the graph -/

/-- Read of sample `index` of channel `channel` of a block. -/
def AudioBlock.getSample (b : AudioBlock) (channel index : Nat) : ℚ :=
  (b.getChannelPointer channel).getD index 0

/-- Function `juce::FloatVectorOperations::add (dest, src, num)`: the first `num` values of `src`
are added to those of `dest`. -/
def FloatVectorOperations.add : List ℚ → List ℚ → Nat → List ℚ
  | d :: dest, s :: src, num + 1 => (d + s) :: FloatVectorOperations.add dest src num
  | dest, _, _ => dest

/-- Function `juce::FloatVectorOperations::copy (dest, src, num)`: the first `num` values of
`src` replace those of `dest`. -/
def FloatVectorOperations.copy : List ℚ → List ℚ → Nat → List ℚ
  | _ :: dest, s :: src, num + 1 => s :: FloatVectorOperations.copy dest src num
  | dest, _, _ => dest

/-- The block that `AudioBlock::getSubsetChannelBlock` returns: a view of the channels
`channelStart .. channelStart + numChannels - 1` of `block`, sharing its samples. -/
structure ChannelSubset where
  block : AudioBlock
  channelStart : Nat
  numChannels : Nat

/-- Member `AudioBlock::getSubsetChannelBlock (channelStart, numChannelsToUse)`; `none` for
channels outside the block, which the member asserts not to happen. -/
def AudioBlock.getSubsetChannelBlock (b : AudioBlock) (channelStart numChannelsToUse : Nat) :
    Option ChannelSubset :=
  if channelStart < b.channels.length ∧ channelStart + numChannelsToUse ≤ b.channels.length then
    some { block := b, channelStart := channelStart, numChannels := numChannelsToUse }
  else none

/-- Member `AudioBlock::add (src)` called on a view: channel by channel, the samples of `src`
are added over the smaller of the two sample counts.  The result is the block whose samples the
view shares; `none` for views of different channel counts, which the member asserts not to
happen. -/
def ChannelSubset.add (dest src : ChannelSubset) : Option AudioBlock :=
  if dest.numChannels = src.numChannels then
    let n := min dest.block.numSamples src.block.numSamples
    some { dest.block with
      channels := dest.block.channels.mapIdx (fun i c =>
        if dest.channelStart ≤ i ∧ i < dest.channelStart + dest.numChannels then
          FloatVectorOperations.add c
            (src.block.getChannelPointer (src.channelStart + (i - dest.channelStart))) n
        else c) }
  else none

/-- Member `AudioBlock::copyFrom (src)`: the channels that both blocks have are copied over the
smaller of the two sample counts. -/
def AudioBlock.copyFrom (dest src : AudioBlock) : AudioBlock :=
  let maxChannels := min src.channels.length dest.channels.length
  let n := min src.numSamples dest.numSamples
  { dest with
    channels := dest.channels.mapIdx (fun ch c =>
      if ch < maxChannels then FloatVectorOperations.copy c (src.getChannelPointer ch) n
      else c) }

/-- The buffers of a `ProcessContext`, and the processed output of a node
(`Node::AudioAndMidiBuffer`). -/
structure AudioAndMidiBuffer where
  audio : AudioBlock
  midi : List MidiMessage

/-- Modelled from the spec: `MidiMessageArray::mergeFrom` is not in the embedded sources; the
messages of the source are merged into the array. -/
def MidiMessageArray.mergeFrom (dest source : List MidiMessage) : List MidiMessage :=
  dest ++ source

/-- Member `BasicSummingNode::getNodeProperties`; `nodes` holds what `getNodeProperties` of each
node of the member `nodes` returns, in their order. -/
def BasicSummingNode.getNodeProperties (nodes : List NodeProperties) : NodeProperties :=
  nodes.foldl
    (fun props nodeProps =>
      { props with
        hasAudio := props.hasAudio || nodeProps.hasAudio,
        hasMidi := props.hasMidi || nodeProps.hasMidi,
        numberOfChannels := max props.numberOfChannels nodeProps.numberOfChannels })
    { hasAudio := false, hasMidi := false, numberOfChannels := 0, latencyNumSamples := 0 }

/-- One round of the loop of `BasicSummingNode::process` (lines 217-225). -/
def BasicSummingNode.addInput (numChannels : Nat) (buffers inputFromNode : AudioAndMidiBuffer) :
    Option AudioAndMidiBuffer :=
  let numChannelsToAdd := min inputFromNode.audio.channels.length numChannels
  let audio : Option AudioBlock :=
    if numChannelsToAdd > 0 then
      match buffers.audio.getSubsetChannelBlock 0 numChannelsToAdd,
        inputFromNode.audio.getSubsetChannelBlock 0 numChannelsToAdd with
      | some dest, some src => dest.add src
      | _, _ => none
    else some buffers.audio
  audio.map (fun a =>
    { audio := a, midi := MidiMessageArray.mergeFrom buffers.midi inputFromNode.midi })

/-- Member `BasicSummingNode::process`; `nodes` holds what `getProcessedOutput` of each node of
the member `nodes` returns, in their order, and `pc` the buffers of the process context.  The
result is `none` when a channel outside a block is asked for. -/
def BasicSummingNode.process (nodes : List AudioAndMidiBuffer) (pc : AudioAndMidiBuffer) :
    Option AudioAndMidiBuffer :=
  let numChannels := pc.audio.channels.length
  nodes.foldlM (BasicSummingNode.addInput numChannels) pc

/-- One round of the loop of `ChannelMappingNode::process` (lines 478-480). -/
def ChannelMappingNode.addChannel (sourceAudio destAudio : AudioBlock) (channel : Int × Int) :
    Option AudioBlock :=
  match sourceAudio.getSubsetChannelBlock (toSizeT channel.1) 1,
    destAudio.getSubsetChannelBlock (toSizeT channel.2) 1 with
  | some sourceChanelBlock, some destChanelBlock => destChanelBlock.add sourceChanelBlock
  | _, _ => none

/-- Member `ChannelMappingNode::process`; `inputBuffers` is what `getProcessedOutput` of the
input returns.  The result is `none` when a channel outside a block is asked for. -/
def ChannelMappingNode.process (channelMap : List (Int × Int)) (passMIDI : Bool)
    (inputBuffers pc : AudioAndMidiBuffer) : Option AudioAndMidiBuffer :=
  let midi :=
    if passMIDI then MidiMessageArray.mergeFrom pc.midi inputBuffers.midi else pc.midi
  (channelMap.foldlM (ChannelMappingNode.addChannel inputBuffers.audio) pc.audio).map
    (fun a => { audio := a, midi := midi })

/-- Member `ChannelMappingNode::getNodeProperties`; `inputProps` is what `getNodeProperties` of
the input returns. -/
def ChannelMappingNode.getNodeProperties (channelMap : List (Int × Int))
    (inputProps : NodeProperties) : NodeProperties :=
  channelMap.foldl
    (fun props channel =>
      { props with numberOfChannels := max props.numberOfChannels (channel.2 + 1) })
    { hasAudio := true, hasMidi := false, numberOfChannels := 0,
      latencyNumSamples := inputProps.latencyNumSamples }

/-- Members `SendNode::process` and `ReturnNode::process`, which have the same body;
`inputOutput` is what `getProcessedOutput` of the input returns. -/
def ReturnNode.process (inputOutput pc : AudioAndMidiBuffer) : AudioAndMidiBuffer :=
  { audio := pc.audio.copyFrom inputOutput.audio,
    midi := MidiMessageArray.mergeFrom pc.midi inputOutput.midi }

/-- Every channel of the block holds at least the samples that the block reports. -/
def AudioBlock.Allocated (b : AudioBlock) : Prop := ∀ c ∈ b.channels, b.numSamples ≤ c.length

/-- A block of `numChannels` channels of `numSamples` samples, all of the value `v`. -/
def constantBlock (numChannels numSamples : Nat) (v : ℚ) : AudioBlock :=
  { channels := List.replicate numChannels (List.replicate numSamples v),
    numSamples := numSamples }

/-! ## The graph of nodes -/

/-- A node of the graph, by its class and the members of the class that shape the graph.  A
pointer to a node (`Node*`, `std::unique_ptr<Node>`) is the address of the node in the
`NodeGraph`.  `leafNode` stands for the classes without input (`MidiNode`, `SinNode`,
`SilentNode`).  `summingNode` is modelled from the spec: the class `SummingNode` is not in the
embedded sources; it combines the nodes it owns with the nodes it refers to. -/
inductive Node where
  | leafNode
  | basicSummingNode (nodes : List Nat)
  | functionNode (node : Nat)
  | sendNode (input : Nat) (busID : Int)
  | returnNode (input : Nat) (busID : Int) (hasInitialised : Bool)
  | channelMappingNode (input : Nat) (channelMap : List (Int × Int)) (passMIDI : Bool)
  | summingNode (ownedNodes : List Nat) (referencedNodes : List Nat)
  deriving DecidableEq, Repr

/-- Member `getDirectInputNodes` of each class. -/
def Node.getDirectInputNodes : Node → List Nat
  | Node.leafNode => []
  | Node.basicSummingNode nodes => nodes
  | Node.functionNode node => [node]
  | Node.sendNode input _ => [input]
  | Node.returnNode input _ _ => [input]
  | Node.channelMappingNode input _ _ => [input]
  | Node.summingNode ownedNodes referencedNodes => ownedNodes ++ referencedNodes

/-- The nodes that exist, each at its address (its position in the list). -/
abbrev NodeGraph := List Node

/-- The direct inputs of the node at address `a`; there is none where there is no node. -/
def NodeGraph.getDirectInputNodes (g : NodeGraph) (a : Nat) : List Nat :=
  match g[a]? with
  | some n => n.getDirectInputNodes
  | none => []

/-- Node `b` is a direct input of node `a`. -/
def NodeGraph.DirectInput (g : NodeGraph) (a b : Nat) : Prop := b ∈ g.getDirectInputNodes a

/-- Node `b` is in the input chain of node `a`, or is `a`. -/
def NodeGraph.Reaches (g : NodeGraph) (a b : Nat) : Prop :=
  Relation.ReflTransGen g.DirectInput a b

/-- No node is reachable from itself through `getDirectInputNodes`. -/
def NodeGraph.Acyclic (g : NodeGraph) : Prop := ∀ a, ¬ Relation.TransGen g.DirectInput a a

/-- Every pointer of a node is the address of a node. -/
def NodeGraph.Closed (g : NodeGraph) : Prop := ∀ a b, g.DirectInput a b → b < g.length

/-- The visits of a list of nodes one after the other. -/
def visitAll (visit : Nat → Option (List Nat)) : List Nat → Option (List Nat)
  | [] => some []
  | n :: ns =>
    match visit n, visitAll visit ns with
    | some o, some os => some (o ++ os)
    | _, _ => none

/-- Modelled from the spec: `visitInputs` is not in the embedded sources.  It searches the
whole graph under a node: the visitor is called on the inputs of the node, through their direct
inputs, and then on the node.  The result lists the nodes in the order of the calls of the
visitor; it is `none` when the depth allowed by the first argument does not suffice. -/
def visitInputs (g : NodeGraph) : Nat → Nat → Option (List Nat)
  | 0, _ => none
  | fuel + 1, a =>
    (visitAll (fun n => visitInputs g fuel n) (g.getDirectInputNodes a)).map (fun o => o ++ [a])

/-- The test of the visitor of `ReturnNode::prepareToPlay` (lines 387-388): the node is a
`SendNode` of the given bus. -/
def NodeGraph.isSendOfBus (g : NodeGraph) (busID : Int) (n : Nat) : Bool :=
  match g[n]? with
  | some (Node.sendNode _ b) => b == busID
  | _ => false

/-- Member `ReturnNode::prepareToPlay` of the node at address `this`, with `rootNode` the root
given in the initialisation info, in a build in which `jassert` does nothing.  The new
`SummingNode` gets the first free address.  Modelled from the spec: `Node::initialise`, called on
the new node, is not in the embedded sources and leaves the graph as it is.  The result is `none`
when `this` is no `ReturnNode` or the search does not end in the allowed depth. -/
def ReturnNode.prepareToPlay (g : NodeGraph) (rootNode this : Nat) (fuel : Nat) :
    Option NodeGraph :=
  match g[this]? with
  | some (Node.returnNode input busID hasInitialised) =>
    if hasInitialised then some g
    else
      match visitInputs g fuel rootNode with
      | none => none
      | some visited =>
        let sends := visited.filter (g.isSendOfBus busID)
        if sends.length > 0 then
          let node := g.length
          let g := g ++ [Node.summingNode [input] sends]
          some (g.set this (Node.returnNode node busID true))
        else
          some (g.set this (Node.returnNode input busID true))
  | _ => none

/-- Member `ReturnNode::process` of the node at address `this`; `processedOutput` gives what
`getProcessedOutput` of each node returns. -/
def ReturnNode.processAt (g : NodeGraph) (processedOutput : Nat → AudioAndMidiBuffer)
    (this : Nat) (pc : AudioAndMidiBuffer) : Option AudioAndMidiBuffer :=
  match g[this]? with
  | some (Node.returnNode input _ _) => some (ReturnNode.process (processedOutput input) pc)
  | _ => none

/-- A graph built from a leaf: a return of bus 1 on the leaf and a send of bus 1 on the return,
which is the root. -/
def feedbackGraph : NodeGraph :=
  [Node.leafNode, Node.returnNode 0 1 false, Node.sendNode 1 1]

/-- A graph of two branches under a summing root: a return of bus 1 on a leaf, and a send of
bus 1 and a send of bus 2 on a second leaf. -/
def busGraph : NodeGraph :=
  [Node.leafNode, Node.returnNode 0 1 false, Node.leafNode, Node.sendNode 2 1,
    Node.sendNode 3 2, Node.basicSummingNode [1, 4]]

/-- A graph of two branches under a summing root: a return of bus 1 on a leaf, and a send of
bus 2 on a second leaf. -/
def plainGraph : NodeGraph :=
  [Node.leafNode, Node.returnNode 0 1 false, Node.leafNode, Node.sendNode 2 2,
    Node.basicSummingNode [1, 3]]

/-- The graph `g'` is what a run of calls of `ReturnNode::prepareToPlay` on the returns of a
list, one after the other with the same root, makes of the graph `g`, and at each call the
return had not been initialised and no send of its bus that the root reaches had the return in
its input chain. -/
inductive PreparedSafely (rootNode : Nat) : NodeGraph → List Nat → NodeGraph → Prop where
  | done (g : NodeGraph) : PreparedSafely rootNode g [] g
  | step (g g1 g2 : NodeGraph) (this input : Nat) (busID : Int) (rest : List Nat)
      (hret : g[this]? = some (Node.returnNode input busID false))
      (hsafe : ∀ s, g.Reaches rootNode s → g.isSendOfBus busID s = true → ¬ g.Reaches s this)
      (hprep : ReturnNode.prepareToPlay g rootNode this (g.length + 1) = some g1)
      (hrest : PreparedSafely rootNode g1 rest g2) :
      PreparedSafely rootNode g (this :: rest) g2

/-- A stereo block of two samples whose channels hold the values 1 and 2. -/
def sourceBlock : AudioBlock := { channels := [[1, 1], [2, 2]], numSamples := 2 }

/-- A block of three channels of two samples that hold the values 10, 20 and 30. -/
def destinationBlock : AudioBlock :=
  { channels := [[10, 10], [20, 20], [30, 30]], numSamples := 2 }

/-! ## The players -/

/-- A prepared graph as a player sees it: the nodes with their direct inputs, and the `process`
of each node for the block at hand, which makes the new state and the output of the node from
its state and the processed outputs of its direct inputs, in their order. -/
structure PreparedGraph (σ : Type) where
  graph : NodeGraph
  process : Nat → σ → List AudioAndMidiBuffer → σ × AudioAndMidiBuffer

/-- The nodes during the processing of one block: the state of each node, and for each node
that has processed its output. -/
structure EpochState (σ : Type) where
  nodeState : Nat → σ
  processed : Nat → Option AudioAndMidiBuffer

/-- A buffer without channels and messages. -/
def emptyBuffer : AudioAndMidiBuffer := { audio := { channels := [], numSamples := 0 }, midi := [] }

/-- The state at the start of a block: no node has processed. -/
def EpochState.start {σ : Type} (nodeState : Nat → σ) : EpochState σ :=
  { nodeState := nodeState, processed := fun _ => none }

/-- Every direct input of node `a` has processed, and `a` has not. -/
def PreparedGraph.ready {σ : Type} (G : PreparedGraph σ) (s : EpochState σ) (a : Nat) : Bool :=
  (s.processed a).isNone && (G.graph.getDirectInputNodes a).all (fun i => (s.processed i).isSome)

/-- Node `a` runs its `process` on the processed outputs of its direct inputs and is marked as
processed. -/
def PreparedGraph.processNode {σ : Type} (G : PreparedGraph σ) (s : EpochState σ) (a : Nat) :
    EpochState σ :=
  let outputs := (G.graph.getDirectInputNodes a).map (fun i => (s.processed i).getD emptyBuffer)
  let res := G.process a (s.nodeState a) outputs
  { nodeState := fun b => if b = a then res.1 else s.nodeState b,
    processed := fun b => if b = a then some res.2 else s.processed b }

/-- The pulls of a list of nodes one after the other. -/
def pullAll {σ : Type} (pull : Nat → EpochState σ → Option (EpochState σ)) :
    List Nat → EpochState σ → Option (EpochState σ)
  | [], s => some s
  | n :: ns, s =>
    match pull n s with
    | some s' => pullAll pull ns s'
    | none => none

/-- Modelled from the spec: the single-threaded `NodePlayer` is not in the embedded sources.
To process a node it first ensures, recursively, that all its direct inputs are processed, and
then runs the node; a node that has processed is not run again.  The result is `none` when the
depth allowed by the first argument does not suffice. -/
def NodePlayer.pull {σ : Type} (G : PreparedGraph σ) : Nat → Nat → EpochState σ →
    Option (EpochState σ)
  | 0, _, _ => none
  | fuel + 1, a, s =>
    if (s.processed a).isSome then some s
    else
      match pullAll (fun n s' => NodePlayer.pull G fuel n s') (G.graph.getDirectInputNodes a) s with
      | some s' => some (G.processNode s' a)
      | none => none

/-- Modelled from the spec: one block of the single-threaded `NodePlayer`: `process` is called
on the root. -/
def NodePlayer.process {σ : Type} (G : PreparedGraph σ) (rootNode : Nat) (nodeState : Nat → σ) :
    Option (EpochState σ) :=
  NodePlayer.pull G (G.graph.length + 1) rootNode (EpochState.start nodeState)

/-- Modelled from the spec: the workers of the `MultiThreadedNodePlayer`, which is not in the
embedded sources, finish the nodes in the order of `schedule`.  A node is run only when all its
direct inputs have processed and it has not; a schedule that runs a node earlier or twice is no
run of the player (`none`). -/
def MultiThreadedNodePlayer.run {σ : Type} (G : PreparedGraph σ) :
    List Nat → EpochState σ → Option (EpochState σ)
  | [], s => some s
  | a :: rest, s =>
    if G.ready s a then MultiThreadedNodePlayer.run G rest (G.processNode s a) else none

/-- Modelled from the spec: one block of the `MultiThreadedNodePlayer` whose workers finish the
nodes in the order of `schedule`: the flags are reset, the nodes are run, and the block is
complete when the root has processed (`none` when it has not). -/
def MultiThreadedNodePlayer.process {σ : Type} (G : PreparedGraph σ) (rootNode : Nat)
    (schedule : List Nat) (nodeState : Nat → σ) : Option (EpochState σ) :=
  match MultiThreadedNodePlayer.run G schedule (EpochState.start nodeState) with
  | some s => if (s.processed rootNode).isSome then some s else none
  | none => none

/-- What a player has made of the states `init` of the nodes so far in a block: a node that has
processed has processed inputs, and its new state and its output are those of its `process` on
the state it started with and the outputs of its inputs; the other nodes have the state they
started with. -/
structure Consistent {σ : Type} (G : PreparedGraph σ) (init : Nat → σ) (s : EpochState σ) :
    Prop where
  inputs_done : ∀ a o, s.processed a = some o →
    ∀ i ∈ G.graph.getDirectInputNodes a, (s.processed i).isSome = true
  result_eq : ∀ a o, s.processed a = some o →
    (s.nodeState a, o) = G.process a (init a)
      ((G.graph.getDirectInputNodes a).map (fun i => (s.processed i).getD emptyBuffer))
  untouched : ∀ a, s.processed a = none → s.nodeState a = init a

/-- A prepared graph of four nodes: a source whose state is the value of the mono block it
puts out and goes up by one with every block, two nodes that pass their input on, and a
`BasicSummingNode` of the two into a cleared mono block. -/
def diamondGraph : PreparedGraph ℚ :=
  { graph := [Node.leafNode, Node.functionNode 0, Node.functionNode 0,
      Node.basicSummingNode [1, 2]],
    process := fun a state outputs =>
      match a with
      | 0 => (state + 1, { audio := constantBlock 1 2 state, midi := [] })
      | 3 => (state,
          (BasicSummingNode.process outputs { audio := constantBlock 1 2 0, midi := [] }).getD
            emptyBuffer)
      | _ => (state, outputs.headD emptyBuffer) }

/-! ## A rack of direct connections -/

/-- Modelled from the spec: the `InputProvider` of a rack node is not in the embedded sources.
It supplies the first `numChannels` channels of the audio it has been given. -/
structure InputProvider where
  numChannels : Nat
  audio : AudioBlock

/-- Modelled from the spec: the class `RackType` is not in the embedded sources.  Of a rack it
keeps the numbers of names of its input bus and of its output bus, of which name 0 is the MIDI
pin and name `p` the audio channel `p - 1` as in the rack tests, and its connections from a pin
of the input bus to a pin of the output bus. -/
structure RackType where
  numInputNames : Nat
  numOutputNames : Nat
  connections : List (Nat × Nat)

/-- Modelled from the spec: the audio on the input bus of a rack of `numBusChannels` channels:
a channel that the provider supplies carries its samples, a missing channel is treated as
silence, and the channels that the provider supplies beyond the bus are ignored. -/
def InputProvider.busAudio (provider : InputProvider) (numBusChannels numSamples : Nat) :
    AudioBlock :=
  { channels := (List.range numBusChannels).map (fun c =>
      (List.range numSamples).map (fun t =>
        if c < provider.numChannels then provider.audio.getSample c t else 0)),
    numSamples := numSamples }

/-- The audio connections of a rack as pairs of a source and a destination channel. -/
def RackType.channelMap (rack : RackType) : List (Int × Int) :=
  (rack.connections.filter (fun c => decide (1 ≤ c.1 ∧ 1 ≤ c.2))).map
    (fun c => ((c.1 : Int) - 1, (c.2 : Int) - 1))

/-- Modelled from the spec: the node that `RackNodeBuilder::createRackNode` builds for a rack of
direct connections, processing one block of `numSamples` samples: the channels of the input bus
are mapped along the connections onto the cleared channels of the output bus.  The result is
`none` when a channel outside a block is asked for. -/
def RackNode.process (rack : RackType) (provider : InputProvider) (numSamples : Nat) :
    Option AudioBlock :=
  let input := provider.busAudio (rack.numInputNames - 1) numSamples
  let dest := constantBlock (rack.numOutputNames - 1) numSamples 0
  (ChannelMappingNode.process rack.channelMap false { audio := input, midi := [] }
    { audio := dest, midi := [] }).map (fun b => b.audio)

/-- The pins of the connections of the rack are names of its buses, and the numbers of names
are values of a C++ `int`. -/
structure RackType.WellFormed (rack : RackType) : Prop where
  inputs_int : rack.numInputNames < 2 ^ 31
  outputs_int : rack.numOutputNames < 2 ^ 31
  pins_named : ∀ c ∈ rack.connections, c.1 < rack.numInputNames ∧ c.2 < rack.numOutputNames

/-- The rack of the test "Mismatched num input and Rack channels": three names on each bus and
the connections of pin `p` to pin `p` for the pins 0, 1 and 2. -/
def mismatchedRack : RackType :=
  { numInputNames := 3, numOutputNames := 3, connections := [(0, 0), (1, 1), (2, 2)] }

/-- A provider of one channel of two samples of the values 1/2 and -1/2. -/
def monoProvider : InputProvider :=
  { numChannels := 1, audio := { channels := [[1 / 2, -1 / 2]], numSamples := 2 } }

/-! ## Quantities and examples for the statements about the block loop -/

/-- The length of one block in milliseconds: `1000 * blockSize / sampleRate`. -/
def blockLengthMs (p : Parameters) : ℚ :=
  1000 * (p.blockSizeForAudio : ℚ) / p.sampleRateForAudio

/-- The 44.1 kHz example in blocks of 265 samples: a block lasts 2650/441 ms, a little more
than 6 ms. -/
def oddBlockParams : Parameters := { exampleParams with blockSizeForAudio := 265 }

/-- Parameters of a render shorter than one block: 1/10 s at 1 kHz in blocks of 750 samples. -/
def shortLatencyParams : Parameters :=
  { exampleParams with
    time := { start := 0, endTime := 1 / 10 }, sampleRateForAudio := 1000,
    blockSizeForAudio := 750 }

/-- The context constructed for the render shorter than one block, through a root that
declares a latency of 100 samples. -/
def shortLatencyContext : NodeRenderContext :=
  NodeRenderContext.construct referenceExternals shortLatencyParams shortLatencyParams
    (exampleProps 100) stoppedPlayHead exampleSetup

/-- The outcome of the first call (the warm-up block) of the render shorter than one block. -/
def shortLatencyWarmedUp : StepResult :=
  (shortLatencyContext.renderNextBlock referenceExternals 0 (constantInput 750 (1 / 2))).getD
    shortLatencyContext.start

/-- A call in which a leaf is not ready and the should-exit predicate, false at the top of the
call, is true in the leaf-readiness test of line 243. -/
def exitWhileWaitingInput : BlockInput :=
  { constantInput 750 (1 / 2) with leafNodesReady := false, shouldExitWhileWaiting := true }

/-- A call in which a leaf is not ready and nothing is cancelled. -/
def notReadyInput : BlockInput :=
  { constantInput 750 (1 / 2) with leafNodesReady := false }

/-- The properties of an input node that declares MIDI, one audio channel and a latency of 64
samples. -/
def midiInputProps : NodeProperties :=
  { hasAudio := true, hasMidi := true, numberOfChannels := 1, latencyNumSamples := 64 }

/-- A note-on message at time 0. -/
def noteOn : MidiMessage := { timeStamp := 0, bytes := [144, 60, 100] }

/-- The 44.1 kHz example with a request to normalise. -/
def normaliseParams : Parameters := { exampleParams with shouldNormalise := true }

/-- The magnitude that the termination test of the call reads is that of the first `n` samples
of `buffer`. -/
def BlockInput.measuring (inp : BlockInput) (buffer : AudioBlock) (n : Nat) : Prop :=
  inp.magnitudeAtEnd = buffer.getMagnitude 0 n

/-- The samples 0, 1, ..., n - 1. -/
def ramp (n : Nat) : List ℚ := (List.range n).map (fun (i : Nat) => (i : ℚ))

/-- A call of the render shorter than one block in which the graph renders, on both channels,
the ramp 0, 1, ..., 749. -/
def rampInput : BlockInput :=
  { constantInput 750 0 with rendered := [ramp 750, ramp 750], magnitudeAtEnd := 749 }

/-! ## The loop invariant without the sample budget -/

/-- What the block loop needs from the context `c0` it starts from, whatever the sample budget:
a positive block length, a render range that does not end before it starts, a non-negative end
allowance and warm-up count, the stream time of the first warm-up block, saving started,
nothing trimmed, and a writer. -/
structure LoopStart (c0 : NodeRenderContext) : Prop where
  blockLength_pos : 0 < c0.blockLength
  range_ok : c0.r.time.getStart ≤ c0.r.time.getEnd
  allowance_nonneg : 0 ≤ c0.r.endAllowance
  precount_nonneg : 0 ≤ c0.precount
  time_eq : c0.streamTime = c0.r.time.getStart - (c0.precount : ℚ) * c0.blockLength
  started : c0.hasStartedSavingToFile = true
  trimmed : c0.samplesTrimmed = 0
  has_writer : ∃ w0, c0.writer = some w0

/-- The part of the loop invariant that does not involve the sample budget, at the entry of a
call of a render that started from the context `c0`: the setup is that of `c0`, the stream time
is the render start minus `precount` block lengths, saving has started, nothing was trimmed,
and there is a writer. -/
structure LoopInv (c0 c : NodeRenderContext) : Prop where
  setup : SameSetup c0 c
  precount_le : c.precount ≤ c0.precount
  time_eq : c.streamTime = c0.r.time.getStart - (c.precount : ℚ) * c0.blockLength
  started : c.hasStartedSavingToFile = true
  trimmed : c.samplesTrimmed = 0
  has_writer : ∃ w, c.writer = some w

/-- The books of a render whose sample budget `c0.samplesToWrite` is negative, at the entry of
a call: the writer is that of `c0`; until the first steady-state block has gone through the
write path the budget and the latency still to drop are those of `c0`; from then on the budget
is 0 and the latency still to drop is that of `c0` minus the negative budget. -/
structure WrappedBooks (c0 c : NodeRenderContext) : Prop where
  writer_eq : c.writer = c0.writer
  fresh : 0 ≤ c.precount → c.samplesToWrite = c0.samplesToWrite ∧
    c.numLatencySamplesToDrop = c0.numLatencySamplesToDrop
  wrapped : c.precount < 0 → c.samplesToWrite = 0 ∧
    c.numLatencySamplesToDrop = c0.numLatencySamplesToDrop - c0.samplesToWrite

/-! ## The library routine `juce::roundToInt` -/

/-- The integer nearest to `x`, the even one of the two when `x` lies half-way. -/
def roundHalfEven (x : ℚ) : Int :=
  if Int.fract x < 1 / 2 then ⌊x⌋
  else if 1 / 2 < Int.fract x then ⌊x⌋ + 1
  else if ⌊x⌋ % 2 = 0 then ⌊x⌋ else ⌊x⌋ + 1

/-- The value of the `int` made of the low 32 bits of `n`. -/
def wrapInt32 (n : Int) : Int := (n + 2 ^ 31) % 2 ^ 32 - 2 ^ 31

/-- The library routine `juce::roundToInt (double)`, which is not part of the sources embedded
here: it adds 1.5 * 2^52 to its argument and returns the low 32 bits of the sum as an `int`,
that is the nearest integer, ties to even, wrapped to 32 bits. -/
def juceRoundToInt (x : ℚ) : Int := wrapInt32 (roundHalfEven x)

/-- The external routines of the examples with `juce::roundToInt` in the place of the rounding
of half-way cases upwards. -/
def juceExternals : Externals := { referenceExternals with roundToInt := juceRoundToInt }

/-- The 44.1 kHz example over 1/8 s, which is 5512.5 samples. -/
def eighthParams : Parameters :=
  { exampleParams with time := { start := 0, endTime := 1 / 8 } }

/-- The 44.1 kHz example over 60000 s, which is 2646000000 samples, more than an `int`
holds. -/
def longParams : Parameters :=
  { exampleParams with time := { start := 0, endTime := 60000 } }

/-- The context constructed for the 60000 s render, through a root that declares a latency of
256 samples. -/
def longContext : NodeRenderContext :=
  NodeRenderContext.construct juceExternals longParams longParams (exampleProps 256)
    stoppedPlayHead exampleSetup

/-! ## Normal forms of the sections of the code -/

theorem foldl_rms_eq (level : Nat → ℚ) (l : List Nat) (c : NodeRenderContext) :
    l.foldl (fun c i => { c with rmsTotal := c.rmsTotal + level i,
                                 rmsNumSamps := c.rmsNumSamps + 1 }) c
      = { c with rmsTotal := c.rmsTotal + (l.map level).sum,
                 rmsNumSamps := c.rmsNumSamps + (l.length : Int) } := by
  induction l generalizing c with
  | nil => simp
  | cons a l ih =>
    simp only [List.foldl_cons, ih, List.map_cons, List.sum_cons, List.length_cons]
    congr 1
    · ring
    · push_cast; ring

theorem accumulateRMS_eq (E : Externals) (buffer : AudioBlock) (n : Int) (c : NodeRenderContext) :
    accumulateRMS E buffer n c
      = { c with rmsTotal := c.rmsTotal + rmsLevelSum E buffer n,
                 rmsNumSamps := c.rmsNumSamps + (buffer.getNumChannels.toNat : Int) } := by
  unfold accumulateRMS rmsLevelSum
  have h := foldl_rms_eq (fun i => E.getRMSLevel ((buffer.getChannelPointer i).take n.toNat))
    ((List.range buffer.getNumChannels.toNat).reverse) c
  simp only [List.length_reverse, List.length_range] at h
  exact h

theorem foldl_count_eq (q : Nat → Bool) (l : List Nat) (c : NodeRenderContext) :
    l.foldl (fun c i => if q i = true then { c with numNonZeroSamps := c.numNonZeroSamps + 1 }
                        else c) c
      = { c with numNonZeroSamps := c.numNonZeroSamps + ((l.filter q).length : Int) } := by
  induction l generalizing c with
  | nil => simp
  | cons a l ih =>
    simp only [List.foldl_cons, ih, List.filter_cons]
    by_cases hq : q a = true
    · simp only [hq, if_true, List.length_cons]
      congr 1
      push_cast; ring
    · simp only [hq, if_false]
      simp

theorem countNonZero_eq (buffer : AudioBlock) (n : Int) (c : NodeRenderContext) :
    countNonZero buffer n c
      = { c with numNonZeroSamps := c.numNonZeroSamps + nonZeroCount buffer n } := by
  unfold countNonZero nonZeroCount
  have h := foldl_count_eq (fun i => decide (buffer.getMagnitude i 1 > 1 / 10000))
    ((List.range n.toNat).reverse) c
  simp only [decide_eq_true_eq] at h
  exact h

theorem analyseBlock_eq (E : Externals) (c : NodeRenderContext) (block : AudioBlock) :
    c.analyseBlock E block
      = { c with
          analysedBlocks := c.analysedBlocks ++ [c.bufferToWrite E block],
          peak := max c.peak
            ((c.bufferToWrite E block).getMagnitude 0 (sizeTToInt block.numSamples).toNat),
          hasStartedSavingToFile := c.hasStartedSavingToFile ||
            decide ((c.bufferToWrite E block).getMagnitude 0 (sizeTToInt block.numSamples).toNat > 0),
          rmsTotal := c.rmsTotal
            + rmsLevelSum E (c.bufferToWrite E block) (sizeTToInt block.numSamples),
          rmsNumSamps := c.rmsNumSamps + ((c.bufferToWrite E block).getNumChannels.toNat : Int),
          numNonZeroSamps := c.numNonZeroSamps
            + nonZeroCount (c.bufferToWrite E block) (sizeTToInt block.numSamples),
          samplesTrimmed :=
            if (c.hasStartedSavingToFile ||
              decide ((c.bufferToWrite E block).getMagnitude 0
                (sizeTToInt block.numSamples).toNat > 0)) = true
            then c.samplesTrimmed else c.samplesTrimmed + sizeTToInt block.numSamples,
          numSamplesWrittenToSource :=
            if (c.hasSourceToUpdate && decide (sizeTToInt block.numSamples > 0)) = true
            then c.numSamplesWrittenToSource + sizeTToInt block.numSamples
            else c.numSamplesWrittenToSource } := by
  unfold NodeRenderContext.analyseBlock
  simp only [accumulateRMS_eq, countNonZero_eq]
  cases hs : c.hasStartedSavingToFile <;>
    cases hm : decide ((c.bufferToWrite E block).getMagnitude 0
      (sizeTToInt block.numSamples).toNat > 0) <;>
    cases hu : (c.hasSourceToUpdate && decide (sizeTToInt block.numSamples > 0)) <;>
    simp_all

theorem tickSleepCounter_eq (c : NodeRenderContext) :
    c.tickSleepCounter
      = { c with sleepCounter := if c.sleepCounter - 1 ≤ 0 then sleepCounterMax
                                 else c.sleepCounter - 1,
                 sleptMs := if c.sleepCounter - 1 ≤ 0 then c.sleptMs + 1 else c.sleptMs } := by
  unfold NodeRenderContext.tickSleepCounter
  by_cases h : c.sleepCounter - 1 ≤ 0 <;> simp [h]

theorem positionPlayHead_eq (E : Externals) (c : NodeRenderContext) :
    c.positionPlayHead E
      = ({ c with
            playHead := c.positionedPlayHead E,
            streamTime := c.blockStart,
            playHeadStateRange :=
              if c.precount = 0 then
                some (E.timeToSample c.r.time.getStart c.r.sampleRateForAudio,
                      E.timeToSample (c.r.time.getStart + c.blockLength) c.r.sampleRateForAudio)
              else c.playHeadStateRange }, c.blockEnd) := by
  unfold NodeRenderContext.positionPlayHead NodeRenderContext.positionedPlayHead
    NodeRenderContext.blockStart NodeRenderContext.blockEnd
  dsimp only
  split_ifs <;> rfl

theorem pace_eq (c : NodeRenderContext) (timeNow : ℚ) :
    c.pace timeNow
      = { c with
          lastTime := if c.r.realTimeRender = true then timeNow else c.lastTime,
          sleptMs :=
            if c.r.realTimeRender = true
                ∧ truncToInt ((c.realTimePerBlock : ℚ) - (timeNow - c.lastTime)) > 0
            then c.sleptMs + truncToInt ((c.realTimePerBlock : ℚ) - (timeNow - c.lastTime))
            else c.sleptMs } := by
  unfold NodeRenderContext.pace
  by_cases h : c.r.realTimeRender = true
  · by_cases h2 : truncToInt ((c.realTimePerBlock : ℚ) - (timeNow - c.lastTime)) > 0 <;>
      simp [h, h2]
  · simp [h]

theorem planWrite_eq (c : NodeRenderContext) (destNumSamples : Nat) :
    c.planWrite destNumSamples
      = { ctx := { c with samplesToWrite := c.samplesToWrite - c.samplesTaken,
                          numLatencySamplesToDrop := c.numLatencySamplesToDrop - c.samplesDropped },
          blockSize := toSizeT (c.samplesTaken - c.samplesDropped),
          blockOffset :=
            if c.numLatencySamplesToDrop > 0
            then toSizeT ((destNumSamples : Int)
                    - (toSizeT (c.samplesTaken - c.samplesDropped) : Int))
            else 0 } := by
  unfold NodeRenderContext.planWrite NodeRenderContext.samplesDropped NodeRenderContext.samplesTaken
  by_cases h : c.numLatencySamplesToDrop > 0 <;> simp [h]

theorem tick_blockStart (c : NodeRenderContext) : c.tickSleepCounter.blockStart = c.blockStart := by
  rw [tickSleepCounter_eq]; rfl

theorem tick_blockEnd (c : NodeRenderContext) : c.tickSleepCounter.blockEnd = c.blockEnd := by
  rw [tickSleepCounter_eq]; rfl

theorem positionPlayHead_snd (E : Externals) (c : NodeRenderContext) :
    (c.tickSleepCounter.positionPlayHead E).2 = c.blockEnd := by
  rw [positionPlayHead_eq, tick_blockEnd]

theorem beforeProcess_eq (E : Externals) (c : NodeRenderContext) (inp : BlockInput) :
    c.beforeProcess E inp
      = { c with
          sleepCounter := c.tickSleepCounter.sleepCounter,
          playHead := c.positionedPlayHead E,
          streamTime := c.blockStart,
          playHeadStateRange := (c.positionPlayHead E).1.playHeadStateRange,
          lastTime := (c.pace inp.timeNow).lastTime,
          sleptMs := (c.tickSleepCounter.pace inp.timeNow).sleptMs,
          tempoTime := some c.blockStart } := by
  unfold NodeRenderContext.beforeProcess
  simp only [positionPlayHead_eq, pace_eq, tickSleepCounter_eq]
  rfl

theorem renderNextBlock_cancel (E : Externals) (c : NodeRenderContext) (p : ℚ) (inp : BlockInput)
    (w : AudioFileWriter) (hw : c.writer = some w) (hexit : inp.shouldExit = true) :
    c.renderNextBlock E p inp
      = some { finished := true,
               ctx := { c.tickSleepCounter with
                        writer := some w.closeForWriting, destFileDeleted := true,
                        playHead := c.playHead.stop, pluginsRealtime := true },
               progress := p } := by
  have hw2 : c.tickSleepCounter.writer = some w := by rw [tickSleepCounter_eq]; exact hw
  have hp : c.tickSleepCounter.playHead = c.playHead := by rw [tickSleepCounter_eq]
  unfold NodeRenderContext.renderNextBlock NodeRenderContext.cancelRender
  simp only [hexit, if_true, hw2, hp]

theorem renderNextBlock_notReady (E : Externals) (c : NodeRenderContext) (p : ℚ)
    (inp : BlockInput) (hexit : inp.shouldExit = false)
    (hwait : (inp.leafNodesReady || inp.shouldExitWhileWaiting) = false) :
    c.renderNextBlock E p inp
      = some { finished := false, ctx := c.beforeProcess E inp, progress := p } := by
  unfold NodeRenderContext.renderNextBlock NodeRenderContext.beforeProcess
  simp [hexit, hwait]

theorem renderNextBlock_process (E : Externals) (c : NodeRenderContext) (p : ℚ)
    (inp : BlockInput) (hexit : inp.shouldExit = false)
    (hgo : (inp.leafNodesReady || inp.shouldExitWhileWaiting) = true) :
    c.renderNextBlock E p inp
      = match ({ c.beforeProcess E inp with
                  numProcessCalls := c.numProcessCalls + 1 }).writeOrWarmUp E
                (c.destBlock E inp) inp.appendOk with
        | none => none
        | some (WriteResult.failed, c') => some { finished := true, ctx := c', progress := p }
        | some (WriteResult.succeeded, c') =>
          some (c'.finishBlock c.blockEnd p inp.magnitudeAtEnd) := by
  have hdef : c.renderNextBlock E p inp
      = match ({ c.beforeProcess E inp with
                  numProcessCalls := (c.beforeProcess E inp).numProcessCalls + 1 }).writeOrWarmUp E
                { channels := inp.rendered,
                  numSamples := toSizeT
                    (E.timeToSample (c.tickSleepCounter.positionPlayHead E).2
                        (c.beforeProcess E inp).originalParams.sampleRateForAudio
                      - E.timeToSample (c.beforeProcess E inp).streamTime
                        (c.beforeProcess E inp).originalParams.sampleRateForAudio) }
                inp.appendOk with
        | none => none
        | some (WriteResult.failed, c') => some { finished := true, ctx := c', progress := p }
        | some (WriteResult.succeeded, c') =>
          some (c'.finishBlock (c.tickSleepCounter.positionPlayHead E).2 p
            inp.magnitudeAtEnd) := by
    unfold NodeRenderContext.renderNextBlock NodeRenderContext.beforeProcess
    simp only [hexit, hgo, Bool.false_eq_true, if_false, Bool.not_true]
  rw [hdef, positionPlayHead_snd]
  have hs : (c.beforeProcess E inp).streamTime = c.blockStart := by rw [beforeProcess_eq]
  have ho : (c.beforeProcess E inp).originalParams = c.originalParams := by rw [beforeProcess_eq]
  have hn : (c.beforeProcess E inp).numProcessCalls = c.numProcessCalls := by rw [beforeProcess_eq]
  rw [hs, ho, hn]
  rfl

theorem analyseBlock_writer (E : Externals) (c : NodeRenderContext) (block : AudioBlock) :
    (c.analyseBlock E block).writer = c.writer := by
  rw [analyseBlock_eq]

theorem analyseBlock_started (E : Externals) (c : NodeRenderContext) (block : AudioBlock)
    (hs : c.hasStartedSavingToFile = true) :
    (c.analyseBlock E block).hasStartedSavingToFile = true := by
  rw [analyseBlock_eq]; simp [hs]

theorem writeAudioBlock_started (E : Externals) (c : NodeRenderContext) (block : AudioBlock)
    (ok : Bool) (w : AudioFileWriter) (hw : c.writer = some w)
    (hs : c.hasStartedSavingToFile = true) :
    c.writeAudioBlock E block ok
      = some (if 0 < sizeTToInt block.numSamples ∧ w.isOpen = true ∧ ok = false
              then WriteResult.failed else WriteResult.succeeded,
              if 0 < sizeTToInt block.numSamples ∧ w.isOpen = true ∧ ok = true
              then { c.analyseBlock E block with
                     writer := some (w.appendBuffer (sizeTToInt block.numSamples)) }
              else c.analyseBlock E block) := by
  have h1 := analyseBlock_writer E c block
  have h2 := analyseBlock_started E c block hs
  rw [hw] at h1
  unfold NodeRenderContext.writeAudioBlock
  simp only [h1, h2]
  by_cases hn : 0 < sizeTToInt block.numSamples
  · cases ho : w.isOpen <;> cases hk : ok <;> simp [hn]
  · simp [hn]

theorem writeOrWarmUp_warm (E : Externals) (c : NodeRenderContext) (destBlock : AudioBlock)
    (ok : Bool) (h : 0 < c.precount) :
    c.writeOrWarmUp E destBlock ok
      = some (WriteResult.succeeded,
              { c with sleptMs := c.sleptMs + truncToInt (c.blockLength * 1000) }) := by
  unfold NodeRenderContext.writeOrWarmUp
  simp [not_le.mpr h]

theorem writeOrWarmUp_steady (E : Externals) (c : NodeRenderContext) (destBlock : AudioBlock)
    (ok : Bool) (h : c.precount ≤ 0) :
    c.writeOrWarmUp E destBlock ok
      = if (c.planWrite destBlock.numSamples).blockSize > 0 then
          (c.planWrite destBlock.numSamples).ctx.writeAudioBlock E
            (destBlock.getSubBlock (c.planWrite destBlock.numSamples).blockOffset
              (c.planWrite destBlock.numSamples).blockSize) ok
        else some (WriteResult.succeeded, (c.planWrite destBlock.numSamples).ctx) := by
  unfold NodeRenderContext.writeOrWarmUp
  simp [h]

theorem toSizeT_of_nonneg (x : Int) (h0 : 0 ≤ x) (h1 : x < 2 ^ 31) :
    (toSizeT x : Int) = x ∧ sizeTToInt (toSizeT x) = x := by
  unfold sizeTToInt toSizeT
  have : x % 2 ^ 64 = x := Int.emod_eq_of_lt h0 (by omega)
  rw [this]
  have h2 : ((x.toNat : Int)) = x := Int.toNat_of_nonneg h0
  rw [h2]
  refine ⟨rfl, ?_⟩
  omega

theorem SameSetup.refl (c : NodeRenderContext) : SameSetup c c :=
  ⟨rfl, rfl, rfl, rfl, rfl, rfl, rfl, rfl, rfl, rfl, rfl, rfl, rfl⟩

theorem SameSetup.trans {a b c : NodeRenderContext} (h1 : SameSetup a b) (h2 : SameSetup b c) :
    SameSetup a c :=
  ⟨h2.r_eq.trans h1.r_eq, h2.originalParams_eq.trans h1.originalParams_eq,
   h2.ownerParams_eq.trans h1.ownerParams_eq, h2.needs_eq.trans h1.needs_eq,
   h2.numOutputChans_eq.trans h1.numOutputChans_eq, h2.status_eq.trans h1.status_eq,
   h2.threshold_eq.trans h1.threshold_eq, h2.blockLength_eq.trans h1.blockLength_eq,
   h2.numPreRenderBlocks_eq.trans h1.numPreRenderBlocks_eq,
   h2.realTimePerBlock_eq.trans h1.realTimePerBlock_eq,
   h2.intermediateFile_eq.trans h1.intermediateFile_eq,
   h2.hasSourceToUpdate_eq.trans h1.hasSourceToUpdate_eq,
   h2.postPassCalls_eq.trans h1.postPassCalls_eq⟩

theorem sameSetup_tick (c : NodeRenderContext) : SameSetup c c.tickSleepCounter := by
  rw [tickSleepCounter_eq]; exact ⟨rfl, rfl, rfl, rfl, rfl, rfl, rfl, rfl, rfl, rfl, rfl, rfl, rfl⟩

theorem sameSetup_beforeProcess (E : Externals) (c : NodeRenderContext) (inp : BlockInput) :
    SameSetup c (c.beforeProcess E inp) := by
  rw [beforeProcess_eq]; exact ⟨rfl, rfl, rfl, rfl, rfl, rfl, rfl, rfl, rfl, rfl, rfl, rfl, rfl⟩

theorem sameSetup_analyseBlock (E : Externals) (c : NodeRenderContext) (block : AudioBlock) :
    SameSetup c (c.analyseBlock E block) := by
  rw [analyseBlock_eq]; exact ⟨rfl, rfl, rfl, rfl, rfl, rfl, rfl, rfl, rfl, rfl, rfl, rfl, rfl⟩

theorem sameSetup_planWrite (c : NodeRenderContext) (n : Nat) :
    SameSetup c (c.planWrite n).ctx := by
  rw [planWrite_eq]; exact ⟨rfl, rfl, rfl, rfl, rfl, rfl, rfl, rfl, rfl, rfl, rfl, rfl, rfl⟩

theorem writeAudioBlock_some (E : Externals) (c c' : NodeRenderContext) (block : AudioBlock)
    (ok : Bool) (wr : WriteResult) (h : c.writeAudioBlock E block ok = some (wr, c')) :
    c' = c.analyseBlock E block ∨
      ∃ w, (c.analyseBlock E block).writer = some w ∧ w.isOpen = true ∧ ok = true ∧
        0 < sizeTToInt block.numSamples ∧
        (c.analyseBlock E block).hasStartedSavingToFile = true ∧
        wr = WriteResult.succeeded ∧
        c' = { c.analyseBlock E block with
               writer := some (w.appendBuffer (sizeTToInt block.numSamples)) } := by
  unfold NodeRenderContext.writeAudioBlock at h
  simp only [] at h
  generalize c.analyseBlock E block = a at h ⊢
  by_cases hc : (decide (sizeTToInt block.numSamples > 0) && a.hasStartedSavingToFile) = true
  · rw [if_pos hc] at h
    simp only [Bool.and_eq_true, decide_eq_true_eq] at hc
    cases hw : a.writer with
    | none => rw [hw] at h; exact absurd h (by simp)
    | some w =>
      rw [hw] at h
      cases ho : w.isOpen with
      | false =>
        simp only [ho, Bool.false_eq_true, if_false, Option.some.injEq, Prod.mk.injEq] at h
        exact Or.inl h.2.symm
      | true =>
        cases hk : ok with
        | false =>
          simp only [ho, hk, Bool.false_eq_true, if_false, if_true, Option.some.injEq,
            Prod.mk.injEq] at h
          exact Or.inl h.2.symm
        | true =>
          simp only [ho, hk, if_true, Option.some.injEq, Prod.mk.injEq] at h
          exact Or.inr ⟨w, rfl, ho, rfl, hc.1, hc.2, h.1.symm, h.2.symm⟩
  · rw [if_neg hc] at h
    simp only [Option.some.injEq, Prod.mk.injEq] at h
    exact Or.inl h.2.symm

theorem sameSetup_setWriter (a : NodeRenderContext) (w : Option AudioFileWriter) :
    SameSetup a { a with writer := w } :=
  ⟨rfl, rfl, rfl, rfl, rfl, rfl, rfl, rfl, rfl, rfl, rfl, rfl, rfl⟩

theorem sameSetup_writeAudioBlock (E : Externals) (c c' : NodeRenderContext) (block : AudioBlock)
    (ok : Bool) (wr : WriteResult) (h : c.writeAudioBlock E block ok = some (wr, c')) :
    SameSetup c c' := by
  have ha := sameSetup_analyseBlock E c block
  rcases writeAudioBlock_some E c c' block ok wr h with h1 | ⟨w, _, _, _, _, _, _, h1⟩
  · rw [h1]; exact ha
  · rw [h1]; exact ha.trans (sameSetup_setWriter _ _)

theorem sameSetup_writeOrWarmUp (E : Externals) (c c' : NodeRenderContext) (block : AudioBlock)
    (ok : Bool) (wr : WriteResult) (h : c.writeOrWarmUp E block ok = some (wr, c')) :
    SameSetup c c' := by
  by_cases hp : c.precount ≤ 0
  · rw [writeOrWarmUp_steady E c block ok hp] at h
    split_ifs at h
    · exact (sameSetup_planWrite c _).trans (sameSetup_writeAudioBlock E _ _ _ _ _ h)
    · simp only [Option.some.injEq, Prod.mk.injEq] at h
      rw [← h.2]; exact sameSetup_planWrite c _
  · rw [writeOrWarmUp_warm E c block ok (not_le.mp hp)] at h
    simp only [Option.some.injEq, Prod.mk.injEq] at h
    rw [← h.2]; exact ⟨rfl, rfl, rfl, rfl, rfl, rfl, rfl, rfl, rfl, rfl, rfl, rfl, rfl⟩

theorem sameSetup_finishBlock (c : NodeRenderContext) (blockEnd p mag : ℚ) :
    SameSetup c (c.finishBlock blockEnd p mag).ctx := by
  unfold NodeRenderContext.finishBlock
  split_ifs
  · exact SameSetup.refl c
  · exact SameSetup.refl c
  · dsimp only
    exact ⟨rfl, rfl, rfl, rfl, rfl, rfl, rfl, rfl, rfl, rfl, rfl, rfl, rfl⟩
  · dsimp only
    exact ⟨rfl, rfl, rfl, rfl, rfl, rfl, rfl, rfl, rfl, rfl, rfl, rfl, rfl⟩

/-- Frame property of `renderNextBlock`: whatever the call does, the members assigned by the
constructor only (parameters, status, channel count, block length, threshold) are unchanged. -/
theorem sameSetup_renderNextBlock (E : Externals) (c : NodeRenderContext) (p : ℚ)
    (inp : BlockInput) (res : StepResult) (h : c.renderNextBlock E p inp = some res) :
    SameSetup c res.ctx := by
  cases hexit : inp.shouldExit with
  | true =>
    cases hw : c.writer with
    | none =>
      have hw2 : c.tickSleepCounter.writer = none := by rw [tickSleepCounter_eq]; exact hw
      unfold NodeRenderContext.renderNextBlock NodeRenderContext.cancelRender at h
      simp [hexit, hw2] at h
    | some w =>
      rw [renderNextBlock_cancel E c p inp w hw hexit] at h
      simp only [Option.some.injEq] at h
      rw [← h]
      exact (sameSetup_tick c).trans ⟨rfl, rfl, rfl, rfl, rfl, rfl, rfl, rfl, rfl, rfl, rfl, rfl, rfl⟩
  | false =>
    cases hgo : (inp.leafNodesReady || inp.shouldExitWhileWaiting) with
    | false =>
      rw [renderNextBlock_notReady E c p inp hexit hgo] at h
      simp only [Option.some.injEq] at h
      rw [← h]; exact sameSetup_beforeProcess E c inp
    | true =>
      rw [renderNextBlock_process E c p inp hexit hgo] at h
      have hb : SameSetup c { c.beforeProcess E inp with numProcessCalls := c.numProcessCalls + 1 } :=
        (sameSetup_beforeProcess E c inp).trans
          ⟨rfl, rfl, rfl, rfl, rfl, rfl, rfl, rfl, rfl, rfl, rfl, rfl, rfl⟩
      cases hwr : ({ c.beforeProcess E inp with
          numProcessCalls := c.numProcessCalls + 1 }).writeOrWarmUp E (c.destBlock E inp)
            inp.appendOk with
      | none => rw [hwr] at h; simp at h
      | some pr =>
        obtain ⟨wr, c'⟩ := pr
        rw [hwr] at h
        have hc' := hb.trans (sameSetup_writeOrWarmUp E _ _ _ _ _ hwr)
        cases wr with
        | failed =>
          simp only [Option.some.injEq] at h
          rw [← h]; exact hc'
        | succeeded =>
          simp only [Option.some.injEq] at h
          rw [← h]; exact hc'.trans (sameSetup_finishBlock c' _ _ _)

theorem renderInv_start (c0 : NodeRenderContext) (V : ValidStart c0) : RenderInv c0 c0 := by
  obtain ⟨w0, hw0⟩ := V.has_writer
  have hk : max 0 (-c0.precount) = 0 := max_eq_left (by have := V.precount_nonneg; omega)
  refine ⟨SameSetup.refl c0, le_refl _, V.time_eq, ?_⟩
  rw [hk]
  have hL := V.latency_nonneg
  have hT := V.latency_le
  refine ⟨V.started, V.trimmed, ?_, ?_, ⟨w0, w0, hw0, hw0, rfl, ?_⟩⟩
  · simp only [zero_mul]; omega
  · simp only [zero_mul]; omega
  · intro _; simp only [zero_mul]; omega

theorem sameBooks_beforeProcess (E : Externals) (c : NodeRenderContext) (inp : BlockInput) :
    SameBooks c (c.beforeProcess E inp) := by
  rw [beforeProcess_eq]; exact ⟨rfl, rfl, rfl, rfl, rfl, rfl, rfl, rfl, rfl, rfl, rfl⟩

theorem beforeProcess_precount (E : Externals) (c : NodeRenderContext) (inp : BlockInput) :
    (c.beforeProcess E inp).precount = c.precount := by
  rw [beforeProcess_eq]

theorem beforeProcess_streamTime (E : Externals) (c : NodeRenderContext) (inp : BlockInput) :
    (c.beforeProcess E inp).streamTime = c.blockStart := by
  rw [beforeProcess_eq]

theorem beforeProcess_numProcessCalls (E : Externals) (c : NodeRenderContext) (inp : BlockInput) :
    (c.beforeProcess E inp).numProcessCalls = c.numProcessCalls := by
  rw [beforeProcess_eq]

/-- In exact arithmetic the reset of line 207 does not move the stream time of a context that
satisfies the loop invariant. -/
theorem blockStart_of_inv (c0 c : NodeRenderContext) (h : RenderInv c0 c) :
    c.blockStart = c0.r.time.getStart - (c.precount : ℚ) * c0.blockLength := by
  unfold NodeRenderContext.blockStart
  by_cases h0 : c.precount = 0
  · rw [if_pos h0, h.setup.r_eq, h0]; simp
  · rw [if_neg h0, h.time_eq]

theorem blockEnd_of_inv (c0 c : NodeRenderContext) (V : ValidStart c0) (h : RenderInv c0 c) :
    c.blockEnd = c0.r.time.getStart - ((c.precount - 1 : Int) : ℚ) * c0.blockLength := by
  have hbl := V.blockLength_pos
  unfold NodeRenderContext.blockEnd
  rw [h.setup.r_eq, h.setup.blockLength_eq, h.time_eq]
  by_cases h0 : c.precount = 0
  · rw [if_pos h0, h0]; push_cast; ring
  · rw [if_neg h0]
    by_cases h1 : c.precount > 0
    · rw [if_pos h1]
      have h2 : (1 : ℚ) ≤ (c.precount : ℚ) := by exact_mod_cast h1
      have h3 : c0.r.time.getStart - (c.precount : ℚ) * c0.blockLength + c0.blockLength
          ≤ c0.r.time.getStart := by nlinarith
      rw [min_eq_right h3]; push_cast; ring
    · rw [if_neg h1]; push_cast; ring

theorem renderInv_wait (E : Externals) (c0 c : NodeRenderContext) (p : ℚ) (inp : BlockInput)
    (hinv : RenderInv c0 c) (hexit : inp.shouldExit = false)
    (hwait : (inp.leafNodesReady || inp.shouldExitWhileWaiting) = false) :
    ∃ res, c.renderNextBlock E p inp = some res ∧ res.finished = false ∧ res.progress = p ∧
      RenderInv c0 res.ctx ∧ SameBooks c res.ctx ∧ res.ctx.precount = c.precount ∧
      res.ctx.numProcessCalls = c.numProcessCalls := by
  refine ⟨_, renderNextBlock_notReady E c p inp hexit hwait, rfl, rfl, ?_, ?_,
    beforeProcess_precount E c inp, beforeProcess_numProcessCalls E c inp⟩
  · have hb := sameBooks_beforeProcess E c inp
    have hs := sameSetup_beforeProcess E c inp
    have hw := hinv.written
    refine ⟨hinv.setup.trans hs, ?_, ?_, ?_⟩
    · show (c.beforeProcess E inp).precount ≤ c0.precount
      rw [beforeProcess_precount]; exact hinv.precount_le
    · show (c.beforeProcess E inp).streamTime = _
      rw [beforeProcess_streamTime, beforeProcess_precount]; exact blockStart_of_inv c0 c hinv
    · show Written c0 (max 0 (-(c.beforeProcess E inp).precount)) (c.beforeProcess E inp)
      rw [beforeProcess_precount]
      refine ⟨?_, ?_, ?_, ?_, ?_⟩
      · rw [hb.started_eq]; exact hw.started
      · rw [hb.trimmed_eq]; exact hw.trimmed
      · rw [hb.budget_eq]; exact hw.budget_eq
      · rw [hb.drop_eq]; exact hw.drop_eq
      · rw [hb.writer_eq]; exact hw.writer_ok
  · exact sameBooks_beforeProcess E c inp

theorem planWrite_ctx_fields (c : NodeRenderContext) (n : Nat) :
    (c.planWrite n).ctx.samplesToWrite = c.samplesToWrite - c.samplesTaken ∧
    (c.planWrite n).ctx.numLatencySamplesToDrop = c.numLatencySamplesToDrop - c.samplesDropped ∧
    (c.planWrite n).blockSize = toSizeT (c.samplesTaken - c.samplesDropped) ∧
    (c.planWrite n).ctx.streamTime = c.streamTime ∧
    (c.planWrite n).ctx.precount = c.precount ∧
    (c.planWrite n).ctx.hasStartedSavingToFile = c.hasStartedSavingToFile ∧
    (c.planWrite n).ctx.samplesTrimmed = c.samplesTrimmed ∧
    (c.planWrite n).ctx.writer = c.writer ∧
    (c.planWrite n).ctx.numProcessCalls = c.numProcessCalls := by
  rw [planWrite_eq]
  exact ⟨rfl, rfl, rfl, rfl, rfl, rfl, rfl, rfl, rfl⟩

theorem analyseBlock_fields (E : Externals) (c : NodeRenderContext) (block : AudioBlock)
    (hs : c.hasStartedSavingToFile = true) :
    (c.analyseBlock E block).samplesToWrite = c.samplesToWrite ∧
    (c.analyseBlock E block).numLatencySamplesToDrop = c.numLatencySamplesToDrop ∧
    (c.analyseBlock E block).streamTime = c.streamTime ∧
    (c.analyseBlock E block).precount = c.precount ∧
    (c.analyseBlock E block).samplesTrimmed = c.samplesTrimmed ∧
    (c.analyseBlock E block).numProcessCalls = c.numProcessCalls := by
  rw [analyseBlock_eq]
  refine ⟨rfl, rfl, rfl, rfl, ?_, rfl⟩
  simp [hs]

theorem setWriter_fields (a : NodeRenderContext) (w : Option AudioFileWriter) :
    ({ a with writer := w }).samplesToWrite = a.samplesToWrite ∧
    ({ a with writer := w }).numLatencySamplesToDrop = a.numLatencySamplesToDrop ∧
    ({ a with writer := w }).streamTime = a.streamTime ∧
    ({ a with writer := w }).precount = a.precount ∧
    ({ a with writer := w }).samplesTrimmed = a.samplesTrimmed ∧
    ({ a with writer := w }).hasStartedSavingToFile = a.hasStartedSavingToFile ∧
    ({ a with writer := w }).writer = w ∧
    ({ a with writer := w }).numProcessCalls = a.numProcessCalls :=
  ⟨rfl, rfl, rfl, rfl, rfl, rfl, rfl, rfl⟩

theorem samplesTaken_bounds (c : NodeRenderContext) (h0 : 0 ≤ c.samplesToWrite)
    (hd : 0 ≤ c.numLatencySamplesToDrop) (hB : 0 < c.r.blockSizeForAudio) :
    0 ≤ c.samplesTaken - c.samplesDropped ∧
    c.samplesTaken - c.samplesDropped ≤ c.r.blockSizeForAudio ∧
    c.samplesDropped = min c.numLatencySamplesToDrop c.samplesTaken := by
  unfold NodeRenderContext.samplesDropped NodeRenderContext.samplesTaken
  split_ifs <;> omega

/-- Contract of the write path (lines 254-286) on a context that has a writer and has started
saving: a warm-up block changes none of the books; a steady-state block takes
`samplesTaken` from the budget, drops `samplesDropped` of them, and hands the rest to the
writer, failing exactly when the writer is open and rejects a non-empty block. -/
theorem writeOrWarmUp_spec (E : Externals) (c : NodeRenderContext) (destBlock : AudioBlock)
    (ok : Bool) (w : AudioFileWriter) (hw : c.writer = some w)
    (hs : c.hasStartedSavingToFile = true) (h0 : 0 ≤ c.samplesToWrite)
    (hd : 0 ≤ c.numLatencySamplesToDrop) (hB : 0 < c.r.blockSizeForAudio)
    (hB2 : c.r.blockSizeForAudio < 2 ^ 31) :
    ∃ wr c', c.writeOrWarmUp E destBlock ok = some (wr, c') ∧ SameSetup c c' ∧
      c'.streamTime = c.streamTime ∧ c'.precount = c.precount ∧
      c'.hasStartedSavingToFile = true ∧ c'.samplesTrimmed = c.samplesTrimmed ∧
      c'.numProcessCalls = c.numProcessCalls ∧
      (0 < c.precount → wr = WriteResult.succeeded ∧ SameBooks c c') ∧
      (c.precount ≤ 0 →
        c'.samplesToWrite = c.samplesToWrite - c.samplesTaken ∧
        c'.numLatencySamplesToDrop = c.numLatencySamplesToDrop - c.samplesDropped ∧
        (wr = WriteResult.failed ↔
          (0 < c.samplesTaken - c.samplesDropped ∧ w.isOpen = true ∧ ok = false)) ∧
        c'.writer = some (if 0 < c.samplesTaken - c.samplesDropped ∧ w.isOpen = true ∧ ok = true
                          then w.appendBuffer (c.samplesTaken - c.samplesDropped) else w)) := by
  by_cases hp : c.precount ≤ 0
  · obtain ⟨hn0, hn1, _⟩ := samplesTaken_bounds c h0 hd hB
    obtain ⟨hz1, hz2⟩ := toSizeT_of_nonneg (c.samplesTaken - c.samplesDropped) hn0 (by omega)
    obtain ⟨f1, f2, f3, f4, f5, f6, f7, f8, f9⟩ := planWrite_ctx_fields c destBlock.numSamples
    have hsetup := sameSetup_planWrite c destBlock.numSamples
    rw [writeOrWarmUp_steady E c destBlock ok hp]
    by_cases hpos : (c.planWrite destBlock.numSamples).blockSize > 0
    · rw [if_pos hpos]
      have hpos2 : 0 < c.samplesTaken - c.samplesDropped := by
        rw [f3] at hpos; rw [← hz1]; exact_mod_cast hpos
      have hsub : sizeTToInt ((destBlock.getSubBlock
          (c.planWrite destBlock.numSamples).blockOffset
          (c.planWrite destBlock.numSamples).blockSize).numSamples)
            = c.samplesTaken - c.samplesDropped := by
        show sizeTToInt (c.planWrite destBlock.numSamples).blockSize = _
        rw [f3]; exact hz2
      have hstart := (f6.trans hs)
      rw [writeAudioBlock_started E _ _ ok w (f8.trans hw) hstart, hsub]
      obtain ⟨a1, a2, a3, a4, a5, a9⟩ := analyseBlock_fields E (c.planWrite destBlock.numSamples).ctx
        (destBlock.getSubBlock (c.planWrite destBlock.numSamples).blockOffset
          (c.planWrite destBlock.numSamples).blockSize) hstart
      have a6 := analyseBlock_started E (c.planWrite destBlock.numSamples).ctx
        (destBlock.getSubBlock (c.planWrite destBlock.numSamples).blockOffset
          (c.planWrite destBlock.numSamples).blockSize) hstart
      have a7 := analyseBlock_writer E (c.planWrite destBlock.numSamples).ctx
        (destBlock.getSubBlock (c.planWrite destBlock.numSamples).blockOffset
          (c.planWrite destBlock.numSamples).blockSize)
      have a8 := sameSetup_analyseBlock E (c.planWrite destBlock.numSamples).ctx
        (destBlock.getSubBlock (c.planWrite destBlock.numSamples).blockOffset
          (c.planWrite destBlock.numSamples).blockSize)
      generalize (c.planWrite destBlock.numSamples).ctx.analyseBlock E
        (destBlock.getSubBlock (c.planWrite destBlock.numSamples).blockOffset
          (c.planWrite destBlock.numSamples).blockSize) = a at a1 a2 a3 a4 a5 a6 a7 a8 a9 ⊢
      have hwr : (if 0 < c.samplesTaken - c.samplesDropped ∧ w.isOpen = true ∧ ok = false
            then WriteResult.failed else WriteResult.succeeded) = WriteResult.failed ↔
          (0 < c.samplesTaken - c.samplesDropped ∧ w.isOpen = true ∧ ok = false) := by
        split_ifs with hf
        · exact ⟨fun _ => hf, fun _ => rfl⟩
        · exact ⟨fun h => absurd h (by decide), fun h => absurd h hf⟩
      generalize (if 0 < c.samplesTaken - c.samplesDropped ∧ w.isOpen = true ∧ ok = false
            then WriteResult.failed else WriteResult.succeeded) = wr at hwr ⊢
      by_cases hc : 0 < c.samplesTaken - c.samplesDropped ∧ w.isOpen = true ∧ ok = true
      · rw [if_pos hc, if_pos hc]
        obtain ⟨g1, g2, g3, g4, g5, g6, g7, g9⟩ :=
          setWriter_fields a (some (w.appendBuffer (c.samplesTaken - c.samplesDropped)))
        refine ⟨wr, { a with writer := some (w.appendBuffer (c.samplesTaken - c.samplesDropped)) },
          rfl, ?_, ?_, ?_, ?_, ?_, ?_, ?_, ?_⟩
        · exact (hsetup.trans a8).trans (sameSetup_setWriter a _)
        · exact g3.trans (a3.trans f4)
        · exact g4.trans (a4.trans f5)
        · exact g6.trans a6
        · exact g5.trans (a5.trans f7)
        · exact g9.trans (a9.trans f9)
        · exact fun h => absurd h (not_lt.mpr hp)
        · exact fun _ => ⟨g1.trans (a1.trans f1), g2.trans (a2.trans f2), hwr,
            g7⟩
      · rw [if_neg hc, if_neg hc]
        refine ⟨wr, a, rfl, ?_, ?_, ?_, ?_, ?_, ?_, ?_, ?_⟩
        · exact hsetup.trans a8
        · exact a3.trans f4
        · exact a4.trans f5
        · exact a6
        · exact a5.trans f7
        · exact a9.trans f9
        · exact fun h => absurd h (not_lt.mpr hp)
        · exact fun _ => ⟨a1.trans f1, a2.trans f2, hwr, a7.trans (f8.trans hw)⟩
    · rw [if_neg hpos]
      have hpos2 : ¬ 0 < c.samplesTaken - c.samplesDropped := by
        intro h; apply hpos; rw [f3]
        have : (0 : Int) < (toSizeT (c.samplesTaken - c.samplesDropped) : Int) := by rw [hz1]; exact h
        exact_mod_cast this
      refine ⟨_, _, rfl, hsetup, f4, f5, f6.trans hs, f7, f9, fun h => absurd h (not_lt.mpr hp),
        fun _ => ⟨f1, f2, ?_, ?_⟩⟩
      · simp [hpos2]
      · simp [hpos2, f8, hw]
  · have hp' : 0 < c.precount := not_le.mp hp
    rw [writeOrWarmUp_warm E c destBlock ok hp']
    exact ⟨_, _, rfl, ⟨rfl, rfl, rfl, rfl, rfl, rfl, rfl, rfl, rfl, rfl, rfl, rfl, rfl⟩, rfl, rfl,
      hs, rfl, rfl, fun _ => ⟨rfl, ⟨rfl, rfl, rfl, rfl, rfl, rfl, rfl, rfl, rfl, rfl, rfl⟩⟩,
      fun h => absurd h hp⟩

theorem finishBlock_spec (c : NodeRenderContext) (blockEnd p magnitude : ℚ) :
    ((c.finishBlock blockEnd p magnitude).finished = true ↔
      (c.streamTime > c.r.time.getEnd + c.r.endAllowance ∨
        (c.streamTime > c.r.time.getEnd ∧ magnitude ≤ c.thresholdForStopping))) ∧
    ((c.finishBlock blockEnd p magnitude).finished = true →
      (c.finishBlock blockEnd p magnitude).ctx = c ∧
      (c.finishBlock blockEnd p magnitude).progress = p) ∧
    ((c.finishBlock blockEnd p magnitude).finished = false →
      (c.finishBlock blockEnd p magnitude).ctx.precount = c.precount - 1 ∧
      (c.finishBlock blockEnd p magnitude).ctx.streamTime = blockEnd ∧
      (c.finishBlock blockEnd p magnitude).ctx.numProcessCalls = c.numProcessCalls ∧
      (c.finishBlock blockEnd p magnitude).progress
        = jlimit 0 1 (if c.needsToNormaliseAndTrim = true
            then (c.streamTime - c.r.time.getStart) / max 1 c.r.time.getLength * (9 / 10)
            else (c.streamTime - c.r.time.getStart) / max 1 c.r.time.getLength)) ∧
    SameBooks c (c.finishBlock blockEnd p magnitude).ctx := by
  unfold NodeRenderContext.finishBlock
  by_cases h1 : c.streamTime > c.r.time.getEnd + c.r.endAllowance
  · rw [if_pos h1]
    exact ⟨⟨fun _ => Or.inl h1, fun _ => rfl⟩, fun _ => ⟨rfl, rfl⟩,
      fun h => absurd h (by simp), ⟨rfl, rfl, rfl, rfl, rfl, rfl, rfl, rfl, rfl, rfl, rfl⟩⟩
  · rw [if_neg h1]
    by_cases h2 : c.streamTime > c.r.time.getEnd ∧ magnitude ≤ c.thresholdForStopping
    · rw [if_pos h2]
      exact ⟨⟨fun _ => Or.inr h2, fun _ => rfl⟩, fun _ => ⟨rfl, rfl⟩,
        fun h => absurd h (by simp), ⟨rfl, rfl, rfl, rfl, rfl, rfl, rfl, rfl, rfl, rfl, rfl⟩⟩
    · rw [if_neg h2]
      refine ⟨⟨fun h => absurd h (by simp), fun h => ?_⟩, fun h => absurd h (by simp),
        fun _ => ⟨rfl, rfl, rfl, rfl⟩, ⟨rfl, rfl, rfl, rfl, rfl, rfl, rfl, rfl, rfl, rfl, rfl⟩⟩
      rcases h with h | h
      · exact absurd h h1
      · exact absurd h h2

theorem SameBooks.same (c : NodeRenderContext) : SameBooks c c :=
  ⟨rfl, rfl, rfl, rfl, rfl, rfl, rfl, rfl, rfl, rfl, rfl⟩

theorem SameBooks.andThen {a b c : NodeRenderContext} (h1 : SameBooks a b) (h2 : SameBooks b c) :
    SameBooks a c :=
  ⟨h2.budget_eq.trans h1.budget_eq, h2.drop_eq.trans h1.drop_eq,
   h2.started_eq.trans h1.started_eq, h2.trimmed_eq.trans h1.trimmed_eq,
   h2.writer_eq.trans h1.writer_eq, h2.peak_eq.trans h1.peak_eq,
   h2.rmsTotal_eq.trans h1.rmsTotal_eq, h2.rmsNumSamps_eq.trans h1.rmsNumSamps_eq,
   h2.numNonZeroSamps_eq.trans h1.numNonZeroSamps_eq, h2.analysed_eq.trans h1.analysed_eq,
   h2.deleted_eq.trans h1.deleted_eq⟩

theorem processed_fields (E : Externals) (c : NodeRenderContext) (inp : BlockInput) :
    SameSetup c (c.processed E inp) ∧ SameBooks c (c.processed E inp) ∧
    (c.processed E inp).streamTime = c.blockStart ∧
    (c.processed E inp).precount = c.precount ∧
    (c.processed E inp).numProcessCalls = c.numProcessCalls + 1 ∧
    (c.processed E inp).samplesTaken = c.samplesTaken ∧
    (c.processed E inp).samplesDropped = c.samplesDropped := by
  unfold NodeRenderContext.processed NodeRenderContext.samplesDropped NodeRenderContext.samplesTaken
  rw [beforeProcess_eq]
  exact ⟨⟨rfl, rfl, rfl, rfl, rfl, rfl, rfl, rfl, rfl, rfl, rfl, rfl, rfl⟩,
    ⟨rfl, rfl, rfl, rfl, rfl, rfl, rfl, rfl, rfl, rfl, rfl⟩, rfl, rfl, rfl, rfl, rfl⟩

/-- Contract of a call of `renderNextBlock` that processes a block, on a context that has a
writer and has started saving: `c'` is the context after the write path, `wr` its result. -/
theorem renderNextBlock_go (E : Externals) (c : NodeRenderContext) (p : ℚ) (inp : BlockInput)
    (w : AudioFileWriter) (hexit : inp.shouldExit = false)
    (hgo : (inp.leafNodesReady || inp.shouldExitWhileWaiting) = true)
    (hw : c.writer = some w) (hs : c.hasStartedSavingToFile = true)
    (h0 : 0 ≤ c.samplesToWrite) (hd : 0 ≤ c.numLatencySamplesToDrop)
    (hB : 0 < c.r.blockSizeForAudio) (hB2 : c.r.blockSizeForAudio < 2 ^ 31) :
    ∃ res wr c', c.renderNextBlock E p inp = some res ∧ SameSetup c c' ∧
      c'.streamTime = c.blockStart ∧ c'.precount = c.precount ∧
      c'.hasStartedSavingToFile = true ∧ c'.samplesTrimmed = c.samplesTrimmed ∧
      c'.numProcessCalls = c.numProcessCalls + 1 ∧
      (0 < c.precount → wr = WriteResult.succeeded ∧ SameBooks c c') ∧
      (c.precount ≤ 0 →
        c'.samplesToWrite = c.samplesToWrite - c.samplesTaken ∧
        c'.numLatencySamplesToDrop = c.numLatencySamplesToDrop - c.samplesDropped ∧
        (wr = WriteResult.failed ↔
          (0 < c.samplesTaken - c.samplesDropped ∧ w.isOpen = true ∧ inp.appendOk = false)) ∧
        c'.writer = some (if 0 < c.samplesTaken - c.samplesDropped ∧ w.isOpen = true
                            ∧ inp.appendOk = true
                          then w.appendBuffer (c.samplesTaken - c.samplesDropped) else w)) ∧
      (wr = WriteResult.failed → res = { finished := true, ctx := c', progress := p }) ∧
      (wr = WriteResult.succeeded → res = c'.finishBlock c.blockEnd p inp.magnitudeAtEnd) := by
  obtain ⟨q1, q2, q3, q4, q5, q6, q7⟩ := processed_fields E c inp
  have hproc := renderNextBlock_process E c p inp hexit hgo
  change c.renderNextBlock E p inp
      = match (c.processed E inp).writeOrWarmUp E (c.destBlock E inp) inp.appendOk with
        | none => none
        | some (WriteResult.failed, c') => some { finished := true, ctx := c', progress := p }
        | some (WriteResult.succeeded, c') =>
          some (c'.finishBlock c.blockEnd p inp.magnitudeAtEnd) at hproc
  obtain ⟨wr, c', e1, e2, e3, e4, e5, e6, e7, e8, e9⟩ :=
    writeOrWarmUp_spec E (c.processed E inp) (c.destBlock E inp) inp.appendOk w
      (q2.writer_eq.trans hw) (q2.started_eq.trans hs) (by rw [q2.budget_eq]; exact h0)
      (by rw [q2.drop_eq]; exact hd) (by rw [q1.r_eq]; exact hB) (by rw [q1.r_eq]; exact hB2)
  rw [e1] at hproc
  rw [q4] at e8 e9
  rw [q6, q7, q2.budget_eq, q2.drop_eq] at e9
  cases wr with
  | failed =>
    refine ⟨_, WriteResult.failed, c', hproc, q1.trans e2, e3.trans q3, e4.trans q4, e5,
      e6.trans q2.trimmed_eq, e7.trans q5, ?_, e9, fun _ => rfl, fun h => absurd h (by decide)⟩
    intro h
    exact ⟨(e8 h).1, q2.andThen (e8 h).2⟩
  | succeeded =>
    refine ⟨_, WriteResult.succeeded, c', hproc, q1.trans e2, e3.trans q3, e4.trans q4, e5,
      e6.trans q2.trimmed_eq, e7.trans q5, ?_, e9, fun h => absurd h (by decide), fun _ => rfl⟩
    intro h
    exact ⟨(e8 h).1, q2.andThen (e8 h).2⟩

theorem books_step (T L B x stw drop : Int) (hB : 0 < B) (hLT : L ≤ T)
    (hstw : stw = T - min T x) (hdrop : drop = L - min L x) :
    stw - min stw B = T - min T (x + B) ∧
    drop - (if drop > 0 then min drop (min stw B) else 0) = L - min L (x + B) ∧
    (min T x - min L x) + (min stw B - (if drop > 0 then min drop (min stw B) else 0))
      = min T (x + B) - min L (x + B) := by
  subst hstw hdrop
  split_ifs <;> omega

theorem appendBuffer_fields (w : AudioFileWriter) (n : Int) :
    (w.appendBuffer n).isOpen = w.isOpen ∧
    (w.appendBuffer n).samplesAppended = w.samplesAppended + n := by
  unfold AudioFileWriter.appendBuffer AudioFileWriter.samplesAppended
  simp

theorem written_step (c0 c c' : NodeRenderContext) (V : ValidStart c0) (w : AudioFileWriter)
    (ok : Bool) (hok : ok = true) (k : Int) (hk : 0 ≤ k)
    (hr : c.r = c0.r) (hw : c.writer = some w) (hwr : Written c0 k c)
    (hs : c'.hasStartedSavingToFile = true) (ht : c'.samplesTrimmed = c.samplesTrimmed)
    (h1 : c'.samplesToWrite = c.samplesToWrite - c.samplesTaken)
    (h2 : c'.numLatencySamplesToDrop = c.numLatencySamplesToDrop - c.samplesDropped)
    (h3 : c'.writer = some (if 0 < c.samplesTaken - c.samplesDropped ∧ w.isOpen = true ∧ ok = true
                          then w.appendBuffer (c.samplesTaken - c.samplesDropped) else w)) :
    Written c0 (k + 1) c' := by
  have hB := V.blockSize_pos
  have hx : 0 ≤ k * c0.r.blockSizeForAudio := Int.mul_nonneg hk (le_of_lt hB)
  obtain ⟨b1, b2, b3⟩ := books_step c0.samplesToWrite c0.numLatencySamplesToDrop
    c0.r.blockSizeForAudio (k * c0.r.blockSizeForAudio) c.samplesToWrite
    c.numLatencySamplesToDrop hB V.latency_le hwr.budget_eq hwr.drop_eq
  have hmul : (k + 1) * c0.r.blockSizeForAudio
      = k * c0.r.blockSizeForAudio + c0.r.blockSizeForAudio := by ring
  have htaken : c.samplesTaken = min c.samplesToWrite c0.r.blockSizeForAudio := by
    unfold NodeRenderContext.samplesTaken; rw [hr]
  have hdropped : c.samplesDropped
      = if c.numLatencySamplesToDrop > 0
        then min c.numLatencySamplesToDrop (min c.samplesToWrite c0.r.blockSizeForAudio)
        else 0 := by
    unfold NodeRenderContext.samplesDropped; rw [htaken]
  obtain ⟨w1, w0, hw1, hw0, hopen, hsum⟩ := hwr.writer_ok
  have hww : w1 = w := by rw [hw] at hw1; exact (Option.some.inj hw1).symm
  subst hww
  refine ⟨hs, ht.trans hwr.trimmed, ?_, ?_, ?_⟩
  · rw [h1, htaken, hmul]; exact b1
  · rw [h2, hdropped, hmul]; exact b2
  · rw [htaken, hdropped] at h3
    rw [hmul]
    by_cases hc : 0 < min c.samplesToWrite c0.r.blockSizeForAudio
          - (if c.numLatencySamplesToDrop > 0
             then min c.numLatencySamplesToDrop (min c.samplesToWrite c0.r.blockSizeForAudio)
             else 0) ∧ w1.isOpen = true ∧ ok = true
    · rw [if_pos hc] at h3
      obtain ⟨a1, a2⟩ := appendBuffer_fields w1 (min c.samplesToWrite c0.r.blockSizeForAudio
          - (if c.numLatencySamplesToDrop > 0
             then min c.numLatencySamplesToDrop (min c.samplesToWrite c0.r.blockSizeForAudio)
             else 0))
      refine ⟨_, w0, h3, hw0, a1.trans hopen, fun ho => ?_⟩
      rw [a2, hsum ho]
      generalize k * c0.r.blockSizeForAudio = x at *
      generalize (if c.numLatencySamplesToDrop > 0
             then min c.numLatencySamplesToDrop (min c.samplesToWrite c0.r.blockSizeForAudio)
             else 0) = dd at *
      omega
    · rw [if_neg hc] at h3
      refine ⟨w1, w0, h3, hw0, hopen, fun ho => ?_⟩
      rw [hsum ho]
      have hz : ¬ 0 < min c.samplesToWrite c0.r.blockSizeForAudio
          - (if c.numLatencySamplesToDrop > 0
             then min c.numLatencySamplesToDrop (min c.samplesToWrite c0.r.blockSizeForAudio)
             else 0) := by
        intro hpos
        exact hc ⟨hpos, hopen.trans ho, hok⟩
      have h0 : 0 ≤ c.samplesToWrite := by
        rw [hwr.budget_eq]
        have := V.latency_nonneg
        have := V.latency_le
        omega
      have hge : 0 ≤ min c.samplesToWrite c0.r.blockSizeForAudio
          - (if c.numLatencySamplesToDrop > 0
             then min c.numLatencySamplesToDrop (min c.samplesToWrite c0.r.blockSizeForAudio)
             else 0) := by
        clear b1 b2 b3 hsum h3 hc hz hmul hx
        split_ifs <;> omega
      generalize k * c0.r.blockSizeForAudio = x at *
      generalize (if c.numLatencySamplesToDrop > 0
             then min c.numLatencySamplesToDrop (min c.samplesToWrite c0.r.blockSizeForAudio)
             else 0) = dd at *
      omega

theorem written_of_sameBooks (c0 a b : NodeRenderContext) (k : Int) (h : SameBooks a b)
    (hw : Written c0 k a) : Written c0 k b := by
  refine ⟨h.started_eq.trans hw.started, h.trimmed_eq.trans hw.trimmed,
    h.budget_eq.trans hw.budget_eq, h.drop_eq.trans hw.drop_eq, ?_⟩
  obtain ⟨w, w0, h1, h2, h3, h4⟩ := hw.writer_ok
  exact ⟨w, w0, h.writer_eq.trans h1, h2, h3, h4⟩

theorem books_nonneg (c0 c : NodeRenderContext) (V : ValidStart c0) (k : Int)
    (hw : Written c0 k c) : 0 ≤ c.samplesToWrite ∧ 0 ≤ c.numLatencySamplesToDrop := by
  have h1 := V.latency_nonneg
  have h2 := V.latency_le
  rw [hw.budget_eq, hw.drop_eq]
  generalize k * c0.r.blockSizeForAudio = x
  omega

theorem terminates_steady (c0 c : NodeRenderContext) (V : ValidStart c0) (hinv : RenderInv c0 c)
    (mag : ℚ) (h : c.terminates mag) : c.precount < 0 := by
  have hb := blockStart_of_inv c0 c hinv
  have hgt : c.blockStart > c.r.time.getEnd := by
    rcases h with h | h
    · have hA := V.allowance_nonneg
      rw [← hinv.setup.r_eq] at hA
      linarith
    · exact h.1
  rw [hinv.setup.r_eq, hb] at hgt
  have hr := V.range_ok
  have hbl := V.blockLength_pos
  by_contra hneg
  have hp : (0 : ℚ) ≤ (c.precount : ℚ) := by exact_mod_cast (not_lt.mp hneg)
  nlinarith

/-- Preservation of the loop invariant by a call that processes a block and whose append, if
any, is accepted: the call returns true exactly on the termination test; if it returns
false the invariant holds again with `precount` one lower; if it returns true the call was
a steady-state one and the books are those of one more block. -/
theorem renderInv_go (E : Externals) (c0 c : NodeRenderContext) (p : ℚ) (inp : BlockInput)
    (V : ValidStart c0) (hinv : RenderInv c0 c) (hexit : inp.shouldExit = false)
    (hgo : (inp.leafNodesReady || inp.shouldExitWhileWaiting) = true)
    (hok : inp.appendOk = true) :
    ∃ res, c.renderNextBlock E p inp = some res ∧
      (res.finished = true ↔ c.terminates inp.magnitudeAtEnd) ∧
      res.ctx.numProcessCalls = c.numProcessCalls + 1 ∧
      (res.finished = false →
        RenderInv c0 res.ctx ∧ res.ctx.precount = c.precount - 1 ∧
        res.progress = c.progressValue) ∧
      (res.finished = true →
        c.precount < 0 ∧ SameSetup c0 res.ctx ∧ Written c0 (-c.precount + 1) res.ctx ∧
        res.ctx.precount = c.precount ∧ res.progress = p) := by
  obtain ⟨w, w0, hw, hw0, hopen, hsum⟩ := hinv.written.writer_ok
  obtain ⟨h0, hd⟩ := books_nonneg c0 c V _ hinv.written
  have hB : 0 < c.r.blockSizeForAudio := by rw [hinv.setup.r_eq]; exact V.blockSize_pos
  have hB2 : c.r.blockSizeForAudio < 2 ^ 31 := by rw [hinv.setup.r_eq]; exact V.blockSize_lt
  obtain ⟨res, wr, c', hres, s1, s2, s3, s4, s5, s6, s7, s8, s9, s10⟩ :=
    renderNextBlock_go E c p inp w hexit hgo hw hinv.written.started h0 hd hB hB2
  have hwr : wr = WriteResult.succeeded := by
    by_cases hp : 0 < c.precount
    · exact (s7 hp).1
    · have h := (s8 (not_lt.mp hp)).2.2.1
      cases wr with
      | succeeded => rfl
      | failed =>
        have h2 := (h.mp rfl).2.2
        rw [hok] at h2
        exact absurd h2 (by decide)
  have hfin := s10 hwr
  obtain ⟨f1, f2, f3, f4⟩ := finishBlock_spec c' c.blockEnd p inp.magnitudeAtEnd
  rw [← hfin] at f1 f2 f3 f4
  have hterm : res.finished = true ↔ c.terminates inp.magnitudeAtEnd := by
    unfold NodeRenderContext.terminates
    rw [f1, s2, s1.r_eq, s1.threshold_eq]
  -- the books of `c'`
  have hbooks : c.precount ≤ 0 → Written c0 (-c.precount + 1) c' := by
    intro hp
    have hk : max 0 (-c.precount) = -c.precount := max_eq_right (by omega)
    have hwk := hinv.written
    rw [hk] at hwk
    obtain ⟨t1, t2, _, t4⟩ := s8 hp
    exact written_step c0 c c' V w inp.appendOk hok (-c.precount) (by omega)
      hinv.setup.r_eq hw hwk s4 s5 t1 t2 t4
  refine ⟨res, hres, hterm, ?_, ?_, ?_⟩
  · by_cases hf : res.finished = true
    · rw [(f2 hf).1]; exact s6
    · have hf' : res.finished = false := by simpa using hf
      rw [(f3 hf').2.2.1]; exact s6
  · intro hf
    obtain ⟨g1, g2, _, g4⟩ := f3 hf
    have hpre : res.ctx.precount = c.precount - 1 := by rw [g1, s3]
    refine ⟨⟨?_, ?_, ?_, ?_⟩, hpre, ?_⟩
    · have := sameSetup_finishBlock c' c.blockEnd p inp.magnitudeAtEnd
      rw [← hfin] at this
      exact hinv.setup.trans (s1.trans this)
    · rw [hpre]; have := hinv.precount_le; omega
    · rw [g2, hpre]; exact blockEnd_of_inv c0 c V hinv
    · rw [hpre]
      apply written_of_sameBooks c0 c' res.ctx _ f4
      by_cases hp : 0 < c.precount
      · have hk : max 0 (-(c.precount - 1)) = max 0 (-c.precount) := by
          rw [max_eq_left (by omega), max_eq_left (by omega)]
        rw [hk]
        exact written_of_sameBooks c0 c c' _ (s7 hp).2 hinv.written
      · have hk : max 0 (-(c.precount - 1)) = -c.precount + 1 := by
          rw [max_eq_right (by omega)]; ring
        rw [hk]
        exact hbooks (not_lt.mp hp)
    · rw [g4]
      unfold NodeRenderContext.progressValue
      rw [s2, s1.r_eq, s1.needs_eq]
  · intro hf
    have hneg := terminates_steady c0 c V hinv inp.magnitudeAtEnd (hterm.mp hf)
    obtain ⟨g1, g2⟩ := f2 hf
    refine ⟨hneg, ?_, ?_, ?_, g2⟩
    · rw [g1]; exact hinv.setup.trans s1
    · rw [g1]; exact hbooks (le_of_lt hneg)
    · rw [g1]; exact s3

theorem setupLatencyAndPostPass_fields (c : NodeRenderContext) (props : NodeProperties)
    (sys : SetupInput) :
    (c.setupLatencyAndPostPass props sys).r.time.start = c.r.time.start ∧
    (c.setupLatencyAndPostPass props sys).r.time.endTime
      = c.r.time.endTime + sampleToTime props.latencyNumSamples c.r.sampleRateForAudio ∧
    (c.setupLatencyAndPostPass props sys).r.endAllowance = c.r.endAllowance ∧
    (c.setupLatencyAndPostPass props sys).r.sampleRateForAudio = c.r.sampleRateForAudio ∧
    (c.setupLatencyAndPostPass props sys).r.blockSizeForAudio = c.r.blockSizeForAudio ∧
    (c.setupLatencyAndPostPass props sys).r.mustRenderInMono = c.r.mustRenderInMono ∧
    (c.setupLatencyAndPostPass props sys).r.canRenderInMono = c.r.canRenderInMono ∧
    (c.setupLatencyAndPostPass props sys).r.realTimeRender = c.r.realTimeRender ∧
    (c.setupLatencyAndPostPass props sys).r.trimSilenceAtEnds = false ∧
    (c.setupLatencyAndPostPass props sys).r.destFile = workingDestFile c.r sys ∧
    (c.setupLatencyAndPostPass props sys).needsToNormaliseAndTrim
      = (c.needsToNormaliseAndTrim || c.r.wantsPostPass) ∧
    (c.setupLatencyAndPostPass props sys).numLatencySamplesToDrop = props.latencyNumSamples ∧
    (c.setupLatencyAndPostPass props sys).originalParams = c.originalParams ∧
    (c.setupLatencyAndPostPass props sys).writer = c.writer ∧
    (c.setupLatencyAndPostPass props sys).status = c.status ∧
    (c.setupLatencyAndPostPass props sys).thresholdForStopping = c.thresholdForStopping ∧
    (c.setupLatencyAndPostPass props sys).playHead = c.playHead ∧
    (c.setupLatencyAndPostPass props sys).analysedBlocks = c.analysedBlocks := by
  unfold NodeRenderContext.setupLatencyAndPostPass workingDestFile Parameters.wantsPostPass
  cases h1 : c.r.shouldNormalise <;> cases h2 : c.r.trimSilenceAtEnds <;>
    cases h3 : c.r.shouldNormaliseByRMS <;> simp [h1, h2, h3]

theorem construct_noAudio (E : Externals) (p ownerParams : Parameters) (props : NodeProperties)
    (playHead : PlayHead) (sys : SetupInput) (h : props.hasAudio = false) :
    NodeRenderContext.construct E p ownerParams props playHead sys
      = { (NodeRenderContext.initial p ownerParams playHead
            sys.hasSourceToUpdate).setupLatencyAndPostPass props sys with
          numOutputChans := 2,
          status := Result.fail "Didn't find any audio to render" } := by
  unfold NodeRenderContext.construct
  simp [h]

theorem construct_cannotWrite (E : Externals) (p ownerParams : Parameters)
    (props : NodeProperties) (playHead : PlayHead) (sys : SetupInput)
    (h : props.hasAudio = true) (hdest : workingDestFile p sys ≠ "")
    (hopen : sys.writerOpens = false) :
    NodeRenderContext.construct E p ownerParams props playHead sys
      = { NodeRenderContext.withWriter p ownerParams props playHead sys with
          status := Result.fail "Couldn't write to target file" } := by
  obtain ⟨_, _, _, _, _, f6, f7, _, _, f10, _⟩ := setupLatencyAndPostPass_fields
    (NodeRenderContext.initial p ownerParams playHead sys.hasSourceToUpdate) props sys
  have f6' : ((NodeRenderContext.initial p ownerParams playHead
      sys.hasSourceToUpdate).setupLatencyAndPostPass props sys).r.mustRenderInMono
        = p.mustRenderInMono := f6
  have f7' : ((NodeRenderContext.initial p ownerParams playHead
      sys.hasSourceToUpdate).setupLatencyAndPostPass props sys).r.canRenderInMono
        = p.canRenderInMono := f7
  have f10' : ((NodeRenderContext.initial p ownerParams playHead
      sys.hasSourceToUpdate).setupLatencyAndPostPass props sys).r.destFile
        = workingDestFile p sys := f10
  unfold NodeRenderContext.construct NodeRenderContext.withWriter outputChannels
  dsimp only
  generalize (NodeRenderContext.initial p ownerParams playHead
      sys.hasSourceToUpdate).setupLatencyAndPostPass props sys = c1 at f6' f7' f10' ⊢
  by_cases hm : (p.mustRenderInMono || (p.canRenderInMono && decide (props.numberOfChannels < 2)))
      = true
  · simp [h, hm, f6', f7', f10', hdest, hopen]
  · simp [h, hm, f6', f7', f10', hdest, hopen]

theorem construct_ok (E : Externals) (p ownerParams : Parameters)
    (props : NodeProperties) (playHead : PlayHead) (sys : SetupInput)
    (h : props.hasAudio = true) (hdest : workingDestFile p sys ≠ "" → sys.writerOpens = true) :
    NodeRenderContext.construct E p ownerParams props playHead sys
      = (NodeRenderContext.withWriter p ownerParams props playHead sys).setupBookkeeping E sys := by
  obtain ⟨_, _, _, _, _, f6, f7, _, _, f10, _⟩ := setupLatencyAndPostPass_fields
    (NodeRenderContext.initial p ownerParams playHead sys.hasSourceToUpdate) props sys
  have f6' : ((NodeRenderContext.initial p ownerParams playHead
      sys.hasSourceToUpdate).setupLatencyAndPostPass props sys).r.mustRenderInMono
        = p.mustRenderInMono := f6
  have f7' : ((NodeRenderContext.initial p ownerParams playHead
      sys.hasSourceToUpdate).setupLatencyAndPostPass props sys).r.canRenderInMono
        = p.canRenderInMono := f7
  have f10' : ((NodeRenderContext.initial p ownerParams playHead
      sys.hasSourceToUpdate).setupLatencyAndPostPass props sys).r.destFile
        = workingDestFile p sys := f10
  unfold NodeRenderContext.construct NodeRenderContext.withWriter outputChannels
  dsimp only
  generalize (NodeRenderContext.initial p ownerParams playHead
      sys.hasSourceToUpdate).setupLatencyAndPostPass props sys = c1 at f6' f7' f10' ⊢
  have hcond : (c1.r.destFile != "" && !sys.writerOpens) = false := by
    rw [f10']
    by_cases hd : workingDestFile p sys = ""
    · simp [hd]
    · simp [hdest hd]
  by_cases hm : (p.mustRenderInMono || (p.canRenderInMono && decide (props.numberOfChannels < 2)))
      = true
  · simp [h, hm, f6', f7', hcond]
  · simp [h, hm, f6', f7', hcond]

theorem setupBookkeeping_fields (E : Externals) (c : NodeRenderContext) (sys : SetupInput) :
    (c.setupBookkeeping E sys).r = c.r ∧
    (c.setupBookkeeping E sys).originalParams = c.originalParams ∧
    (c.setupBookkeeping E sys).status = c.status ∧
    (c.setupBookkeeping E sys).writer = c.writer ∧
    (c.setupBookkeeping E sys).numOutputChans = c.numOutputChans ∧
    (c.setupBookkeeping E sys).needsToNormaliseAndTrim = c.needsToNormaliseAndTrim ∧
    (c.setupBookkeeping E sys).thresholdForStopping = c.thresholdForStopping ∧
    (c.setupBookkeeping E sys).numLatencySamplesToDrop = c.numLatencySamplesToDrop ∧
    (c.setupBookkeeping E sys).analysedBlocks = c.analysedBlocks ∧
    (c.setupBookkeeping E sys).blockLength
      = (c.r.blockSizeForAudio : ℚ) / c.r.sampleRateForAudio ∧
    (c.setupBookkeeping E sys).numPreRenderBlocks
      = truncToInt ((c.r.sampleRateForAudio / 2) / (c.r.blockSizeForAudio : ℚ) + 1) ∧
    (c.setupBookkeeping E sys).precount = (c.setupBookkeeping E sys).numPreRenderBlocks ∧
    (c.setupBookkeeping E sys).streamTime
      = c.r.time.getStart
        - ((c.setupBookkeeping E sys).precount : ℚ) * (c.setupBookkeeping E sys).blockLength ∧
    (c.setupBookkeeping E sys).samplesToWrite
      = E.roundToInt ((c.r.time.getLength + c.r.endAllowance) * c.r.sampleRateForAudio) ∧
    (c.setupBookkeeping E sys).hasStartedSavingToFile = !c.r.trimSilenceAtEnds ∧
    (c.setupBookkeeping E sys).samplesTrimmed = 0 ∧
    (c.setupBookkeeping E sys).peak = 1 / 10000 ∧
    (c.setupBookkeeping E sys).rmsTotal = 0 ∧
    (c.setupBookkeeping E sys).rmsNumSamps = 0 ∧
    (c.setupBookkeeping E sys).numNonZeroSamps = 0 := by
  unfold NodeRenderContext.setupBookkeeping
  exact ⟨rfl, rfl, rfl, rfl, rfl, rfl, rfl, rfl, rfl, rfl, rfl, rfl, rfl, rfl, rfl, rfl, rfl, rfl,
    rfl, rfl⟩

theorem withWriter_fields (p ownerParams : Parameters) (props : NodeProperties)
    (playHead : PlayHead) (sys : SetupInput) :
    (NodeRenderContext.withWriter p ownerParams props playHead sys).r.time.start = p.time.start ∧
    (NodeRenderContext.withWriter p ownerParams props playHead sys).r.time.endTime
      = p.time.endTime + sampleToTime props.latencyNumSamples p.sampleRateForAudio ∧
    (NodeRenderContext.withWriter p ownerParams props playHead sys).r.endAllowance
      = p.endAllowance ∧
    (NodeRenderContext.withWriter p ownerParams props playHead sys).r.sampleRateForAudio
      = p.sampleRateForAudio ∧
    (NodeRenderContext.withWriter p ownerParams props playHead sys).r.blockSizeForAudio
      = p.blockSizeForAudio ∧
    (NodeRenderContext.withWriter p ownerParams props playHead sys).r.trimSilenceAtEnds = false ∧
    (NodeRenderContext.withWriter p ownerParams props playHead sys).r.destFile
      = workingDestFile p sys ∧
    (NodeRenderContext.withWriter p ownerParams props playHead sys).needsToNormaliseAndTrim
      = p.wantsPostPass ∧
    (NodeRenderContext.withWriter p ownerParams props playHead sys).numLatencySamplesToDrop
      = props.latencyNumSamples ∧
    (NodeRenderContext.withWriter p ownerParams props playHead sys).originalParams = p ∧
    (NodeRenderContext.withWriter p ownerParams props playHead sys).writer
      = some { isOpen := sys.writerOpens, numChannels := outputChannels p props,
               appended := [] } ∧
    (NodeRenderContext.withWriter p ownerParams props playHead sys).numOutputChans
      = outputChannels p props ∧
    (NodeRenderContext.withWriter p ownerParams props playHead sys).status = Result.ok ∧
    (NodeRenderContext.withWriter p ownerParams props playHead sys).thresholdForStopping = 0 ∧
    (NodeRenderContext.withWriter p ownerParams props playHead sys).analysedBlocks = [] := by
  obtain ⟨f1, f2, f3, f4, f5, _, _, _, f9, f10, f11, f12, f13, _, f15, f16, _, f18⟩ :=
    setupLatencyAndPostPass_fields
      (NodeRenderContext.initial p ownerParams playHead sys.hasSourceToUpdate) props sys
  unfold NodeRenderContext.withWriter
  refine ⟨f1, f2, f3, f4, f5, f9, f10, ?_, f12, f13, rfl, rfl, f15, f16, f18⟩
  have : ((NodeRenderContext.initial p ownerParams playHead
      sys.hasSourceToUpdate).setupLatencyAndPostPass props sys).needsToNormaliseAndTrim
        = (false || p.wantsPostPass) := f11
  simpa using this

/-- The fields of a successfully constructed context, in terms of the parameters. -/
theorem construct_fields (E : Externals) (p ownerParams : Parameters)
    (props : NodeProperties) (playHead : PlayHead) (sys : SetupInput)
    (h : props.hasAudio = true) (hdest : workingDestFile p sys ≠ "" → sys.writerOpens = true) :
    (NodeRenderContext.construct E p ownerParams props playHead sys).r.time.start
      = p.time.start ∧
    (NodeRenderContext.construct E p ownerParams props playHead sys).r.time.endTime
      = p.time.endTime + sampleToTime props.latencyNumSamples p.sampleRateForAudio ∧
    (NodeRenderContext.construct E p ownerParams props playHead sys).r.endAllowance
      = p.endAllowance ∧
    (NodeRenderContext.construct E p ownerParams props playHead sys).r.sampleRateForAudio
      = p.sampleRateForAudio ∧
    (NodeRenderContext.construct E p ownerParams props playHead sys).r.blockSizeForAudio
      = p.blockSizeForAudio ∧
    (NodeRenderContext.construct E p ownerParams props playHead sys).blockLength
      = (p.blockSizeForAudio : ℚ) / p.sampleRateForAudio ∧
    (NodeRenderContext.construct E p ownerParams props playHead sys).numPreRenderBlocks
      = truncToInt ((p.sampleRateForAudio / 2) / (p.blockSizeForAudio : ℚ) + 1) ∧
    (NodeRenderContext.construct E p ownerParams props playHead sys).precount
      = truncToInt ((p.sampleRateForAudio / 2) / (p.blockSizeForAudio : ℚ) + 1) ∧
    (NodeRenderContext.construct E p ownerParams props playHead sys).streamTime
      = p.time.start
        - ((NodeRenderContext.construct E p ownerParams props playHead sys).precount : ℚ)
          * (NodeRenderContext.construct E p ownerParams props playHead sys).blockLength ∧
    (NodeRenderContext.construct E p ownerParams props playHead sys).samplesToWrite
      = E.roundToInt ((p.time.endTime
          + sampleToTime props.latencyNumSamples p.sampleRateForAudio - p.time.start
          + p.endAllowance) * p.sampleRateForAudio) ∧
    (NodeRenderContext.construct E p ownerParams props playHead sys).numLatencySamplesToDrop
      = props.latencyNumSamples ∧
    (NodeRenderContext.construct E p ownerParams props playHead sys).hasStartedSavingToFile
      = true ∧
    (NodeRenderContext.construct E p ownerParams props playHead sys).samplesTrimmed = 0 ∧
    (NodeRenderContext.construct E p ownerParams props playHead sys).writer
      = some { isOpen := sys.writerOpens, numChannels := outputChannels p props,
               appended := [] } ∧
    (NodeRenderContext.construct E p ownerParams props playHead sys).status = Result.ok ∧
    (NodeRenderContext.construct E p ownerParams props playHead sys).thresholdForStopping = 0 ∧
    (NodeRenderContext.construct E p ownerParams props playHead sys).needsToNormaliseAndTrim
      = p.wantsPostPass ∧
    (NodeRenderContext.construct E p ownerParams props playHead sys).numOutputChans
      = outputChannels p props ∧
    (NodeRenderContext.construct E p ownerParams props playHead sys).rmsTotal = 0 ∧
    (NodeRenderContext.construct E p ownerParams props playHead sys).rmsNumSamps = 0 ∧
    (NodeRenderContext.construct E p ownerParams props playHead sys).analysedBlocks = [] := by
  rw [construct_ok E p ownerParams props playHead sys h hdest]
  obtain ⟨b1, b2, b3, b4, b5, b6, b7, b8, b9, b10, b11, b12, b13, b14, b15, b16, b17, b18, b19,
    b20⟩ := setupBookkeeping_fields E
      (NodeRenderContext.withWriter p ownerParams props playHead sys) sys
  obtain ⟨w1, w2, w3, w4, w5, w6, w7, w8, w9, w10, w11, w12, w13, w14, w15⟩ :=
    withWriter_fields p ownerParams props playHead sys
  generalize NodeRenderContext.withWriter p ownerParams props playHead sys = cw at *
  generalize cw.setupBookkeeping E sys = c at *
  unfold EditTimeRange.getStart at b13
  unfold EditTimeRange.getLength at b14
  rw [w1] at b13
  rw [w1, w2, w3, w4] at b14
  rw [w4, w5] at b10 b11
  rw [w6] at b15
  refine ⟨by rw [b1]; exact w1, by rw [b1]; exact w2, by rw [b1]; exact w3,
    by rw [b1]; exact w4, by rw [b1]; exact w5, b10, b11, b12.trans b11, b13, b14,
    b8.trans w9, by rw [b15]; rfl, b16, b4.trans w11, b3.trans w13, b7.trans w14,
    b6.trans w8, b5.trans w12, b18, b19, b9.trans w15⟩

theorem round_ge (E : Externals) (x : ℚ) (n : Int)
    (hr : |((E.roundToInt x : Int) : ℚ) - x| ≤ 1 / 2) (hx : (n : ℚ) ≤ x) :
    n ≤ E.roundToInt x := by
  have h1 := (abs_le.mp hr).1
  have h2 : ((n : Int) : ℚ) - 1 < ((E.roundToInt x : Int) : ℚ) := by linarith
  have h3 : n - 1 < E.roundToInt x := by exact_mod_cast h2
  omega

theorem round_le (E : Externals) (x : ℚ) (n : Int)
    (hr : |((E.roundToInt x : Int) : ℚ) - x| ≤ 1 / 2) (hx : x < (n : ℚ)) :
    E.roundToInt x ≤ n := by
  have h1 := (abs_le.mp hr).2
  have h2 : ((E.roundToInt x : Int) : ℚ) < ((n : Int) : ℚ) + 1 := by linarith
  have h3 : E.roundToInt x < n + 1 := by exact_mod_cast h2
  omega

theorem truncToInt_nonneg (x : ℚ) (hx : 0 ≤ x) : 0 ≤ truncToInt x := by
  unfold truncToInt
  rw [if_pos hx]
  exact Int.floor_nonneg.mpr hx

/-- The length of the render in samples is not negative. -/
theorem budgetInSamples_nonneg (E : Externals) (p : Parameters) (props : NodeProperties)
    (VP : ValidParams E p props) : 0 ≤ budgetInSamples p props := by
  unfold budgetInSamples
  have hR := VP.sampleRate_pos
  have hL : (0 : ℚ) ≤ (props.latencyNumSamples : ℚ) := by exact_mod_cast VP.latency_nonneg
  have hlat : 0 ≤ sampleToTime props.latencyNumSamples p.sampleRateForAudio := by
    unfold sampleToTime; positivity
  have h2 := VP.length_pos
  have h3 := VP.allowance_nonneg
  apply mul_nonneg _ (le_of_lt hR)
  linarith

/-- When the sample budget fits an `int`, `roundToInt` at line 148 returns an integer nearest
to the length of the render in samples. -/
theorem budget_near (E : Externals) (p : Parameters) (props : NodeProperties)
    (VP : ValidParams E p props) (BF : BudgetFits E p props) :
    |((E.roundToInt (budgetInSamples p props) : Int) : ℚ) - budgetInSamples p props| ≤ 1 / 2 :=
  BF.round_near _ (budgetInSamples_nonneg E p props VP) BF.budget_le

/-- A context constructed from valid parameters whose sample budget fits an `int`, with a
usable destination, is a valid start of the block loop. -/
theorem construct_validStart (E : Externals) (p ownerParams : Parameters)
    (props : NodeProperties) (playHead : PlayHead) (sys : SetupInput)
    (VP : ValidParams E p props) (BF : BudgetFits E p props)
    (hdest : workingDestFile p sys ≠ "" → sys.writerOpens = true) :
    ValidStart (NodeRenderContext.construct E p ownerParams props playHead sys) := by
  obtain ⟨c1, c2, c3, c4, c5, c6, c7, c8, c9, c10, c11, c12, c13, c14, _⟩ :=
    construct_fields E p ownerParams props playHead sys VP.hasAudio hdest
  have hnear := budget_near E p props VP BF
  unfold budgetInSamples at hnear
  have hR := VP.sampleRate_pos
  have hB := VP.blockSize_pos
  have hBq : (0 : ℚ) < (p.blockSizeForAudio : ℚ) := by exact_mod_cast hB
  have hL : (0 : ℚ) ≤ (props.latencyNumSamples : ℚ) := by exact_mod_cast VP.latency_nonneg
  have hlat : 0 ≤ sampleToTime props.latencyNumSamples p.sampleRateForAudio := by
    unfold sampleToTime; positivity
  have h1 : sampleToTime props.latencyNumSamples p.sampleRateForAudio * p.sampleRateForAudio
      = (props.latencyNumSamples : ℚ) := by
    unfold sampleToTime; field_simp
  refine ⟨by rw [c5]; exact hB, by rw [c5]; exact VP.blockSize_lt, ?_, ?_, ?_, ?_, ?_, ?_, ?_,
    c12, c13, ⟨_, c14⟩, by rw [c4]; exact hR, by rw [c6, c5, c4], ?_, ?_⟩
  · rw [c6]; positivity
  · unfold EditTimeRange.getStart EditTimeRange.getEnd
    rw [c1, c2]; have := VP.length_pos; linarith
  · rw [c3]; exact VP.allowance_nonneg
  · rw [c11]; exact VP.latency_nonneg
  · rw [c11, c10]
    apply round_ge E _ _ hnear
    have h1 : sampleToTime props.latencyNumSamples p.sampleRateForAudio * p.sampleRateForAudio
        = (props.latencyNumSamples : ℚ) := by
      unfold sampleToTime; field_simp
    have h2 := VP.length_pos
    have h3 := VP.allowance_nonneg
    have h4 : 0 ≤ (p.time.endTime - p.time.start + p.endAllowance) * p.sampleRateForAudio := by
      apply mul_nonneg _ (le_of_lt hR); linarith
    nlinarith
  · rw [c8]; apply truncToInt_nonneg; positivity
  · unfold EditTimeRange.getStart; rw [c1]; exact c9
  · unfold EditTimeRange.getLength
    rw [c10, c1, c2, c3, c4]
    exact hnear
  · unfold EditTimeRange.getLength
    rw [c11, c1, c2, c4]
    have h2 := VP.length_pos
    nlinarith

theorem renderBlocks_finished (E : Externals) (res : StepResult) (inps : List BlockInput)
    (h : res.finished = true) : renderBlocks E res inps = some res := by
  cases inps with
  | nil => rfl
  | cons inp rest => unfold renderBlocks; rw [if_pos h]

theorem renderBlocks_cons (E : Externals) (res next : StepResult) (inp : BlockInput)
    (rest : List BlockInput) (h : res.finished = false)
    (hn : res.ctx.renderNextBlock E res.progress inp = some next) :
    renderBlocks E res (inp :: rest) = renderBlocks E next rest := by
  conv_lhs => unfold renderBlocks
  rw [if_neg (by rw [h]; decide), hn]

theorem finishedAt_of_go (c0 c : NodeRenderContext) (V : ValidStart c0) (res : StepResult)
    (mag : ℚ) (hinv : RenderInv c0 c) (hterm : c.terminates mag) (hneg : c.precount < 0)
    (hs : SameSetup c0 res.ctx) (hw : Written c0 (-c.precount + 1) res.ctx)
    (hp : res.ctx.precount = c.precount) : FinishedAt c0 (-c.precount) res := by
  have hb := blockStart_of_inv c0 c hinv
  have hcast : ((-c.precount : Int) : ℚ) = -(c.precount : ℚ) := by push_cast; ring
  have hA := V.allowance_nonneg
  refine ⟨by omega, hs, hw, by rw [hp]; omega, ?_, ?_⟩
  · rw [hcast]
    rcases hterm with h | h
    · rw [hinv.setup.r_eq, hb] at h; linarith
    · rw [hinv.setup.r_eq, hb] at h; linarith [h.1]
  · rw [hcast]
    rcases hterm with h | h
    · left; rw [hinv.setup.r_eq, hb] at h; linarith
    · right; exact ⟨mag, by rw [← hinv.setup.threshold_eq]; exact h.2⟩

/-- The block loop on accepted inputs, from a state that satisfies the loop invariant:
every call returns a result, and the loop either has not finished and the invariant holds, or
has finished on the termination test of some steady-state call. -/
theorem renderBlocks_spec (E : Externals) (c0 : NodeRenderContext) (V : ValidStart c0)
    (inps : List BlockInput) :
    ∀ res0 : StepResult, res0.finished = false → RenderInv c0 res0.ctx →
      (∀ inp ∈ inps, inp.accepted) →
      ∃ res, renderBlocks E res0 inps = some res ∧
        ((res.finished = false ∧ RenderInv c0 res.ctx) ∨
         (res.finished = true ∧ ∃ k, FinishedAt c0 k res)) := by
  induction inps with
  | nil =>
    intro res0 h0 hinv _
    exact ⟨res0, rfl, Or.inl ⟨h0, hinv⟩⟩
  | cons inp rest ih =>
    intro res0 h0 hinv hacc
    obtain ⟨hexit, hok⟩ := hacc inp (List.mem_cons_self _ _)
    have hrest : ∀ i ∈ rest, i.accepted := fun i hi => hacc i (List.mem_cons_of_mem _ hi)
    cases hgo : (inp.leafNodesReady || inp.shouldExitWhileWaiting) with
    | false =>
      obtain ⟨res1, e1, e2, _, e4, _⟩ :=
        renderInv_wait E c0 res0.ctx res0.progress inp hinv hexit hgo
      rw [renderBlocks_cons E res0 res1 inp rest h0 e1]
      exact ih res1 e2 e4 hrest
    | true =>
      obtain ⟨res1, e1, e2, _, e4, e5⟩ :=
        renderInv_go E c0 res0.ctx res0.progress inp V hinv hexit hgo hok
      rw [renderBlocks_cons E res0 res1 inp rest h0 e1]
      cases hf : res1.finished with
      | false => exact ih res1 hf (e4 hf).1 hrest
      | true =>
        obtain ⟨g1, g2, g3, g4, _⟩ := e5 hf
        refine ⟨res1, renderBlocks_finished E res1 rest hf, Or.inr ⟨hf, -res0.ctx.precount, ?_⟩⟩
        exact finishedAt_of_go c0 res0.ctx V res1 inp.magnitudeAtEnd hinv (e2.mp hf) g1 g2 g3 g4

theorem terminates_of_late (c0 c : NodeRenderContext) (V : ValidStart c0)
    (hinv : RenderInv c0 c) (m : Int) (mag : ℚ)
    (hm : c0.r.time.getEnd + c0.r.endAllowance < c0.r.time.getStart + (m : ℚ) * c0.blockLength)
    (hle : c.precount + m ≤ 0) : c.terminates mag := by
  left
  rw [hinv.setup.r_eq, blockStart_of_inv c0 c hinv]
  have hbl := V.blockLength_pos
  have h1 : (m : ℚ) ≤ -(c.precount : ℚ) := by
    have : m ≤ -c.precount := by omega
    exact_mod_cast this
  nlinarith

/-- Termination of the block loop: when every leaf is ready in every call, no cancellation is
pending and the writer accepts every block, the loop finishes within `precount + m + 1`
calls, where `m` is a number of block lengths that exceeds the render length plus the end
allowance. -/
theorem renderBlocks_terminates (E : Externals) (c0 : NodeRenderContext) (V : ValidStart c0)
    (m : Int)
    (hm : c0.r.time.getEnd + c0.r.endAllowance < c0.r.time.getStart + (m : ℚ) * c0.blockLength)
    (n : Nat) :
    ∀ (res0 : StepResult) (inps : List BlockInput), res0.finished = false →
      RenderInv c0 res0.ctx → (∀ inp ∈ inps, inp.ready) →
      res0.ctx.precount + m ≤ n → n + 1 ≤ inps.length →
      ∃ res, renderBlocks E res0 inps = some res ∧ res.finished = true := by
  induction n with
  | zero =>
    intro res0 inps h0 hinv hready hle hlen
    cases inps with
    | nil => simp at hlen
    | cons inp rest =>
      obtain ⟨⟨hexit, hok⟩, hr⟩ := hready inp (List.mem_cons_self _ _)
      have hgo : (inp.leafNodesReady || inp.shouldExitWhileWaiting) = true := by simp [hr]
      obtain ⟨res1, e1, e2, _, _, _⟩ :=
        renderInv_go E c0 res0.ctx res0.progress inp V hinv hexit hgo hok
      rw [renderBlocks_cons E res0 res1 inp rest h0 e1]
      have hf : res1.finished = true :=
        e2.mpr (terminates_of_late c0 res0.ctx V hinv m _ hm (by simpa using hle))
      exact ⟨res1, renderBlocks_finished E res1 rest hf, hf⟩
  | succ n ih =>
    intro res0 inps h0 hinv hready hle hlen
    cases inps with
    | nil => simp at hlen
    | cons inp rest =>
      obtain ⟨⟨hexit, hok⟩, hr⟩ := hready inp (List.mem_cons_self _ _)
      have hgo : (inp.leafNodesReady || inp.shouldExitWhileWaiting) = true := by simp [hr]
      obtain ⟨res1, e1, e2, _, e4, _⟩ :=
        renderInv_go E c0 res0.ctx res0.progress inp V hinv hexit hgo hok
      rw [renderBlocks_cons E res0 res1 inp rest h0 e1]
      cases hf : res1.finished with
      | true => exact ⟨res1, renderBlocks_finished E res1 rest hf, hf⟩
      | false =>
        obtain ⟨g1, g2, _⟩ := e4 hf
        apply ih res1 rest hf g1 (fun i hi => hready i (List.mem_cons_of_mem _ hi))
        · rw [g2]; push_cast at hle; omega
        · simp only [List.length_cons] at hlen; omega

/-- A render with valid parameters and a usable destination, in which every leaf is ready in
every call, nothing is cancelled and the writer accepts every block, finishes within
`callBound` calls, on the termination test of a steady-state call. -/
theorem render_finishes (E : Externals) (p ownerParams : Parameters)
    (props : NodeProperties) (playHead : PlayHead) (sys : SetupInput)
    (inps : List BlockInput) (VP : ValidParams E p props) (BF : BudgetFits E p props)
    (hdest : workingDestFile p sys ≠ "" → sys.writerOpens = true)
    (hready : ∀ inp ∈ inps, inp.ready)
    (hlen : callBound p props ≤ inps.length) :
    ∃ res k, renderBlocks E
        (NodeRenderContext.construct E p ownerParams props playHead sys).start inps = some res ∧
      res.finished = true ∧
      FinishedAt (NodeRenderContext.construct E p ownerParams props playHead sys) k res := by
  have V := construct_validStart E p ownerParams props playHead sys VP BF hdest
  obtain ⟨c1, c2, c3, c4, c5, c6, c7, c8, _⟩ :=
    construct_fields E p ownerParams props playHead sys VP.hasAudio hdest
  have hinv := renderInv_start _ V
  generalize NodeRenderContext.construct E p ownerParams props playHead sys = c0 at *
  have hbl := V.blockLength_pos
  have hm : c0.r.time.getEnd + c0.r.endAllowance
      < c0.r.time.getStart
        + ((⌊(c0.r.time.getEnd - c0.r.time.getStart + c0.r.endAllowance) / c0.blockLength⌋ + 1
            : Int) : ℚ) * c0.blockLength := by
    have h := Int.lt_floor_add_one
      ((c0.r.time.getEnd - c0.r.time.getStart + c0.r.endAllowance) / c0.blockLength)
    have h2 := (div_lt_iff₀ hbl).mp h
    push_cast
    linarith
  have hP := V.precount_nonneg
  have hbound : callBound p props
      = c0.precount
        + (⌊(c0.r.time.getEnd - c0.r.time.getStart + c0.r.endAllowance) / c0.blockLength⌋ + 1)
        + 1 := by
    unfold callBound EditTimeRange.getEnd EditTimeRange.getStart
    rw [c1, c2, c3, c6, c8]
    ring
  have hacc : ∀ inp ∈ inps, inp.accepted := fun i hi => (hready i hi).1
  have hfloor : 0 ≤ ⌊(c0.r.time.getEnd - c0.r.time.getStart + c0.r.endAllowance)
      / c0.blockLength⌋ := by
    apply Int.floor_nonneg.mpr
    apply div_nonneg _ (le_of_lt hbl)
    have := V.range_ok
    have := V.allowance_nonneg
    linarith
  obtain ⟨res, e1, e2⟩ := renderBlocks_terminates E c0 V _ hm
    (c0.precount
      + (⌊(c0.r.time.getEnd - c0.r.time.getStart + c0.r.endAllowance) / c0.blockLength⌋
          + 1)).toNat
    c0.start inps rfl hinv hready
    (by rw [Int.toNat_of_nonneg (by omega)]; exact le_refl _)
    (by
      have h1 : ((c0.precount
          + (⌊(c0.r.time.getEnd - c0.r.time.getStart + c0.r.endAllowance) / c0.blockLength⌋
            + 1)).toNat : Int) + 1 ≤ (inps.length : Int) := by
        rw [Int.toNat_of_nonneg (by omega), ← hbound]; exact hlen
      exact_mod_cast h1)
  obtain ⟨res', e3, e4⟩ := renderBlocks_spec E c0 V inps c0.start rfl hinv hacc
  have hres : res' = res := by rw [e1] at e3; exact (Option.some.inj e3).symm
  subst hres
  rcases e4 with ⟨h, _⟩ | ⟨_, k, hk⟩
  · rw [e2] at h; exact absurd h (by decide)
  · exact ⟨res', k, e1, e2, hk⟩

theorem referenceExternals_round_near (x : ℚ) :
    |((referenceExternals.roundToInt x : Int) : ℚ) - x| ≤ 1 / 2 := by
  show |((⌊x + 1 / 2⌋ : Int) : ℚ) - x| ≤ 1 / 2
  have h1 := Int.floor_le (x + 1 / 2)
  have h2 := Int.lt_floor_add_one (x + 1 / 2)
  rw [abs_le]
  constructor <;> linarith

theorem referenceExternals_round_shift (x : ℚ) (n : Int) :
    referenceExternals.roundToInt (x + (n : ℚ)) = referenceExternals.roundToInt x + n := by
  show ⌊x + (n : ℚ) + 1 / 2⌋ = ⌊x + 1 / 2⌋ + n
  rw [show x + (n : ℚ) + 1 / 2 = x + 1 / 2 + (n : ℚ) by ring, Int.floor_add_int]

theorem exampleParams_valid (latency : Int) (h : 0 ≤ latency) :
    ValidParams referenceExternals exampleParams (exampleProps latency) :=
  { sampleRate_pos := by norm_num [exampleParams]
    blockSize_pos := by norm_num [exampleParams]
    blockSize_lt := by norm_num [exampleParams]
    length_pos := by norm_num [exampleParams]
    allowance_nonneg := by norm_num [exampleParams]
    hasAudio := rfl
    latency_nonneg := h }

/-- The budget of the 2 s example fits an `int` for latencies up to a million samples. -/
theorem exampleParams_fits (latency : Int) (h0 : 0 ≤ latency) (h : latency ≤ 1000000) :
    BudgetFits referenceExternals exampleParams (exampleProps latency) :=
  { budget_le := by
      have hq : (latency : ℚ) ≤ 1000000 := by exact_mod_cast h
      simp only [budgetInSamples, exampleParams, exampleProps, sampleToTime]
      norm_num
      linarith
    round_near := fun x _ _ => referenceExternals_round_near x }

theorem finishedAt_latency_lt (c0 : NodeRenderContext) (V : ValidStart c0) (k : Int)
    (res : StepResult) (hk : FinishedAt c0 k res) :
    c0.numLatencySamplesToDrop < k * c0.r.blockSizeForAudio := by
  have hR := V.rate_pos
  have h1 := hk.past_end
  have h2 := V.latency_fits
  unfold EditTimeRange.getLength at h2
  unfold EditTimeRange.getStart EditTimeRange.getEnd at h1
  rw [V.blockLength_eq] at h1
  have h3 : (k : ℚ) * ((c0.r.blockSizeForAudio : ℚ) / c0.r.sampleRateForAudio)
      * c0.r.sampleRateForAudio = (k : ℚ) * (c0.r.blockSizeForAudio : ℚ) := by field_simp
  have h4 : (c0.r.time.endTime - c0.r.time.start) * c0.r.sampleRateForAudio
      < (k : ℚ) * ((c0.r.blockSizeForAudio : ℚ) / c0.r.sampleRateForAudio)
        * c0.r.sampleRateForAudio := by
    apply mul_lt_mul_of_pos_right _ hR
    linarith
  have h5 : (c0.numLatencySamplesToDrop : ℚ) < ((k * c0.r.blockSizeForAudio : Int) : ℚ) := by
    push_cast; rw [← h3]; linarith
  exact_mod_cast h5

theorem finishedAt_drop_zero (c0 : NodeRenderContext) (V : ValidStart c0) (k : Int)
    (res : StepResult) (hk : FinishedAt c0 k res) : res.ctx.numLatencySamplesToDrop = 0 := by
  have h1 := finishedAt_latency_lt c0 V k res hk
  have h2 := hk.written.drop_eq
  have hB := V.blockSize_pos
  have hmul : (k + 1) * c0.r.blockSizeForAudio
      = k * c0.r.blockSizeForAudio + c0.r.blockSizeForAudio := by ring
  rw [hmul] at h2
  generalize k * c0.r.blockSizeForAudio = x at *
  omega

/-- The latency still to drop after a call that processes a block and whose append is
accepted: unchanged by a warm-up block, lowered by the smaller of what remains and what the
block takes from the budget by a steady-state block. -/
theorem renderNextBlock_drop (E : Externals) (c0 c : NodeRenderContext) (p : ℚ)
    (inp : BlockInput) (V : ValidStart c0) (hinv : RenderInv c0 c) (hacc : inp.accepted)
    (hgo : (inp.leafNodesReady || inp.shouldExitWhileWaiting) = true) :
    ∃ next, c.renderNextBlock E p inp = some next ∧
      next.ctx.numLatencySamplesToDrop
        = c.numLatencySamplesToDrop
          - (if c.precount ≤ 0 then min c.numLatencySamplesToDrop c.samplesTaken else 0) := by
  obtain ⟨hexit, hok⟩ := hacc
  obtain ⟨w, w0, hw, hw0, hopen, hsum⟩ := hinv.written.writer_ok
  obtain ⟨h0, hd⟩ := books_nonneg c0 c V _ hinv.written
  have hB : 0 < c.r.blockSizeForAudio := by rw [hinv.setup.r_eq]; exact V.blockSize_pos
  have hB2 : c.r.blockSizeForAudio < 2 ^ 31 := by rw [hinv.setup.r_eq]; exact V.blockSize_lt
  obtain ⟨_, _, hdrop⟩ := samplesTaken_bounds c h0 hd hB
  obtain ⟨res, wr, c', hres, s1, s2, s3, s4, s5, s6, s7, s8, s9, s10⟩ :=
    renderNextBlock_go E c p inp w hexit hgo hw hinv.written.started h0 hd hB hB2
  have hwr : wr = WriteResult.succeeded := by
    by_cases hp : 0 < c.precount
    · exact (s7 hp).1
    · have h := (s8 (not_lt.mp hp)).2.2.1
      cases wr with
      | succeeded => rfl
      | failed =>
        have h2 := (h.mp rfl).2.2
        rw [hok] at h2
        exact absurd h2 (by decide)
  have hfin := s10 hwr
  obtain ⟨_, _, _, f4⟩ := finishBlock_spec c' c.blockEnd p inp.magnitudeAtEnd
  rw [← hfin] at f4
  refine ⟨res, hres, ?_⟩
  rw [f4.drop_eq]
  by_cases hp : c.precount ≤ 0
  · rw [if_pos hp, (s8 hp).2.1, hdrop]
  · rw [if_neg hp, (s7 (not_le.mp hp)).2.drop_eq]; ring

theorem analyseBlock_time (E : Externals) (c : NodeRenderContext) (block : AudioBlock) :
    (c.analyseBlock E block).streamTime = c.streamTime ∧
    (c.analyseBlock E block).precount = c.precount := by
  rw [analyseBlock_eq]; exact ⟨rfl, rfl⟩

theorem writeAudioBlock_time (E : Externals) (c c' : NodeRenderContext) (block : AudioBlock)
    (ok : Bool) (wr : WriteResult) (h : c.writeAudioBlock E block ok = some (wr, c')) :
    c'.streamTime = c.streamTime ∧ c'.precount = c.precount := by
  obtain ⟨a1, a2⟩ := analyseBlock_time E c block
  rcases writeAudioBlock_some E c c' block ok wr h with h1 | ⟨w, _, _, _, _, _, _, h1⟩
  · rw [h1]; exact ⟨a1, a2⟩
  · obtain ⟨_, _, g3, g4, _⟩ := setWriter_fields (c.analyseBlock E block)
      (some (w.appendBuffer (sizeTToInt block.numSamples)))
    rw [h1]; exact ⟨g3.trans a1, g4.trans a2⟩

/-- With a writer in place `writeAudioBlock` returns a result, and it reports a failure only when
the writer rejects the block. -/
theorem writeAudioBlock_total (E : Externals) (c : NodeRenderContext) (block : AudioBlock)
    (ok : Bool) (w : AudioFileWriter) (hw : c.writer = some w) :
    ∃ wr c', c.writeAudioBlock E block ok = some (wr, c') ∧
      (wr = WriteResult.failed → ok = false) := by
  have h1 := analyseBlock_writer E c block
  rw [hw] at h1
  unfold NodeRenderContext.writeAudioBlock
  simp only []
  generalize c.analyseBlock E block = a at h1 ⊢
  by_cases hc : (decide (sizeTToInt block.numSamples > 0) && a.hasStartedSavingToFile) = true
  · rw [if_pos hc, h1]
    cases ho : w.isOpen with
    | false => exact ⟨WriteResult.succeeded, a, by simp [ho], fun h => absurd h (by decide)⟩
    | true =>
      cases hk : ok with
      | false => exact ⟨WriteResult.failed, a, by simp [ho, hk], fun _ => rfl⟩
      | true =>
        exact ⟨WriteResult.succeeded, { a with writer := some (w.appendBuffer
          (sizeTToInt block.numSamples)) }, by simp [ho, hk], fun h => absurd h (by decide)⟩
  · rw [if_neg hc]
    exact ⟨WriteResult.succeeded, a, rfl, fun h => absurd h (by decide)⟩

theorem planWrite_writer (c : NodeRenderContext) (n : Nat) :
    (c.planWrite n).ctx.writer = c.writer ∧ (c.planWrite n).ctx.streamTime = c.streamTime ∧
    (c.planWrite n).ctx.precount = c.precount := by
  rw [planWrite_eq]; exact ⟨rfl, rfl, rfl⟩

/-- With a writer in place the write path returns a result, which is a failure only when the
writer rejects a block; it moves neither the stream time nor `precount`. -/
theorem writeOrWarmUp_total (E : Externals) (c : NodeRenderContext) (destBlock : AudioBlock)
    (ok : Bool) (w : AudioFileWriter) (hw : c.writer = some w) :
    ∃ wr c', c.writeOrWarmUp E destBlock ok = some (wr, c') ∧
      (wr = WriteResult.failed → ok = false) ∧
      c'.streamTime = c.streamTime ∧ c'.precount = c.precount := by
  by_cases hp : c.precount ≤ 0
  · obtain ⟨p1, p2, p3⟩ := planWrite_writer c destBlock.numSamples
    rw [writeOrWarmUp_steady E c destBlock ok hp]
    by_cases hpos : (c.planWrite destBlock.numSamples).blockSize > 0
    · rw [if_pos hpos]
      obtain ⟨wr, c', e1, e2⟩ := writeAudioBlock_total E (c.planWrite destBlock.numSamples).ctx
        (destBlock.getSubBlock (c.planWrite destBlock.numSamples).blockOffset
          (c.planWrite destBlock.numSamples).blockSize) ok w (p1.trans hw)
      obtain ⟨t1, t2⟩ := writeAudioBlock_time E _ c' _ ok wr e1
      exact ⟨wr, c', e1, e2, t1.trans p2, t2.trans p3⟩
    · rw [if_neg hpos]
      exact ⟨WriteResult.succeeded, _, rfl, fun h => absurd h (by decide), p2, p3⟩
  · rw [writeOrWarmUp_warm E c destBlock ok (not_le.mp hp)]
    exact ⟨WriteResult.succeeded, _, rfl, fun h => absurd h (by decide), rfl, rfl⟩

theorem smallParams_valid (trim : Bool) :
    ValidParams referenceExternals (smallParams trim) (exampleProps 0) :=
  { sampleRate_pos := by norm_num [smallParams]
    blockSize_pos := by norm_num [smallParams]
    blockSize_lt := by norm_num [smallParams]
    length_pos := by norm_num [smallParams]
    allowance_nonneg := by norm_num [smallParams, exampleParams]
    hasAudio := rfl
    latency_nonneg := by norm_num [exampleProps] }

theorem smallParams_fits (trim : Bool) :
    BudgetFits referenceExternals (smallParams trim) (exampleProps 0) :=
  { budget_le := by
      simp only [budgetInSamples, smallParams, exampleParams, exampleProps, sampleToTime]
      norm_num
    round_near := fun x _ _ => referenceExternals_round_near x }

theorem smallContext_valid (trim : Bool) : ValidStart (smallContext trim) :=
  construct_validStart referenceExternals (smallParams trim) (smallParams trim) (exampleProps 0)
    stoppedPlayHead exampleSetup (smallParams_valid trim) (smallParams_fits trim) (fun _ => rfl)

/-- The numbers of the short render: one warm-up block, a budget of 875 samples, no latency,
a block length of 3/4 s, an open writer, status ok. -/
theorem smallContext_fields (trim : Bool) :
    (smallContext trim).precount = 1 ∧ (smallContext trim).samplesToWrite = 875 ∧
    (smallContext trim).numLatencySamplesToDrop = 0 ∧ (smallContext trim).blockLength = 3 / 4 ∧
    (smallContext trim).r.blockSizeForAudio = 750 ∧ (smallContext trim).r.time.getStart = 0 ∧
    (smallContext trim).r.time.getEnd = 7 / 8 ∧ (smallContext trim).r.endAllowance = 0 ∧
    (smallContext trim).status = Result.ok ∧
    (smallContext trim).needsToNormaliseAndTrim = trim ∧
    (smallContext trim).writer = some { isOpen := true, numChannels := 2, appended := [] } := by
  obtain ⟨c1, c2, c3, c4, c5, c6, c7, c8, c9, c10, c11, c12, c13, c14, c15, c16, c17, _⟩ :=
    construct_fields referenceExternals (smallParams trim) (smallParams trim) (exampleProps 0)
      stoppedPlayHead exampleSetup rfl (fun _ => rfl)
  unfold smallContext EditTimeRange.getStart EditTimeRange.getEnd
  refine ⟨?_, ?_, ?_, ?_, ?_, ?_, ?_, ?_, c15, ?_, ?_⟩
  · rw [c8]; norm_num [smallParams, truncToInt]
  · rw [c10]; norm_num [smallParams, exampleParams, exampleProps, referenceExternals, sampleToTime]
  · rw [c11]; rfl
  · rw [c6]; norm_num [smallParams]
  · rw [c5]; rfl
  · rw [c1]; rfl
  · rw [c2]; norm_num [smallParams, exampleProps, sampleToTime]
  · rw [c3]; rfl
  · rw [c17]; cases trim <;> rfl
  · rw [c14]; rfl

/-- The first call of the short render is a warm-up block: it returns false and leaves a
context at `precount = 0` that satisfies the loop invariant. -/
theorem smallWarmedUp_spec (trim : Bool) :
    (smallContext trim).renderNextBlock referenceExternals 0 (constantInput 750 (1 / 2))
      = some (smallWarmedUp trim) ∧
    (smallWarmedUp trim).finished = false ∧
    RenderInv (smallContext trim) (smallWarmedUp trim).ctx ∧
    (smallWarmedUp trim).ctx.precount = 0 := by
  have V := smallContext_valid trim
  obtain ⟨res, e1, e2, _, e4, _⟩ := renderInv_go referenceExternals (smallContext trim)
    (smallContext trim) 0 (constantInput 750 (1 / 2)) V (renderInv_start _ V) rfl rfl rfl
  have hres : smallWarmedUp trim = res := by unfold smallWarmedUp; rw [e1]; rfl
  rw [hres]
  have hf : res.finished = false := by
    cases hf : res.finished with
    | false => rfl
    | true =>
      have hneg := terminates_steady _ _ V (renderInv_start _ V) _ (e2.mp hf)
      have := V.precount_nonneg
      omega
  obtain ⟨g1, g2, _⟩ := e4 hf
  refine ⟨e1, hf, g1, ?_⟩
  rw [g2, (smallContext_fields trim).1]; rfl

/-- The books of the short render after its warm-up block: `precount` 0, stream time 0, the
whole budget of 875 samples, nothing to drop, saving started, an open writer without samples,
status ok; the next block takes 750 samples and drops none. -/
theorem smallWarmedUp_books (trim : Bool) :
    (smallWarmedUp trim).ctx.precount = 0 ∧ (smallWarmedUp trim).ctx.samplesToWrite = 875 ∧
    (smallWarmedUp trim).ctx.numLatencySamplesToDrop = 0 ∧
    (smallWarmedUp trim).ctx.r.blockSizeForAudio = 750 ∧
    (smallWarmedUp trim).ctx.samplesTaken = 750 ∧ (smallWarmedUp trim).ctx.samplesDropped = 0 ∧
    (smallWarmedUp trim).ctx.hasStartedSavingToFile = true ∧
    (smallWarmedUp trim).ctx.samplesTrimmed = 0 ∧
    (smallWarmedUp trim).ctx.status = Result.ok ∧
    (smallWarmedUp trim).ctx.blockStart = 0 ∧
    ∃ w, (smallWarmedUp trim).ctx.writer = some w ∧ w.isOpen = true ∧
      w.samplesAppended = 0 := by
  obtain ⟨_, _, hinv, hp⟩ := smallWarmedUp_spec trim
  obtain ⟨f1, f2, f3, _, f5, f6, _, _, f9, _, f11⟩ := smallContext_fields trim
  obtain ⟨w, w0, hw, hw0, hopen, hsum⟩ := hinv.written.writer_ok
  rw [f11] at hw0
  have hw0' : w0 = { isOpen := true, numChannels := 2, appended := [] } :=
    (Option.some.inj hw0).symm
  have hopen' : w.isOpen = true := by rw [hopen, hw0']
  have hb := hinv.written.budget_eq
  have hdr := hinv.written.drop_eq
  rw [hp, f2, f5] at hb
  rw [hp, f3, f5] at hdr
  have hb' : (smallWarmedUp trim).ctx.samplesToWrite = 875 := by rw [hb]; decide
  have hdr' : (smallWarmedUp trim).ctx.numLatencySamplesToDrop = 0 := by rw [hdr]; decide
  have hB : (smallWarmedUp trim).ctx.r.blockSizeForAudio = 750 := by
    rw [hinv.setup.r_eq]; exact f5
  have htaken : (smallWarmedUp trim).ctx.samplesTaken = 750 := by
    unfold NodeRenderContext.samplesTaken; rw [hb', hB]; decide
  have hdropped : (smallWarmedUp trim).ctx.samplesDropped = 0 := by
    unfold NodeRenderContext.samplesDropped; rw [hdr']; simp
  refine ⟨hp, hb', hdr', hB, htaken, hdropped, hinv.written.started, hinv.written.trimmed,
    by rw [hinv.setup.status_eq]; exact f9, ?_, w, hw, hopen', ?_⟩
  · unfold NodeRenderContext.blockStart
    rw [if_pos hp, hinv.setup.r_eq]; exact f6
  · have := hsum (by rw [hw0'])
    rw [this, hw0', hp, f2, f3, f5]; decide

/-- The second call of the short render is its first steady-state block: it returns false,
750 samples are appended whatever the graph rendered, nothing is trimmed, and the next block
starts at 3/4 s. -/
theorem smallSteady_spec (trim : Bool) (v : ℚ) :
    (smallWarmedUp trim).ctx.renderNextBlock referenceExternals (smallWarmedUp trim).progress
        (constantInput 750 v) = some (smallSteady trim v) ∧
    (smallSteady trim v).finished = false ∧
    RenderInv (smallContext trim) (smallSteady trim v).ctx ∧
    (smallSteady trim v).ctx.precount = -1 ∧
    (smallSteady trim v).ctx.samplesTrimmed = 0 ∧
    (smallSteady trim v).ctx.blockStart = 3 / 4 ∧
    ∃ w, (smallSteady trim v).ctx.writer = some w ∧ w.isOpen = true ∧
      w.samplesAppended = 750 := by
  have V := smallContext_valid trim
  obtain ⟨_, _, hinv, hp⟩ := smallWarmedUp_spec trim
  obtain ⟨f1, f2, f3, f4, f5, f6, f7, f8, f9, _, f11⟩ := smallContext_fields trim
  obtain ⟨res, e1, e2, _, e4, _⟩ := renderInv_go referenceExternals (smallContext trim)
    (smallWarmedUp trim).ctx (smallWarmedUp trim).progress (constantInput 750 v) V hinv
    rfl rfl rfl
  have hres : smallSteady trim v = res := by unfold smallSteady; rw [e1]; rfl
  rw [hres]
  have hf : res.finished = false := by
    cases hf : res.finished with
    | false => rfl
    | true =>
      have hneg := terminates_steady _ _ V hinv _ (e2.mp hf)
      omega
  obtain ⟨g1, g2, _⟩ := e4 hf
  have hp2 : res.ctx.precount = -1 := by rw [g2, hp]; rfl
  obtain ⟨w, w0, hw, hw0, hopen, hsum⟩ := g1.written.writer_ok
  rw [f11] at hw0
  have hw0' : w0 = { isOpen := true, numChannels := 2, appended := [] } :=
    (Option.some.inj hw0).symm
  refine ⟨e1, hf, g1, hp2, g1.written.trimmed, ?_, w, hw, by rw [hopen, hw0'], ?_⟩
  · rw [blockStart_of_inv _ _ g1, hp2, f6, f4]; norm_num
  · have := hsum (by rw [hw0'])
    rw [this, hw0', hp2, f2, f3, f5]; decide

/-- A call on a started, steady-state context whose open writer rejects a non-empty sub-block
returns true at once, appends nothing and keeps the status. -/
theorem renderNextBlock_rejected (E : Externals) (c : NodeRenderContext) (p : ℚ)
    (inp : BlockInput) (w : AudioFileWriter) (hexit : inp.shouldExit = false)
    (hgo : (inp.leafNodesReady || inp.shouldExitWhileWaiting) = true)
    (hw : c.writer = some w) (hopen : w.isOpen = true)
    (hs : c.hasStartedSavingToFile = true) (hpre : c.precount ≤ 0)
    (h0 : 0 ≤ c.samplesToWrite) (hd : 0 ≤ c.numLatencySamplesToDrop)
    (hB : 0 < c.r.blockSizeForAudio) (hB2 : c.r.blockSizeForAudio < 2 ^ 31)
    (hpos : 0 < c.samplesTaken - c.samplesDropped) (hrej : inp.appendOk = false) :
    ∃ res, c.renderNextBlock E p inp = some res ∧ res.finished = true ∧ res.progress = p ∧
      res.ctx.streamTime = c.blockStart ∧ res.ctx.precount = c.precount ∧
      res.ctx.writer = some w ∧ res.ctx.getStatus = c.getStatus := by
  obtain ⟨res, wr, c', hres, s1, s2, s3, _, _, _, _, s8, s9, _⟩ :=
    renderNextBlock_go E c p inp w hexit hgo hw hs h0 hd hB hB2
  obtain ⟨_, _, t3, t4⟩ := s8 hpre
  have hwr : wr = WriteResult.failed := t3.mpr ⟨hpos, hopen, hrej⟩
  have hr := s9 hwr
  have hno : ¬ (0 < c.samplesTaken - c.samplesDropped ∧ w.isOpen = true ∧ inp.appendOk = true) := by
    rw [hrej]; intro h; exact absurd h.2.2 (by decide)
  rw [if_neg hno] at t4
  refine ⟨res, hres, ?_, ?_, ?_, ?_, ?_, ?_⟩
  · rw [hr]
  · rw [hr]
  · rw [hr]; exact s2
  · rw [hr]; exact s3
  · rw [hr]; exact t4
  · rw [hr]; exact s1.status_eq

/-- The status and the writer a constructed context has, in each of the three outcomes of the
constructor. -/
theorem construct_status (E : Externals) (p ownerParams : Parameters)
    (props : NodeProperties) (playHead : PlayHead) (sys : SetupInput) :
    (NodeRenderContext.construct E p ownerParams props playHead sys).getStatus
      = (if props.hasAudio = false then Result.fail "Didn't find any audio to render"
         else if workingDestFile p sys ≠ "" ∧ sys.writerOpens = false
           then Result.fail "Couldn't write to target file"
         else Result.ok) ∧
    (NodeRenderContext.construct E p ownerParams props playHead sys).writer
      = (if props.hasAudio = false then none
         else some { isOpen := sys.writerOpens, numChannels := outputChannels p props,
                     appended := [] }) ∧
    (NodeRenderContext.construct E p ownerParams props playHead sys).numOutputChans
      = (if props.hasAudio = false then 2 else outputChannels p props) := by
  unfold NodeRenderContext.getStatus
  cases ha : props.hasAudio with
  | false =>
    rw [construct_noAudio E p ownerParams props playHead sys ha]
    obtain ⟨_, _, _, _, _, _, _, _, _, _, _, _, _, f14, _⟩ := setupLatencyAndPostPass_fields
      (NodeRenderContext.initial p ownerParams playHead sys.hasSourceToUpdate) props sys
    exact ⟨rfl, f14, rfl⟩
  | true =>
    obtain ⟨_, _, _, _, _, _, _, _, _, _, w11, w12, w13, _⟩ :=
      withWriter_fields p ownerParams props playHead sys
    by_cases hd : workingDestFile p sys ≠ "" ∧ sys.writerOpens = false
    · rw [construct_cannotWrite E p ownerParams props playHead sys ha hd.1 hd.2]
      have ht : ¬ (true = false) := by decide
      refine ⟨?_, ?_, ?_⟩
      · rw [if_neg ht, if_pos hd]
      · rw [if_neg ht]; exact w11
      · rw [if_neg ht]; exact w12
    · have hdest : workingDestFile p sys ≠ "" → sys.writerOpens = true := by
        intro h1
        cases ho : sys.writerOpens with
        | true => rfl
        | false => exact absurd ⟨h1, ho⟩ hd
      obtain ⟨_, _, _, _, _, _, _, _, _, _, _, _, _, c14, c15, _, _, c18, _⟩ :=
        construct_fields E p ownerParams props playHead sys ha hdest
      have ht : ¬ (true = false) := by decide
      refine ⟨?_, ?_, ?_⟩
      · rw [if_neg ht, if_neg hd]; exact c15
      · rw [if_neg ht]; exact c14
      · rw [if_neg ht]; exact c18

theorem outputChannels_cases (p : Parameters) (props : NodeProperties) :
    outputChannels p props = 1 ∨ outputChannels p props = 2 := by
  unfold outputChannels
  split_ifs
  · exact Or.inl rfl
  · exact Or.inr rfl

/-- The members assigned by the constructor only are the same at every point of the block
loop. -/
theorem renderBlocks_sameSetup (E : Externals) (inps : List BlockInput) :
    ∀ res0 res : StepResult, renderBlocks E res0 inps = some res →
      SameSetup res0.ctx res.ctx := by
  induction inps with
  | nil =>
    intro res0 res h
    have : res0 = res := Option.some.inj h
    rw [this]; exact SameSetup.refl _
  | cons inp rest ih =>
    intro res0 res h
    cases hf : res0.finished with
    | true =>
      rw [renderBlocks_finished E res0 _ hf] at h
      have : res0 = res := Option.some.inj h
      rw [this]; exact SameSetup.refl _
    | false =>
      cases hn : res0.ctx.renderNextBlock E res0.progress inp with
      | none =>
        unfold renderBlocks at h
        rw [if_neg (by rw [hf]; decide), hn] at h
        exact absurd h (by simp)
      | some next =>
        rw [renderBlocks_cons E res0 next inp rest hf hn] at h
        exact (sameSetup_renderNextBlock E _ _ _ _ hn).trans (ih next res h)

/-- On a context that has started saving, `writeAudioBlock` appends every non-empty block that
an open writer accepts, and counts nothing as trimmed. -/
theorem writeAudioBlock_appends (E : Externals) (c : NodeRenderContext) (block : AudioBlock)
    (w : AudioFileWriter) (hw : c.writer = some w) (hs : c.hasStartedSavingToFile = true)
    (hopen : w.isOpen = true) (hpos : 0 < sizeTToInt block.numSamples) :
    ∃ c', c.writeAudioBlock E block true = some (WriteResult.succeeded, c') ∧
      c'.writer = some (w.appendBuffer (sizeTToInt block.numSamples)) ∧
      c'.samplesTrimmed = c.samplesTrimmed ∧ c'.hasStartedSavingToFile = true := by
  have h := writeAudioBlock_started E c block true w hw hs
  have hc : 0 < sizeTToInt block.numSamples ∧ w.isOpen = true ∧ true = true := ⟨hpos, hopen, rfl⟩
  have hn : ¬ (0 < sizeTToInt block.numSamples ∧ w.isOpen = true ∧ true = false) := by
    intro h1; exact absurd h1.2.2 (by decide)
  rw [if_pos hc, if_neg hn] at h
  obtain ⟨_, _, _, _, a5, _⟩ := analyseBlock_fields E c block hs
  have a6 := analyseBlock_started E c block hs
  obtain ⟨_, _, _, _, g5, g6, g7, _⟩ := setWriter_fields (c.analyseBlock E block)
    (some (w.appendBuffer (sizeTToInt block.numSamples)))
  exact ⟨_, h, g7, g5.trans a5, g6.trans a6⟩

/-- In every state the block loop reaches on accepted inputs, saving has started and no sample
has been counted as trimmed. -/
theorem renderBlocks_started (E : Externals) (c0 : NodeRenderContext) (V : ValidStart c0)
    (inps : List BlockInput) (hacc : ∀ inp ∈ inps, inp.accepted) :
    ∃ res, renderBlocks E c0.start inps = some res ∧
      res.ctx.hasStartedSavingToFile = true ∧ res.ctx.samplesTrimmed = 0 := by
  obtain ⟨res, e1, e2⟩ := renderBlocks_spec E c0 V inps c0.start rfl (renderInv_start c0 V) hacc
  rcases e2 with ⟨_, hinv⟩ | ⟨_, k, hk⟩
  · exact ⟨res, e1, hinv.written.started, hinv.written.trimmed⟩
  · exact ⟨res, e1, hk.written.started, hk.written.trimmed⟩

/-- A call that processes a block on a context with a writer that accepts what is appended
returns the outcome of the termination test and progress report (lines 288-310), taken on a
context with the setup of `c` whose stream time is the start of the block. -/
theorem renderNextBlock_accepted (E : Externals) (c : NodeRenderContext) (p : ℚ)
    (inp : BlockInput) (w : AudioFileWriter) (hw : c.writer = some w)
    (hexit : inp.shouldExit = false)
    (hgo : (inp.leafNodesReady || inp.shouldExitWhileWaiting) = true)
    (hok : inp.appendOk = true) :
    ∃ c', c.renderNextBlock E p inp = some (c'.finishBlock c.blockEnd p inp.magnitudeAtEnd) ∧
      SameSetup c c' ∧ c'.streamTime = c.blockStart ∧ c'.precount = c.precount := by
  obtain ⟨q1, q2, q3, q4, _⟩ := processed_fields E c inp
  have hproc := renderNextBlock_process E c p inp hexit hgo
  change c.renderNextBlock E p inp
      = match (c.processed E inp).writeOrWarmUp E (c.destBlock E inp) inp.appendOk with
        | none => none
        | some (WriteResult.failed, c') => some { finished := true, ctx := c', progress := p }
        | some (WriteResult.succeeded, c') =>
          some (c'.finishBlock c.blockEnd p inp.magnitudeAtEnd) at hproc
  obtain ⟨wr, c', e1, e2, e3, e4⟩ := writeOrWarmUp_total E (c.processed E inp)
    (c.destBlock E inp) inp.appendOk w (q2.writer_eq.trans hw)
  have hs := q1.trans (sameSetup_writeOrWarmUp E _ _ _ _ _ e1)
  rw [e1] at hproc
  cases wr with
  | failed => rw [hok] at e2; exact absurd (e2 rfl) (by decide)
  | succeeded => exact ⟨c', hproc, hs, e3.trans q3, e4.trans q4⟩

theorem getLength_eq (t : EditTimeRange) : t.getLength = t.getEnd - t.getStart := rfl

/-- The third call of the short render (its second steady-state block, which starts at 3/4 s
of a render that ends at 7/8 s) returns false, with the progress value of the code. -/
theorem smallThird_spec :
    ∃ res, (smallSteady false (1 / 2)).ctx.renderNextBlock referenceExternals
        (smallSteady false (1 / 2)).progress (constantInput 750 (1 / 2)) = some res ∧
      res.finished = false ∧ res.progress = (smallSteady false (1 / 2)).ctx.progressValue ∧
      (smallSteady false (1 / 2)).ctx.progressValue = 3 / 4 ∧
      progressBySpec (smallSteady false (1 / 2)).ctx = 6 / 7 := by
  have V := smallContext_valid false
  obtain ⟨_, _, hinv, hp, _, hb, _⟩ := smallSteady_spec false (1 / 2)
  obtain ⟨_, _, _, _, _, f6, f7, f8, _, f10, _⟩ := smallContext_fields false
  obtain ⟨res, e1, e2, _, e4, _⟩ := renderInv_go referenceExternals (smallContext false)
    (smallSteady false (1 / 2)).ctx (smallSteady false (1 / 2)).progress
    (constantInput 750 (1 / 2)) V hinv rfl rfl rfl
  have hstart : (smallSteady false (1 / 2)).ctx.r.time.getStart = 0 := by
    rw [hinv.setup.r_eq]; exact f6
  have hend : (smallSteady false (1 / 2)).ctx.r.time.getEnd = 7 / 8 := by
    rw [hinv.setup.r_eq]; exact f7
  have hlen : (smallSteady false (1 / 2)).ctx.r.time.getLength = 7 / 8 := by
    rw [getLength_eq, hstart, hend]; norm_num
  have hall : (smallSteady false (1 / 2)).ctx.r.endAllowance = 0 := by
    rw [hinv.setup.r_eq]; exact f8
  have hneeds : (smallSteady false (1 / 2)).ctx.needsToNormaliseAndTrim = false := by
    rw [hinv.setup.needs_eq]; exact f10
  have hf : res.finished = false := by
    cases hf : res.finished with
    | false => rfl
    | true =>
      have ht := e2.mp hf
      unfold NodeRenderContext.terminates at ht
      rw [hb, hend, hall] at ht
      rcases ht with h | h
      · norm_num at h
      · norm_num at h
  refine ⟨res, e1, hf, (e4 hf).2.2, ?_, ?_⟩
  · unfold NodeRenderContext.progressValue
    rw [hb, hstart, hlen, hneeds]
    norm_num [jlimit]
  · unfold progressBySpec
    rw [hb, hstart, hlen, hneeds]
    norm_num [jlimit]

theorem bufferToWrite_shape (E : Externals) (c : NodeRenderContext) (block : AudioBlock) :
    (c.bufferToWrite E block).getNumChannels.toNat = c.numOutputChans.toNat ∧
    (c.bufferToWrite E block).numSamples = (sizeTToInt block.numSamples).toNat := by
  unfold NodeRenderContext.bufferToWrite Ditherers.apply AudioBlock.getNumChannels
  dsimp only
  split_ifs <;> simp <;> omega

theorem rmsLevelSum_numSamples (E : Externals) (b : AudioBlock) (n : Int)
    (h : b.numSamples = n.toNat) : rmsLevelSum E b (b.numSamples : Int) = rmsLevelSum E b n := by
  unfold rmsLevelSum
  rw [h, Int.toNat_ofNat]

theorem rmsBooked_analyseBlock (E : Externals) (c : NodeRenderContext) (block : AudioBlock)
    (h : RmsBooked E c) : RmsBooked E (c.analyseBlock E block) := by
  obtain ⟨s1, s2⟩ := bufferToWrite_shape E c block
  have hn : (c.analyseBlock E block).numOutputChans = c.numOutputChans :=
    (sameSetup_analyseBlock E c block).numOutputChans_eq
  have h1 : (c.analyseBlock E block).rmsNumSamps
      = c.rmsNumSamps + ((c.bufferToWrite E block).getNumChannels.toNat : Int) := by
    rw [analyseBlock_eq]
  have h2 : (c.analyseBlock E block).rmsTotal
      = c.rmsTotal + rmsLevelSum E (c.bufferToWrite E block) (sizeTToInt block.numSamples) := by
    rw [analyseBlock_eq]
  have h3 : (c.analyseBlock E block).analysedBlocks
      = c.analysedBlocks ++ [c.bufferToWrite E block] := by
    rw [analyseBlock_eq]
  refine ⟨?_, ?_⟩
  · rw [h1, h3, hn, s1, h.count_eq]
    simp only [List.length_append, List.length_singleton]
    push_cast; ring
  · rw [h2, h3, h.total_eq, List.map_append, List.sum_append]
    simp only [List.map_cons, List.map_nil, List.sum_cons, List.sum_nil, add_zero]
    rw [rmsLevelSum_numSamples E _ _ s2]

theorem rmsBooked_of_same (E : Externals) (a b : NodeRenderContext) (hs : SameSetup a b)
    (hb : SameBooks a b) (h : RmsBooked E a) : RmsBooked E b :=
  ⟨by rw [hb.rmsNumSamps_eq, hs.numOutputChans_eq, hb.analysed_eq]; exact h.count_eq,
   by rw [hb.rmsTotal_eq, hb.analysed_eq]; exact h.total_eq⟩

theorem rmsBooked_fields (E : Externals) (a b : NodeRenderContext)
    (h1 : b.rmsNumSamps = a.rmsNumSamps) (h2 : b.rmsTotal = a.rmsTotal)
    (h3 : b.analysedBlocks = a.analysedBlocks) (h4 : b.numOutputChans = a.numOutputChans)
    (h : RmsBooked E a) : RmsBooked E b :=
  ⟨by rw [h1, h4, h3]; exact h.count_eq, by rw [h2, h3]; exact h.total_eq⟩

theorem rmsBooked_setWriter (E : Externals) (a : NodeRenderContext)
    (w : Option AudioFileWriter) (h : RmsBooked E a) : RmsBooked E { a with writer := w } :=
  rmsBooked_fields E a _ rfl rfl rfl rfl h

theorem rmsBooked_planWrite (E : Externals) (c : NodeRenderContext) (n : Nat)
    (h : RmsBooked E c) : RmsBooked E (c.planWrite n).ctx := by
  have h1 : (c.planWrite n).ctx.rmsNumSamps = c.rmsNumSamps := by rw [planWrite_eq]
  have h2 : (c.planWrite n).ctx.rmsTotal = c.rmsTotal := by rw [planWrite_eq]
  have h3 : (c.planWrite n).ctx.analysedBlocks = c.analysedBlocks := by rw [planWrite_eq]
  exact rmsBooked_fields E c _ h1 h2 h3 (sameSetup_planWrite c n).numOutputChans_eq h

theorem rmsBooked_writeOrWarmUp (E : Externals) (c c' : NodeRenderContext) (block : AudioBlock)
    (ok : Bool) (wr : WriteResult) (hw : c.writeOrWarmUp E block ok = some (wr, c'))
    (h : RmsBooked E c) : RmsBooked E c' := by
  by_cases hp : c.precount ≤ 0
  · rw [writeOrWarmUp_steady E c block ok hp] at hw
    have hplan := rmsBooked_planWrite E c block.numSamples h
    split_ifs at hw
    · have ha := rmsBooked_analyseBlock E (c.planWrite block.numSamples).ctx
        (block.getSubBlock (c.planWrite block.numSamples).blockOffset
          (c.planWrite block.numSamples).blockSize) hplan
      rcases writeAudioBlock_some E _ c' _ ok wr hw with h1 | ⟨w, _, _, _, _, _, _, h1⟩
      · rw [h1]; exact ha
      · rw [h1]; exact rmsBooked_setWriter E _ _ ha
    · simp only [Option.some.injEq, Prod.mk.injEq] at hw
      rw [← hw.2]; exact hplan
  · rw [writeOrWarmUp_warm E c block ok (not_le.mp hp)] at hw
    simp only [Option.some.injEq, Prod.mk.injEq] at hw
    rw [← hw.2]
    exact rmsBooked_fields E c _ rfl rfl rfl rfl h

/-- Every call of `renderNextBlock`, whatever its inputs, keeps the RMS accumulators in
agreement with the blocks that reached the write path. -/
theorem rmsBooked_renderNextBlock (E : Externals) (c : NodeRenderContext) (p : ℚ)
    (inp : BlockInput) (res : StepResult) (hres : c.renderNextBlock E p inp = some res)
    (h : RmsBooked E c) : RmsBooked E res.ctx := by
  cases hexit : inp.shouldExit with
  | true =>
    cases hw : c.writer with
    | none =>
      have hw2 : c.tickSleepCounter.writer = none := by rw [tickSleepCounter_eq]; exact hw
      unfold NodeRenderContext.renderNextBlock NodeRenderContext.cancelRender at hres
      simp [hexit, hw2] at hres
    | some w =>
      rw [renderNextBlock_cancel E c p inp w hw hexit] at hres
      simp only [Option.some.injEq] at hres
      rw [← hres]
      have ht : RmsBooked E c.tickSleepCounter := by
        rw [tickSleepCounter_eq]; exact rmsBooked_fields E c _ rfl rfl rfl rfl h
      exact rmsBooked_fields E c.tickSleepCounter _ rfl rfl rfl rfl ht
  | false =>
    cases hgo : (inp.leafNodesReady || inp.shouldExitWhileWaiting) with
    | false =>
      rw [renderNextBlock_notReady E c p inp hexit hgo] at hres
      simp only [Option.some.injEq] at hres
      rw [← hres]
      exact rmsBooked_of_same E c _ (sameSetup_beforeProcess E c inp)
        (sameBooks_beforeProcess E c inp) h
    | true =>
      have hproc := renderNextBlock_process E c p inp hexit hgo
      change c.renderNextBlock E p inp
          = match (c.processed E inp).writeOrWarmUp E (c.destBlock E inp) inp.appendOk with
            | none => none
            | some (WriteResult.failed, c') => some { finished := true, ctx := c', progress := p }
            | some (WriteResult.succeeded, c') =>
              some (c'.finishBlock c.blockEnd p inp.magnitudeAtEnd) at hproc
      rw [hproc] at hres
      obtain ⟨q1, q2, _⟩ := processed_fields E c inp
      have hq := rmsBooked_of_same E c _ q1 q2 h
      cases hwr : (c.processed E inp).writeOrWarmUp E (c.destBlock E inp) inp.appendOk with
      | none => rw [hwr] at hres; simp at hres
      | some pr =>
        obtain ⟨wr, c'⟩ := pr
        rw [hwr] at hres
        have hc' := rmsBooked_writeOrWarmUp E _ c' _ _ wr hwr hq
        cases wr with
        | failed =>
          simp only [Option.some.injEq] at hres
          rw [← hres]; exact hc'
        | succeeded =>
          simp only [Option.some.injEq] at hres
          rw [← hres]
          exact rmsBooked_of_same E c' _ (sameSetup_finishBlock c' _ _ _)
            (finishBlock_spec c' _ _ _).2.2.2 hc'

theorem rmsBooked_renderBlocks (E : Externals) (inps : List BlockInput) :
    ∀ res0 res : StepResult, renderBlocks E res0 inps = some res →
      RmsBooked E res0.ctx → RmsBooked E res.ctx := by
  induction inps with
  | nil =>
    intro res0 res h hb
    have : res0 = res := Option.some.inj h
    rw [← this]; exact hb
  | cons inp rest ih =>
    intro res0 res h hb
    cases hf : res0.finished with
    | true =>
      rw [renderBlocks_finished E res0 _ hf] at h
      have : res0 = res := Option.some.inj h
      rw [← this]; exact hb
    | false =>
      cases hn : res0.ctx.renderNextBlock E res0.progress inp with
      | none =>
        unfold renderBlocks at h
        rw [if_neg (by rw [hf]; decide), hn] at h
        exact absurd h (by simp)
      | some next =>
        rw [renderBlocks_cons E res0 next inp rest hf hn] at h
        exact ih next res h (rmsBooked_renderNextBlock E _ _ _ _ hn hb)

/-- A freshly constructed context has empty RMS accumulators and no analysed block, whichever
way the constructor returns. -/
theorem rmsBooked_construct (E : Externals) (p ownerParams : Parameters)
    (props : NodeProperties) (playHead : PlayHead) (sys : SetupInput) :
    RmsBooked E (NodeRenderContext.construct E p ownerParams props playHead sys) := by
  have hinit : ∀ c : NodeRenderContext, c.rmsNumSamps = 0 → c.rmsTotal = 0 →
      c.analysedBlocks = [] → RmsBooked E c := by
    intro c h1 h2 h3
    exact ⟨by rw [h1, h3]; simp, by rw [h2, h3]; simp⟩
  obtain ⟨_, _, _, _, _, _, _, _, _, _, _, _, _, _, _, _, _, f18⟩ :=
    setupLatencyAndPostPass_fields
      (NodeRenderContext.initial p ownerParams playHead sys.hasSourceToUpdate) props sys
  have g1 : ((NodeRenderContext.initial p ownerParams playHead
      sys.hasSourceToUpdate).setupLatencyAndPostPass props sys).rmsNumSamps = 0 := by
    unfold NodeRenderContext.setupLatencyAndPostPass
    dsimp only
    split_ifs <;> rfl
  have g2 : ((NodeRenderContext.initial p ownerParams playHead
      sys.hasSourceToUpdate).setupLatencyAndPostPass props sys).rmsTotal = 0 := by
    unfold NodeRenderContext.setupLatencyAndPostPass
    dsimp only
    split_ifs <;> rfl
  cases ha : props.hasAudio with
  | false =>
    rw [construct_noAudio E p ownerParams props playHead sys ha]
    exact hinit _ g1 g2 f18
  | true =>
    by_cases hd : workingDestFile p sys ≠ "" ∧ sys.writerOpens = false
    · rw [construct_cannotWrite E p ownerParams props playHead sys ha hd.1 hd.2]
      exact hinit _ g1 g2 f18
    · have hdest : workingDestFile p sys ≠ "" → sys.writerOpens = true := by
        intro h1
        cases ho : sys.writerOpens with
        | true => rfl
        | false => exact absurd ⟨h1, ho⟩ hd
      obtain ⟨_, _, _, _, _, _, _, _, _, _, _, _, _, _, _, _, _, _, c19, c20, c21⟩ :=
        construct_fields E p ownerParams props playHead sys ha hdest
      exact hinit _ c20 c19 c21

theorem destroy_resultRMS (c : NodeRenderContext) :
    c.destroy.r.resultRMS = c.reportedRMS ∧ c.destroy.ownerParams.resultRMS = c.reportedRMS := by
  unfold NodeRenderContext.destroy NodeRenderContext.reportedRMS
  dsimp only
  split_ifs <;> exact ⟨rfl, rfl⟩

/-! ## The loops of the MIDI render -/

theorem addEvent_length (seq : List MidiMessage) (m : MidiMessage) :
    (MidiMessageSequence.addEvent seq m).length = seq.length + 1 := by
  induction seq with
  | nil => rfl
  | cons e es ih =>
    unfold MidiMessageSequence.addEvent
    split_ifs
    · simp
    · simp [ih]

theorem addBlockEvents_length (T : TempoSequence) (r : Parameters) (t : ℚ)
    (seq buf : List MidiMessage) :
    (addBlockEvents T r t seq buf).length = seq.length + buf.length := by
  unfold addBlockEvents
  induction buf generalizing seq with
  | nil => simp
  | cons m ms ih =>
    simp only [List.foldl_cons, List.length_cons]
    rw [ih, addEvent_length]
    omega

theorem waitForLeafNodes_mono (inp : MidiRenderInput) (fuel n : Nat) (x : Bool × Nat)
    (h : waitForLeafNodes inp fuel n = some x) : waitForLeafNodes inp (fuel + 1) n = some x := by
  induction fuel generalizing n with
  | zero => simp [waitForLeafNodes] at h
  | succ f ih =>
    unfold waitForLeafNodes at h ⊢
    split_ifs at h ⊢ with h1 h2
    · exact h
    · exact h
    · exact ih _ h

theorem waitForLeafNodes_le (inp : MidiRenderInput) (fuel fuel' n : Nat) (x : Bool × Nat)
    (hle : fuel ≤ fuel') (h : waitForLeafNodes inp fuel n = some x) :
    waitForLeafNodes inp fuel' n = some x := by
  induction hle with
  | refl => exact h
  | step _ ih => exact waitForLeafNodes_mono inp _ n x ih

theorem renderMidiBlocks_mono (T : TempoSequence) (r : Parameters) (inp : MidiRenderInput)
    (fuel : Nat) (s : MidiLoopState) (x : Bool × MidiLoopState)
    (h : renderMidiBlocks T r inp fuel s = some x) :
    renderMidiBlocks T r inp (fuel + 1) s = some x := by
  induction fuel generalizing s with
  | zero => simp [renderMidiBlocks] at h
  | succ f ih =>
    unfold renderMidiBlocks at h ⊢
    split_ifs at h ⊢ with h1 h2
    · exact h
    · exact h
    · exact ih _ h

theorem renderMidiBlocks_le (T : TempoSequence) (r : Parameters) (inp : MidiRenderInput)
    (fuel fuel' : Nat) (s : MidiLoopState) (x : Bool × MidiLoopState)
    (hle : fuel ≤ fuel') (h : renderMidiBlocks T r inp fuel s = some x) :
    renderMidiBlocks T r inp fuel' s = some x := by
  induction hle with
  | refl => exact h
  | step _ ih => exact renderMidiBlocks_mono T r inp _ s x ih

theorem waitForLeafNodes_succ (inp : MidiRenderInput) (fuel n : Nat) :
    waitForLeafNodes inp (fuel + 1) n
      = if inp.leafNodesReady n then some (false, n)
        else if inp.shouldExitWhileWaiting n then some (true, n + 1)
        else waitForLeafNodes inp fuel (n + 1) := rfl

/-- The wait skips the rounds in which the leaf nodes are not ready and no cancellation is
seen. -/
theorem waitForLeafNodes_skip (inp : MidiRenderInput) (m fuel n : Nat)
    (h : ∀ j, n ≤ j → j < n + m →
      inp.leafNodesReady j = false ∧ inp.shouldExitWhileWaiting j = false) :
    waitForLeafNodes inp (fuel + m) n = waitForLeafNodes inp fuel (n + m) := by
  induction m generalizing n with
  | zero => rfl
  | succ m ih =>
    have h0 := h n (le_refl _) (by omega)
    rw [show fuel + (m + 1) = (fuel + m) + 1 by omega, waitForLeafNodes_succ, h0.1, h0.2]
    simp only [Bool.false_eq_true, if_false]
    rw [ih (n + 1) (fun j hj hj' => h j (by omega) (by omega)),
      show n + 1 + m = n + (m + 1) by omega]

theorem renderMidiBlocks_succ (T : TempoSequence) (r : Parameters) (inp : MidiRenderInput)
    (fuel : Nat) (s : MidiLoopState) :
    renderMidiBlocks T r inp (fuel + 1) s
      = if inp.shouldExitAtBlock s.numProcessCalls then some (true, s)
        else if s.streamTime > r.time.getEnd then some (false, s)
        else renderMidiBlocks T r inp fuel (midiBlockStep T r inp s) := rfl

theorem midiStateAfter_calls (T : TempoSequence) (r : Parameters) (inp : MidiRenderInput)
    (progress : ℚ) (m : Nat) : (midiStateAfter T r inp progress m).numProcessCalls = m := by
  induction m with
  | zero => rfl
  | succ m ih => simp only [midiStateAfter, midiBlockStep, ih]

theorem midiStateAfter_time (T : TempoSequence) (r : Parameters) (inp : MidiRenderInput)
    (progress : ℚ) (m : Nat) :
    (midiStateAfter T r inp progress m).streamTime
      = r.time.getStart + (m : ℚ) * sampleToTime r.blockSizeForAudio r.sampleRateForAudio := by
  induction m with
  | zero => simp [midiStateAfter]
  | succ m ih =>
    simp only [midiStateAfter, midiBlockStep, ih]
    push_cast
    ring

theorem midiStateAfter_length (T : TempoSequence) (r : Parameters) (inp : MidiRenderInput)
    (progress : ℚ) (m : Nat) :
    (midiStateAfter T r inp progress m).outputSequence.length
      = ((List.range m).flatMap inp.blockMidi).length := by
  induction m with
  | zero => rfl
  | succ m ih =>
    simp only [midiStateAfter, midiBlockStep, addBlockEvents_length, ih,
      midiStateAfter_calls, List.range_succ, List.flatMap_append, List.length_append,
      List.flatMap_singleton]

/-- The block loop runs through the passes in which no cancellation is seen and the stream time
is not behind the end of the range. -/
theorem renderMidiBlocks_skip (T : TempoSequence) (r : Parameters) (inp : MidiRenderInput)
    (progress : ℚ) (m fuel k : Nat)
    (h : ∀ j, k ≤ j → j < k + m → inp.shouldExitAtBlock j = false ∧
      r.time.getStart + (j : ℚ) * sampleToTime r.blockSizeForAudio r.sampleRateForAudio
        ≤ r.time.getEnd) :
    renderMidiBlocks T r inp (fuel + m) (midiStateAfter T r inp progress k)
      = renderMidiBlocks T r inp fuel (midiStateAfter T r inp progress (k + m)) := by
  induction m generalizing k with
  | zero => rfl
  | succ m ih =>
    have h0 := h k (le_refl _) (by omega)
    rw [show fuel + (m + 1) = (fuel + m) + 1 by omega, renderMidiBlocks_succ,
      midiStateAfter_calls, h0.1, midiStateAfter_time]
    simp only [Bool.false_eq_true, if_false]
    rw [if_neg (not_lt.mpr h0.2)]
    have := ih (k + 1) (fun j hj hj' => h j (by omega) (by omega))
    rw [show k + 1 + m = k + (m + 1) by omega] at this
    exact this

/-- With a positive block length, the stream times of the first `midiBlockCount` passes are
not behind the end of the range, and the next one is. -/
theorem midiBlockCount_spec (r : Parameters) (hrate : 0 < r.sampleRateForAudio)
    (hsize : 0 < r.blockSizeForAudio) :
    (∀ j : Nat, j < midiBlockCount r →
      r.time.getStart + (j : ℚ) * sampleToTime r.blockSizeForAudio r.sampleRateForAudio
        ≤ r.time.getEnd) ∧
    r.time.getEnd < r.time.getStart
      + (midiBlockCount r : ℚ) * sampleToTime r.blockSizeForAudio r.sampleRateForAudio := by
  have hbl : 0 < sampleToTime r.blockSizeForAudio r.sampleRateForAudio := by
    unfold sampleToTime
    exact div_pos (by exact_mod_cast hsize) hrate
  unfold midiBlockCount
  generalize sampleToTime r.blockSizeForAudio r.sampleRateForAudio = bl at *
  by_cases hlt : r.time.getEnd < r.time.getStart
  · rw [if_pos hlt]
    exact ⟨fun j hj => absurd hj (Nat.not_lt_zero j), by simpa using hlt⟩
  · rw [if_neg hlt]
    have hq : 0 ≤ (r.time.getEnd - r.time.getStart) / bl :=
      div_nonneg (by linarith [not_lt.mp hlt]) hbl.le
    generalize hqd : (r.time.getEnd - r.time.getStart) / bl = q at *
    have hfl : 0 ≤ ⌊q⌋ := Int.floor_nonneg.mpr hq
    have hcast : ((⌊q⌋.toNat : Nat) : ℚ) = (⌊q⌋ : ℚ) := by
      have : ((⌊q⌋.toNat : Nat) : Int) = ⌊q⌋ := Int.toNat_of_nonneg hfl
      exact_mod_cast congrArg (fun z : Int => (z : ℚ)) this
    have hmul : q * bl = r.time.getEnd - r.time.getStart := by
      rw [← hqd]; field_simp
    constructor
    · intro j hj
      have hj' : (j : ℚ) ≤ (⌊q⌋.toNat : ℚ) := by exact_mod_cast Nat.lt_succ_iff.mp hj
      have : (j : ℚ) ≤ q := le_trans (hcast ▸ hj') (Int.floor_le q)
      nlinarith
    · have : q < (⌊q⌋ : ℚ) + 1 := Int.lt_floor_add_one q
      push_cast
      rw [hcast]
      nlinarith

/-- The wait for the leaf nodes ends when some evaluation finds the leaf nodes ready or the
cancellation requested, and it ends by the cancellation exactly when that is seen while
waiting. -/
theorem waitForLeafNodes_spec (inp : MidiRenderInput)
    (hwait : ∃ n, inp.leafNodesReady n = true ∨ inp.shouldExitWhileWaiting n = true) :
    ∃ fuel c sleeps, waitForLeafNodes inp fuel 0 = some (c, sleeps) ∧
      (c = true ↔ inp.cancelledWhileWaiting) := by
  classical
  have hmin : ∀ m, m < Nat.find hwait →
      ¬ (inp.leafNodesReady m = true ∨ inp.shouldExitWhileWaiting m = true) :=
    fun m hm => Nat.find_min hwait hm
  have hspec := Nat.find_spec hwait
  generalize Nat.find hwait = n0 at hmin hspec
  have hbefore : ∀ j, 0 ≤ j → j < 0 + n0 →
      inp.leafNodesReady j = false ∧ inp.shouldExitWhileWaiting j = false := by
    intro j _ hj
    have := hmin j (show j < n0 by omega)
    simp only [not_or, Bool.not_eq_true] at this
    exact this
  have hrun := waitForLeafNodes_skip inp n0 1 0 hbefore
  rw [Nat.zero_add, waitForLeafNodes_succ] at hrun
  by_cases hr : inp.leafNodesReady n0 = true
  · refine ⟨1 + n0, false, n0, ?_, ?_⟩
    · rw [hrun, if_pos hr]
    · constructor
      · intro h; cases h
      · rintro ⟨n, hn, hx⟩
        exfalso
        by_cases hlt : n < n0
        · have := (hbefore n (Nat.zero_le _) (by omega)).2
          rw [hx] at this; cases this
        · have := hn n0 (by omega)
          rw [hr] at this; cases this
  · have hx : inp.shouldExitWhileWaiting n0 = true := hspec.resolve_left hr
    refine ⟨1 + n0, true, n0 + 1, ?_, ?_⟩
    · rw [hrun, if_neg hr, if_pos hx]
    · refine ⟨fun _ => ⟨n0, ?_, hx⟩, fun _ => rfl⟩
      intro j hj
      by_cases hlt : j < n0
      · exact (hbefore j (Nat.zero_le _) (by omega)).1
      · have : j = n0 := by omega
        subst this
        simpa using hr

/-- With a positive block length the block loop ends: by the cancellation exactly when that is
seen at the top of one of its passes, and otherwise behind `midiBlockCount` passes. -/
theorem renderMidiBlocks_spec (T : TempoSequence) (r : Parameters) (inp : MidiRenderInput)
    (progress : ℚ) (hrate : 0 < r.sampleRateForAudio) (hsize : 0 < r.blockSizeForAudio) :
    ∃ fuel c s, renderMidiBlocks T r inp fuel (midiStateAfter T r inp progress 0) = some (c, s) ∧
      (c = true ↔ inp.cancelledAtBlock r) ∧
      (c = false → s = midiStateAfter T r inp progress (midiBlockCount r)) := by
  classical
  obtain ⟨hin, hout⟩ := midiBlockCount_spec r hrate hsize
  by_cases hc : inp.cancelledAtBlock r
  · have hmin : ∀ m, m < Nat.find hc →
        ¬ (m ≤ midiBlockCount r ∧ inp.shouldExitAtBlock m = true) :=
      fun m hm => Nat.find_min hc hm
    have hspec := Nat.find_spec hc
    generalize Nat.find hc = k0 at hmin hspec
    have hbefore : ∀ j, 0 ≤ j → j < 0 + k0 → inp.shouldExitAtBlock j = false ∧
        r.time.getStart + (j : ℚ) * sampleToTime r.blockSizeForAudio r.sampleRateForAudio
          ≤ r.time.getEnd := by
      intro j _ hj
      have hj' : j < k0 := by omega
      have := hmin j hj'
      simp only [not_and, Bool.not_eq_true] at this
      exact ⟨this (by omega), hin j (by omega)⟩
    have hrun := renderMidiBlocks_skip T r inp progress k0 1 0 hbefore
    rw [Nat.zero_add, renderMidiBlocks_succ, midiStateAfter_calls, if_pos hspec.2] at hrun
    exact ⟨1 + k0, true, _, hrun, ⟨fun _ => hc, fun _ => rfl⟩, fun h => (by cases h)⟩
  · have hno : ∀ k, k ≤ midiBlockCount r → inp.shouldExitAtBlock k = false := by
      intro k hk
      by_contra hx
      exact hc ⟨k, hk, by simpa using hx⟩
    have hbefore : ∀ j, 0 ≤ j → j < 0 + midiBlockCount r → inp.shouldExitAtBlock j = false ∧
        r.time.getStart + (j : ℚ) * sampleToTime r.blockSizeForAudio r.sampleRateForAudio
          ≤ r.time.getEnd :=
      fun j _ hj => ⟨hno j (by omega), hin j (by omega)⟩
    have hrun := renderMidiBlocks_skip T r inp progress (midiBlockCount r) 1 0 hbefore
    rw [Nat.zero_add, renderMidiBlocks_succ, midiStateAfter_calls, hno _ (le_refl _),
      midiStateAfter_time] at hrun
    simp only [Bool.false_eq_true, if_false] at hrun
    rw [if_pos hout] at hrun
    exact ⟨1 + midiBlockCount r, false, _, hrun, ⟨fun h => (by cases h), fun h => absurd h hc⟩,
      fun _ => rfl⟩

/-- More rounds do not change what `renderMidi` returns. -/
theorem renderMidi_le (E : Externals) (T : TempoSequence) (r : Parameters) (playHead : PlayHead)
    (progress : ℚ) (inp : MidiRenderInput) (fuel fuel' : Nat) (res : MidiRenderResult)
    (hle : fuel ≤ fuel') (h : renderMidi E T r playHead progress inp fuel = some res) :
    renderMidi E T r playHead progress inp fuel' = some res := by
  unfold renderMidi at h ⊢
  dsimp only at h ⊢
  cases hw : waitForLeafNodes inp fuel 0 with
  | none => rw [hw] at h; cases h
  | some x =>
    rw [hw] at h
    rw [waitForLeafNodes_le inp fuel fuel' 0 x hle hw]
    obtain ⟨c, sleeps⟩ := x
    cases c with
    | true => exact h
    | false =>
      dsimp only at h ⊢
      cases hb : renderMidiBlocks T r inp fuel
          { streamTime := r.time.getStart, outputSequence := [], progress := progress,
            numProcessCalls := 0 } with
      | none => rw [hb] at h; cases h
      | some y =>
        rw [hb] at h
        rw [renderMidiBlocks_le T r inp fuel fuel' _ y hle hb]
        exact h

/-- The outcomes of `renderMidi`: with a positive block length and a wait that ends, the call
returns, and it returns one of its four results according to what it met. -/
theorem renderMidi_cases (E : Externals) (T : TempoSequence) (r : Parameters)
    (playHead : PlayHead) (progress : ℚ) (inp : MidiRenderInput)
    (hrate : 0 < r.sampleRateForAudio) (hsize : 0 < r.blockSizeForAudio)
    (hwait : ∃ n, inp.leafNodesReady n = true ∨ inp.shouldExitWhileWaiting n = true) :
    ∃ fuel res, renderMidi E T r playHead progress inp fuel = some res ∧
      ((inp.cancelObserved r ∧ res.message = "Render cancelled" ∧ res.written = none) ∨
       (¬ inp.cancelObserved r ∧ inp.harvested r = [] ∧
          res.message = "No MIDI found to render" ∧ res.written = none) ∨
       (¬ inp.cancelObserved r ∧ inp.harvested r ≠ [] ∧
          res.written = some res.outputSequence ∧
          inp.writeToFile r.destFile res.outputSequence = false ∧
          res.message = "Unable to write to destination file") ∨
       (¬ inp.cancelObserved r ∧ inp.harvested r ≠ [] ∧
          res.written = some res.outputSequence ∧
          inp.writeToFile r.destFile res.outputSequence = true ∧ res.message = "")) := by
  obtain ⟨f1, c1, sleeps, hw, hc1⟩ := waitForLeafNodes_spec inp hwait
  obtain ⟨f2, c2, s, hb, hc2, hs⟩ := renderMidiBlocks_spec T r inp progress hrate hsize
  have hw' := waitForLeafNodes_le inp f1 (max f1 f2) 0 _ (le_max_left _ _) hw
  have hb' := renderMidiBlocks_le T r inp f2 (max f1 f2) _ _ (le_max_right _ _) hb
  refine ⟨max f1 f2, ?_⟩
  unfold renderMidi
  dsimp only
  rw [hw']
  cases c1 with
  | true =>
    exact ⟨_, rfl, Or.inl ⟨Or.inl (hc1.mp rfl), rfl, rfl⟩⟩
  | false =>
    have hnw : ¬ inp.cancelledWhileWaiting := fun h => by cases hc1.mpr h
    dsimp only
    change ∃ res, (match renderMidiBlocks T r inp (max f1 f2)
      (midiStateAfter T r inp progress 0) with
      | none => none
      | some (true, s) => _
      | some (false, s) => _) = some res ∧ _
    rw [hb']
    cases c2 with
    | true =>
      exact ⟨_, rfl, Or.inl ⟨Or.inr (hc2.mp rfl), rfl, rfl⟩⟩
    | false =>
      have hnb : ¬ inp.cancelledAtBlock r := fun h => by cases hc2.mpr h
      have hno : ¬ inp.cancelObserved r := fun h => h.elim hnw hnb
      have hlen : s.outputSequence.length = (inp.harvested r).length := by
        rw [hs rfl, midiStateAfter_length]; rfl
      dsimp only
      by_cases h0 : s.outputSequence.length = 0
      · rw [if_pos h0]
        refine ⟨_, rfl, Or.inr (Or.inl ⟨hno, ?_, rfl, rfl⟩)⟩
        exact List.length_eq_zero.mp (hlen ▸ h0)
      · rw [if_neg h0]
        have hne : inp.harvested r ≠ [] := fun h => h0 (by rw [hlen, h]; rfl)
        cases hwr : inp.writeToFile r.destFile s.outputSequence with
        | false =>
          simp only [Bool.not_false, if_true]
          exact ⟨_, rfl, Or.inr (Or.inr (Or.inl ⟨hno, hne, rfl, hwr, rfl⟩))⟩
        | true =>
          simp only [Bool.not_true, Bool.false_eq_true, if_false]
          exact ⟨_, rfl, Or.inr (Or.inr (Or.inr ⟨hno, hne, rfl, hwr, rfl⟩))⟩

/-- The example run of `renderMidi`: one sleep, two blocks, the note stamped in ticks, and the
empty string returned. -/
theorem exampleMidi_run :
    (renderMidi referenceExternals exampleTempo (smallParams false) stoppedPlayHead 0
      exampleMidiInput 4).map
        (fun res => (res.message, res.numProcessCalls, res.numSleeps, res.written))
      = some ("", 2, 1, some [{ timeStamp := 480, bytes := [144, 60, 100] }]) := by
  simp [renderMidi, waitForLeafNodes, renderMidiBlocks, exampleMidiInput, smallParams,
    exampleParams, EditTimeRange.getEnd, EditTimeRange.getStart, sampleToTime, addBlockEvents,
    MidiMessageSequence.addEvent, exampleTempo]
  norm_num

/-! ## The test nodes: properties, addition and mapping of channels -/

/-- The loop of `BasicSummingNode::getNodeProperties`, started from any properties: the channel
count ends as the least bound of the count it started with and the counts of the nodes, and each
flag ends as the disjunction of what it started with and the flags of the nodes. -/
theorem summingFold_spec (nodes : List NodeProperties) (p0 : NodeProperties) :
    let props := nodes.foldl
      (fun props nodeProps =>
        { props with
          hasAudio := props.hasAudio || nodeProps.hasAudio,
          hasMidi := props.hasMidi || nodeProps.hasMidi,
          numberOfChannels := max props.numberOfChannels nodeProps.numberOfChannels }) p0
    p0.numberOfChannels ≤ props.numberOfChannels ∧
    (∀ n ∈ nodes, n.numberOfChannels ≤ props.numberOfChannels) ∧
    (props.numberOfChannels = p0.numberOfChannels
      ∨ ∃ n ∈ nodes, n.numberOfChannels = props.numberOfChannels) ∧
    (props.hasAudio = true ↔ p0.hasAudio = true ∨ ∃ n ∈ nodes, n.hasAudio = true) ∧
    (props.hasMidi = true ↔ p0.hasMidi = true ∨ ∃ n ∈ nodes, n.hasMidi = true) ∧
    props.latencyNumSamples = p0.latencyNumSamples := by
  induction nodes generalizing p0 with
  | nil => simp
  | cons x xs ih =>
    simp only [List.foldl_cons]
    obtain ⟨h1, h2, h3, h4, h5, h6⟩ := ih
      { p0 with
        hasAudio := p0.hasAudio || x.hasAudio,
        hasMidi := p0.hasMidi || x.hasMidi,
        numberOfChannels := max p0.numberOfChannels x.numberOfChannels }
    dsimp only at h1 h2 h3 h4 h5 h6 ⊢
    refine ⟨le_trans (le_max_left _ _) h1, ?_, ?_, ?_, ?_, h6⟩
    · intro n hn
      rcases List.mem_cons.mp hn with rfl | hn
      · exact le_trans (le_max_right _ _) h1
      · exact h2 n hn
    · rcases h3 with h3 | ⟨n, hn, h3⟩
      · rcases max_choice p0.numberOfChannels x.numberOfChannels with hm | hm
        · exact Or.inl (h3.trans hm)
        · exact Or.inr ⟨x, List.mem_cons_self _ _, (h3.trans hm).symm⟩
      · exact Or.inr ⟨n, List.mem_cons_of_mem _ hn, h3⟩
    · rw [h4, Bool.or_eq_true]
      constructor
      · rintro ((h | h) | ⟨n, hn, h⟩)
        · exact Or.inl h
        · exact Or.inr ⟨x, List.mem_cons_self _ _, h⟩
        · exact Or.inr ⟨n, List.mem_cons_of_mem _ hn, h⟩
      · rintro (h | ⟨n, hn, h⟩)
        · exact Or.inl (Or.inl h)
        · rcases List.mem_cons.mp hn with rfl | hn
          · exact Or.inl (Or.inr h)
          · exact Or.inr ⟨n, hn, h⟩
    · rw [h5, Bool.or_eq_true]
      constructor
      · rintro ((h | h) | ⟨n, hn, h⟩)
        · exact Or.inl h
        · exact Or.inr ⟨x, List.mem_cons_self _ _, h⟩
        · exact Or.inr ⟨n, List.mem_cons_of_mem _ hn, h⟩
      · rintro (h | ⟨n, hn, h⟩)
        · exact Or.inl (Or.inl h)
        · rcases List.mem_cons.mp hn with rfl | hn
          · exact Or.inl (Or.inr h)
          · exact Or.inr ⟨n, hn, h⟩

theorem vectorAdd_length (d s : List ℚ) (n : Nat) :
    (FloatVectorOperations.add d s n).length = d.length := by
  induction d generalizing s n with
  | nil => cases s <;> cases n <;> rfl
  | cons x xs ih =>
    cases s with
    | nil => cases n <;> rfl
    | cons y ys =>
      cases n with
      | zero => rfl
      | succ n => simp [FloatVectorOperations.add, ih]

theorem vectorAdd_nil (s : List ℚ) (n : Nat) : FloatVectorOperations.add [] s n = [] := by
  cases s <;> cases n <;> rfl

/-- Sample `t` after `FloatVectorOperations::add`: the sample of the source is added when `t`
is among the first `n` samples of the destination. -/
theorem vectorAdd_getD (d s : List ℚ) (n t : Nat) :
    (FloatVectorOperations.add d s n).getD t 0
      = d.getD t 0 + (if t < n ∧ t < d.length then s.getD t 0 else 0) := by
  induction d generalizing s n t with
  | nil => rw [vectorAdd_nil]; simp
  | cons x xs ih =>
    cases s with
    | nil => cases n <;> simp [FloatVectorOperations.add]
    | cons y ys =>
      cases n with
      | zero => simp [FloatVectorOperations.add]
      | succ n =>
        cases t with
        | zero => simp [FloatVectorOperations.add]
        | succ t =>
          have := ih ys n t
          simp only [FloatVectorOperations.add, List.getD_cons_succ, List.length_cons,
            Nat.succ_lt_succ_iff, Nat.add_lt_add_iff_right] at this ⊢
          exact this

theorem vectorCopy_length (d s : List ℚ) (n : Nat) :
    (FloatVectorOperations.copy d s n).length = d.length := by
  induction d generalizing s n with
  | nil => cases s <;> cases n <;> rfl
  | cons x xs ih =>
    cases s with
    | nil => cases n <;> rfl
    | cons y ys =>
      cases n with
      | zero => rfl
      | succ n => simp [FloatVectorOperations.copy, ih]

/-- A copy of as many samples as both lists hold gives the source. -/
theorem vectorCopy_all (d s : List ℚ) (h : d.length = s.length) :
    FloatVectorOperations.copy d s d.length = s := by
  induction d generalizing s with
  | nil =>
    cases s with
    | nil => rfl
    | cons y ys => simp at h
  | cons x xs ih =>
    cases s with
    | nil => simp at h
    | cons y ys =>
      simp only [List.length_cons, FloatVectorOperations.copy, List.cons.injEq, true_and]
      exact ih ys (by simpa using h)

/-- Channel `i` of a list of channels mapped by a function that keeps the empty channel. -/
theorem getD_mapIdx_channels (l : List (List ℚ)) (f : Nat → List ℚ → List ℚ) (i : Nat)
    (hf : f i [] = []) : (l.mapIdx f).getD i [] = f i (l.getD i []) := by
  simp only [List.getD_eq_getElem?_getD, List.getElem?_mapIdx]
  cases l[i]? with
  | none => simp [hf]
  | some c => simp

/-- What `add` does to the block under the destination view. -/
theorem subsetAdd_spec (dest src : ChannelSubset) (out : AudioBlock)
    (h : dest.add src = some out) :
    out.numSamples = dest.block.numSamples ∧
    out.channels.length = dest.block.channels.length ∧
    (∀ i, (out.getChannelPointer i).length = (dest.block.getChannelPointer i).length) ∧
    (∀ i, ¬ (dest.channelStart ≤ i ∧ i < dest.channelStart + dest.numChannels) →
      out.getChannelPointer i = dest.block.getChannelPointer i) ∧
    (∀ i t, out.getSample i t = dest.block.getSample i t +
      (if (dest.channelStart ≤ i ∧ i < dest.channelStart + dest.numChannels) ∧
          t < min dest.block.numSamples src.block.numSamples ∧
          t < (dest.block.getChannelPointer i).length
        then src.block.getSample (src.channelStart + (i - dest.channelStart)) t else 0)) := by
  unfold ChannelSubset.add at h
  split_ifs at h with hn
  have hout := (Option.some.inj h).symm
  have hch : ∀ i, out.getChannelPointer i
      = (if dest.channelStart ≤ i ∧ i < dest.channelStart + dest.numChannels then
          FloatVectorOperations.add (dest.block.getChannelPointer i)
            (src.block.getChannelPointer (src.channelStart + (i - dest.channelStart)))
            (min dest.block.numSamples src.block.numSamples)
        else dest.block.getChannelPointer i) := by
    intro i
    rw [hout]
    unfold AudioBlock.getChannelPointer
    dsimp only
    rw [getD_mapIdx_channels]
    split_ifs
    · exact vectorAdd_nil _ _
    · rfl
  refine ⟨by rw [hout], by rw [hout]; simp, ?_, ?_, ?_⟩
  · intro i
    rw [hch i]
    split_ifs
    · exact vectorAdd_length _ _ _
    · rfl
  · intro i hi
    rw [hch i, if_neg hi]
  · intro i t
    unfold AudioBlock.getSample
    rw [hch i]
    by_cases hw : dest.channelStart ≤ i ∧ i < dest.channelStart + dest.numChannels
    · rw [if_pos hw, vectorAdd_getD]
      simp only [hw, and_self, true_and]
    · rw [if_neg hw]
      simp only [hw, false_and, if_false, add_zero]

theorem allocated_iff (b : AudioBlock) :
    b.Allocated ↔ ∀ i, i < b.channels.length → b.numSamples ≤ (b.getChannelPointer i).length := by
  unfold AudioBlock.Allocated AudioBlock.getChannelPointer
  constructor
  · intro h i hi
    rw [List.getD_eq_getElem _ _ hi]
    exact h _ (List.getElem_mem hi)
  · intro h c hc
    obtain ⟨i, hi, rfl⟩ := List.getElem_of_mem hc
    have := h i hi
    rwa [List.getD_eq_getElem _ _ hi] at this

/-- An addition through a view keeps the shape of the block under the view. -/
theorem subsetAdd_allocated (dest src : ChannelSubset) (out : AudioBlock)
    (h : dest.add src = some out) (halloc : dest.block.Allocated) : out.Allocated := by
  obtain ⟨h1, h2, h3, _, _⟩ := subsetAdd_spec dest src out h
  rw [allocated_iff] at halloc ⊢
  intro i hi
  rw [h1, h3 i]
  exact halloc i (h2 ▸ hi)

/-- One round of the loop of `BasicSummingNode::process` asks for no channel outside a block,
keeps the shape of the destination, leaves the channels that the input does not have as they
are, and adds the samples of the input to the others. -/
theorem addInput_spec (buffers inputFromNode : AudioAndMidiBuffer)
    (halloc : buffers.audio.Allocated) :
    ∃ out, BasicSummingNode.addInput buffers.audio.channels.length buffers inputFromNode
        = some out ∧
      out.audio.numSamples = buffers.audio.numSamples ∧
      out.audio.channels.length = buffers.audio.channels.length ∧
      out.audio.Allocated ∧
      (∀ i, inputFromNode.audio.channels.length ≤ i →
        out.audio.getChannelPointer i = buffers.audio.getChannelPointer i) ∧
      (∀ i t, i < buffers.audio.channels.length → t < buffers.audio.numSamples →
        out.audio.getSample i t = buffers.audio.getSample i t +
          (if i < inputFromNode.audio.channels.length ∧ t < inputFromNode.audio.numSamples
            then inputFromNode.audio.getSample i t else 0)) := by
  unfold BasicSummingNode.addInput
  dsimp only
  by_cases hpos : min inputFromNode.audio.channels.length buffers.audio.channels.length > 0
  · rw [if_pos hpos]
    have hlt := lt_min_iff.mp hpos
    have hd : buffers.audio.getSubsetChannelBlock 0
        (min inputFromNode.audio.channels.length buffers.audio.channels.length)
        = some { block := buffers.audio, channelStart := 0,
                 numChannels := min inputFromNode.audio.channels.length
                   buffers.audio.channels.length } := by
      unfold AudioBlock.getSubsetChannelBlock
      rw [if_pos ⟨hlt.2, by simp⟩]
    have hs : inputFromNode.audio.getSubsetChannelBlock 0
        (min inputFromNode.audio.channels.length buffers.audio.channels.length)
        = some { block := inputFromNode.audio, channelStart := 0,
                 numChannels := min inputFromNode.audio.channels.length
                   buffers.audio.channels.length } := by
      unfold AudioBlock.getSubsetChannelBlock
      rw [if_pos ⟨hlt.1, by simp⟩]
    rw [hd, hs]
    dsimp only
    cases hadd : ChannelSubset.add
        { block := buffers.audio, channelStart := 0,
          numChannels := min inputFromNode.audio.channels.length buffers.audio.channels.length }
        { block := inputFromNode.audio, channelStart := 0,
          numChannels := min inputFromNode.audio.channels.length
            buffers.audio.channels.length } with
    | none => simp [ChannelSubset.add] at hadd
    | some a =>
      obtain ⟨h1, h2, _, h4, h5⟩ := subsetAdd_spec _ _ a hadd
      dsimp only at h1 h2 h4 h5
      refine ⟨_, rfl, h1, h2, subsetAdd_allocated _ _ a hadd halloc, ?_, ?_⟩
      · intro i hi
        exact h4 i (fun hw => by
          have := lt_min_iff.mp (by simpa using hw.2)
          omega)
      · intro i t hi ht
        have hlen : t < (buffers.audio.getChannelPointer i).length :=
          lt_of_lt_of_le ht ((allocated_iff _).mp halloc i hi)
        rw [h5 i t]
        congr 1
        simp only [Nat.zero_le, Nat.zero_add, true_and, lt_min_iff, hi, ht, hlen, and_true,
          Nat.sub_zero]
  · rw [if_neg hpos]
    have hzero : inputFromNode.audio.channels.length = 0
        ∨ buffers.audio.channels.length = 0 := by
      have : min inputFromNode.audio.channels.length buffers.audio.channels.length = 0 := by
        omega
      exact Nat.min_eq_zero_iff.mp this
    refine ⟨_, rfl, rfl, rfl, halloc, fun _ _ => rfl, ?_⟩
    intro i t hi ht
    have : ¬ i < inputFromNode.audio.channels.length := by
      rcases hzero with h | h <;> omega
    simp [this]

/-- The loop of `BasicSummingNode::process` over any destination of `numChannels` channels. -/
theorem summingLoop_spec (nodes : List AudioAndMidiBuffer) (pc : AudioAndMidiBuffer)
    (halloc : pc.audio.Allocated) :
    ∃ out, nodes.foldlM (BasicSummingNode.addInput pc.audio.channels.length) pc = some out ∧
      out.audio.numSamples = pc.audio.numSamples ∧
      out.audio.channels.length = pc.audio.channels.length ∧
      out.audio.Allocated ∧
      (∀ i, (∀ inp ∈ nodes, inp.audio.channels.length ≤ i) →
        out.audio.getChannelPointer i = pc.audio.getChannelPointer i) ∧
      (∀ i t, i < pc.audio.channels.length → t < pc.audio.numSamples →
        out.audio.getSample i t = pc.audio.getSample i t +
          (nodes.map (fun inp =>
            if i < inp.audio.channels.length ∧ t < inp.audio.numSamples
              then inp.audio.getSample i t else 0)).sum) := by
  induction nodes generalizing pc with
  | nil =>
    exact ⟨pc, rfl, rfl, rfl, halloc, fun _ _ => rfl, fun _ _ _ _ => by simp⟩
  | cons x xs ih =>
    obtain ⟨mid, hmid, m1, m2, m3, m4, m5⟩ := addInput_spec pc x halloc
    obtain ⟨out, hout, o1, o2, o3, o4, o5⟩ := ih mid m3
    rw [m2] at hout
    refine ⟨out, ?_, o1.trans m1, o2.trans m2, o3, ?_, ?_⟩
    · rw [List.foldlM_cons, hmid]
      exact hout
    · intro i hi
      rw [o4 i (fun inp hinp => hi inp (List.mem_cons_of_mem _ hinp)),
        m4 i (hi x (List.mem_cons_self _ _))]
    · intro i t hi ht
      rw [o5 i t (m2 ▸ hi) (m1 ▸ ht), m5 i t hi ht, List.map_cons, List.sum_cons]
      ring

/-- A sum over the members of a list that satisfy a test. -/
theorem sum_filter_map {α : Type} (l : List α) (p : α → Bool) (f : α → ℚ) :
    ((l.filter p).map f).sum = (l.map (fun x => if p x = true then f x else 0)).sum := by
  induction l with
  | nil => rfl
  | cons x xs ih =>
    by_cases hp : p x = true
    · simp [List.filter_cons, hp, ih]
    · simp [List.filter_cons, hp, ih]

/-- One round of the loop of `ChannelMappingNode::process` with channels inside the blocks
returns, keeps the shape of the destination, leaves every channel but the destination of the
pair as it is, and adds the source channel of the pair to that one. -/
theorem addChannel_spec (sourceAudio destAudio : AudioBlock) (channel : Int × Int)
    (halloc : destAudio.Allocated)
    (hs : toSizeT channel.1 < sourceAudio.channels.length)
    (hd : toSizeT channel.2 < destAudio.channels.length) :
    ∃ out, ChannelMappingNode.addChannel sourceAudio destAudio channel = some out ∧
      out.numSamples = destAudio.numSamples ∧
      out.channels.length = destAudio.channels.length ∧
      out.Allocated ∧
      (∀ i, toSizeT channel.2 ≠ i → out.getChannelPointer i = destAudio.getChannelPointer i) ∧
      (∀ i t, i < destAudio.channels.length → t < destAudio.numSamples →
        out.getSample i t = destAudio.getSample i t +
          (if toSizeT channel.2 = i ∧ t < sourceAudio.numSamples
            then sourceAudio.getSample (toSizeT channel.1) t else 0)) := by
  unfold ChannelMappingNode.addChannel
  have h1 : sourceAudio.getSubsetChannelBlock (toSizeT channel.1) 1
      = some { block := sourceAudio, channelStart := toSizeT channel.1, numChannels := 1 } := by
    unfold AudioBlock.getSubsetChannelBlock
    rw [if_pos ⟨hs, by omega⟩]
  have h2 : destAudio.getSubsetChannelBlock (toSizeT channel.2) 1
      = some { block := destAudio, channelStart := toSizeT channel.2, numChannels := 1 } := by
    unfold AudioBlock.getSubsetChannelBlock
    rw [if_pos ⟨hd, by omega⟩]
  rw [h1, h2]
  dsimp only
  cases hadd : ChannelSubset.add
      { block := destAudio, channelStart := toSizeT channel.2, numChannels := 1 }
      { block := sourceAudio, channelStart := toSizeT channel.1, numChannels := 1 } with
  | none => simp [ChannelSubset.add] at hadd
  | some a =>
    obtain ⟨a1, a2, _, a4, a5⟩ := subsetAdd_spec _ _ a hadd
    dsimp only at a1 a2 a4 a5
    refine ⟨a, rfl, a1, a2, subsetAdd_allocated _ _ a hadd halloc, ?_, ?_⟩
    · intro i hi
      exact a4 i (fun hw => hi (by omega))
    · intro i t hi ht
      have hlen : t < (destAudio.getChannelPointer i).length :=
        lt_of_lt_of_le ht ((allocated_iff _).mp halloc i hi)
      rw [a5 i t]
      congr 1
      by_cases heq : toSizeT channel.2 = i
      · subst heq
        simp [ht, hlen]
      · have : ¬ (toSizeT channel.2 ≤ i ∧ i < toSizeT channel.2 + 1) := fun hw =>
          heq (by omega)
        simp [heq, this]

/-- The loop of `ChannelMappingNode::process` over a channel map whose channels are inside the
blocks. -/
theorem mappingLoop_spec (channelMap : List (Int × Int)) (sourceAudio destAudio : AudioBlock)
    (halloc : destAudio.Allocated)
    (hrange : ∀ ch ∈ channelMap, toSizeT ch.1 < sourceAudio.channels.length
      ∧ toSizeT ch.2 < destAudio.channels.length) :
    ∃ out, channelMap.foldlM (ChannelMappingNode.addChannel sourceAudio) destAudio = some out ∧
      out.numSamples = destAudio.numSamples ∧
      out.channels.length = destAudio.channels.length ∧
      out.Allocated ∧
      (∀ i, (∀ ch ∈ channelMap, toSizeT ch.2 ≠ i) →
        out.getChannelPointer i = destAudio.getChannelPointer i) ∧
      (∀ i t, i < destAudio.channels.length → t < destAudio.numSamples →
        out.getSample i t = destAudio.getSample i t +
          (channelMap.map (fun ch =>
            if toSizeT ch.2 = i ∧ t < sourceAudio.numSamples
              then sourceAudio.getSample (toSizeT ch.1) t else 0)).sum) := by
  induction channelMap generalizing destAudio with
  | nil =>
    exact ⟨destAudio, rfl, rfl, rfl, halloc, fun _ _ => rfl, fun _ _ _ _ => by simp⟩
  | cons x xs ih =>
    have hx := hrange x (List.mem_cons_self _ _)
    obtain ⟨mid, hmid, m1, m2, m3, m4, m5⟩ := addChannel_spec sourceAudio destAudio x halloc
      hx.1 hx.2
    obtain ⟨out, hout, o1, o2, o3, o4, o5⟩ := ih mid m3 (fun ch hch =>
      ⟨(hrange ch (List.mem_cons_of_mem _ hch)).1,
        m2 ▸ (hrange ch (List.mem_cons_of_mem _ hch)).2⟩)
    refine ⟨out, ?_, o1.trans m1, o2.trans m2, o3, ?_, ?_⟩
    · rw [List.foldlM_cons, hmid]
      exact hout
    · intro i hi
      rw [o4 i (fun ch hch => hi ch (List.mem_cons_of_mem _ hch)),
        m4 i (hi x (List.mem_cons_self _ _))]
    · intro i t hi ht
      rw [o5 i t (m2 ▸ hi) (m1 ▸ ht), m5 i t hi ht, List.map_cons, List.sum_cons]
      ring

/-! ## The search of the graph and the preparation of a return -/

theorem visitAll_none (visit : Nat → Option (List Nat)) (l : List Nat)
    (h : visitAll visit l = none) : ∃ b ∈ l, visit b = none := by
  induction l with
  | nil => simp [visitAll] at h
  | cons n ns ih =>
    unfold visitAll at h
    cases hn : visit n with
    | none => exact ⟨n, List.mem_cons_self _ _, hn⟩
    | some o =>
      cases hns : visitAll visit ns with
      | none =>
        obtain ⟨b, hb, hv⟩ := ih hns
        exact ⟨b, List.mem_cons_of_mem _ hb, hv⟩
      | some os => rw [hn, hns] at h; cases h

theorem visitAll_some (visit : Nat → Option (List Nat)) (l os : List Nat)
    (h : visitAll visit l = some os) : ∀ b ∈ l, ∃ o, visit b = some o := by
  induction l generalizing os with
  | nil => intro b hb; cases hb
  | cons n ns ih =>
    unfold visitAll at h
    cases hn : visit n with
    | none => rw [hn] at h; cases h
    | some o =>
      cases hns : visitAll visit ns with
      | none => rw [hn, hns] at h; cases h
      | some os' =>
        intro b hb
        rcases List.mem_cons.mp hb with rfl | hb
        · exact ⟨o, hn⟩
        · exact ih os' hns b hb

theorem visitAll_mem (visit : Nat → Option (List Nat)) (l os : List Nat)
    (h : visitAll visit l = some os) (x : Nat) :
    x ∈ os ↔ ∃ b ∈ l, ∃ o, visit b = some o ∧ x ∈ o := by
  induction l generalizing os with
  | nil =>
    simp only [visitAll, Option.some.injEq] at h
    subst h
    simp
  | cons n ns ih =>
    unfold visitAll at h
    cases hn : visit n with
    | none => rw [hn] at h; cases h
    | some o =>
      cases hns : visitAll visit ns with
      | none => rw [hn, hns] at h; cases h
      | some os' =>
        rw [hn, hns] at h
        have hos := (Option.some.inj h).symm
        subst hos
        rw [List.mem_append, ih os' hns]
        constructor
        · rintro (hx | ⟨b, hb, o', ho', hx⟩)
          · exact ⟨n, List.mem_cons_self _ _, o, hn, hx⟩
          · exact ⟨b, List.mem_cons_of_mem _ hb, o', ho', hx⟩
        · rintro ⟨b, hb, o', ho', hx⟩
          rcases List.mem_cons.mp hb with rfl | hb
          · rw [hn] at ho'
            exact Or.inl ((Option.some.inj ho') ▸ hx)
          · exact Or.inr ⟨b, hb, o', ho', hx⟩

theorem visitInputs_succ (g : NodeGraph) (fuel a : Nat) :
    visitInputs g (fuel + 1) a
      = (visitAll (fun n => visitInputs g fuel n) (g.getDirectInputNodes a)).map
          (fun o => o ++ [a]) := rfl

/-- A search that does not end in the allowed depth has followed a chain of direct inputs of
that length. -/
theorem visitInputs_none_chain (g : NodeGraph) (fuel a : Nat) (h : visitInputs g fuel a = none) :
    ∃ p : List Nat, p.length = fuel ∧ List.Chain g.DirectInput a p := by
  induction fuel generalizing a with
  | zero => exact ⟨[], rfl, List.Chain.nil⟩
  | succ f ih =>
    rw [visitInputs_succ, Option.map_eq_none'] at h
    obtain ⟨b, hb, hv⟩ := visitAll_none _ _ h
    obtain ⟨p, hp, hc⟩ := ih b hv
    exact ⟨b :: p, by simp [hp], List.Chain.cons hb hc⟩

theorem directInput_lt (g : NodeGraph) (a b : Nat) (h : g.DirectInput a b) : a < g.length := by
  unfold NodeGraph.DirectInput NodeGraph.getDirectInputNodes at h
  by_contra hlt
  rw [List.getElem?_eq_none (not_lt.mp hlt)] at h
  simp at h

/-- In a graph without a cycle, a chain of direct inputs is not longer than the graph. -/
theorem chain_length_le (g : NodeGraph) (hacyc : g.Acyclic) (a : Nat) (p : List Nat)
    (hc : List.Chain g.DirectInput a p) : p.length ≤ g.length := by
  have hc' : List.Chain' g.DirectInput (a :: p) := hc
  have htrans : List.Chain' (Relation.TransGen g.DirectInput) (a :: p) :=
    hc'.imp (fun _ _ h => Relation.TransGen.single h)
  have hpw : List.Pairwise (Relation.TransGen g.DirectInput) (a :: p) :=
    List.chain'_iff_pairwise.mp htrans
  have hnodup : (a :: p).Nodup :=
    List.Pairwise.imp
      (fun {x y} (h : Relation.TransGen g.DirectInput x y) (hxy : x = y) =>
        hacyc x (by subst hxy; exact h)) hpw
  have hsrc : ∀ x ∈ (a :: p).dropLast, x < g.length := by
    clear hnodup hpw htrans hc'
    induction p generalizing a with
    | nil => simp
    | cons b bs ih =>
      intro x hx
      rw [List.dropLast_cons₂] at hx
      rcases List.mem_cons.mp hx with rfl | hx
      · exact directInput_lt g _ b (List.rel_of_chain_cons hc)
      · exact ih b (List.chain_of_chain_cons hc) x hx
  have hnd : (a :: p).dropLast.Nodup := hnodup.sublist (List.dropLast_sublist _)
  have hsub : (a :: p).dropLast.toFinset ⊆ Finset.range g.length := by
    intro x hx
    rw [List.mem_toFinset] at hx
    exact Finset.mem_range.mpr (hsrc x hx)
  have hcard := Finset.card_le_card hsub
  rw [List.toFinset_card_of_nodup hnd, Finset.card_range, List.length_dropLast] at hcard
  simpa using hcard

/-- In a graph without a cycle the search under any node ends within a depth of the size of the
graph plus one. -/
theorem visitInputs_total (g : NodeGraph) (hacyc : g.Acyclic) (a : Nat) :
    ∃ visited, visitInputs g (g.length + 1) a = some visited := by
  cases h : visitInputs g (g.length + 1) a with
  | some v => exact ⟨v, rfl⟩
  | none =>
    obtain ⟨p, hp, hc⟩ := visitInputs_none_chain g _ a h
    have := chain_length_le g hacyc a p hc
    omega

/-- The search visits exactly the nodes that the node it starts from reaches. -/
theorem visitInputs_mem (g : NodeGraph) (fuel a : Nat) (visited : List Nat)
    (h : visitInputs g fuel a = some visited) (x : Nat) : x ∈ visited ↔ g.Reaches a x := by
  induction fuel generalizing a visited x with
  | zero => simp [visitInputs] at h
  | succ f ih =>
    rw [visitInputs_succ] at h
    cases hv : visitAll (fun n => visitInputs g f n) (g.getDirectInputNodes a) with
    | none => rw [hv] at h; cases h
    | some os =>
      rw [hv] at h
      have hvis := (Option.some.inj h).symm
      subst hvis
      rw [List.mem_append, visitAll_mem _ _ _ hv, List.mem_singleton]
      constructor
      · rintro (⟨b, hb, o, ho, hx⟩ | rfl)
        · exact Relation.ReflTransGen.head hb ((ih b o ho x).mp hx)
        · exact Relation.ReflTransGen.refl
      · intro hr
        rcases Relation.ReflTransGen.cases_head hr with rfl | ⟨b, hb, hbx⟩
        · exact Or.inr rfl
        · left
          have hbm : b ∈ g.getDirectInputNodes a := hb
          obtain ⟨o, ho⟩ := visitAll_some _ _ _ hv b hbm
          exact ⟨b, hbm, o, ho, (ih b o ho x).mpr hbx⟩

/-- Edges from one node `r` to further nodes, added to a relation without a cycle, close no
cycle when none of the further nodes reaches `r`. -/
theorem acyclic_addEdges (R : Nat → Nat → Prop) (r : Nat) (S : Nat → Prop)
    (hacyc : ∀ a, ¬ Relation.TransGen R a a)
    (hsafe : ∀ s, S s → ¬ Relation.ReflTransGen R s r) :
    ∀ a, ¬ Relation.TransGen (fun x y => R x y ∨ (x = r ∧ S y)) a a := by
  have key : ∀ a b, Relation.TransGen (fun x y => R x y ∨ (x = r ∧ S y)) a b →
      Relation.TransGen R a b
        ∨ (Relation.ReflTransGen R a r ∧ ∃ s, S s ∧ Relation.ReflTransGen R s b) := by
    intro a b h
    induction h with
    | single hab =>
      rcases hab with hab | ⟨rfl, hs⟩
      · exact Or.inl (Relation.TransGen.single hab)
      · exact Or.inr ⟨Relation.ReflTransGen.refl, _, hs, Relation.ReflTransGen.refl⟩
    | tail _ hcb ih =>
      rcases hcb with hcb | ⟨rfl, hs⟩
      · rcases ih with ih | ⟨har, s, hs, hsc⟩
        · exact Or.inl (Relation.TransGen.tail ih hcb)
        · exact Or.inr ⟨har, s, hs, Relation.ReflTransGen.tail hsc hcb⟩
      · rcases ih with ih | ⟨_, s, hs', hsc⟩
        · exact Or.inr ⟨ih.to_reflTransGen, _, hs, Relation.ReflTransGen.refl⟩
        · exact absurd hsc (hsafe s hs')
  intro a h
  rcases key a a h with h | ⟨har, s, hs, hsa⟩
  · exact hacyc a h
  · exact hsafe s hs (hsa.trans har)

/-- A new node `n` put between a node `r` and its input `inp`, with further inputs `S`, closes
no cycle when none of the further inputs reaches `r`. -/
theorem acyclic_insertNode (R R' : Nat → Nat → Prop) (r n inp : Nat) (S : Nat → Prop)
    (hR' : ∀ a b, R' a b →
      (a = r ∧ b = n) ∨ (a = n ∧ (b = inp ∨ S b)) ∨ (a ≠ n ∧ b ≠ n ∧ R a b))
    (hrn : r ≠ n) (hinp : R r inp) (hinpn : inp ≠ n) (hSn : ∀ s, S s → s ≠ n)
    (hacyc : ∀ a, ¬ Relation.TransGen R a a)
    (hsafe : ∀ s, S s → ¬ Relation.ReflTransGen R s r) :
    ∀ a, ¬ Relation.TransGen R' a a := by
  have hstar := acyclic_addEdges R r S hacyc hsafe
  have key : ∀ a b, Relation.TransGen R' a b →
      Relation.TransGen (fun x y => R x y ∨ (x = r ∧ S y))
          (if a = n then r else a) (if b = n then r else b)
        ∨ (a = r ∧ b = n) := by
    intro a b h
    induction h with
    | single hab =>
      rcases hR' _ _ hab with ⟨rfl, rfl⟩ | ⟨rfl, hb⟩ | ⟨ha, hb, hab⟩
      · exact Or.inr ⟨rfl, rfl⟩
      · left
        rw [if_pos rfl]
        rcases hb with rfl | hb
        · rw [if_neg hinpn]
          exact Relation.TransGen.single (Or.inl hinp)
        · rw [if_neg (hSn _ hb)]
          exact Relation.TransGen.single (Or.inr ⟨rfl, hb⟩)
      · left
        rw [if_neg ha, if_neg hb]
        exact Relation.TransGen.single (Or.inl hab)
    | tail _ hcb ih =>
      rename_i c b
      rcases hR' _ _ hcb with ⟨rfl, rfl⟩ | ⟨rfl, hb⟩ | ⟨hc, hb, hcb⟩
      · rcases ih with ih | ⟨_, hcn⟩
        · left
          rw [if_neg hrn] at ih
          rw [if_pos rfl]
          exact ih
        · exact absurd hcn hrn
      · rcases ih with ih | ⟨rfl, _⟩
        · left
          rw [if_pos rfl] at ih
          rcases hb with rfl | hb
          · rw [if_neg hinpn]
            exact Relation.TransGen.tail ih (Or.inl hinp)
          · rw [if_neg (hSn _ hb)]
            exact Relation.TransGen.tail ih (Or.inr ⟨rfl, hb⟩)
        · left
          rw [if_neg hrn]
          rcases hb with rfl | hb
          · rw [if_neg hinpn]
            exact Relation.TransGen.single (Or.inl hinp)
          · rw [if_neg (hSn _ hb)]
            exact Relation.TransGen.single (Or.inr ⟨rfl, hb⟩)
      · rcases ih with ih | ⟨_, hcn⟩
        · left
          rw [if_neg hc] at ih
          rw [if_neg hb]
          exact Relation.TransGen.tail ih (Or.inl hcb)
        · exact absurd hcn hc
  intro a h
  rcases key a a h with h | ⟨har, han⟩
  · exact hstar _ h
  · exact hrn (har.symm.trans han)

theorem prepareToPlay_initialised (g : NodeGraph) (rootNode this fuel input : Nat) (busID : Int)
    (h : g[this]? = some (Node.returnNode input busID true)) :
    ReturnNode.prepareToPlay g rootNode this fuel = some g := by
  unfold ReturnNode.prepareToPlay
  rw [h]
  rfl

/-- The first call of `prepareToPlay` on a return, given what the search visits. -/
theorem prepareToPlay_first (g : NodeGraph) (rootNode this fuel input : Nat) (busID : Int)
    (visited : List Nat) (h : g[this]? = some (Node.returnNode input busID false))
    (hv : visitInputs g fuel rootNode = some visited) :
    ReturnNode.prepareToPlay g rootNode this fuel
      = some (if (visited.filter (g.isSendOfBus busID)).length > 0 then
          (g ++ [Node.summingNode [input] (visited.filter (g.isSendOfBus busID))]).set this
            (Node.returnNode g.length busID true)
        else g.set this (Node.returnNode input busID true)) := by
  unfold ReturnNode.prepareToPlay
  rw [h]
  dsimp only
  rw [hv]
  simp only [Bool.false_eq_true, if_false]
  split_ifs <;> rfl

theorem getElem?_lt (g : NodeGraph) (a : Nat) (n : Node) (h : g[a]? = some n) :
    a < g.length := by
  by_contra hlt
  rw [List.getElem?_eq_none (not_lt.mp hlt)] at h
  cases h

/-- The direct inputs in a graph in which a return without sends has been marked as
initialised. -/
theorem inputs_of_marked (g : NodeGraph) (this input : Nat) (busID : Int) (hasInitialised : Bool)
    (h : g[this]? = some (Node.returnNode input busID hasInitialised)) (a : Nat) :
    NodeGraph.getDirectInputNodes (g.set this (Node.returnNode input busID true)) a
      = g.getDirectInputNodes a := by
  unfold NodeGraph.getDirectInputNodes
  rw [List.getElem?_set]
  by_cases ha : this = a
  · subst ha
    rw [if_pos rfl, if_pos (getElem?_lt g _ _ h), h]
    rfl
  · rw [if_neg ha]

/-- The direct inputs in a graph in which a summing node of sends has been put between a
return and its input. -/
theorem inputs_of_inserted (g : NodeGraph) (this input : Nat) (busID : Int) (sends : List Nat)
    (h : g[this]? = some (Node.returnNode input busID false)) (a : Nat) :
    NodeGraph.getDirectInputNodes
        ((g ++ [Node.summingNode [input] sends]).set this (Node.returnNode g.length busID true))
        a
      = if a = this then [g.length]
        else if a = g.length then input :: sends
        else g.getDirectInputNodes a := by
  have hthis := getElem?_lt g _ _ h
  unfold NodeGraph.getDirectInputNodes
  rw [List.getElem?_set]
  by_cases ha : this = a
  · subst ha
    rw [if_pos rfl, if_pos (by simp; omega), if_pos rfl]
    rfl
  · rw [if_neg ha, if_neg (fun h' => ha h'.symm)]
    by_cases han : a = g.length
    · subst han
      rw [if_pos rfl, List.getElem?_append_right (le_refl _)]
      simp [Node.getDirectInputNodes]
    · rw [if_neg han]
      by_cases hlt : a < g.length
      · rw [List.getElem?_append_left hlt]
      · rw [List.getElem?_eq_none (by simp; omega), List.getElem?_eq_none (by omega)]

theorem isSendOfBus_lt (g : NodeGraph) (busID : Int) (s : Nat)
    (h : g.isSendOfBus busID s = true) : s < g.length := by
  unfold NodeGraph.isSendOfBus at h
  cases hs : g[s]? with
  | none => rw [hs] at h; cases h
  | some n => exact getElem?_lt g s n hs

theorem isSendOfBus_iff (g : NodeGraph) (busID : Int) (s : Nat) :
    g.isSendOfBus busID s = true ↔ ∃ input, g[s]? = some (Node.sendNode input busID) := by
  unfold NodeGraph.isSendOfBus
  cases hs : g[s]? with
  | none => simp
  | some n =>
    cases n <;> simp

/-- A copy between blocks of the same shape gives the channels of the source. -/
theorem copyFrom_same_shape (dest src : AudioBlock)
    (hch : dest.channels.length = src.channels.length)
    (hns : dest.numSamples = src.numSamples)
    (hd : ∀ c ∈ dest.channels, c.length = dest.numSamples)
    (hs : ∀ c ∈ src.channels, c.length = src.numSamples) :
    (dest.copyFrom src).channels = src.channels := by
  unfold AudioBlock.copyFrom
  dsimp only
  apply List.ext_getElem
  · simp [hch]
  · intro i h1 h2
    rw [List.getElem_mapIdx]
    have hi : i < dest.channels.length := by simpa using h1
    rw [if_pos (by rw [hch, min_self]; exact h2)]
    have hdl := hd _ (List.getElem_mem hi)
    have hsl := hs _ (List.getElem_mem h2)
    have hsrc : src.getChannelPointer i = src.channels[i] := by
      unfold AudioBlock.getChannelPointer
      exact List.getD_eq_getElem _ _ h2
    have hn : min src.numSamples dest.numSamples = dest.channels[i].length := by
      rw [hdl, hns, min_self]
    have key := vectorCopy_all dest.channels[i] src.channels[i] (by rw [hdl, hsl, hns])
    rw [← hn] at key
    rw [hsrc]
    exact key

/-- In a graph without a cycle, the first call of `prepareToPlay` on a return gives the graph
described by `prepareToPlay_first`, for the nodes that the root reaches. -/
theorem prepareToPlay_total (g : NodeGraph) (rootNode this input : Nat) (busID : Int)
    (hacyc : g.Acyclic) (hret : g[this]? = some (Node.returnNode input busID false)) :
    ∃ visited : List Nat, (∀ x, x ∈ visited ↔ g.Reaches rootNode x) ∧
      ReturnNode.prepareToPlay g rootNode this (g.length + 1)
        = some (if (visited.filter (g.isSendOfBus busID)).length > 0 then
            (g ++ [Node.summingNode [input] (visited.filter (g.isSendOfBus busID))]).set this
              (Node.returnNode g.length busID true)
          else g.set this (Node.returnNode input busID true)) := by
  obtain ⟨visited, hv⟩ := visitInputs_total g hacyc rootNode
  exact ⟨visited, visitInputs_mem g _ _ _ hv, prepareToPlay_first g _ _ _ _ _ _ hret hv⟩

/-- Marking a return as initialised changes only the flag. -/
theorem marked_getElem (g : NodeGraph) (this input : Nat) (busID : Int) (hasInitialised : Bool)
    (h : g[this]? = some (Node.returnNode input busID hasInitialised)) :
    (g.set this (Node.returnNode input busID true)).length = g.length ∧
    (g.set this (Node.returnNode input busID true))[this]?
      = some (Node.returnNode input busID true) ∧
    (∀ a, a ≠ this → (g.set this (Node.returnNode input busID true))[a]? = g[a]?) := by
  refine ⟨by simp, ?_, ?_⟩
  · rw [List.getElem?_set, if_pos rfl, if_pos (getElem?_lt g _ _ h)]
  · intro a ha
    rw [List.getElem?_set, if_neg (fun h' => ha h'.symm)]

/-- The nodes of a graph in which a summing node of sends has been put between a return and
its input. -/
theorem inserted_getElem (g : NodeGraph) (this input : Nat) (busID : Int) (sends : List Nat)
    (h : g[this]? = some (Node.returnNode input busID false)) :
    ((g ++ [Node.summingNode [input] sends]).set this
        (Node.returnNode g.length busID true)).length = g.length + 1 ∧
    ((g ++ [Node.summingNode [input] sends]).set this (Node.returnNode g.length busID true))[this]?
      = some (Node.returnNode g.length busID true) ∧
    ((g ++ [Node.summingNode [input] sends]).set this
        (Node.returnNode g.length busID true))[g.length]?
      = some (Node.summingNode [input] sends) ∧
    (∀ a, a ≠ this → a < g.length →
      ((g ++ [Node.summingNode [input] sends]).set this
        (Node.returnNode g.length busID true))[a]? = g[a]?) := by
  have hthis := getElem?_lt g _ _ h
  refine ⟨by simp, ?_, ?_, ?_⟩
  · rw [List.getElem?_set, if_pos rfl, if_pos (by simp; omega)]
  · rw [List.getElem?_set, if_neg (by omega), List.getElem?_append_right (le_refl _)]
    simp
  · intro a ha hlt
    rw [List.getElem?_set, if_neg (fun h' => ha h'.symm), List.getElem?_append_left hlt]

/-- A path to a node `r`, in a second graph that has the direct inputs of every node but `r`. -/
theorem reaches_of_edges (g g' : NodeGraph) (r : Nat)
    (hedges : ∀ a b, a ≠ r → g.DirectInput a b → g'.DirectInput a b) (s : Nat)
    (h : g.Reaches s r) : g'.Reaches s r := by
  unfold NodeGraph.Reaches at h ⊢
  induction h using Relation.ReflTransGen.head_induction_on with
  | refl => exact Relation.ReflTransGen.refl
  | head hac _ ih =>
    rename_i a c _
    by_cases ha : a = r
    · rw [ha]
    · exact Relation.ReflTransGen.head (hedges a c ha hac) ih

/-- Marking a return as initialised keeps the graph without a cycle and without a pointer to
nowhere. -/
theorem marked_acyclic (g : NodeGraph) (this input : Nat) (busID : Int)
    (hret : g[this]? = some (Node.returnNode input busID false))
    (hacyc : g.Acyclic) (hclosed : g.Closed) :
    NodeGraph.Acyclic (g.set this (Node.returnNode input busID true)) ∧
    NodeGraph.Closed (g.set this (Node.returnNode input busID true)) := by
  have hsame : NodeGraph.DirectInput (g.set this (Node.returnNode input busID true))
      = g.DirectInput := by
    funext a b
    unfold NodeGraph.DirectInput
    rw [inputs_of_marked g this input busID false hret]
  constructor
  · unfold NodeGraph.Acyclic
    rw [hsame]
    exact hacyc
  · unfold NodeGraph.Closed
    rw [hsame]
    simpa using hclosed

/-- A summing node of sends put between a return and its input keeps the graph without a
pointer to nowhere, and keeps it without a cycle exactly when none of the sends reaches the
return. -/
theorem inserted_acyclic (g : NodeGraph) (this input : Nat) (busID : Int) (sends : List Nat)
    (hret : g[this]? = some (Node.returnNode input busID false))
    (hsends : ∀ s ∈ sends, s < g.length)
    (hacyc : g.Acyclic) (hclosed : g.Closed) :
    NodeGraph.Closed ((g ++ [Node.summingNode [input] sends]).set this
      (Node.returnNode g.length busID true)) ∧
    (NodeGraph.Acyclic ((g ++ [Node.summingNode [input] sends]).set this
        (Node.returnNode g.length busID true))
      ↔ ∀ s ∈ sends, ¬ g.Reaches s this) := by
  have hthis := getElem?_lt g _ _ hret
  have hin : g.DirectInput this input := by
    unfold NodeGraph.DirectInput NodeGraph.getDirectInputNodes
    rw [hret]
    exact List.mem_singleton.mpr rfl
  have hedge : ∀ a b,
      NodeGraph.DirectInput ((g ++ [Node.summingNode [input] sends]).set this
        (Node.returnNode g.length busID true)) a b ↔
      (if a = this then b = g.length
        else if a = g.length then b = input ∨ b ∈ sends
        else g.DirectInput a b) := by
    intro a b
    unfold NodeGraph.DirectInput
    rw [inputs_of_inserted g this input busID sends hret]
    split_ifs <;> simp
  refine ⟨?_, ?_, ?_⟩
  · intro a b hab
    rw [hedge] at hab
    simp only [List.length_set, List.length_append, List.length_singleton]
    split_ifs at hab with h1 h2
    · omega
    · rcases hab with rfl | hb
      · exact Nat.lt_succ_of_lt (hclosed _ _ hin)
      · exact Nat.lt_succ_of_lt (hsends b hb)
    · exact Nat.lt_succ_of_lt (hclosed a b hab)
  · intro hacyc' s hs hreach
    have hreach' := reaches_of_edges g _ this (fun a b ha hab => by
      rw [hedge, if_neg ha, if_neg (ne_of_lt (directInput_lt g a b hab))]
      exact hab) s hreach
    refine hacyc' this ?_
    have e1 : NodeGraph.DirectInput ((g ++ [Node.summingNode [input] sends]).set this
        (Node.returnNode g.length busID true)) this g.length := by
      rw [hedge, if_pos rfl]
    have e2 : NodeGraph.DirectInput ((g ++ [Node.summingNode [input] sends]).set this
        (Node.returnNode g.length busID true)) g.length s := by
      rw [hedge, if_neg (by omega), if_pos rfl]
      exact Or.inr hs
    exact Relation.TransGen.trans_left (Relation.TransGen.tail (Relation.TransGen.single e1) e2)
      hreach'
  · intro hsafe
    refine acyclic_insertNode g.DirectInput _ this g.length input (fun s => s ∈ sends)
      ?_ (by omega) hin (ne_of_lt (hclosed _ _ hin)) (fun s hs => ne_of_lt (hsends s hs))
      hacyc hsafe
    intro a b hab
    rw [hedge] at hab
    split_ifs at hab with h1 h2
    · exact Or.inl ⟨h1, hab⟩
    · exact Or.inr (Or.inl ⟨h2, hab⟩)
    · exact Or.inr (Or.inr ⟨h2, ne_of_lt (hclosed a b hab), hab⟩)

/-- A graph in which every node has a higher address than its direct inputs, as when each node
is constructed after its inputs, has no cycle and no pointer to nowhere. -/
theorem acyclic_of_ordered (g : NodeGraph)
    (h : ∀ a, a < g.length → ∀ b ∈ g.getDirectInputNodes a, b < a) :
    g.Acyclic ∧ g.Closed := by
  have hlt : ∀ a b, g.DirectInput a b → b < a :=
    fun a b hab => h a (directInput_lt g a b hab) b hab
  have htrans : ∀ a b, Relation.TransGen g.DirectInput a b → b < a := by
    intro a b hab
    induction hab with
    | single hab => exact hlt _ _ hab
    | tail _ hcb ih => exact lt_trans (hlt _ _ hcb) ih
  exact ⟨fun a haa => lt_irrefl a (htrans a a haa),
    fun a b hab => lt_trans (hlt a b hab) (directInput_lt g a b hab)⟩

theorem isSendOfBus_false (g : NodeGraph) (busID : Int)
    (h : ∀ s, s < g.length → g.isSendOfBus busID s = false) (s : Nat) :
    g.isSendOfBus busID s = false := by
  by_cases hs : s < g.length
  · exact h s hs
  · by_contra hne
    exact hs (isSendOfBus_lt g busID s (by simpa using hne))

/-- A run of preparations, each of them of a return that no send of its bus found from the
root has in its input chain, leaves a graph without a cycle and without a pointer to
nowhere. -/
theorem preparedSafely_acyclic (rootNode : Nat) (g g' : NodeGraph) (returns : List Nat)
    (hrun : PreparedSafely rootNode g returns g') (hacyc : g.Acyclic) (hclosed : g.Closed) :
    g'.Acyclic ∧ g'.Closed := by
  induction hrun with
  | done g => exact ⟨hacyc, hclosed⟩
  | step g g1 g2 this input busID rest hret hsafe hprep _ ih =>
    obtain ⟨visited, hvis, hprep'⟩ :=
      prepareToPlay_total g rootNode this input busID hacyc hret
    rw [hprep] at hprep'
    have hg1 := Option.some.inj hprep'
    by_cases hpos : (visited.filter (g.isSendOfBus busID)).length > 0
    · rw [if_pos hpos] at hg1
      obtain ⟨hc, hiff⟩ := inserted_acyclic g this input busID
        (visited.filter (g.isSendOfBus busID)) hret
        (fun s hs => isSendOfBus_lt g busID s (List.mem_filter.mp hs).2) hacyc hclosed
      rw [← hg1] at hc hiff
      exact ih (hiff.mpr (fun s hs =>
        hsafe s ((hvis s).mp (List.mem_filter.mp hs).1) (List.mem_filter.mp hs).2)) hc
    · rw [if_neg hpos] at hg1
      obtain ⟨ha, hc⟩ := marked_acyclic g this input busID hret hacyc hclosed
      rw [← hg1] at ha hc
      exact ih ha hc

theorem feedbackGraph_ordered : feedbackGraph.Acyclic ∧ feedbackGraph.Closed :=
  acyclic_of_ordered feedbackGraph (by decide)

theorem busGraph_ordered : busGraph.Acyclic ∧ busGraph.Closed :=
  acyclic_of_ordered busGraph (by decide)

theorem plainGraph_ordered : plainGraph.Acyclic ∧ plainGraph.Closed :=
  acyclic_of_ordered plainGraph (by decide)

/-- The root of `busGraph` reaches its send of bus 1. -/
theorem busGraph_reaches_send : busGraph.Reaches 5 3 :=
  Relation.ReflTransGen.head (show 4 ∈ busGraph.getDirectInputNodes 5 by decide)
    (Relation.ReflTransGen.head (show 3 ∈ busGraph.getDirectInputNodes 4 by decide)
      Relation.ReflTransGen.refl)

/-- Preparing the return of `feedbackGraph` closes a cycle through the return, the new summing
node and the send. -/
theorem feedbackGraph_cycle :
    ReturnNode.prepareToPlay feedbackGraph 2 1 4
      = some [Node.leafNode, Node.returnNode 3 1 true, Node.sendNode 1 1,
          Node.summingNode [0] [2]] ∧
    Relation.TransGen
      (NodeGraph.DirectInput [Node.leafNode, Node.returnNode 3 1 true, Node.sendNode 1 1,
        Node.summingNode [0] [2]]) 1 1 :=
  ⟨by decide,
    Relation.TransGen.tail
      (Relation.TransGen.tail
        (Relation.TransGen.single
          (show 3 ∈ NodeGraph.getDirectInputNodes [Node.leafNode, Node.returnNode 3 1 true,
            Node.sendNode 1 1, Node.summingNode [0] [2]] 1 by decide))
        (show 2 ∈ NodeGraph.getDirectInputNodes [Node.leafNode, Node.returnNode 3 1 true,
          Node.sendNode 1 1, Node.summingNode [0] [2]] 3 by decide))
      (show 1 ∈ NodeGraph.getDirectInputNodes [Node.leafNode, Node.returnNode 3 1 true,
        Node.sendNode 1 1, Node.summingNode [0] [2]] 2 by decide)⟩

/-! ## The players and the rack -/

/-- Induction over a graph without a cycle: what holds for a node whenever it holds for its
direct inputs holds for every node. -/
theorem graph_induction (g : NodeGraph) (hacyc : g.Acyclic) (P : Nat → Prop)
    (hstep : ∀ a, (∀ b, g.DirectInput a b → P b) → P a) : ∀ a, P a := by
  have key : ∀ fuel a, (∃ v, visitInputs g fuel a = some v) → P a := by
    intro fuel
    induction fuel with
    | zero => rintro a ⟨v, hv⟩; simp [visitInputs] at hv
    | succ f ih =>
      rintro a ⟨v, hv⟩
      rw [visitInputs_succ] at hv
      cases hall : visitAll (fun n => visitInputs g f n) (g.getDirectInputNodes a) with
      | none => rw [hall] at hv; cases hv
      | some os => exact hstep a (fun b hb => ih b (visitAll_some _ _ _ hall b hb))
  exact fun a => key _ a (visitInputs_total g hacyc a)

theorem consistent_start {σ : Type} (G : PreparedGraph σ) (init : Nat → σ) :
    Consistent G init (EpochState.start init) :=
  ⟨fun a o h => (by cases h), fun a o h => (by cases h), fun _ _ => rfl⟩

theorem ready_iff {σ : Type} (G : PreparedGraph σ) (s : EpochState σ) (a : Nat) :
    G.ready s a = true ↔ s.processed a = none ∧
      ∀ i ∈ G.graph.getDirectInputNodes a, (s.processed i).isSome = true := by
  unfold PreparedGraph.ready
  rw [Bool.and_eq_true, List.all_eq_true, Option.isNone_iff_eq_none]

/-- Running a node that is ready keeps the state consistent and keeps what has processed. -/
theorem consistent_processNode {σ : Type} (G : PreparedGraph σ) (init : Nat → σ)
    (s : EpochState σ) (a : Nat) (hs : Consistent G init s) (hready : G.ready s a = true) :
    Consistent G init (G.processNode s a) ∧
    ((G.processNode s a).processed a).isSome = true ∧
    (∀ b o, s.processed b = some o → (G.processNode s a).processed b = some o) ∧
    (∀ b, b ≠ a → (G.processNode s a).processed b = s.processed b) := by
  obtain ⟨hnone, hin⟩ := (ready_iff G s a).mp hready
  have hkeep : ∀ b, b ≠ a → (G.processNode s a).processed b = s.processed b := by
    intro b hb
    simp only [PreparedGraph.processNode, if_neg hb]
  have hself : (G.processNode s a).processed a = some (G.process a (s.nodeState a)
      ((G.graph.getDirectInputNodes a).map (fun i => (s.processed i).getD emptyBuffer))).2 := by
    simp only [PreparedGraph.processNode, if_true]
  have hnotin : ∀ b, (∀ i ∈ G.graph.getDirectInputNodes b, (s.processed i).isSome = true) →
      ∀ i ∈ G.graph.getDirectInputNodes b, i ≠ a := by
    intro b hb i hi hia
    have := hb i hi
    rw [hia, hnone] at this
    cases this
  have hmap : ∀ b, (∀ i ∈ G.graph.getDirectInputNodes b, (s.processed i).isSome = true) →
      (G.graph.getDirectInputNodes b).map
          (fun i => ((G.processNode s a).processed i).getD emptyBuffer)
        = (G.graph.getDirectInputNodes b).map (fun i => (s.processed i).getD emptyBuffer) := by
    intro b hb
    apply List.map_congr_left
    intro i hi
    rw [hkeep i (hnotin b hb i hi)]
  refine ⟨⟨?_, ?_, ?_⟩, by rw [hself]; rfl, ?_, hkeep⟩
  · intro b o hb i hi
    by_cases hba : b = a
    · subst hba
      rw [hkeep i (hnotin b hin i hi)]
      exact hin i hi
    · rw [hkeep b hba] at hb
      have hbi := hs.inputs_done b o hb
      rw [hkeep i (hnotin b hbi i hi)]
      exact hbi i hi
  · intro b o hb
    by_cases hba : b = a
    · subst hba
      rw [hself] at hb
      rw [hmap b hin, ← Option.some.inj hb, ← hs.untouched b hnone]
      simp only [PreparedGraph.processNode, if_true]
    · rw [hkeep b hba] at hb
      rw [hmap b (hs.inputs_done b o hb)]
      have := hs.result_eq b o hb
      simp only [PreparedGraph.processNode, if_neg hba]
      exact this
  · intro b hb
    by_cases hba : b = a
    · subst hba
      rw [hself] at hb
      cases hb
    · rw [hkeep b hba] at hb
      simp only [PreparedGraph.processNode, if_neg hba]
      exact hs.untouched b hb
  · intro b o hb
    have hba : b ≠ a := fun h => by rw [h, hnone] at hb; cases hb
    rw [hkeep b hba]
    exact hb

/-- In a graph without a cycle, two consistent states made from states of the nodes that agree
under a node agree on the output and the new state of that node, when it has processed in
both. -/
theorem consistent_unique {σ : Type} (G : PreparedGraph σ) (hacyc : G.graph.Acyclic)
    (init1 init2 : Nat → σ) (s1 s2 : EpochState σ) (h1 : Consistent G init1 s1)
    (h2 : Consistent G init2 s2) :
    ∀ a, (∀ b, G.graph.Reaches a b → init1 b = init2 b) →
      ∀ o1 o2, s1.processed a = some o1 → s2.processed a = some o2 →
        o1 = o2 ∧ s1.nodeState a = s2.nodeState a := by
  refine graph_induction G.graph hacyc _ ?_
  intro a ih hinit o1 o2 ho1 ho2
  have hmap : (G.graph.getDirectInputNodes a).map (fun i => (s1.processed i).getD emptyBuffer)
      = (G.graph.getDirectInputNodes a).map (fun i => (s2.processed i).getD emptyBuffer) := by
    apply List.map_congr_left
    intro i hi
    have hd1 := h1.inputs_done a o1 ho1 i hi
    have hd2 := h2.inputs_done a o2 ho2 i hi
    obtain ⟨x1, hx1⟩ := Option.isSome_iff_exists.mp hd1
    obtain ⟨x2, hx2⟩ := Option.isSome_iff_exists.mp hd2
    have := (ih i hi (fun b hb => hinit b (Relation.ReflTransGen.head hi hb)) x1 x2 hx1 hx2).1
    rw [hx1, hx2, this]
  have e1 := h1.result_eq a o1 ho1
  have e2 := h2.result_eq a o2 ho2
  rw [hmap, hinit a Relation.ReflTransGen.refl] at e1
  have := e1.trans e2.symm
  exact ⟨(Prod.mk.inj this).2, (Prod.mk.inj this).1⟩

theorem pull_succ {σ : Type} (G : PreparedGraph σ) (fuel a : Nat) (s : EpochState σ) :
    NodePlayer.pull G (fuel + 1) a s
      = if (s.processed a).isSome then some s
        else
          match pullAll (fun n s' => NodePlayer.pull G fuel n s')
              (G.graph.getDirectInputNodes a) s with
          | some s' => some (G.processNode s' a)
          | none => none := rfl

theorem run_cons {σ : Type} (G : PreparedGraph σ) (a : Nat) (rest : List Nat)
    (s : EpochState σ) :
    MultiThreadedNodePlayer.run G (a :: rest) s
      = if G.ready s a then MultiThreadedNodePlayer.run G rest (G.processNode s a) else none :=
  rfl

theorem run_append {σ : Type} (G : PreparedGraph σ) (l1 l2 : List Nat) (s s1 : EpochState σ)
    (h : MultiThreadedNodePlayer.run G l1 s = some s1) :
    MultiThreadedNodePlayer.run G (l1 ++ l2) s = MultiThreadedNodePlayer.run G l2 s1 := by
  induction l1 generalizing s with
  | nil =>
    simp only [MultiThreadedNodePlayer.run, Option.some.injEq] at h
    rw [List.nil_append, h]
  | cons a rest ih =>
    rw [run_cons] at h
    by_cases hr : G.ready s a = true
    · rw [if_pos hr] at h
      rw [List.cons_append, run_cons, if_pos hr]
      exact ih _ h
    · rw [if_neg hr] at h
      cases h

/-- What a pull of node `a` does, in a graph without a cycle and within a depth that the search
under `a` ends in: it returns a consistent state in which `a` has processed, what had processed
before is kept, what is new is reached from `a`, and the nodes it runs, in their order, are a
run of the workers of the multi-threaded player. -/
theorem pull_spec {σ : Type} (G : PreparedGraph σ) (hacyc : G.graph.Acyclic) (init : Nat → σ)
    (fuel : Nat) : ∀ (a : Nat) (s : EpochState σ),
      (∃ v, visitInputs G.graph fuel a = some v) → Consistent G init s →
      ∃ s', NodePlayer.pull G fuel a s = some s' ∧ Consistent G init s' ∧
        (s'.processed a).isSome = true ∧
        (∀ b o, s.processed b = some o → s'.processed b = some o) ∧
        (∀ b, (s'.processed b).isSome = true →
          (s.processed b).isSome = true ∨ G.graph.Reaches a b) ∧
        ∃ schedule, MultiThreadedNodePlayer.run G schedule s = some s' := by
  induction fuel with
  | zero => rintro a s ⟨v, hv⟩; simp [visitInputs] at hv
  | succ f ih =>
    rintro a s ⟨v, hv⟩ hs
    rw [pull_succ]
    by_cases hdone : (s.processed a).isSome = true
    · rw [if_pos hdone]
      exact ⟨s, rfl, hs, hdone, fun _ _ h => h, fun _ h => Or.inl h, [], rfl⟩
    · rw [if_neg hdone]
      rw [visitInputs_succ] at hv
      cases hall : visitAll (fun n => visitInputs G.graph f n) (G.graph.getDirectInputNodes a) with
      | none => rw [hall] at hv; cases hv
      | some os =>
        have hsub := visitAll_some _ _ _ hall
        -- the pulls of the direct inputs
        have hlist : ∀ (l : List Nat) (s0 : EpochState σ),
            (∀ b ∈ l, b ∈ G.graph.getDirectInputNodes a) → Consistent G init s0 →
            ∃ s', pullAll (fun n s' => NodePlayer.pull G f n s') l s0 = some s' ∧
              Consistent G init s' ∧
              (∀ b ∈ l, (s'.processed b).isSome = true) ∧
              (∀ b o, s0.processed b = some o → s'.processed b = some o) ∧
              (∀ b, (s'.processed b).isSome = true →
                (s0.processed b).isSome = true ∨ ∃ i ∈ l, G.graph.Reaches i b) ∧
              ∃ schedule, MultiThreadedNodePlayer.run G schedule s0 = some s' := by
          intro l
          induction l with
          | nil =>
            intro s0 _ h0
            exact ⟨s0, rfl, h0, fun b hb => (by cases hb), fun _ _ h => h, fun _ h => Or.inl h,
              [], rfl⟩
          | cons n ns ihl =>
            intro s0 hl h0
            obtain ⟨s1, p1, c1, d1, k1, r1, l1, q1⟩ :=
              ih n s0 (hsub n (hl n (List.mem_cons_self _ _))) h0
            obtain ⟨s2, p2, c2, d2, k2, r2, l2, q2⟩ :=
              ihl s1 (fun b hb => hl b (List.mem_cons_of_mem _ hb)) c1
            refine ⟨s2, ?_, c2, ?_, fun b o h => k2 b o (k1 b o h), ?_,
              l1 ++ l2, by rw [run_append G l1 l2 s0 s1 q1]; exact q2⟩
            · simp only [pullAll, p1]
              exact p2
            · intro b hb
              rcases List.mem_cons.mp hb with rfl | hb
              · obtain ⟨o, ho⟩ := Option.isSome_iff_exists.mp d1
                rw [k2 _ o ho]
                rfl
              · exact d2 b hb
            · intro b hb
              rcases r2 b hb with h | ⟨i, hi, hr⟩
              · rcases r1 b h with h' | hr
                · exact Or.inl h'
                · exact Or.inr ⟨n, List.mem_cons_self _ _, hr⟩
              · exact Or.inr ⟨i, List.mem_cons_of_mem _ hi, hr⟩
        obtain ⟨s', p, c, d, k, r, l, q⟩ := hlist _ s (fun _ h => h) hs
        rw [p]
        have hnone : s'.processed a = none := by
          by_contra hne
          have hsome : (s'.processed a).isSome = true := by
            cases hx : s'.processed a with
            | none => exact absurd hx hne
            | some _ => rfl
          rcases r a hsome with h | ⟨i, hi, hr⟩
          · exact hdone h
          · rcases Relation.reflTransGen_iff_eq_or_transGen.mp hr with h | h
            · have hi' : G.graph.DirectInput a i := hi
              rw [← h] at hi'
              exact hacyc a (Relation.TransGen.single hi')
            · exact hacyc a (Relation.TransGen.head hi h)
        have hready : G.ready s' a = true := (ready_iff G s' a).mpr ⟨hnone, d⟩
        obtain ⟨c', d', k', keep⟩ := consistent_processNode G init s' a c hready
        refine ⟨_, rfl, c', d', fun b o h => k' b o (k b o h), ?_, l ++ [a], ?_⟩
        swap
        · rw [run_append G l [a] s s' q]
          simp only [MultiThreadedNodePlayer.run, hready, if_true]
        intro b hb
        by_cases hba : b = a
        · exact Or.inr (hba ▸ Relation.ReflTransGen.refl)
        · rw [keep b hba] at hb
          rcases r b hb with h | ⟨i, hi, hr⟩
          · exact Or.inl h
          · exact Or.inr (Relation.ReflTransGen.head hi hr)

/-- A run of the workers keeps the state consistent. -/
theorem run_consistent {σ : Type} (G : PreparedGraph σ) (init : Nat → σ) (schedule : List Nat) :
    ∀ (s s' : EpochState σ), Consistent G init s →
      MultiThreadedNodePlayer.run G schedule s = some s' → Consistent G init s' := by
  induction schedule with
  | nil =>
    intro s s' hs h
    simp only [MultiThreadedNodePlayer.run, Option.some.injEq] at h
    exact h ▸ hs
  | cons a rest ih =>
    intro s s' hs h
    unfold MultiThreadedNodePlayer.run at h
    by_cases hr : G.ready s a = true
    · rw [if_pos hr] at h
      exact ih _ _ (consistent_processNode G init s a hs hr).1 h
    · rw [if_neg hr] at h
      cases h

/-- The single-threaded player processes a block of a graph without a cycle: it returns a
consistent state in which the root has processed, and the order in which it runs the nodes is
an order in which the multi-threaded player completes the block. -/
theorem nodePlayer_total {σ : Type} (G : PreparedGraph σ) (hacyc : G.graph.Acyclic)
    (rootNode : Nat) (init : Nat → σ) :
    ∃ s, NodePlayer.process G rootNode init = some s ∧ Consistent G init s ∧
      (∃ o, s.processed rootNode = some o) ∧
      ∃ schedule, MultiThreadedNodePlayer.process G rootNode schedule init = some s := by
  obtain ⟨s, p, c, d, _, _, l, q⟩ := pull_spec G hacyc init (G.graph.length + 1) rootNode
    (EpochState.start init) (visitInputs_total G.graph hacyc rootNode) (consistent_start G init)
  refine ⟨s, p, c, Option.isSome_iff_exists.mp d, l, ?_⟩
  unfold MultiThreadedNodePlayer.process
  rw [q]
  dsimp only
  rw [if_pos d]

/-- In a consistent state, every node under a node that has processed has processed. -/
theorem consistent_closure {σ : Type} (G : PreparedGraph σ) (init : Nat → σ) (s : EpochState σ)
    (hs : Consistent G init s) (a b : Nat) (hab : G.graph.Reaches a b)
    (ha : (s.processed a).isSome = true) : (s.processed b).isSome = true := by
  induction hab with
  | refl => exact ha
  | tail _ hcb ih =>
    obtain ⟨o, ho⟩ := Option.isSome_iff_exists.mp ih
    exact hs.inputs_done _ o ho _ hcb

theorem diamondGraph_ordered : diamondGraph.graph.Acyclic ∧ diamondGraph.graph.Closed :=
  acyclic_of_ordered diamondGraph.graph (by decide)

theorem constantBlock_allocated (numChannels numSamples : Nat) (v : ℚ) :
    (constantBlock numChannels numSamples v).Allocated := by
  intro c hc
  simp only [constantBlock, List.mem_replicate] at hc
  rw [hc.2]
  simp [constantBlock]

theorem constantBlock_zero_getSample (numChannels numSamples c t : Nat) :
    (constantBlock numChannels numSamples 0).getSample c t = 0 := by
  unfold AudioBlock.getSample AudioBlock.getChannelPointer constantBlock
  simp only [List.getD_eq_getElem?_getD]
  by_cases hc : c < numChannels
  · rw [List.getElem?_replicate, if_pos hc]
    simp only [Option.getD_some]
    by_cases ht : t < numSamples
    · rw [List.getElem?_replicate, if_pos ht]; rfl
    · rw [List.getElem?_replicate, if_neg ht]; rfl
  · rw [List.getElem?_replicate, if_neg hc]
    rfl

/-- A sample of the input bus of a rack: that of the provider on a channel it supplies, and
silence on a missing channel. -/
theorem busAudio_getSample (provider : InputProvider) (numBusChannels numSamples c t : Nat)
    (hc : c < numBusChannels) (ht : t < numSamples) :
    (provider.busAudio numBusChannels numSamples).getSample c t
      = if c < provider.numChannels then provider.audio.getSample c t else 0 := by
  unfold InputProvider.busAudio
  simp only [AudioBlock.getSample, AudioBlock.getChannelPointer, List.getD_eq_getElem?_getD]
  rw [List.getElem?_map, List.getElem?_range hc]
  simp only [Option.map_some', Option.getD_some]
  rw [List.getElem?_map, List.getElem?_range ht]
  simp only [Option.map_some', Option.getD_some, List.getD_eq_getElem?_getD]

/-- The channels of an audio connection of a well-formed rack are inside the buses. -/
theorem pin_channels (rack : RackType) (hwf : rack.WellFormed) (c : Nat × Nat)
    (hc : c ∈ rack.connections) (h1 : 1 ≤ c.1) (h2 : 1 ≤ c.2) :
    toSizeT ((c.1 : Int) - 1) = c.1 - 1 ∧ toSizeT ((c.2 : Int) - 1) = c.2 - 1 ∧
      c.1 - 1 < rack.numInputNames - 1 ∧ c.2 - 1 < rack.numOutputNames - 1 := by
  obtain ⟨p1, p2⟩ := hwf.pins_named c hc
  have b1 := hwf.inputs_int
  have b2 := hwf.outputs_int
  refine ⟨?_, ?_, by omega, by omega⟩
  · unfold toSizeT
    rw [Int.emod_eq_of_lt (by omega) (by omega)]
    omega
  · unfold toSizeT
    rw [Int.emod_eq_of_lt (by omega) (by omega)]
    omega

/-- What the node of a well-formed rack of direct connections makes of a block: it returns a
block of the channels of the output bus, each sample of which is the sum, over the connections
that lead to the channel from a channel that the provider supplies, of the sample of the
provider. -/
theorem rackProcess_spec (rack : RackType) (provider : InputProvider) (numSamples : Nat)
    (hwf : rack.WellFormed) :
    ∃ out, RackNode.process rack provider numSamples = some out ∧
      out.channels.length = rack.numOutputNames - 1 ∧
      out.numSamples = numSamples ∧
      ∀ d t, d < rack.numOutputNames - 1 → t < numSamples →
        out.getSample d t = (rack.connections.map (fun c =>
          if 1 ≤ c.1 ∧ c.2 = d + 1 ∧ c.1 - 1 < provider.numChannels
            then provider.audio.getSample (c.1 - 1) t else 0)).sum := by
  have hrange : ∀ ch ∈ rack.channelMap,
      toSizeT ch.1 < (provider.busAudio (rack.numInputNames - 1) numSamples).channels.length
      ∧ toSizeT ch.2 < (constantBlock (rack.numOutputNames - 1) numSamples 0).channels.length := by
    intro ch hch
    unfold RackType.channelMap at hch
    obtain ⟨c, hc, rfl⟩ := List.mem_map.mp hch
    obtain ⟨hmem, hpin⟩ := List.mem_filter.mp hc
    have hpin' : 1 ≤ c.1 ∧ 1 ≤ c.2 := by simpa using hpin
    obtain ⟨e1, e2, r1, r2⟩ := pin_channels rack hwf c hmem hpin'.1 hpin'.2
    dsimp only
    rw [e1, e2]
    simp only [InputProvider.busAudio, constantBlock, List.length_map, List.length_range,
      List.length_replicate]
    exact ⟨r1, r2⟩
  obtain ⟨out, hout, o1, o2, _, _, o5⟩ := mappingLoop_spec rack.channelMap
    (provider.busAudio (rack.numInputNames - 1) numSamples)
    (constantBlock (rack.numOutputNames - 1) numSamples 0)
    (constantBlock_allocated _ _ _) hrange
  have hlen : (constantBlock (rack.numOutputNames - 1) numSamples 0).channels.length
      = rack.numOutputNames - 1 := by simp [constantBlock]
  refine ⟨out, ?_, o2.trans hlen, o1, ?_⟩
  · unfold RackNode.process ChannelMappingNode.process
    dsimp only
    rw [hout]
    rfl
  · intro d t hd ht
    rw [o5 d t (by rw [hlen]; exact hd) ht, constantBlock_zero_getSample, zero_add]
    unfold RackType.channelMap
    rw [List.map_map, sum_filter_map]
    congr 1
    apply List.map_congr_left
    intro c hc
    by_cases hpin : 1 ≤ c.1 ∧ 1 ≤ c.2
    · obtain ⟨e1, e2, r1, r2⟩ := pin_channels rack hwf c hc hpin.1 hpin.2
      have hdec : decide (1 ≤ c.1 ∧ 1 ≤ c.2) = true := by simpa using hpin
      rw [if_pos hdec]
      simp only [Function.comp]
      rw [e1, e2, busAudio_getSample provider _ _ _ _ r1 ht]
      have hns : (provider.busAudio (rack.numInputNames - 1) numSamples).numSamples
          = numSamples := rfl
      rw [hns]
      by_cases hcd : c.2 = d + 1
      · have : c.2 - 1 = d := by omega
        simp only [this, ht, and_self, if_true, hpin.1, hcd, true_and]
        simp
      · have : ¬ c.2 - 1 = d := by omega
        simp only [this, false_and, if_false, hcd, and_false]
    · have hdec : ¬ decide (1 ≤ c.1 ∧ 1 ≤ c.2) = true := by simpa using hpin
      rw [if_neg hdec]
      have : ¬ (1 ≤ c.1 ∧ c.2 = d + 1 ∧ c.1 - 1 < provider.numChannels) := by
        intro h
        exact hpin ⟨h.1, by omega⟩
      rw [if_neg this]

/-! ## The pacing budget -/

theorem truncToInt_add_bounds (x : ℚ) (hx : 0 ≤ x) :
    x - 1 / 100 < (truncToInt (x + 99 / 100) : ℚ) ∧
    (truncToInt (x + 99 / 100) : ℚ) ≤ x + 99 / 100 ∧
    ((truncToInt (x + 99 / 100) : ℚ) < x ↔ 0 < Int.fract x ∧ Int.fract x < 1 / 100) := by
  have h0 : (0 : ℚ) ≤ x + 99 / 100 := by linarith
  have ht : truncToInt (x + 99 / 100) = ⌊x + 99 / 100⌋ := by
    unfold truncToInt; rw [if_pos h0]
  rw [ht]
  have h1 := Int.floor_le (x + 99 / 100)
  have h2 := Int.lt_floor_add_one (x + 99 / 100)
  refine ⟨by linarith, h1, ?_⟩
  have hf0 := Int.fract_nonneg x
  have hf1 := Int.fract_lt_one x
  have hx' : x = (⌊x⌋ : ℚ) + Int.fract x := (Int.floor_add_fract x).symm
  by_cases hsmall : Int.fract x < 1 / 100
  · have hfl : ⌊x + 99 / 100⌋ = ⌊x⌋ := by
      rw [Int.floor_eq_iff]
      constructor <;> linarith
    rw [hfl]
    constructor
    · intro h; exact ⟨by linarith, hsmall⟩
    · intro h; linarith [h.1]
  · have hfl : ⌊x + 99 / 100⌋ = ⌊x⌋ + 1 := by
      rw [Int.floor_eq_iff]
      push_cast
      constructor <;> linarith
    rw [hfl]
    push_cast
    constructor
    · intro h; linarith
    · intro h; exact absurd h.2 hsmall

theorem setupBookkeeping_realTime (E : Externals) (c : NodeRenderContext) (sys : SetupInput) :
    (c.setupBookkeeping E sys).realTimePerBlock
      = truncToInt ((c.r.blockSizeForAudio : ℚ) / c.r.sampleRateForAudio * 1000 + 99 / 100) :=
  rfl

/-- The pacing budget of a successfully constructed context, in terms of the parameters. -/
theorem construct_realTime (E : Externals) (p ownerParams : Parameters)
    (props : NodeProperties) (playHead : PlayHead) (sys : SetupInput)
    (h : props.hasAudio = true) (hdest : workingDestFile p sys ≠ "" → sys.writerOpens = true) :
    (NodeRenderContext.construct E p ownerParams props playHead sys).realTimePerBlock
      = truncToInt (blockLengthMs p + 99 / 100) := by
  rw [construct_ok E p ownerParams props playHead sys h hdest, setupBookkeeping_realTime]
  obtain ⟨_, _, _, f4, f5, _⟩ := withWriter_fields p ownerParams props playHead sys
  rw [f4, f5]
  unfold blockLengthMs
  congr 1
  ring

theorem oddBlock_realTime :
    (NodeRenderContext.construct referenceExternals oddBlockParams oddBlockParams
      (exampleProps 0) stoppedPlayHead exampleSetup).realTimePerBlock = 6 ∧
    blockLengthMs oddBlockParams = 2650 / 441 := by
  have hms : blockLengthMs oddBlockParams = 2650 / 441 := by
    norm_num [blockLengthMs, oddBlockParams, exampleParams]
  refine ⟨?_, hms⟩
  rw [construct_realTime referenceExternals oddBlockParams oddBlockParams (exampleProps 0)
    stoppedPlayHead exampleSetup rfl (fun _ => rfl), hms]
  unfold truncToInt
  rw [if_pos (by norm_num)]
  rw [Int.floor_eq_iff]
  constructor <;> norm_num

/-! ## The sub-block that reaches the write path -/

theorem bufferToWrite_congr (E : Externals) (c c' : NodeRenderContext) (block : AudioBlock)
    (h : SameSetup c c') : c'.bufferToWrite E block = c.bufferToWrite E block := by
  unfold NodeRenderContext.bufferToWrite
  rw [h.numOutputChans_eq, h.r_eq]

theorem setWriter_analysed (a : NodeRenderContext) (w : Option AudioFileWriter) :
    ({ a with writer := w }).analysedBlocks = a.analysedBlocks := rfl

theorem writeAudioBlock_analysed (E : Externals) (c c' : NodeRenderContext) (block : AudioBlock)
    (ok : Bool) (wr : WriteResult) (h : c.writeAudioBlock E block ok = some (wr, c')) :
    c'.analysedBlocks = c.analysedBlocks ++ [c.bufferToWrite E block] := by
  have ha : (c.analyseBlock E block).analysedBlocks
      = c.analysedBlocks ++ [c.bufferToWrite E block] := by rw [analyseBlock_eq]
  rcases writeAudioBlock_some E c c' block ok wr h with h1 | ⟨w, _, _, _, _, _, _, h1⟩
  · rw [h1]; exact ha
  · rw [h1, setWriter_analysed]; exact ha

/-- The offset of line 278 at which the sub-block of a steady-state block starts: the number
of samples of the destination block minus the number of samples to write when latency
samples are dropped, 0 otherwise. -/
theorem planWrite_offset (c : NodeRenderContext) (n : Nat) :
    (c.planWrite n).blockOffset
      = (if c.numLatencySamplesToDrop > 0
         then toSizeT ((n : Int) - (toSizeT (c.samplesTaken - c.samplesDropped) : Int))
         else 0) ∧
    (c.planWrite n).blockSize = toSizeT (c.samplesTaken - c.samplesDropped) ∧
    (c.planWrite n).ctx.analysedBlocks = c.analysedBlocks := by
  rw [planWrite_eq]
  refine ⟨rfl, rfl, ?_⟩
  simp

theorem writeOrWarmUp_analysed (E : Externals) (c c' : NodeRenderContext) (block : AudioBlock)
    (ok : Bool) (wr : WriteResult) (hp : c.precount ≤ 0)
    (h : c.writeOrWarmUp E block ok = some (wr, c')) :
    c'.analysedBlocks = c.analysedBlocks ++
      (if (c.planWrite block.numSamples).blockSize > 0
       then [c.bufferToWrite E (block.getSubBlock (c.planWrite block.numSamples).blockOffset
              (c.planWrite block.numSamples).blockSize)]
       else []) := by
  rw [writeOrWarmUp_steady E c block ok hp] at h
  obtain ⟨_, _, ha⟩ := planWrite_offset c block.numSamples
  by_cases hpos : (c.planWrite block.numSamples).blockSize > 0
  · rw [if_pos hpos] at h ⊢
    rw [writeAudioBlock_analysed E _ c' _ ok wr h, ha,
      bufferToWrite_congr E c _ _ (sameSetup_planWrite c _)]
  · rw [if_neg hpos] at h ⊢
    simp only [Option.some.injEq, Prod.mk.injEq] at h
    rw [← h.2, ha]; simp

/-- What a steady-state call hands to the write path: when the block has samples left after
the drop, the sub-block of the destination block that starts at the offset of line 278 and
has as many samples as were taken minus those dropped; nothing otherwise. -/
theorem steady_analysed (E : Externals) (c : NodeRenderContext) (p : ℚ) (inp : BlockInput)
    (res : StepResult) (hexit : inp.shouldExit = false)
    (hgo : (inp.leafNodesReady || inp.shouldExitWhileWaiting) = true) (hp : c.precount ≤ 0)
    (h : c.renderNextBlock E p inp = some res) :
    res.ctx.analysedBlocks = c.analysedBlocks ++
      (if toSizeT (c.samplesTaken - c.samplesDropped) > 0
       then [c.bufferToWrite E ((c.destBlock E inp).getSubBlock
              (if c.numLatencySamplesToDrop > 0
               then toSizeT (((c.destBlock E inp).numSamples : Int)
                      - (toSizeT (c.samplesTaken - c.samplesDropped) : Int))
               else 0)
              (toSizeT (c.samplesTaken - c.samplesDropped)))]
       else []) := by
  obtain ⟨q1, q2, q3, q4, q5, q6, q7⟩ := processed_fields E c inp
  rw [renderNextBlock_process E c p inp hexit hgo] at h
  change (match (c.processed E inp).writeOrWarmUp E (c.destBlock E inp) inp.appendOk with
        | none => none
        | some (WriteResult.failed, c') => some { finished := true, ctx := c', progress := p }
        | some (WriteResult.succeeded, c') =>
          some (c'.finishBlock c.blockEnd p inp.magnitudeAtEnd)) = some res at h
  obtain ⟨o1, o2, _⟩ := planWrite_offset (c.processed E inp) (c.destBlock E inp).numSamples
  rw [q6, q7, q2.drop_eq] at o1
  rw [q6, q7] at o2
  cases hwr : (c.processed E inp).writeOrWarmUp E (c.destBlock E inp) inp.appendOk with
  | none => rw [hwr] at h; simp at h
  | some pr =>
    obtain ⟨wr, c'⟩ := pr
    rw [hwr] at h
    have ha := writeOrWarmUp_analysed E _ c' _ _ wr (by rw [q4]; exact hp) hwr
    rw [o1, o2, q2.analysed_eq, bufferToWrite_congr E c _ _ q1] at ha
    cases wr with
    | failed =>
      simp only [Option.some.injEq] at h
      rw [← h]; exact ha
    | succeeded =>
      simp only [Option.some.injEq] at h
      obtain ⟨_, _, _, f4⟩ := finishBlock_spec c' c.blockEnd p inp.magnitudeAtEnd
      rw [← h, f4.analysed_eq]; exact ha

/-! ## The render shorter than one block -/

theorem shortLatencyParams_valid :
    ValidParams referenceExternals shortLatencyParams (exampleProps 100) :=
  { sampleRate_pos := by norm_num [shortLatencyParams]
    blockSize_pos := by norm_num [shortLatencyParams]
    blockSize_lt := by norm_num [shortLatencyParams]
    length_pos := by norm_num [shortLatencyParams]
    allowance_nonneg := by norm_num [shortLatencyParams, exampleParams]
    hasAudio := rfl
    latency_nonneg := by norm_num [exampleProps] }

theorem shortLatencyParams_fits :
    BudgetFits referenceExternals shortLatencyParams (exampleProps 100) :=
  { budget_le := by
      simp only [budgetInSamples, shortLatencyParams, exampleParams, exampleProps, sampleToTime]
      norm_num
    round_near := fun x _ _ => referenceExternals_round_near x }

theorem shortLatencyContext_valid : ValidStart shortLatencyContext :=
  construct_validStart referenceExternals shortLatencyParams shortLatencyParams (exampleProps 100)
    stoppedPlayHead exampleSetup shortLatencyParams_valid shortLatencyParams_fits (fun _ => rfl)

/-- The numbers of the render shorter than one block: one warm-up block, a budget of 200
samples of which 100 are latency, blocks of 750 samples. -/
theorem shortLatencyContext_fields :
    shortLatencyContext.precount = 1 ∧ shortLatencyContext.samplesToWrite = 200 ∧
    shortLatencyContext.numLatencySamplesToDrop = 100 ∧
    shortLatencyContext.blockLength = 3 / 4 ∧
    shortLatencyContext.r.blockSizeForAudio = 750 ∧
    shortLatencyContext.r.time.getStart = 0 ∧
    shortLatencyContext.originalParams.sampleRateForAudio = 1000 ∧
    shortLatencyContext.numOutputChans = 2 ∧
    shortLatencyContext.r.ditheringEnabled = false ∧
    shortLatencyContext.analysedBlocks = [] := by
  obtain ⟨c1, c2, c3, c4, c5, c6, c7, c8, c9, c10, c11, c12, c13, c14, c15, c16, c17, c18, _, _,
    c21⟩ :=
    construct_fields referenceExternals shortLatencyParams shortLatencyParams (exampleProps 100)
      stoppedPlayHead exampleSetup rfl (fun _ => rfl)
  have hok := construct_ok referenceExternals shortLatencyParams shortLatencyParams
    (exampleProps 100) stoppedPlayHead exampleSetup rfl (fun _ => rfl)
  obtain ⟨b1, b2, _⟩ := setupBookkeeping_fields referenceExternals
    (NodeRenderContext.withWriter shortLatencyParams shortLatencyParams (exampleProps 100)
      stoppedPlayHead exampleSetup) exampleSetup
  obtain ⟨_, _, _, _, _, _, _, _, _, w10, _⟩ := withWriter_fields shortLatencyParams
    shortLatencyParams (exampleProps 100) stoppedPlayHead exampleSetup
  unfold shortLatencyContext EditTimeRange.getStart
  refine ⟨?_, ?_, ?_, ?_, ?_, ?_, ?_, ?_, ?_, c21⟩
  · rw [c8]; norm_num [shortLatencyParams, truncToInt]
  · rw [c10]
    norm_num [shortLatencyParams, exampleParams, exampleProps, referenceExternals, sampleToTime]
  · rw [c11]; rfl
  · rw [c6]; norm_num [shortLatencyParams]
  · rw [c5]; rfl
  · rw [c1]; rfl
  · rw [hok, b2, w10]; rfl
  · rw [c18]; rfl
  · rw [hok, b1]
    unfold NodeRenderContext.withWriter NodeRenderContext.setupLatencyAndPostPass
    rfl

/-! ## Warm-up calls and calls that wait for the leaf nodes -/

theorem finishBlock_playHead (c : NodeRenderContext) (blockEnd p magnitude : ℚ) :
    (c.finishBlock blockEnd p magnitude).ctx.playHead = c.playHead := by
  unfold NodeRenderContext.finishBlock
  split_ifs <;> rfl

theorem beforeProcess_playHead (E : Externals) (c : NodeRenderContext) (inp : BlockInput) :
    (c.beforeProcess E inp).playHead = c.positionedPlayHead E := by
  rw [beforeProcess_eq]

/-- During the warm-up the playhead is moved by lines 200-203 only: set to the sample of the
stream time in the first half of the warm-up, started from that sample at the half-way block,
left alone afterwards. -/
theorem positionedPlayHead_warm (E : Externals) (c : NodeRenderContext) (hp : 0 < c.precount) :
    c.positionedPlayHead E
      = if c.precount > c.numPreRenderBlocks.tdiv 2 then
          c.playHead.setPosition (E.timeToSample c.streamTime c.r.sampleRateForAudio)
        else if c.precount = c.numPreRenderBlocks.tdiv 2 then
          c.playHead.playSyncedToRange
            (E.timeToSample c.streamTime c.r.sampleRateForAudio, int64Max)
        else c.playHead := by
  unfold NodeRenderContext.positionedPlayHead
  simp only []
  rw [if_neg (ne_of_gt hp)]

/-- A warm-up call in which no cancellation is pending returns a result; the playhead is as
lines 200-203 leave it, nothing reaches the write path and the books are untouched; the call
returns false unless the termination test fires. -/
theorem warmUp_call (E : Externals) (c : NodeRenderContext) (p : ℚ) (inp : BlockInput)
    (hexit : inp.shouldExit = false) (hp : 0 < c.precount) :
    ∃ res, c.renderNextBlock E p inp = some res ∧
      res.ctx.playHead = c.positionedPlayHead E ∧ SameBooks c res.ctx ∧
      (res.finished = true →
        c.blockStart > c.r.time.getEnd + c.r.endAllowance ∨
        (c.blockStart > c.r.time.getEnd ∧ inp.magnitudeAtEnd ≤ c.thresholdForStopping)) := by
  cases hgo : (inp.leafNodesReady || inp.shouldExitWhileWaiting) with
  | false =>
    refine ⟨_, renderNextBlock_notReady E c p inp hexit hgo, beforeProcess_playHead E c inp,
      sameBooks_beforeProcess E c inp, fun h => absurd h (by simp)⟩
  | true =>
    obtain ⟨q1, q2, q3, q4, q5, q6, q7⟩ := processed_fields E c inp
    have hproc := renderNextBlock_process E c p inp hexit hgo
    change c.renderNextBlock E p inp
        = match (c.processed E inp).writeOrWarmUp E (c.destBlock E inp) inp.appendOk with
          | none => none
          | some (WriteResult.failed, c') => some { finished := true, ctx := c', progress := p }
          | some (WriteResult.succeeded, c') =>
            some (c'.finishBlock c.blockEnd p inp.magnitudeAtEnd) at hproc
    rw [writeOrWarmUp_warm E _ _ _ (by rw [q4]; exact hp)] at hproc
    simp only [] at hproc
    generalize hc' : ({ c.processed E inp with
        sleptMs := (c.processed E inp).sleptMs
          + truncToInt ((c.processed E inp).blockLength * 1000) } : NodeRenderContext) = c'
        at hproc
    have hph : c'.playHead = c.positionedPlayHead E := by
      rw [← hc']
      exact beforeProcess_playHead E c inp
    have hbooks : SameBooks c c' := by
      rw [← hc']
      exact q2.andThen ⟨rfl, rfl, rfl, rfl, rfl, rfl, rfl, rfl, rfl, rfl, rfl⟩
    have hst : c'.streamTime = c.blockStart := by rw [← hc']; exact q3
    have hr : c'.r = c.r := by rw [← hc']; exact q1.r_eq
    have hth : c'.thresholdForStopping = c.thresholdForStopping := by
      rw [← hc']; exact q1.threshold_eq
    obtain ⟨f1, _, _, f4⟩ := finishBlock_spec c' c.blockEnd p inp.magnitudeAtEnd
    refine ⟨_, hproc, ?_, hbooks.andThen f4, ?_⟩
    · rw [finishBlock_playHead]; exact hph
    · intro h
      have := f1.mp h
      rw [hst, hr, hth] at this
      exact this

/-- The first call of the render shorter than one block is its warm-up block: it returns
false and leaves a context at `precount = 0` with the whole budget of 200 samples, of which
the next block takes 200 and drops 100. -/
theorem shortLatencyWarmedUp_spec :
    shortLatencyContext.renderNextBlock referenceExternals 0 (constantInput 750 (1 / 2))
      = some shortLatencyWarmedUp ∧
    shortLatencyWarmedUp.finished = false ∧
    RenderInv shortLatencyContext shortLatencyWarmedUp.ctx ∧
    shortLatencyWarmedUp.ctx.precount = 0 ∧
    shortLatencyWarmedUp.ctx.samplesToWrite = 200 ∧
    shortLatencyWarmedUp.ctx.numLatencySamplesToDrop = 100 ∧
    shortLatencyWarmedUp.ctx.samplesTaken = 200 ∧
    shortLatencyWarmedUp.ctx.samplesDropped = 100 := by
  have V := shortLatencyContext_valid
  obtain ⟨f1, f2, f3, _, f5, _⟩ := shortLatencyContext_fields
  obtain ⟨res, e1, e2, _, e4, _⟩ := renderInv_go referenceExternals shortLatencyContext
    shortLatencyContext 0 (constantInput 750 (1 / 2)) V (renderInv_start _ V) rfl rfl rfl
  have hres : shortLatencyWarmedUp = res := by unfold shortLatencyWarmedUp; rw [e1]; rfl
  rw [hres]
  have hf : res.finished = false := by
    cases hf : res.finished with
    | false => rfl
    | true =>
      have hneg := terminates_steady _ _ V (renderInv_start _ V) _ (e2.mp hf)
      have := V.precount_nonneg
      omega
  obtain ⟨g1, g2, _⟩ := e4 hf
  have hp : res.ctx.precount = 0 := by rw [g2, f1]; rfl
  have hb := g1.written.budget_eq
  have hdr := g1.written.drop_eq
  rw [hp, f2, f5] at hb
  rw [hp, f3, f5] at hdr
  have hb' : res.ctx.samplesToWrite = 200 := by rw [hb]; decide
  have hdr' : res.ctx.numLatencySamplesToDrop = 100 := by rw [hdr]; decide
  have hB : res.ctx.r.blockSizeForAudio = 750 := by rw [g1.setup.r_eq]; exact f5
  have htaken : res.ctx.samplesTaken = 200 := by
    unfold NodeRenderContext.samplesTaken; rw [hb', hB]; decide
  have hdropped : res.ctx.samplesDropped = 100 := by
    unfold NodeRenderContext.samplesDropped; rw [hdr', htaken]; decide
  exact ⟨e1, hf, g1, hp, hb', hdr', htaken, hdropped⟩

/-- The destination block of the second call of the render shorter than one block has the
750 samples of a whole block. -/
theorem shortLatency_destBlock (inp : BlockInput) :
    shortLatencyWarmedUp.ctx.destBlock referenceExternals inp
      = { channels := inp.rendered, numSamples := 750 } := by
  obtain ⟨_, _, hinv, hp, _⟩ := shortLatencyWarmedUp_spec
  obtain ⟨_, _, _, f4, _, f6, f7, _⟩ := shortLatencyContext_fields
  have V := shortLatencyContext_valid
  have hs := blockStart_of_inv _ _ hinv
  have he := blockEnd_of_inv _ _ V hinv
  rw [hp, f4, f6] at hs he
  unfold NodeRenderContext.destBlock
  rw [hs, he, hinv.setup.originalParams_eq, f7]
  have h1 : referenceExternals.timeToSample (0 - (((0 : Int) - 1 : Int) : ℚ) * (3 / 4)) 1000
      = 750 := by
    simp only [referenceExternals]
    rw [Int.floor_eq_iff]
    norm_num
  have h2 : referenceExternals.timeToSample (0 - ((0 : Int) : ℚ) * (3 / 4)) 1000 = 0 := by
    simp only [referenceExternals]
    rw [Int.floor_eq_iff]
    norm_num
  rw [h1, h2]
  rfl


theorem ramp_tail :
    ((ramp 750).drop 650).take 100 = (List.range' 650 100).map (fun (i : Nat) => (i : ℚ)) := by
  have h : List.range 750 = List.range' 0 650 ++ List.range' 650 100 := by
    rw [List.range_eq_range', List.range'_append_1]
  unfold ramp
  rw [← List.map_drop, ← List.map_take, h, List.drop_left' (by simp),
    List.take_of_length_le (by simp)]

theorem shortLatencyWarmedUp_analysed : shortLatencyWarmedUp.ctx.analysedBlocks = [] := by
  obtain ⟨e1, _⟩ := shortLatencyWarmedUp_spec
  obtain ⟨f1, _, _, _, _, _, _, _, _, f10⟩ := shortLatencyContext_fields
  obtain ⟨res, h1, _, h3, _⟩ := warmUp_call referenceExternals shortLatencyContext 0
    (constantInput 750 (1 / 2)) rfl (by rw [f1]; decide)
  have hres : shortLatencyWarmedUp = res := by
    rw [e1] at h1; exact Option.some.inj h1
  rw [hres, h3.analysed_eq]; exact f10

theorem bufferToWrite_plain (E : Externals) (c : NodeRenderContext) (block : AudioBlock)
    (h : c.r.ditheringEnabled = false) :
    c.bufferToWrite E block
      = { channels := (List.range c.numOutputChans.toNat).map
            (fun i => block.getChannelPointer i),
          numSamples := (sizeTToInt block.numSamples).toNat } := by
  unfold NodeRenderContext.bufferToWrite
  simp [h]

/-- The second call of the render shorter than one block, on a destination block that holds
the ramp 0, 1, ..., 749: 200 samples are taken and 100 dropped, and what reaches the write path
is the samples 650 .. 749 of the block. -/
theorem shortLatency_handed :
    ∃ res, shortLatencyWarmedUp.ctx.renderNextBlock referenceExternals
        shortLatencyWarmedUp.progress rampInput = some res ∧
      res.ctx.analysedBlocks
        = [{ channels := [(List.range' 650 100).map (fun (i : Nat) => (i : ℚ)),
                          (List.range' 650 100).map (fun (i : Nat) => (i : ℚ))],
             numSamples := 100 }] := by
  have V := shortLatencyContext_valid
  obtain ⟨_, _, hinv, hp, hb, hdr, htaken, hdropped⟩ := shortLatencyWarmedUp_spec
  obtain ⟨_, _, _, _, _, _, _, f8, f9, _⟩ := shortLatencyContext_fields
  obtain ⟨res, e1, _⟩ := renderInv_go referenceExternals shortLatencyContext
    shortLatencyWarmedUp.ctx shortLatencyWarmedUp.progress rampInput V hinv rfl rfl rfl
  refine ⟨res, e1, ?_⟩
  have ha := steady_analysed referenceExternals shortLatencyWarmedUp.ctx
    shortLatencyWarmedUp.progress rampInput res rfl rfl (by rw [hp]) e1
  have hsize : toSizeT ((200 : Int) - 100) = 100 := by decide
  have hoff : toSizeT (((750 : Nat) : Int) - ((100 : Nat) : Int)) = 650 := by decide
  have hdith : shortLatencyWarmedUp.ctx.r.ditheringEnabled = false := by
    rw [hinv.setup.r_eq]; exact f9
  have hch : shortLatencyWarmedUp.ctx.numOutputChans = 2 := by
    rw [hinv.setup.numOutputChans_eq]; exact f8
  rw [shortLatencyWarmedUp_analysed, shortLatency_destBlock, htaken, hdropped, hdr, hsize,
    if_pos (by decide), if_pos (by decide), hoff, bufferToWrite_plain _ _ _ hdith, hch] at ha
  rw [ha]
  simp only [List.nil_append, AudioBlock.getSubBlock, rampInput, List.map_cons, List.map_nil,
    ramp_tail, AudioBlock.getChannelPointer]
  have h100 : (sizeTToInt 100).toNat = 100 := by decide
  rw [h100]
  rfl

/-! ## One call of the loop -/

theorem renderBlocks_step (E : Externals) (res0 res : StepResult) (inp : BlockInput)
    (rest : List BlockInput) (h0 : res0.finished = false)
    (h : renderBlocks E res0 (inp :: rest) = some res) :
    ∃ next, res0.ctx.renderNextBlock E res0.progress inp = some next ∧
      renderBlocks E next rest = some res := by
  cases hcall : res0.ctx.renderNextBlock E res0.progress inp with
  | none =>
    simp only [renderBlocks, h0, hcall] at h
    exact absurd h (by simp)
  | some next =>
    rw [renderBlocks_cons E res0 next inp rest h0 hcall] at h
    exact ⟨next, rfl, h⟩

/-! ## The magnitude of a buffer -/

theorem foldl_max_ge {α : Type} (f : α → ℚ) (l : List α) :
    ∀ m : ℚ, m ≤ l.foldl (fun m x => max m (f x)) m ∧
      ∀ x ∈ l, f x ≤ l.foldl (fun m x => max m (f x)) m := by
  induction l with
  | nil => intro m; exact ⟨le_refl _, fun x hx => absurd hx (List.not_mem_nil x)⟩
  | cons a rest ih =>
    intro m
    obtain ⟨h1, h2⟩ := ih (max m (f a))
    simp only [List.foldl_cons]
    refine ⟨le_trans (le_max_left _ _) h1, fun x hx => ?_⟩
    rcases List.mem_cons.mp hx with rfl | hx
    · exact le_trans (le_max_right _ _) h1
    · exact h2 x hx

theorem foldl_max_zero {α : Type} (f : α → ℚ) (l : List α) (h : ∀ x ∈ l, f x = 0) :
    l.foldl (fun m x => max m (f x)) 0 = 0 := by
  induction l with
  | nil => rfl
  | cons a rest ih =>
    simp only [List.foldl_cons]
    rw [h a (List.mem_cons_self _ _), max_self]
    exact ih (fun x hx => h x (List.mem_cons_of_mem _ hx))

theorem channelMagnitude_nonneg (c : List ℚ) (start num : Nat) :
    0 ≤ channelMagnitude c start num :=
  (foldl_max_ge (fun x : ℚ => |x|) ((c.drop start).take num) 0).1

/-- The magnitude of a buffer is not negative. -/
theorem getMagnitude_nonneg (b : AudioBlock) (start num : Nat) : 0 ≤ b.getMagnitude start num :=
  (foldl_max_ge (fun c => channelMagnitude c start num) b.channels 0).1

/-- The magnitude of a buffer is positive as soon as one of the measured samples is not 0. -/
theorem getMagnitude_pos (b : AudioBlock) (start num : Nat) (c : List ℚ) (x : ℚ)
    (hc : c ∈ b.channels) (hx : x ∈ (c.drop start).take num) (h0 : x ≠ 0) :
    0 < b.getMagnitude start num := by
  have h1 : |x| ≤ channelMagnitude c start num :=
    (foldl_max_ge (fun x : ℚ => |x|) ((c.drop start).take num) 0).2 x hx
  have h2 : channelMagnitude c start num ≤ b.getMagnitude start num :=
    (foldl_max_ge (fun c => channelMagnitude c start num) b.channels 0).2 c hc
  have h3 : 0 < |x| := abs_pos.mpr h0
  linarith

/-- The magnitude of a buffer is 0 when every measured sample is 0. -/
theorem getMagnitude_zero (b : AudioBlock) (start num : Nat)
    (h : ∀ c ∈ b.channels, ∀ x ∈ (c.drop start).take num, x = 0) :
    b.getMagnitude start num = 0 := by
  unfold AudioBlock.getMagnitude
  apply foldl_max_zero
  intro c hc
  unfold channelMagnitude
  apply foldl_max_zero
  intro x hx
  rw [h c hc x hx, abs_zero]

/-! ## The post-pass -/

theorem setupLatencyAndPostPass_flags (c : NodeRenderContext) (props : NodeProperties)
    (sys : SetupInput) :
    (c.setupLatencyAndPostPass props sys).r.shouldNormalise
      = (c.r.shouldNormalise && !c.r.wantsPostPass) ∧
    (c.setupLatencyAndPostPass props sys).r.trimSilenceAtEnds
      = (c.r.trimSilenceAtEnds && !c.r.wantsPostPass) ∧
    (c.setupLatencyAndPostPass props sys).r.shouldNormaliseByRMS
      = (c.r.shouldNormaliseByRMS && !c.r.wantsPostPass) ∧
    (c.setupLatencyAndPostPass props sys).postPassCalls = c.postPassCalls ∧
    (c.setupLatencyAndPostPass props sys).intermediateFile
      = (if c.r.wantsPostPass then some sys.intermediateFile else c.intermediateFile) := by
  unfold NodeRenderContext.setupLatencyAndPostPass Parameters.wantsPostPass
  cases h1 : c.r.shouldNormalise <;> cases h2 : c.r.trimSilenceAtEnds <;>
    cases h3 : c.r.shouldNormaliseByRMS <;> simp [h1, h2, h3]

theorem setupBookkeeping_postPass (E : Externals) (c : NodeRenderContext) (sys : SetupInput) :
    (c.setupBookkeeping E sys).postPassCalls = c.postPassCalls := rfl

/-- On every path of the constructor the post-pass is requested exactly when one of the three
flags is set in the parameters; the three flags are then off in the working parameters, the
parameters as given are kept, and no post-pass has run. -/
theorem construct_postPass (E : Externals) (p ownerParams : Parameters)
    (props : NodeProperties) (playHead : PlayHead) (sys : SetupInput) :
    (NodeRenderContext.construct E p ownerParams props playHead sys).needsToNormaliseAndTrim
      = p.wantsPostPass ∧
    (NodeRenderContext.construct E p ownerParams props playHead sys).originalParams = p ∧
    (NodeRenderContext.construct E p ownerParams props playHead sys).postPassCalls = 0 ∧
    (NodeRenderContext.construct E p ownerParams props playHead sys).r.shouldNormalise
      = (p.shouldNormalise && !p.wantsPostPass) ∧
    (NodeRenderContext.construct E p ownerParams props playHead sys).r.trimSilenceAtEnds
      = (p.trimSilenceAtEnds && !p.wantsPostPass) ∧
    (NodeRenderContext.construct E p ownerParams props playHead sys).r.shouldNormaliseByRMS
      = (p.shouldNormaliseByRMS && !p.wantsPostPass) := by
  obtain ⟨_, _, _, _, _, _, _, _, _, _, f11, _, f13, _⟩ := setupLatencyAndPostPass_fields
    (NodeRenderContext.initial p ownerParams playHead sys.hasSourceToUpdate) props sys
  obtain ⟨g1, g2, g3, g4, _⟩ := setupLatencyAndPostPass_flags
    (NodeRenderContext.initial p ownerParams playHead sys.hasSourceToUpdate) props sys
  have hneeds : ((NodeRenderContext.initial p ownerParams playHead
      sys.hasSourceToUpdate).setupLatencyAndPostPass props sys).needsToNormaliseAndTrim
        = p.wantsPostPass := by
    have : ((NodeRenderContext.initial p ownerParams playHead
      sys.hasSourceToUpdate).setupLatencyAndPostPass props sys).needsToNormaliseAndTrim
        = (false || p.wantsPostPass) := f11
    simpa using this
  have hbase : ∀ c : NodeRenderContext,
      c.needsToNormaliseAndTrim = ((NodeRenderContext.initial p ownerParams playHead
        sys.hasSourceToUpdate).setupLatencyAndPostPass props sys).needsToNormaliseAndTrim →
      c.originalParams = ((NodeRenderContext.initial p ownerParams playHead
        sys.hasSourceToUpdate).setupLatencyAndPostPass props sys).originalParams →
      c.postPassCalls = ((NodeRenderContext.initial p ownerParams playHead
        sys.hasSourceToUpdate).setupLatencyAndPostPass props sys).postPassCalls →
      c.r = ((NodeRenderContext.initial p ownerParams playHead
        sys.hasSourceToUpdate).setupLatencyAndPostPass props sys).r →
      c.needsToNormaliseAndTrim = p.wantsPostPass ∧ c.originalParams = p ∧
      c.postPassCalls = 0 ∧
      c.r.shouldNormalise = (p.shouldNormalise && !p.wantsPostPass) ∧
      c.r.trimSilenceAtEnds = (p.trimSilenceAtEnds && !p.wantsPostPass) ∧
      c.r.shouldNormaliseByRMS = (p.shouldNormaliseByRMS && !p.wantsPostPass) := by
    intro c h1 h2 h3 h4
    rw [h1, h2, h3, h4]
    exact ⟨hneeds, f13, g4, g1, g2, g3⟩
  cases ha : props.hasAudio with
  | false =>
    rw [construct_noAudio E p ownerParams props playHead sys ha]
    exact hbase _ rfl rfl rfl rfl
  | true =>
    by_cases hd : workingDestFile p sys ≠ "" → sys.writerOpens = true
    · rw [construct_ok E p ownerParams props playHead sys ha hd]
      obtain ⟨b1, b2, _, _, _, b6, _⟩ := setupBookkeeping_fields E
        (NodeRenderContext.withWriter p ownerParams props playHead sys) sys
      exact hbase _ (b6.trans rfl) (b2.trans rfl)
        ((setupBookkeeping_postPass E _ sys).trans rfl) (b1.trans rfl)
    · have hd1 : workingDestFile p sys ≠ "" := fun h => hd (fun h2 => absurd h h2)
      have hd2 : sys.writerOpens = false := by
        cases ho : sys.writerOpens with
        | false => rfl
        | true => exact absurd (fun _ => ho) hd
      rw [construct_cannotWrite E p ownerParams props playHead sys ha hd1 hd2]
      exact hbase _ rfl rfl rfl rfl

/-- The destructor runs the post-pass exactly when it was requested. -/
theorem destroy_postPass (c : NodeRenderContext) :
    c.destroy.postPassCalls
      = (if c.needsToNormaliseAndTrim = true then c.postPassCalls + 1 else c.postPassCalls) ∧
    c.destroy.originalParams = c.originalParams ∧
    c.destroy.thresholdForStopping = c.thresholdForStopping := by
  unfold NodeRenderContext.destroy
  cases h : c.needsToNormaliseAndTrim <;> simp [h]

/-- On every path of the constructor the threshold for stopping keeps the 0 of its member
initialiser. -/
theorem construct_threshold (E : Externals) (p ownerParams : Parameters)
    (props : NodeProperties) (playHead : PlayHead) (sys : SetupInput) :
    (NodeRenderContext.construct E p ownerParams props playHead sys).thresholdForStopping
      = 0 := by
  obtain ⟨_, _, _, _, _, _, _, _, _, _, _, _, _, _, _, f16, _⟩ := setupLatencyAndPostPass_fields
    (NodeRenderContext.initial p ownerParams playHead sys.hasSourceToUpdate) props sys
  have h0 : ((NodeRenderContext.initial p ownerParams playHead
      sys.hasSourceToUpdate).setupLatencyAndPostPass props sys).thresholdForStopping = 0 := f16
  cases ha : props.hasAudio with
  | false =>
    rw [construct_noAudio E p ownerParams props playHead sys ha]
    exact h0
  | true =>
    by_cases hd : workingDestFile p sys ≠ "" → sys.writerOpens = true
    · exact (construct_fields E p ownerParams props playHead sys ha hd).2.2.2.2.2.2.2.2.2.2.2.2.2.2.2.1
    · have hd1 : workingDestFile p sys ≠ "" := fun h => hd (fun h2 => absurd h h2)
      have hd2 : sys.writerOpens = false := by
        cases ho : sys.writerOpens with
        | false => rfl
        | true => exact absurd (fun _ => ho) hd
      rw [construct_cannotWrite E p ownerParams props playHead sys ha hd1 hd2]
      exact h0

/-- A call that processes the graph is one in which no cancellation was pending at its top and
in which every leaf was ready or the should-exit predicate was true in the readiness test. -/
theorem processed_only_when_go (E : Externals) (c : NodeRenderContext) (p : ℚ)
    (inp : BlockInput) (res : StepResult) (h : c.renderNextBlock E p inp = some res)
    (hne : res.ctx.numProcessCalls ≠ c.numProcessCalls) :
    inp.shouldExit = false ∧
      (inp.leafNodesReady = true ∨ inp.shouldExitWhileWaiting = true) := by
  cases hexit : inp.shouldExit with
  | true =>
    exfalso
    cases hw : c.writer with
    | none =>
      have hw2 : c.tickSleepCounter.writer = none := by rw [tickSleepCounter_eq]; exact hw
      unfold NodeRenderContext.renderNextBlock NodeRenderContext.cancelRender at h
      simp [hexit, hw2] at h
    | some w =>
      rw [renderNextBlock_cancel E c p inp w hw hexit] at h
      simp only [Option.some.injEq] at h
      apply hne
      rw [← h, tickSleepCounter_eq]
  | false =>
    refine ⟨rfl, ?_⟩
    cases hgo : (inp.leafNodesReady || inp.shouldExitWhileWaiting) with
    | false =>
      exfalso
      rw [renderNextBlock_notReady E c p inp hexit hgo] at h
      simp only [Option.some.injEq] at h
      apply hne
      rw [← h]
      exact beforeProcess_numProcessCalls E c inp
    | true => simpa using hgo

/-- A call in which a leaf is not ready and nothing is cancelled: it returns false and leaves
the progress value, `precount`, the count of processed blocks and the books as they were; the
stream time is the start of the block, and the next call attempts the same block. -/
theorem notReady_call (E : Externals) (c : NodeRenderContext) (p : ℚ) (inp : BlockInput)
    (hexit : inp.shouldExit = false)
    (hwait : (inp.leafNodesReady || inp.shouldExitWhileWaiting) = false) :
    ∃ res, c.renderNextBlock E p inp = some res ∧ res.finished = false ∧ res.progress = p ∧
      res.ctx.precount = c.precount ∧ res.ctx.numProcessCalls = c.numProcessCalls ∧
      SameBooks c res.ctx ∧ res.ctx.streamTime = c.blockStart ∧
      res.ctx.blockStart = c.blockStart ∧ res.ctx.blockEnd = c.blockEnd := by
  have hp := beforeProcess_precount E c inp
  have hs := beforeProcess_streamTime E c inp
  have hset := sameSetup_beforeProcess E c inp
  refine ⟨_, renderNextBlock_notReady E c p inp hexit hwait, rfl, rfl, hp,
    beforeProcess_numProcessCalls E c inp, sameBooks_beforeProcess E c inp, hs, ?_, ?_⟩
  · show (c.beforeProcess E inp).blockStart = c.blockStart
    unfold NodeRenderContext.blockStart
    rw [hp, hs, hset.r_eq]
    unfold NodeRenderContext.blockStart
    split_ifs <;> rfl
  · show (c.beforeProcess E inp).blockEnd = c.blockEnd
    unfold NodeRenderContext.blockEnd
    rw [hp, hs, hset.r_eq, hset.blockLength_eq]
    unfold NodeRenderContext.blockStart
    split_ifs <;> rfl

/-! ## Counting the processed blocks -/

theorem setupLatencyAndPostPass_numProcessCalls (c : NodeRenderContext) (props : NodeProperties)
    (sys : SetupInput) :
    (c.setupLatencyAndPostPass props sys).numProcessCalls = c.numProcessCalls := by
  unfold NodeRenderContext.setupLatencyAndPostPass
  cases h1 : c.r.shouldNormalise <;> cases h2 : c.r.trimSilenceAtEnds <;>
    cases h3 : c.r.shouldNormaliseByRMS <;> simp [h1, h2, h3]

theorem setupBookkeeping_numProcessCalls (E : Externals) (c : NodeRenderContext)
    (sys : SetupInput) : (c.setupBookkeeping E sys).numProcessCalls = c.numProcessCalls := rfl

/-- A successfully constructed context has processed no block. -/
theorem construct_numProcessCalls (E : Externals) (p ownerParams : Parameters)
    (props : NodeProperties) (playHead : PlayHead) (sys : SetupInput)
    (h : props.hasAudio = true) (hdest : workingDestFile p sys ≠ "" → sys.writerOpens = true) :
    (NodeRenderContext.construct E p ownerParams props playHead sys).numProcessCalls = 0 := by
  rw [construct_ok E p ownerParams props playHead sys h hdest, setupBookkeeping_numProcessCalls]
  exact setupLatencyAndPostPass_numProcessCalls
    (NodeRenderContext.initial p ownerParams playHead sys.hasSourceToUpdate) props sys

/-- The loop on the input of one call is that call. -/
theorem renderBlocks_single (E : Externals) (res0 res : StepResult) (inp : BlockInput)
    (h0 : res0.finished = false)
    (h : res0.ctx.renderNextBlock E res0.progress inp = some res) :
    renderBlocks E res0 [inp] = some res := by
  rw [renderBlocks_cons E res0 res inp [] h0 h]
  rfl

/-! ## The properties that `ChannelMappingNode` declares -/

/-- The loop of `ChannelMappingNode::getNodeProperties`, started from any properties: only the
channel count changes, and it becomes the larger of the count at the start and the largest
destination index plus one. -/
theorem channelMapFold_spec (channelMap : List (Int × Int)) (p0 : NodeProperties) :
    let props := channelMap.foldl
      (fun props channel =>
        { props with numberOfChannels := max props.numberOfChannels (channel.2 + 1) }) p0
    props.hasAudio = p0.hasAudio ∧ props.hasMidi = p0.hasMidi ∧
    props.latencyNumSamples = p0.latencyNumSamples ∧
    p0.numberOfChannels ≤ props.numberOfChannels ∧
    (∀ ch ∈ channelMap, ch.2 + 1 ≤ props.numberOfChannels) ∧
    (props.numberOfChannels = p0.numberOfChannels
      ∨ ∃ ch ∈ channelMap, ch.2 + 1 = props.numberOfChannels) := by
  induction channelMap generalizing p0 with
  | nil => simp
  | cons x xs ih =>
    simp only [List.foldl_cons]
    obtain ⟨h1, h2, h3, h4, h5, h6⟩ :=
      ih { p0 with numberOfChannels := max p0.numberOfChannels (x.2 + 1) }
    dsimp only at h1 h2 h3 h4 h5 h6 ⊢
    refine ⟨h1, h2, h3, le_trans (le_max_left _ _) h4, ?_, ?_⟩
    · intro ch hch
      rcases List.mem_cons.mp hch with rfl | hch
      · exact le_trans (le_max_right _ _) h4
      · exact h5 ch hch
    · rcases h6 with h6 | ⟨ch, hch, h6⟩
      · rcases max_cases p0.numberOfChannels (x.2 + 1) with ⟨hm, _⟩ | ⟨hm, _⟩
        · left; rw [h6, hm]
        · right; exact ⟨x, List.mem_cons_self _ _, by rw [h6, hm]⟩
      · right; exact ⟨ch, List.mem_cons_of_mem _ hch, h6⟩

/-- What `ChannelMappingNode::getNodeProperties` declares: audio, no MIDI, the latency of the
input, and a channel count that is 0 for an empty map and otherwise not below any destination
index plus one, and equal to 0 or to one of them. -/
theorem channelMappingProps_spec (channelMap : List (Int × Int)) (inputProps : NodeProperties) :
    (ChannelMappingNode.getNodeProperties channelMap inputProps).hasAudio = true ∧
    (ChannelMappingNode.getNodeProperties channelMap inputProps).hasMidi = false ∧
    (ChannelMappingNode.getNodeProperties channelMap inputProps).latencyNumSamples
      = inputProps.latencyNumSamples ∧
    0 ≤ (ChannelMappingNode.getNodeProperties channelMap inputProps).numberOfChannels ∧
    (∀ ch ∈ channelMap,
      ch.2 + 1 ≤ (ChannelMappingNode.getNodeProperties channelMap inputProps).numberOfChannels) ∧
    ((ChannelMappingNode.getNodeProperties channelMap inputProps).numberOfChannels = 0
      ∨ ∃ ch ∈ channelMap,
        ch.2 + 1 = (ChannelMappingNode.getNodeProperties channelMap inputProps).numberOfChannels) :=
  channelMapFold_spec channelMap
    { hasAudio := true, hasMidi := false, numberOfChannels := 0,
      latencyNumSamples := inputProps.latencyNumSamples }

/-- `BasicSummingNode::getNodeProperties` declares a latency of 0 whatever its inputs declare. -/
theorem summingProps_latency (nodes : List NodeProperties) :
    (BasicSummingNode.getNodeProperties nodes).latencyNumSamples = 0 :=
  (summingFold_spec nodes
    { hasAudio := false, hasMidi := false, numberOfChannels := 0, latencyNumSamples := 0 }).2.2.2.2.2

/-- The pacing of lines 214-222 sleeps a whole number of milliseconds: the time since the
previous call plus the sleep is above the budget minus one millisecond. -/
theorem pace_bound (c : NodeRenderContext) (timeNow : ℚ) (h : c.r.realTimeRender = true) :
    (c.realTimePerBlock : ℚ) - 1
      < (timeNow - c.lastTime) + (((c.pace timeNow).sleptMs - c.sleptMs : Int) : ℚ) := by
  rw [pace_eq]
  simp only []
  generalize hx : (c.realTimePerBlock : ℚ) - (timeNow - c.lastTime) = x
  have key : x - 1 < (((if c.r.realTimeRender = true ∧ truncToInt x > 0
      then c.sleptMs + truncToInt x else c.sleptMs) - c.sleptMs : Int) : ℚ) := by
    by_cases hpos : truncToInt x > 0
    · rw [if_pos ⟨h, hpos⟩]
      have hx0 : 0 ≤ x := by
        by_contra hneg
        unfold truncToInt at hpos
        rw [if_neg hneg] at hpos
        have : ⌈x⌉ ≤ 0 := Int.ceil_le.mpr (by push_cast; linarith)
        omega
      have ht : truncToInt x = ⌊x⌋ := by unfold truncToInt; rw [if_pos hx0]
      have := Int.lt_floor_add_one x
      rw [ht]
      push_cast
      linarith
    · rw [if_neg (fun hh => hpos hh.2)]
      have hlt : x < 1 := by
        by_contra hge
        apply hpos
        have hx0 : 0 ≤ x := by linarith
        unfold truncToInt
        rw [if_pos hx0]
        have : (1 : Int) ≤ ⌊x⌋ := Int.le_floor.mpr (by push_cast; linarith)
        omega
      push_cast
      linarith
  linarith [key, hx]

/-- A call that finds a cancellation pending reaches neither the node graph nor the write
path: the budget, the latency still to drop and the accumulators are as they were, and the
playhead is stopped. -/
theorem cancelled_call_books (E : Externals) (c : NodeRenderContext) (p : ℚ) (inp : BlockInput)
    (res : StepResult) (hexit : inp.shouldExit = true)
    (h : c.renderNextBlock E p inp = some res) :
    res.ctx.analysedBlocks = c.analysedBlocks ∧ res.ctx.samplesToWrite = c.samplesToWrite ∧
    res.ctx.numLatencySamplesToDrop = c.numLatencySamplesToDrop ∧ res.ctx.peak = c.peak ∧
    res.ctx.rmsTotal = c.rmsTotal ∧ res.ctx.rmsNumSamps = c.rmsNumSamps ∧
    res.ctx.numNonZeroSamps = c.numNonZeroSamps ∧ res.ctx.playHead = c.playHead.stop := by
  cases hw : c.writer with
  | none =>
    have hw2 : c.tickSleepCounter.writer = none := by rw [tickSleepCounter_eq]; exact hw
    unfold NodeRenderContext.renderNextBlock NodeRenderContext.cancelRender at h
    simp [hexit, hw2] at h
  | some w =>
    rw [renderNextBlock_cancel E c p inp w hw hexit] at h
    simp only [Option.some.injEq] at h
    rw [← h, tickSleepCounter_eq]
    exact ⟨rfl, rfl, rfl, rfl, rfl, rfl, rfl, rfl⟩

/-! ## The write path, whatever the books -/

/-- With a writer in place and saving started, the write path returns a result, whatever the
budget and the latency still to drop: it moves neither the stream time nor `precount`, leaves
saving started and the trimmed count alone, keeps a writer, fails only in a steady-state block
that the writer rejects, and in the steady state takes the samples of the block from the budget
and from the latency; a block of which nothing is left is not written. -/
theorem writeOrWarmUp_light (E : Externals) (c : NodeRenderContext) (destBlock : AudioBlock)
    (ok : Bool) (w : AudioFileWriter) (hw : c.writer = some w)
    (hs : c.hasStartedSavingToFile = true) :
    ∃ wr c', c.writeOrWarmUp E destBlock ok = some (wr, c') ∧ SameSetup c c' ∧
      c'.streamTime = c.streamTime ∧ c'.precount = c.precount ∧
      c'.hasStartedSavingToFile = true ∧ c'.samplesTrimmed = c.samplesTrimmed ∧
      c'.numProcessCalls = c.numProcessCalls ∧ (∃ w', c'.writer = some w') ∧
      (wr = WriteResult.failed → ok = false ∧ c.precount ≤ 0) ∧
      (c.precount ≤ 0 →
        c'.samplesToWrite = c.samplesToWrite - c.samplesTaken ∧
        c'.numLatencySamplesToDrop = c.numLatencySamplesToDrop - c.samplesDropped ∧
        (toSizeT (c.samplesTaken - c.samplesDropped) = 0 →
          wr = WriteResult.succeeded ∧ c'.writer = c.writer)) := by
  by_cases hp : c.precount ≤ 0
  · obtain ⟨f1, f2, f3, f4, f5, f6, f7, f8, f9⟩ := planWrite_ctx_fields c destBlock.numSamples
    have hsetup := sameSetup_planWrite c destBlock.numSamples
    rw [writeOrWarmUp_steady E c destBlock ok hp]
    by_cases hpos : (c.planWrite destBlock.numSamples).blockSize > 0
    · rw [if_pos hpos]
      have hstart := (f6.trans hs)
      have hne : ¬ toSizeT (c.samplesTaken - c.samplesDropped) = 0 := by
        rw [f3] at hpos; omega
      rw [writeAudioBlock_started E _ _ ok w (f8.trans hw) hstart]
      obtain ⟨a1, a2, a3, a4, a5, a9⟩ := analyseBlock_fields E (c.planWrite destBlock.numSamples).ctx
        (destBlock.getSubBlock (c.planWrite destBlock.numSamples).blockOffset
          (c.planWrite destBlock.numSamples).blockSize) hstart
      have a6 := analyseBlock_started E (c.planWrite destBlock.numSamples).ctx
        (destBlock.getSubBlock (c.planWrite destBlock.numSamples).blockOffset
          (c.planWrite destBlock.numSamples).blockSize) hstart
      have a7 := analyseBlock_writer E (c.planWrite destBlock.numSamples).ctx
        (destBlock.getSubBlock (c.planWrite destBlock.numSamples).blockOffset
          (c.planWrite destBlock.numSamples).blockSize)
      have a8 := sameSetup_analyseBlock E (c.planWrite destBlock.numSamples).ctx
        (destBlock.getSubBlock (c.planWrite destBlock.numSamples).blockOffset
          (c.planWrite destBlock.numSamples).blockSize)
      generalize (c.planWrite destBlock.numSamples).ctx.analyseBlock E
        (destBlock.getSubBlock (c.planWrite destBlock.numSamples).blockOffset
          (c.planWrite destBlock.numSamples).blockSize) = a at a1 a2 a3 a4 a5 a6 a7 a8 a9 ⊢
      generalize sizeTToInt (destBlock.getSubBlock
          (c.planWrite destBlock.numSamples).blockOffset
          (c.planWrite destBlock.numSamples).blockSize).numSamples = n
      have hwr : (if 0 < n ∧ w.isOpen = true ∧ ok = false
            then WriteResult.failed else WriteResult.succeeded) = WriteResult.failed →
          ok = false ∧ c.precount ≤ 0 := by
        split_ifs with hf
        · exact fun _ => ⟨hf.2.2, hp⟩
        · exact fun h => absurd h (by decide)
      generalize (if 0 < n ∧ w.isOpen = true ∧ ok = false
            then WriteResult.failed else WriteResult.succeeded) = wr at hwr ⊢
      by_cases hc : 0 < n ∧ w.isOpen = true ∧ ok = true
      · rw [if_pos hc]
        obtain ⟨g1, g2, g3, g4, g5, g6, g7, g9⟩ := setWriter_fields a (some (w.appendBuffer n))
        refine ⟨wr, { a with writer := some (w.appendBuffer n) }, rfl, ?_, ?_, ?_, ?_, ?_, ?_,
          ⟨_, g7⟩, hwr, fun _ => ⟨g1.trans (a1.trans f1), g2.trans (a2.trans f2),
            fun h => absurd h hne⟩⟩
        · exact (hsetup.trans a8).trans (sameSetup_setWriter a _)
        · exact g3.trans (a3.trans f4)
        · exact g4.trans (a4.trans f5)
        · exact g6.trans a6
        · exact g5.trans (a5.trans f7)
        · exact g9.trans (a9.trans f9)
      · rw [if_neg hc]
        refine ⟨wr, a, rfl, hsetup.trans a8, a3.trans f4, a4.trans f5, a6, a5.trans f7,
          a9.trans f9, ⟨w, a7.trans (f8.trans hw)⟩, hwr,
          fun _ => ⟨a1.trans f1, a2.trans f2, fun h => absurd h hne⟩⟩
    · rw [if_neg hpos]
      exact ⟨_, _, rfl, hsetup, f4, f5, f6.trans hs, f7, f9, ⟨w, f8.trans hw⟩,
        fun h => absurd h (by decide), fun _ => ⟨f1, f2, fun _ => ⟨rfl, f8⟩⟩⟩
  · have hp' : 0 < c.precount := not_le.mp hp
    rw [writeOrWarmUp_warm E c destBlock ok hp']
    exact ⟨_, _, rfl, ⟨rfl, rfl, rfl, rfl, rfl, rfl, rfl, rfl, rfl, rfl, rfl, rfl, rfl⟩, rfl, rfl,
      hs, rfl, rfl, ⟨w, hw⟩, fun h => absurd h (by decide), fun h => absurd h hp⟩

/-! ## The loop invariant without the sample budget -/

theorem loopInv_start (c0 : NodeRenderContext) (S : LoopStart c0) : LoopInv c0 c0 :=
  ⟨SameSetup.refl c0, le_refl _, S.time_eq, S.started, S.trimmed, S.has_writer⟩

/-- A context constructed from valid parameters, with a usable destination, is a start of the
block loop, whatever `roundToInt` makes of the sample budget. -/
theorem construct_loopStart (E : Externals) (p ownerParams : Parameters)
    (props : NodeProperties) (playHead : PlayHead) (sys : SetupInput)
    (VP : ValidParams E p props)
    (hdest : workingDestFile p sys ≠ "" → sys.writerOpens = true) :
    LoopStart (NodeRenderContext.construct E p ownerParams props playHead sys) := by
  obtain ⟨c1, c2, c3, c4, c5, c6, c7, c8, c9, c10, c11, c12, c13, c14, _⟩ :=
    construct_fields E p ownerParams props playHead sys VP.hasAudio hdest
  have hR := VP.sampleRate_pos
  have hB := VP.blockSize_pos
  have hBq : (0 : ℚ) < (p.blockSizeForAudio : ℚ) := by exact_mod_cast hB
  have hL : (0 : ℚ) ≤ (props.latencyNumSamples : ℚ) := by exact_mod_cast VP.latency_nonneg
  have hlat : 0 ≤ sampleToTime props.latencyNumSamples p.sampleRateForAudio := by
    unfold sampleToTime; positivity
  refine ⟨?_, ?_, ?_, ?_, ?_, c12, c13, ⟨_, c14⟩⟩
  · rw [c6]; positivity
  · unfold EditTimeRange.getStart EditTimeRange.getEnd
    rw [c1, c2]; have := VP.length_pos; linarith
  · rw [c3]; exact VP.allowance_nonneg
  · rw [c8]; apply truncToInt_nonneg; positivity
  · unfold EditTimeRange.getStart; rw [c1]; exact c9

theorem blockStart_of_loop (c0 c : NodeRenderContext) (h : LoopInv c0 c) :
    c.blockStart = c0.r.time.getStart - (c.precount : ℚ) * c0.blockLength := by
  unfold NodeRenderContext.blockStart
  by_cases h0 : c.precount = 0
  · rw [if_pos h0, h.setup.r_eq, h0]; simp
  · rw [if_neg h0, h.time_eq]

theorem blockEnd_of_loop (c0 c : NodeRenderContext) (S : LoopStart c0) (h : LoopInv c0 c) :
    c.blockEnd = c0.r.time.getStart - ((c.precount - 1 : Int) : ℚ) * c0.blockLength := by
  have hbl := S.blockLength_pos
  unfold NodeRenderContext.blockEnd
  rw [h.setup.r_eq, h.setup.blockLength_eq, h.time_eq]
  by_cases h0 : c.precount = 0
  · rw [if_pos h0, h0]; push_cast; ring
  · rw [if_neg h0]
    by_cases h1 : c.precount > 0
    · rw [if_pos h1]
      have h2 : (1 : ℚ) ≤ (c.precount : ℚ) := by exact_mod_cast h1
      have h3 : c0.r.time.getStart - (c.precount : ℚ) * c0.blockLength + c0.blockLength
          ≤ c0.r.time.getStart := by nlinarith
      rw [min_eq_right h3]; push_cast; ring
    · rw [if_neg h1]; push_cast; ring

/-- The termination test holds in steady-state calls only. -/
theorem terminates_steady_loop (c0 c : NodeRenderContext) (S : LoopStart c0)
    (hinv : LoopInv c0 c) (mag : ℚ) (h : c.terminates mag) : c.precount < 0 := by
  have hb := blockStart_of_loop c0 c hinv
  have hgt : c.blockStart > c.r.time.getEnd := by
    rcases h with h | h
    · have hA := S.allowance_nonneg
      rw [← hinv.setup.r_eq] at hA
      linarith
    · exact h.1
  rw [hinv.setup.r_eq, hb] at hgt
  have hr := S.range_ok
  have hbl := S.blockLength_pos
  by_contra hneg
  have hp : (0 : ℚ) ≤ (c.precount : ℚ) := by exact_mod_cast (not_lt.mp hneg)
  nlinarith

theorem terminates_of_late_loop (c0 c : NodeRenderContext) (S : LoopStart c0)
    (hinv : LoopInv c0 c) (m : Int) (mag : ℚ)
    (hm : c0.r.time.getEnd + c0.r.endAllowance < c0.r.time.getStart + (m : ℚ) * c0.blockLength)
    (hle : c.precount + m ≤ 0) : c.terminates mag := by
  left
  rw [hinv.setup.r_eq, blockStart_of_loop c0 c hinv]
  have hbl := S.blockLength_pos
  have h1 : (m : ℚ) ≤ -(c.precount : ℚ) := by
    have : m ≤ -c.precount := by omega
    exact_mod_cast this
  nlinarith

theorem tick_books (c : NodeRenderContext) :
    c.tickSleepCounter.hasStartedSavingToFile = c.hasStartedSavingToFile ∧
    c.tickSleepCounter.samplesTrimmed = c.samplesTrimmed ∧
    c.tickSleepCounter.samplesToWrite = c.samplesToWrite ∧
    c.tickSleepCounter.numLatencySamplesToDrop = c.numLatencySamplesToDrop := by
  rw [tickSleepCounter_eq]
  exact ⟨rfl, rfl, rfl, rfl⟩

/-- One call of `renderNextBlock` from a state that satisfies the loop invariant, whatever the
inputs of the call and whatever the sample budget: the call returns a result; the context it
leaves has the setup of the start, saving started, nothing trimmed and a writer; if the call
returns false the invariant holds again, and either no block was processed and `precount` and
the stream time are unchanged, or a block was processed, `precount` went down by one and the
stream time up by one block length; with ready leaves a call that returns false has processed
a block, and the call returns true when the termination test holds; and a warm-up call returns
true only on a cancellation. -/
theorem loop_step (E : Externals) (c0 c : NodeRenderContext) (p : ℚ) (inp : BlockInput)
    (S : LoopStart c0) (hinv : LoopInv c0 c) :
    ∃ res, c.renderNextBlock E p inp = some res ∧
      (SameSetup c0 res.ctx ∧ res.ctx.hasStartedSavingToFile = true ∧
        res.ctx.samplesTrimmed = 0 ∧ ∃ w, res.ctx.writer = some w) ∧
      (res.finished = false → LoopInv c0 res.ctx ∧
        ((res.ctx.numProcessCalls = c.numProcessCalls ∧ res.ctx.precount = c.precount ∧
            res.ctx.streamTime = c.streamTime) ∨
         (res.ctx.numProcessCalls = c.numProcessCalls + 1 ∧
            res.ctx.precount = c.precount - 1 ∧
            res.ctx.streamTime = c.streamTime + c0.blockLength))) ∧
      (inp.leafNodesReady = true → res.finished = false →
        res.ctx.precount = c.precount - 1) ∧
      (inp.leafNodesReady = true → c.terminates inp.magnitudeAtEnd → res.finished = true) ∧
      (res.finished = true → 0 < c.precount → inp.shouldExit = true) := by
  obtain ⟨w, hw⟩ := hinv.has_writer
  cases hexit : inp.shouldExit with
  | true =>
    obtain ⟨t1, t2, _⟩ := tick_books c
    refine ⟨_, renderNextBlock_cancel E c p inp w hw hexit, ⟨?_, ?_, ?_, ⟨_, rfl⟩⟩,
      fun h => absurd h (by simp), fun _ h => absurd h (by simp), fun _ _ => rfl,
      fun _ _ => rfl⟩
    · exact hinv.setup.trans ((sameSetup_tick c).trans
        ⟨rfl, rfl, rfl, rfl, rfl, rfl, rfl, rfl, rfl, rfl, rfl, rfl, rfl⟩)
    · exact t1.trans hinv.started
    · exact t2.trans hinv.trimmed
  | false =>
    cases hgo : (inp.leafNodesReady || inp.shouldExitWhileWaiting) with
    | false =>
      have hb := sameBooks_beforeProcess E c inp
      have hs := sameSetup_beforeProcess E c inp
      have hp := beforeProcess_precount E c inp
      have ht := beforeProcess_streamTime E c inp
      have hnr : inp.leafNodesReady = false := by
        cases hr : inp.leafNodesReady with
        | false => rfl
        | true => rw [hr] at hgo; simp at hgo
      have hst : (c.beforeProcess E inp).streamTime = c.streamTime := by
        rw [ht, blockStart_of_loop c0 c hinv, hinv.time_eq]
      refine ⟨_, renderNextBlock_notReady E c p inp hexit hgo,
        ⟨hinv.setup.trans hs, hb.started_eq.trans hinv.started,
          hb.trimmed_eq.trans hinv.trimmed, ⟨w, hb.writer_eq.trans hw⟩⟩,
        fun _ => ⟨⟨hinv.setup.trans hs, ?_, ?_, hb.started_eq.trans hinv.started,
          hb.trimmed_eq.trans hinv.trimmed, ⟨w, hb.writer_eq.trans hw⟩⟩,
          Or.inl ⟨beforeProcess_numProcessCalls E c inp, hp, hst⟩⟩,
        fun h => ?_, fun h => ?_, fun h => absurd h (by simp)⟩
      · show (c.beforeProcess E inp).precount ≤ c0.precount
        rw [hp]; exact hinv.precount_le
      · show (c.beforeProcess E inp).streamTime = _
        rw [hst, hp]; exact hinv.time_eq
      · rw [hnr] at h; exact absurd h (by decide)
      · rw [hnr] at h; exact absurd h (by decide)
    | true =>
      obtain ⟨q1, q2, q3, q4, q5, q6, q7⟩ := processed_fields E c inp
      have hproc := renderNextBlock_process E c p inp hexit hgo
      change c.renderNextBlock E p inp
          = match (c.processed E inp).writeOrWarmUp E (c.destBlock E inp) inp.appendOk with
            | none => none
            | some (WriteResult.failed, c') => some { finished := true, ctx := c', progress := p }
            | some (WriteResult.succeeded, c') =>
              some (c'.finishBlock c.blockEnd p inp.magnitudeAtEnd) at hproc
      obtain ⟨wr, c', e1, e2, e3, e4, e5, e6, e7, e8, e9, _⟩ :=
        writeOrWarmUp_light E (c.processed E inp) (c.destBlock E inp) inp.appendOk w
          (q2.writer_eq.trans hw) (q2.started_eq.trans hinv.started)
      rw [e1] at hproc
      have hsetup : SameSetup c0 c' := hinv.setup.trans (q1.trans e2)
      have htrim : c'.samplesTrimmed = 0 := e6.trans (q2.trimmed_eq.trans hinv.trimmed)
      have hst : c'.streamTime = c.blockStart := e3.trans q3
      have hpre : c'.precount = c.precount := e4.trans q4
      have hnum : c'.numProcessCalls = c.numProcessCalls + 1 := e7.trans q5
      cases wr with
      | failed =>
        have hnp := (e9 rfl).2
        rw [q4] at hnp
        exact ⟨_, hproc, ⟨hsetup, e5, htrim, e8⟩, fun h => absurd h (by simp),
          fun _ h => absurd h (by simp), fun _ _ => rfl, fun _ h => absurd h (not_lt.mpr hnp)⟩
      | succeeded =>
        obtain ⟨f1, _, f3, f4⟩ := finishBlock_spec c' c.blockEnd p inp.magnitudeAtEnd
        have hfs := sameSetup_finishBlock c' c.blockEnd p inp.magnitudeAtEnd
        have hterm : (c'.finishBlock c.blockEnd p inp.magnitudeAtEnd).finished = true ↔
            c.terminates inp.magnitudeAtEnd := by
          unfold NodeRenderContext.terminates
          rw [f1, hst, (q1.trans e2).r_eq, (q1.trans e2).threshold_eq]
        obtain ⟨w', hw'⟩ := e8
        have hstep : (c'.finishBlock c.blockEnd p inp.magnitudeAtEnd).finished = false →
            (c'.finishBlock c.blockEnd p inp.magnitudeAtEnd).ctx.numProcessCalls
              = c.numProcessCalls + 1 ∧
            (c'.finishBlock c.blockEnd p inp.magnitudeAtEnd).ctx.precount = c.precount - 1 ∧
            (c'.finishBlock c.blockEnd p inp.magnitudeAtEnd).ctx.streamTime
              = c.streamTime + c0.blockLength := by
          intro hf
          obtain ⟨g1, g2, g3, _⟩ := f3 hf
          refine ⟨g3.trans hnum, by rw [g1, hpre], ?_⟩
          rw [g2, blockEnd_of_loop c0 c S hinv, hinv.time_eq]
          push_cast; ring
        refine ⟨_, hproc, ⟨hsetup.trans hfs, f4.started_eq.trans e5, f4.trimmed_eq.trans htrim,
          ⟨w', f4.writer_eq.trans hw'⟩⟩, fun hf => ?_, fun _ hf => (hstep hf).2.1,
          fun _ h => hterm.mpr h, fun hf hp => ?_⟩
        · obtain ⟨s1, s2, s3⟩ := hstep hf
          refine ⟨⟨hsetup.trans hfs, ?_, ?_, f4.started_eq.trans e5,
            f4.trimmed_eq.trans htrim, ⟨w', f4.writer_eq.trans hw'⟩⟩, Or.inr ⟨s1, s2, s3⟩⟩
          · rw [s2]; have := hinv.precount_le; omega
          · rw [s3, s2, hinv.time_eq]; push_cast; ring
        · have hneg := terminates_steady_loop c0 c S hinv inp.magnitudeAtEnd (hterm.mp hf)
          omega

/-- The block loop from a state that satisfies the loop invariant, whatever the inputs of the
calls and whatever the sample budget: every call returns a result; the context the loop leaves
has the setup of the start, saving started, nothing trimmed and a writer; and if the loop has
not finished the invariant holds and `precount` has gone down by the number of blocks
processed. -/
theorem loopBlocks_spec (E : Externals) (c0 : NodeRenderContext) (S : LoopStart c0)
    (inps : List BlockInput) :
    ∀ res0 : StepResult, res0.finished = false → LoopInv c0 res0.ctx →
      ∃ res, renderBlocks E res0 inps = some res ∧
        (SameSetup c0 res.ctx ∧ res.ctx.hasStartedSavingToFile = true ∧
          res.ctx.samplesTrimmed = 0 ∧ ∃ w, res.ctx.writer = some w) ∧
        (res.finished = false → LoopInv c0 res.ctx ∧
          res.ctx.precount + res.ctx.numProcessCalls
            = res0.ctx.precount + res0.ctx.numProcessCalls) := by
  induction inps with
  | nil =>
    intro res0 _ hinv
    exact ⟨res0, rfl, ⟨hinv.setup, hinv.started, hinv.trimmed, hinv.has_writer⟩,
      fun _ => ⟨hinv, rfl⟩⟩
  | cons inp rest ih =>
    intro res0 h0 hinv
    obtain ⟨next, e1, e2, e3, _⟩ := loop_step E c0 res0.ctx res0.progress inp S hinv
    rw [renderBlocks_cons E res0 next inp rest h0 e1]
    cases hn : next.finished with
    | true =>
      refine ⟨next, renderBlocks_finished E next rest hn, e2, fun hf => ?_⟩
      rw [hn] at hf; exact absurd hf (by decide)
    | false =>
      obtain ⟨g1, g2⟩ := e3 hn
      obtain ⟨res, i1, i2, i3⟩ := ih next hn g1
      refine ⟨res, i1, i2, fun hf => ?_⟩
      obtain ⟨j1, j2⟩ := i3 hf
      refine ⟨j1, ?_⟩
      rcases g2 with ⟨a1, a2, _⟩ | ⟨a1, a2, _⟩ <;> omega

/-- Termination of the block loop when every leaf is ready in every call, whatever else the
calls read and whatever the sample budget: the loop finishes within `precount + m + 1` calls,
where `m` is a number of block lengths that exceeds the render length plus the end
allowance. -/
theorem loopBlocks_terminates (E : Externals) (c0 : NodeRenderContext) (S : LoopStart c0)
    (m : Int)
    (hm : c0.r.time.getEnd + c0.r.endAllowance < c0.r.time.getStart + (m : ℚ) * c0.blockLength)
    (n : Nat) :
    ∀ (res0 : StepResult) (inps : List BlockInput), res0.finished = false →
      LoopInv c0 res0.ctx → (∀ inp ∈ inps, inp.leafNodesReady = true) →
      res0.ctx.precount + m ≤ n → n + 1 ≤ inps.length →
      ∃ res, renderBlocks E res0 inps = some res ∧ res.finished = true := by
  induction n with
  | zero =>
    intro res0 inps h0 hinv hready hle hlen
    cases inps with
    | nil => simp at hlen
    | cons inp rest =>
      obtain ⟨res1, e1, _, _, _, e5, _⟩ := loop_step E c0 res0.ctx res0.progress inp S hinv
      rw [renderBlocks_cons E res0 res1 inp rest h0 e1]
      have hf : res1.finished = true :=
        e5 (hready inp (List.mem_cons_self _ _))
          (terminates_of_late_loop c0 res0.ctx S hinv m _ hm (by simpa using hle))
      exact ⟨res1, renderBlocks_finished E res1 rest hf, hf⟩
  | succ n ih =>
    intro res0 inps h0 hinv hready hle hlen
    cases inps with
    | nil => simp at hlen
    | cons inp rest =>
      obtain ⟨res1, e1, _, e3, e4, _⟩ := loop_step E c0 res0.ctx res0.progress inp S hinv
      rw [renderBlocks_cons E res0 res1 inp rest h0 e1]
      cases hf : res1.finished with
      | true => exact ⟨res1, renderBlocks_finished E res1 rest hf, hf⟩
      | false =>
        have g1 := (e3 hf).1
        have g2 := e4 (hready inp (List.mem_cons_self _ _)) hf
        apply ih res1 rest hf g1 (fun i hi => hready i (List.mem_cons_of_mem _ hi))
        · rw [g2]; push_cast at hle; omega
        · simp only [List.length_cons] at hlen; omega

/-- A render with valid parameters and a usable destination in which every leaf is ready in
every call returns true within `callBound` calls, whatever the sample budget. -/
theorem loop_finishes (E : Externals) (p ownerParams : Parameters)
    (props : NodeProperties) (playHead : PlayHead) (sys : SetupInput)
    (inps : List BlockInput) (VP : ValidParams E p props)
    (hdest : workingDestFile p sys ≠ "" → sys.writerOpens = true)
    (hready : ∀ inp ∈ inps, inp.leafNodesReady = true)
    (hlen : callBound p props ≤ inps.length) :
    ∃ res, renderBlocks E
        (NodeRenderContext.construct E p ownerParams props playHead sys).start inps = some res ∧
      res.finished = true := by
  have S := construct_loopStart E p ownerParams props playHead sys VP hdest
  obtain ⟨c1, c2, c3, c4, c5, c6, c7, c8, _⟩ :=
    construct_fields E p ownerParams props playHead sys VP.hasAudio hdest
  have hinv := loopInv_start _ S
  generalize NodeRenderContext.construct E p ownerParams props playHead sys = c0 at *
  have hbl := S.blockLength_pos
  have hm : c0.r.time.getEnd + c0.r.endAllowance
      < c0.r.time.getStart
        + ((⌊(c0.r.time.getEnd - c0.r.time.getStart + c0.r.endAllowance) / c0.blockLength⌋ + 1
            : Int) : ℚ) * c0.blockLength := by
    have h := Int.lt_floor_add_one
      ((c0.r.time.getEnd - c0.r.time.getStart + c0.r.endAllowance) / c0.blockLength)
    have h2 := (div_lt_iff₀ hbl).mp h
    push_cast
    linarith
  have hP := S.precount_nonneg
  have hbound : callBound p props
      = c0.precount
        + (⌊(c0.r.time.getEnd - c0.r.time.getStart + c0.r.endAllowance) / c0.blockLength⌋ + 1)
        + 1 := by
    unfold callBound EditTimeRange.getEnd EditTimeRange.getStart
    rw [c1, c2, c3, c6, c8]
    ring
  have hfloor : 0 ≤ ⌊(c0.r.time.getEnd - c0.r.time.getStart + c0.r.endAllowance)
      / c0.blockLength⌋ := by
    apply Int.floor_nonneg.mpr
    apply div_nonneg _ (le_of_lt hbl)
    have := S.range_ok
    have := S.allowance_nonneg
    linarith
  exact loopBlocks_terminates E c0 S _ hm
    (c0.precount
      + (⌊(c0.r.time.getEnd - c0.r.time.getStart + c0.r.endAllowance) / c0.blockLength⌋
          + 1)).toNat
    c0.start inps rfl hinv hready
    (by rw [Int.toNat_of_nonneg (by omega)]; exact le_refl _)
    (by
      have h1 : ((c0.precount
          + (⌊(c0.r.time.getEnd - c0.r.time.getStart + c0.r.endAllowance) / c0.blockLength⌋
            + 1)).toNat : Int) + 1 ≤ (inps.length : Int) := by
        rw [Int.toNat_of_nonneg (by omega), ← hbound]; exact hlen
      exact_mod_cast h1)

/-! ## The library routine `juce::roundToInt` -/

theorem roundHalfEven_near (x : ℚ) : |((roundHalfEven x : Int) : ℚ) - x| ≤ 1 / 2 := by
  have h1 := Int.fract_nonneg x
  have h2 := Int.fract_lt_one x
  have hx : x = (⌊x⌋ : ℚ) + Int.fract x := (Int.floor_add_fract x).symm
  unfold roundHalfEven
  rw [abs_le]
  split_ifs with a b c
  · constructor <;> linarith
  · constructor <;> push_cast <;> linarith
  · constructor <;> linarith
  · constructor <;> push_cast <;> linarith

theorem wrapInt32_of_range (n : Int) (h0 : -(2 ^ 31) ≤ n) (h1 : n < 2 ^ 31) :
    wrapInt32 n = n := by
  unfold wrapInt32
  omega

/-- On arguments from 0 to 2^31 - 1 `juce::roundToInt` returns an integer nearest to its
argument. -/
theorem juceRoundToInt_near (x : ℚ) (h0 : 0 ≤ x) (h1 : x ≤ 2 ^ 31 - 1) :
    |((juceRoundToInt x : Int) : ℚ) - x| ≤ 1 / 2 := by
  have hn := roundHalfEven_near x
  have hle := abs_le.mp hn
  have hlo : (-1 : ℚ) < ((roundHalfEven x : Int) : ℚ) := by linarith [hle.1]
  have hhi : ((roundHalfEven x : Int) : ℚ) < 2 ^ 31 := by linarith [hle.2]
  have hlo' : -1 < roundHalfEven x := by exact_mod_cast hlo
  have hhi' : roundHalfEven x < 2 ^ 31 := by exact_mod_cast hhi
  unfold juceRoundToInt
  rw [wrapInt32_of_range _ (by omega) hhi']
  exact hn

theorem roundHalfEven_int (n : Int) : roundHalfEven (n : ℚ) = n := by
  unfold roundHalfEven
  rw [Int.fract_intCast, if_pos (by norm_num), Int.floor_intCast]

theorem roundHalfEven_half (n : Int) :
    roundHalfEven ((n : ℚ) + 1 / 2) = if n % 2 = 0 then n else n + 1 := by
  have hfl : ⌊(n : ℚ) + 1 / 2⌋ = n := by
    rw [Int.floor_eq_iff]; constructor <;> linarith
  have hfr : Int.fract ((n : ℚ) + 1 / 2) = 1 / 2 := by
    unfold Int.fract; rw [hfl]; ring
  unfold roundHalfEven
  rw [hfr, if_neg (lt_irrefl _), if_neg (lt_irrefl _), hfl]

/-- The assumptions on the parameters do not involve the external routines. -/
theorem validParams_externals (E E' : Externals) (p : Parameters) (props : NodeProperties)
    (h : ValidParams E p props) : ValidParams E' p props :=
  ⟨h.sampleRate_pos, h.blockSize_pos, h.blockSize_lt, h.length_pos, h.allowance_nonneg,
    h.hasAudio, h.latency_nonneg⟩

/-- With `juce::roundToInt` the sample budget fits an `int` as soon as the render has at most
2^31 - 1 samples. -/
theorem juce_budgetFits (p : Parameters) (props : NodeProperties)
    (h : budgetInSamples p props ≤ 2 ^ 31 - 1) : BudgetFits juceExternals p props :=
  ⟨h, fun x h0 h1 => juceRoundToInt_near x h0 h1⟩

/-- An integer nearest to `x` is the integer part of `x + 1/2` unless `x` lies half-way between
two integers. -/
theorem nearest_unique (a : Int) (x : ℚ) (h : |(a : ℚ) - x| ≤ 1 / 2)
    (hx : Int.fract x ≠ 1 / 2) : a = ⌊x + 1 / 2⌋ := by
  obtain ⟨h1, h2⟩ := abs_le.mp h
  have hf0 := Int.fract_nonneg x
  have hf1 := Int.fract_lt_one x
  have hxe : x = (⌊x⌋ : ℚ) + Int.fract x := (Int.floor_add_fract x).symm
  symm
  rw [Int.floor_eq_iff]
  constructor
  · linarith
  · rcases lt_or_gt_of_ne hx with hlt | hgt
    · -- fract < 1/2: a ≤ x + 1/2 < ⌊x⌋ + 1, a ≥ x - 1/2 > ⌊x⌋ - 1, so a = ⌊x⌋
      have ha1 : (a : ℚ) < (⌊x⌋ : ℚ) + 1 := by linarith
      have ha2 : (⌊x⌋ : ℚ) - 1 < (a : ℚ) := by linarith
      have ha1' : a < ⌊x⌋ + 1 := by exact_mod_cast ha1
      have ha2' : ⌊x⌋ - 1 < a := by exact_mod_cast ha2
      have : a = ⌊x⌋ := by omega
      rw [this]; linarith
    · have ha1 : (a : ℚ) < (⌊x⌋ : ℚ) + 2 := by linarith
      have ha2 : (⌊x⌋ : ℚ) < (a : ℚ) := by linarith
      have ha1' : a < ⌊x⌋ + 2 := by exact_mod_cast ha1
      have ha2' : ⌊x⌋ < a := by exact_mod_cast ha2
      have : a = ⌊x⌋ + 1 := by omega
      rw [this]; push_cast; linarith

/-! ## The samples of a render that runs to completion -/

/-- A render with end allowance 0 whose sample budget fits an `int`, that runs to completion
with ready leaves, no cancellation, an open writer and every append accepted, appends the
budget that `roundToInt` makes of the length in samples, latency included, minus the
latency. -/
theorem render_appended (E : Externals) (p ownerParams : Parameters)
    (props : NodeProperties) (playHead : PlayHead) (sys : SetupInput) (inps : List BlockInput)
    (VP : ValidParams E p props) (BF : BudgetFits E p props) (hA : p.endAllowance = 0)
    (hopen : sys.writerOpens = true) (hready : ∀ inp ∈ inps, inp.ready)
    (hlen : callBound p props ≤ inps.length) :
    ∃ res w, renderBlocks E
        (NodeRenderContext.construct E p ownerParams props playHead sys).start inps = some res ∧
      res.finished = true ∧ res.ctx.writer = some w ∧
      w.samplesAppended
        = E.roundToInt ((p.time.endTime - p.time.start) * p.sampleRateForAudio
            + (props.latencyNumSamples : ℚ)) - props.latencyNumSamples := by
  have hdest : workingDestFile p sys ≠ "" → sys.writerOpens = true := fun _ => hopen
  obtain ⟨res, k, e1, e2, hk⟩ :=
    render_finishes E p ownerParams props playHead sys inps VP BF hdest hready hlen
  have V := construct_validStart E p ownerParams props playHead sys VP BF hdest
  obtain ⟨c1, c2, c3, c4, c5, c6, _, _, _, c10, c11, _, _, c14, _⟩ :=
    construct_fields E p ownerParams props playHead sys VP.hasAudio hdest
  have hnear := budget_near E p props VP BF
  unfold budgetInSamples at hnear
  generalize NodeRenderContext.construct E p ownerParams props playHead sys = c0 at *
  obtain ⟨w, w0, hw, hw0, _, hsum⟩ := hk.written.writer_ok
  rw [c14] at hw0
  have hw0' : w0 = { isOpen := sys.writerOpens, numChannels := outputChannels p props,
                     appended := [] } := (Option.some.inj hw0).symm
  have hopen0 : w0.isOpen = true := by rw [hw0']; exact hopen
  have hzero : w0.samplesAppended = 0 := by rw [hw0']; rfl
  have hR := VP.sampleRate_pos
  have hB := VP.blockSize_pos
  have hBq : (0 : ℚ) < (p.blockSizeForAudio : ℚ) := by exact_mod_cast hB
  have hlat : sampleToTime props.latencyNumSamples p.sampleRateForAudio * p.sampleRateForAudio
      = (props.latencyNumSamples : ℚ) := by
    unfold sampleToTime; field_simp
  -- the budget is what `roundToInt` makes of the length plus the latency
  have hT : c0.samplesToWrite
      = E.roundToInt ((p.time.endTime - p.time.start) * p.sampleRateForAudio
          + (props.latencyNumSamples : ℚ)) := by
    rw [c10, hA]
    congr 1
    rw [← hlat]; ring
  -- the finishing block starts after the end, so the budget is used up
  have hpast := hk.past_end
  unfold EditTimeRange.getEnd EditTimeRange.getStart at hpast
  rw [c1, c2, c6] at hpast
  have hlt : (p.time.endTime + sampleToTime props.latencyNumSamples p.sampleRateForAudio
      - p.time.start + p.endAllowance) * p.sampleRateForAudio
        < ((k * p.blockSizeForAudio : Int) : ℚ) := by
    have h1 : (k : ℚ) * ((p.blockSizeForAudio : ℚ) / p.sampleRateForAudio) * p.sampleRateForAudio
        = (k : ℚ) * (p.blockSizeForAudio : ℚ) := by field_simp
    push_cast
    rw [hA, ← h1]
    apply mul_lt_mul_of_pos_right _ hR
    linarith
  have hTle : c0.samplesToWrite ≤ k * p.blockSizeForAudio := by
    rw [c10]; exact round_le E _ _ hnear hlt
  have hLT := V.latency_le
  have hL := V.latency_nonneg
  refine ⟨res, w, e1, e2, hw, ?_⟩
  rw [hsum hopen0, hzero, c5]
  have hmul : (k + 1) * p.blockSizeForAudio = k * p.blockSizeForAudio + p.blockSizeForAudio := by
    ring
  rw [hmul, c11] at *
  generalize k * p.blockSizeForAudio = x at *
  rw [hT] at hTle hLT ⊢
  omega

/-- The number that `render_appended` gives is an integer nearest to the requested length in
samples. -/
theorem appended_near (E : Externals) (p : Parameters) (props : NodeProperties)
    (VP : ValidParams E p props) (BF : BudgetFits E p props) (hA : p.endAllowance = 0) :
    |((E.roundToInt ((p.time.endTime - p.time.start) * p.sampleRateForAudio
            + (props.latencyNumSamples : ℚ)) - props.latencyNumSamples : Int) : ℚ)
        - (p.time.endTime - p.time.start) * p.sampleRateForAudio| ≤ 1 / 2 := by
  have hnear := budget_near E p props VP BF
  have hR := VP.sampleRate_pos
  have hlat : sampleToTime props.latencyNumSamples p.sampleRateForAudio * p.sampleRateForAudio
      = (props.latencyNumSamples : ℚ) := by
    unfold sampleToTime; field_simp
  have hx : budgetInSamples p props
      = (p.time.endTime - p.time.start) * p.sampleRateForAudio
          + (props.latencyNumSamples : ℚ) := by
    unfold budgetInSamples
    rw [hA, ← hlat]; ring
  rw [hx] at hnear
  push_cast
  rw [abs_le] at hnear ⊢
  constructor <;> linarith [hnear.1, hnear.2]

/-- On arguments from 0 to 2^31 - 1 the result of `juce::roundToInt` is not wrapped: it is the
nearest integer, the even one at half-way arguments. -/
theorem juceRoundToInt_eq (x : ℚ) (h0 : 0 ≤ x) (h1 : x ≤ 2 ^ 31 - 1) :
    juceRoundToInt x = roundHalfEven x := by
  have hle := abs_le.mp (roundHalfEven_near x)
  have hlo : (-1 : ℚ) < ((roundHalfEven x : Int) : ℚ) := by linarith [hle.1]
  have hhi : ((roundHalfEven x : Int) : ℚ) < 2 ^ 31 := by linarith [hle.2]
  have hlo' : -1 < roundHalfEven x := by exact_mod_cast hlo
  have hhi' : roundHalfEven x < 2 ^ 31 := by exact_mod_cast hhi
  unfold juceRoundToInt
  exact wrapInt32_of_range _ (by omega) hhi'

/-- With end allowance 0 the budget in samples is the requested length in samples plus the
latency. -/
theorem budgetInSamples_eq (E : Externals) (p : Parameters) (props : NodeProperties)
    (VP : ValidParams E p props) (hA : p.endAllowance = 0) :
    budgetInSamples p props
      = (p.time.endTime - p.time.start) * p.sampleRateForAudio
          + (props.latencyNumSamples : ℚ) := by
  have hR := VP.sampleRate_pos
  have hlat : sampleToTime props.latencyNumSamples p.sampleRateForAudio * p.sampleRateForAudio
      = (props.latencyNumSamples : ℚ) := by
    unfold sampleToTime; field_simp
  unfold budgetInSamples
  rw [hA, ← hlat]; ring

/-- At a requested length half-way between two integers, `juce::roundToInt` of the length plus
the latency, minus the latency, is the neighbour of the length whose sum with the latency is
even. -/
theorem appended_tie (E : Externals) (p : Parameters) (props : NodeProperties)
    (VP : ValidParams E p props) (BF : BudgetFits E p props) (hA : p.endAllowance = 0)
    (hE : E.roundToInt = juceRoundToInt)
    (hx : Int.fract ((p.time.endTime - p.time.start) * p.sampleRateForAudio) = 1 / 2) :
    E.roundToInt ((p.time.endTime - p.time.start) * p.sampleRateForAudio
        + (props.latencyNumSamples : ℚ)) - props.latencyNumSamples
      = if (⌊(p.time.endTime - p.time.start) * p.sampleRateForAudio⌋
            + props.latencyNumSamples) % 2 = 0
        then ⌊(p.time.endTime - p.time.start) * p.sampleRateForAudio⌋
        else ⌊(p.time.endTime - p.time.start) * p.sampleRateForAudio⌋ + 1 := by
  have hb := budgetInSamples_eq E p props VP hA
  have h0 := budgetInSamples_nonneg E p props VP
  have h1 := BF.budget_le
  rw [hb] at h0 h1
  rw [hE, juceRoundToInt_eq _ h0 h1]
  generalize (p.time.endTime - p.time.start) * p.sampleRateForAudio = x at *
  have hxe : x + (props.latencyNumSamples : ℚ)
      = ((⌊x⌋ + props.latencyNumSamples : Int) : ℚ) + 1 / 2 := by
    have := Int.floor_add_fract x
    rw [hx] at this
    push_cast
    linarith
  rw [hxe, roundHalfEven_half]
  split_ifs <;> omega

theorem eighthParams_valid (latency : Int) (h : 0 ≤ latency) :
    ValidParams juceExternals eighthParams (exampleProps latency) :=
  { sampleRate_pos := by norm_num [eighthParams, exampleParams]
    blockSize_pos := by norm_num [eighthParams, exampleParams]
    blockSize_lt := by norm_num [eighthParams, exampleParams]
    length_pos := by norm_num [eighthParams]
    allowance_nonneg := by norm_num [eighthParams, exampleParams]
    hasAudio := rfl
    latency_nonneg := h }

theorem eighthParams_fits (latency : Int) (h : latency ≤ 1000) :
    BudgetFits juceExternals eighthParams (exampleProps latency) := by
  apply juce_budgetFits
  have hq : (latency : ℚ) ≤ 1000 := by exact_mod_cast h
  simp only [budgetInSamples, eighthParams, exampleParams, exampleProps, sampleToTime]
  norm_num
  linarith

/-! ## A render whose sample budget is negative -/

/-- One steady-state block on books with a negative budget: whether the budget still is the
negative one of the start or has been brought to 0, the block takes what is left of the
budget, drops as much, hands nothing to the writer, and leaves a budget of 0 and a latency
still to drop that is the one of the start minus the negative budget. -/
theorem wrapped_plan (c0 c : NodeRenderContext) (hinv : LoopInv c0 c)
    (hT : c0.samplesToWrite < 0) (hL : 0 < c0.numLatencySamplesToDrop)
    (hB : 0 < c0.r.blockSizeForAudio) (hwb : WrappedBooks c0 c) :
    c.samplesTaken - c.samplesDropped = 0 ∧ c.samplesToWrite - c.samplesTaken = 0 ∧
    c.numLatencySamplesToDrop - c.samplesDropped
      = c0.numLatencySamplesToDrop - c0.samplesToWrite := by
  unfold NodeRenderContext.samplesDropped NodeRenderContext.samplesTaken
  rw [hinv.setup.r_eq]
  by_cases hp : 0 ≤ c.precount
  · obtain ⟨h1, h2⟩ := hwb.fresh hp
    rw [h1, h2, if_pos hL]
    omega
  · obtain ⟨h1, h2⟩ := hwb.wrapped (not_le.mp hp)
    rw [h1, h2, if_pos (by omega)]
    omega

/-- One call of `renderNextBlock` in which no cancellation is pending, in a render whose
budget is negative and whose root declares a latency: a call that returns false keeps the
books as `WrappedBooks` describes them, and a call that returns true leaves the writer of the
start, a budget of 0 and a latency still to drop of the declared latency minus the negative
budget. -/
theorem wrapped_step (E : Externals) (c0 c : NodeRenderContext) (p : ℚ) (inp : BlockInput)
    (S : LoopStart c0) (hinv : LoopInv c0 c) (hT : c0.samplesToWrite < 0)
    (hL : 0 < c0.numLatencySamplesToDrop) (hB : 0 < c0.r.blockSizeForAudio)
    (hexit : inp.shouldExit = false) (hwb : WrappedBooks c0 c) :
    ∃ res, c.renderNextBlock E p inp = some res ∧
      (res.finished = false → WrappedBooks c0 res.ctx) ∧
      (res.finished = true → res.ctx.writer = c0.writer ∧ res.ctx.samplesToWrite = 0 ∧
        res.ctx.numLatencySamplesToDrop
          = c0.numLatencySamplesToDrop - c0.samplesToWrite) := by
  obtain ⟨res, e1, _, e3, _, _, e6⟩ := loop_step E c0 c p inp S hinv
  refine ⟨res, e1, ?_⟩
  by_cases hp : 0 < c.precount
  · obtain ⟨res', w1, _, w3, _⟩ := warmUp_call E c p inp hexit hp
    have hres : res' = res := Option.some.inj (w1.symm.trans e1)
    rw [hres] at w3
    obtain ⟨f1, f2⟩ := hwb.fresh (le_of_lt hp)
    refine ⟨fun hf => ⟨w3.writer_eq.trans hwb.writer_eq,
      fun _ => ⟨w3.budget_eq.trans f1, w3.drop_eq.trans f2⟩, fun hneg => ?_⟩, fun hf => ?_⟩
    · exfalso
      rcases (e3 hf).2 with ⟨_, a, _⟩ | ⟨_, a, _⟩ <;> omega
    · have := e6 hf hp
      rw [hexit] at this
      exact absurd this (by decide)
  · have hp0 : c.precount ≤ 0 := not_lt.mp hp
    cases hgo : (inp.leafNodesReady || inp.shouldExitWhileWaiting) with
    | false =>
      have hres : ({ finished := false, ctx := c.beforeProcess E inp, progress := p }
          : StepResult) = res :=
        Option.some.inj ((renderNextBlock_notReady E c p inp hexit hgo).symm.trans e1)
      have hb := sameBooks_beforeProcess E c inp
      have hpre := beforeProcess_precount E c inp
      rw [← hres]
      refine ⟨fun _ => ⟨hb.writer_eq.trans hwb.writer_eq, fun h => ?_, fun h => ?_⟩,
        fun hf => absurd hf (by simp)⟩
      · have h' : 0 ≤ c.precount := by rw [← hpre]; exact h
        obtain ⟨f1, f2⟩ := hwb.fresh h'
        exact ⟨hb.budget_eq.trans f1, hb.drop_eq.trans f2⟩
      · have h' : c.precount < 0 := by rw [← hpre]; exact h
        obtain ⟨f1, f2⟩ := hwb.wrapped h'
        exact ⟨hb.budget_eq.trans f1, hb.drop_eq.trans f2⟩
    | true =>
      obtain ⟨w, hw⟩ := hinv.has_writer
      obtain ⟨q1, q2, q3, q4, q5, q6, q7⟩ := processed_fields E c inp
      have hproc := renderNextBlock_process E c p inp hexit hgo
      change c.renderNextBlock E p inp
          = match (c.processed E inp).writeOrWarmUp E (c.destBlock E inp) inp.appendOk with
            | none => none
            | some (WriteResult.failed, c') => some { finished := true, ctx := c', progress := p }
            | some (WriteResult.succeeded, c') =>
              some (c'.finishBlock c.blockEnd p inp.magnitudeAtEnd) at hproc
      obtain ⟨wr, c', g1, _, _, g4, _, _, _, _, _, g10⟩ :=
        writeOrWarmUp_light E (c.processed E inp) (c.destBlock E inp) inp.appendOk w
          (q2.writer_eq.trans hw) (q2.started_eq.trans hinv.started)
      obtain ⟨k1, k2, k3⟩ := wrapped_plan c0 c hinv hT hL hB hwb
      obtain ⟨b1, b2, b3⟩ := g10 (by rw [q4]; exact hp0)
      rw [q6, q2.budget_eq, k2] at b1
      rw [q7, q2.drop_eq, k3] at b2
      obtain ⟨b4, b5⟩ := b3 (by rw [q6, q7, k1]; rfl)
      rw [g1, b4] at hproc
      have hres : c'.finishBlock c.blockEnd p inp.magnitudeAtEnd = res :=
        Option.some.inj (hproc.symm.trans e1)
      obtain ⟨_, _, f3, f4⟩ := finishBlock_spec c' c.blockEnd p inp.magnitudeAtEnd
      rw [hres] at f3 f4
      have hwr : res.ctx.writer = c0.writer :=
        f4.writer_eq.trans (b5.trans (q2.writer_eq.trans hwb.writer_eq))
      refine ⟨fun hf => ⟨hwr, fun h => ?_, fun _ => ⟨f4.budget_eq.trans b1,
        f4.drop_eq.trans b2⟩⟩, fun _ => ⟨hwr, f4.budget_eq.trans b1, f4.drop_eq.trans b2⟩⟩
      exfalso
      have := (f3 hf).1
      rw [g4, q4] at this
      omega

/-- The block loop of a render whose budget is negative and whose root declares a latency,
when no cancellation is pending and every leaf is ready in every call: the loop finishes
within `precount + m + 1` calls, where `m` is a number of block lengths that exceeds the
render length plus the end allowance, and leaves the writer of the start, a budget of 0 and a
latency still to drop of the declared latency minus the negative budget. -/
theorem wrappedBlocks_finish (E : Externals) (c0 : NodeRenderContext) (S : LoopStart c0)
    (hT : c0.samplesToWrite < 0) (hL : 0 < c0.numLatencySamplesToDrop)
    (hB : 0 < c0.r.blockSizeForAudio) (m : Int)
    (hm : c0.r.time.getEnd + c0.r.endAllowance < c0.r.time.getStart + (m : ℚ) * c0.blockLength)
    (n : Nat) :
    ∀ (res0 : StepResult) (inps : List BlockInput), res0.finished = false →
      LoopInv c0 res0.ctx → WrappedBooks c0 res0.ctx →
      (∀ inp ∈ inps, inp.shouldExit = false ∧ inp.leafNodesReady = true) →
      res0.ctx.precount + m ≤ n → n + 1 ≤ inps.length →
      ∃ res, renderBlocks E res0 inps = some res ∧ res.finished = true ∧
        res.ctx.writer = c0.writer ∧ res.ctx.samplesToWrite = 0 ∧
        res.ctx.numLatencySamplesToDrop
          = c0.numLatencySamplesToDrop - c0.samplesToWrite := by
  induction n with
  | zero =>
    intro res0 inps h0 hinv hwb hready hle hlen
    cases inps with
    | nil => simp at hlen
    | cons inp rest =>
      obtain ⟨hx, hr⟩ := hready inp (List.mem_cons_self _ _)
      obtain ⟨res1, e1, _, _, _, e5, _⟩ := loop_step E c0 res0.ctx res0.progress inp S hinv
      obtain ⟨res2, w1, _, w3⟩ :=
        wrapped_step E c0 res0.ctx res0.progress inp S hinv hT hL hB hx hwb
      have hres : res2 = res1 := Option.some.inj (w1.symm.trans e1)
      rw [hres] at w3
      rw [renderBlocks_cons E res0 res1 inp rest h0 e1]
      have hf : res1.finished = true :=
        e5 hr (terminates_of_late_loop c0 res0.ctx S hinv m _ hm (by simpa using hle))
      exact ⟨res1, renderBlocks_finished E res1 rest hf, hf, w3 hf⟩
  | succ n ih =>
    intro res0 inps h0 hinv hwb hready hle hlen
    cases inps with
    | nil => simp at hlen
    | cons inp rest =>
      obtain ⟨hx, hr⟩ := hready inp (List.mem_cons_self _ _)
      obtain ⟨res1, e1, _, e3, e4, _⟩ := loop_step E c0 res0.ctx res0.progress inp S hinv
      obtain ⟨res2, w1, w2, w3⟩ :=
        wrapped_step E c0 res0.ctx res0.progress inp S hinv hT hL hB hx hwb
      have hres : res2 = res1 := Option.some.inj (w1.symm.trans e1)
      rw [hres] at w2 w3
      rw [renderBlocks_cons E res0 res1 inp rest h0 e1]
      cases hf : res1.finished with
      | true => exact ⟨res1, renderBlocks_finished E res1 rest hf, hf, w3 hf⟩
      | false =>
        have g1 := (e3 hf).1
        have g2 := e4 hr hf
        apply ih res1 rest hf g1 (w2 hf) (fun i hi => hready i (List.mem_cons_of_mem _ hi))
        · rw [g2]; push_cast at hle; omega
        · simp only [List.length_cons] at hlen; omega

/-! ## The render of 60000 s at 44.1 kHz -/

theorem longParams_valid : ValidParams juceExternals longParams (exampleProps 256) :=
  { sampleRate_pos := by norm_num [longParams, exampleParams]
    blockSize_pos := by norm_num [longParams, exampleParams]
    blockSize_lt := by norm_num [longParams, exampleParams]
    length_pos := by norm_num [longParams]
    allowance_nonneg := by norm_num [longParams, exampleParams]
    hasAudio := rfl
    latency_nonneg := by norm_num [exampleProps] }

/-- The 60000 s render asks `juce::roundToInt` for 2646000256 samples, which an `int` does not
hold: the budget is the negative number made of the low 32 bits. -/
theorem longContext_budget : longContext.samplesToWrite = -1648967040 := by
  obtain ⟨_, _, _, _, _, _, _, _, _, c10, _⟩ :=
    construct_fields juceExternals longParams longParams (exampleProps 256) stoppedPlayHead
      exampleSetup rfl (fun _ => rfl)
  unfold longContext
  rw [c10]
  have harg : (longParams.time.endTime
      + sampleToTime (exampleProps 256).latencyNumSamples longParams.sampleRateForAudio
      - longParams.time.start + longParams.endAllowance) * longParams.sampleRateForAudio
        = ((2646000256 : Int) : ℚ) := by
    norm_num [longParams, exampleParams, exampleProps, sampleToTime]
  rw [harg]
  show juceRoundToInt ((2646000256 : Int) : ℚ) = -1648967040
  unfold juceRoundToInt
  rw [roundHalfEven_int]
  unfold wrapInt32
  norm_num

/-! ## The claims -/

/-- Claim C1, as amended.  An audio render with end allowance 0 whose sample budget fits an
`int` (the requested length in samples plus the root latency `L ≥ 0` is at most 2^31 - 1)
and that runs to completion (valid parameters, writer open, every leaf ready in every call,
no cancellation, every append accepted, and at least `callBound` calls available) finishes,
and the total number of samples appended to the writer is
`roundToInt ((requested end - requested start) * sampleRate + L) - L`: the budget is rounded
with the latency in it, and `L` samples are dropped.  That number is an integer nearest to
the requested length in samples; it is the requested length rounded, whatever `L`, unless the
length lies half-way between two integers; and with `juce::roundToInt` a half-way length gives
the neighbour whose sum with `L` is even. -/
theorem C1_appended_samples_are_budget_minus_latency (E : Externals)
    (p ownerParams : Parameters) (props : NodeProperties) (playHead : PlayHead)
    (sys : SetupInput) (inps : List BlockInput)
    (VP : ValidParams E p props) (BF : BudgetFits E p props) (hA : p.endAllowance = 0)
    (hopen : sys.writerOpens = true) (hready : ∀ inp ∈ inps, inp.ready)
    (hlen : callBound p props ≤ inps.length) :
    ∃ res w, renderBlocks E
        (NodeRenderContext.construct E p ownerParams props playHead sys).start inps = some res ∧
      res.finished = true ∧ res.ctx.writer = some w ∧
      w.samplesAppended
        = E.roundToInt ((p.time.endTime - p.time.start) * p.sampleRateForAudio
            + (props.latencyNumSamples : ℚ)) - props.latencyNumSamples ∧
      |(w.samplesAppended : ℚ) - (p.time.endTime - p.time.start) * p.sampleRateForAudio|
        ≤ 1 / 2 ∧
      (Int.fract ((p.time.endTime - p.time.start) * p.sampleRateForAudio) ≠ 1 / 2 →
        w.samplesAppended = ⌊(p.time.endTime - p.time.start) * p.sampleRateForAudio + 1 / 2⌋) ∧
      (E.roundToInt = juceRoundToInt →
        Int.fract ((p.time.endTime - p.time.start) * p.sampleRateForAudio) = 1 / 2 →
        w.samplesAppended
          = if (⌊(p.time.endTime - p.time.start) * p.sampleRateForAudio⌋
                + props.latencyNumSamples) % 2 = 0
            then ⌊(p.time.endTime - p.time.start) * p.sampleRateForAudio⌋
            else ⌊(p.time.endTime - p.time.start) * p.sampleRateForAudio⌋ + 1) := by
  obtain ⟨res, w, h1, h2, h3, h4⟩ :=
    render_appended E p ownerParams props playHead sys inps VP BF hA hopen hready hlen
  have hnear := appended_near E p props VP BF hA
  rw [← h4] at hnear
  refine ⟨res, w, h1, h2, h3, h4, hnear, fun hx => nearest_unique _ _ hnear hx,
    fun hE hx => ?_⟩
  rw [h4]
  exact appended_tie E p props VP BF hA hE hx

/-- Witness of C1 (amended): a 2 s render at 44.1 kHz in blocks of 512 samples through a root
with 256 samples of latency, with `juce::roundToInt`, appends 88200 samples. -/
theorem C1_witness :
    ∃ res w, renderBlocks juceExternals
        (NodeRenderContext.construct juceExternals exampleParams exampleParams
          (exampleProps 256) stoppedPlayHead exampleSetup).start
        (List.replicate 219 readyInput) = some res ∧
      res.finished = true ∧ res.ctx.writer = some w ∧ w.samplesAppended = 88200 := by
  obtain ⟨res, w, h1, h2, h3, h4, _⟩ := C1_appended_samples_are_budget_minus_latency
    juceExternals exampleParams exampleParams (exampleProps 256) stoppedPlayHead exampleSetup
    (List.replicate 219 readyInput)
    (validParams_externals referenceExternals juceExternals _ _
      (exampleParams_valid 256 (by norm_num)))
    (juce_budgetFits exampleParams (exampleProps 256)
      (by norm_num [budgetInSamples, exampleParams, exampleProps, sampleToTime]))
    rfl rfl
    (by
      intro inp hinp
      rw [List.eq_of_mem_replicate hinp]
      exact ⟨⟨rfl, rfl⟩, rfl⟩)
    (by
      norm_num [callBound, exampleParams, exampleProps, truncToInt, sampleToTime])
  refine ⟨res, w, h1, h2, h3, ?_⟩
  rw [h4]
  have harg : (exampleParams.time.endTime - exampleParams.time.start)
      * exampleParams.sampleRateForAudio + (((exampleProps 256).latencyNumSamples : Int) : ℚ)
        = ((88456 : Int) : ℚ) := by
    norm_num [exampleParams, exampleProps]
  rw [harg]
  show juceRoundToInt ((88456 : Int) : ℚ) - 256 = 88200
  unfold juceRoundToInt
  rw [roundHalfEven_int]
  decide

/-- Counterexample to C1 as stated: the render of 1/8 s at 44.1 kHz, which is 5512.5 samples,
run to completion with `juce::roundToInt` over 56 calls: 5512 samples are appended through a
root without latency and 5513 through a root with one sample of latency, so the number
appended depends on the latency. -/
theorem C1_counterexample :
    (eighthParams.time.endTime - eighthParams.time.start) * eighthParams.sampleRateForAudio
      = 11025 / 2 ∧
    (∃ res w, renderBlocks juceExternals
        (NodeRenderContext.construct juceExternals eighthParams eighthParams (exampleProps 0)
          stoppedPlayHead exampleSetup).start (List.replicate 56 readyInput) = some res ∧
      res.finished = true ∧ res.ctx.writer = some w ∧ w.samplesAppended = 5512) ∧
    (∃ res w, renderBlocks juceExternals
        (NodeRenderContext.construct juceExternals eighthParams eighthParams (exampleProps 1)
          stoppedPlayHead exampleSetup).start (List.replicate 56 readyInput) = some res ∧
      res.finished = true ∧ res.ctx.writer = some w ∧ w.samplesAppended = 5513) := by
  have hready : ∀ inp ∈ List.replicate 56 readyInput, inp.ready := by
    intro inp hinp
    rw [List.eq_of_mem_replicate hinp]
    exact ⟨⟨rfl, rfl⟩, rfl⟩
  refine ⟨by norm_num [eighthParams, exampleParams], ?_, ?_⟩
  · obtain ⟨res, w, h1, h2, h3, h4⟩ := render_appended juceExternals eighthParams eighthParams
      (exampleProps 0) stoppedPlayHead exampleSetup (List.replicate 56 readyInput)
      (eighthParams_valid 0 (by norm_num)) (eighthParams_fits 0 (by norm_num)) rfl rfl hready
      (by norm_num [callBound, eighthParams, exampleParams, exampleProps, truncToInt,
        sampleToTime])
    refine ⟨res, w, h1, h2, h3, ?_⟩
    rw [h4]
    have harg : (eighthParams.time.endTime - eighthParams.time.start)
        * eighthParams.sampleRateForAudio + (((exampleProps 0).latencyNumSamples : Int) : ℚ)
          = ((5512 : Int) : ℚ) + 1 / 2 := by
      norm_num [eighthParams, exampleParams, exampleProps]
    rw [harg]
    show juceRoundToInt (((5512 : Int) : ℚ) + 1 / 2) - 0 = 5512
    unfold juceRoundToInt
    rw [roundHalfEven_half]
    decide
  · obtain ⟨res, w, h1, h2, h3, h4⟩ := render_appended juceExternals eighthParams eighthParams
      (exampleProps 1) stoppedPlayHead exampleSetup (List.replicate 56 readyInput)
      (eighthParams_valid 1 (by norm_num)) (eighthParams_fits 1 (by norm_num)) rfl rfl hready
      (by norm_num [callBound, eighthParams, exampleParams, exampleProps, truncToInt,
        sampleToTime])
    refine ⟨res, w, h1, h2, h3, ?_⟩
    rw [h4]
    have harg : (eighthParams.time.endTime - eighthParams.time.start)
        * eighthParams.sampleRateForAudio + (((exampleProps 1).latencyNumSamples : Int) : ℚ)
          = ((5513 : Int) : ℚ) + 1 / 2 := by
      norm_num [eighthParams, exampleParams, exampleProps]
    rw [harg]
    show juceRoundToInt (((5513 : Int) : ℚ) + 1 / 2) - 1 = 5513
    unfold juceRoundToInt
    rw [roundHalfEven_half]
    decide

/-- In an audio render with valid parameters whose sample budget fits an `int`, in which
nothing is cancelled and no append fails: `numLatencySamplesToDrop` starts at the root's
declared latency `L`; in every state the loop reaches it is not negative; a call that
processes a block lowers it by `min (remaining, samples taken for the block)` in the steady
state and leaves it alone during warm-up; and it is 0 once `renderNextBlock` has returned
true, so that exactly `L` samples were discarded. -/
theorem latency_dropped_when_budget_fits (E : Externals) (p ownerParams : Parameters)
    (props : NodeProperties) (playHead : PlayHead) (sys : SetupInput) (inps : List BlockInput)
    (VP : ValidParams E p props) (BF : BudgetFits E p props)
    (hdest : workingDestFile p sys ≠ "" → sys.writerOpens = true)
    (hacc : ∀ inp ∈ inps, inp.accepted) :
    (NodeRenderContext.construct E p ownerParams props playHead sys).numLatencySamplesToDrop
      = props.latencyNumSamples ∧
    ∃ res, renderBlocks E
        (NodeRenderContext.construct E p ownerParams props playHead sys).start inps = some res ∧
      0 ≤ res.ctx.numLatencySamplesToDrop ∧
      (res.finished = true → res.ctx.numLatencySamplesToDrop = 0) ∧
      (res.finished = false → ∀ inp : BlockInput, inp.accepted →
        (inp.leafNodesReady || inp.shouldExitWhileWaiting) = true →
        ∃ next, res.ctx.renderNextBlock E res.progress inp = some next ∧
          next.ctx.numLatencySamplesToDrop
            = res.ctx.numLatencySamplesToDrop
              - (if res.ctx.precount ≤ 0
                 then min res.ctx.numLatencySamplesToDrop res.ctx.samplesTaken else 0)) := by
  have V := construct_validStart E p ownerParams props playHead sys VP BF hdest
  obtain ⟨_, _, _, _, _, _, _, _, _, _, c11, _⟩ :=
    construct_fields E p ownerParams props playHead sys VP.hasAudio hdest
  refine ⟨c11, ?_⟩
  generalize NodeRenderContext.construct E p ownerParams props playHead sys = c0 at *
  obtain ⟨res, e1, e2⟩ := renderBlocks_spec E c0 V inps c0.start rfl (renderInv_start c0 V) hacc
  refine ⟨res, e1, ?_, ?_, ?_⟩
  · rcases e2 with ⟨_, hinv⟩ | ⟨_, k, hk⟩
    · exact (books_nonneg c0 res.ctx V _ hinv.written).2
    · rw [finishedAt_drop_zero c0 V k res hk]
  · intro hf
    rcases e2 with ⟨hnf, _⟩ | ⟨_, k, hk⟩
    · rw [hf] at hnf; exact absurd hnf (by decide)
    · exact finishedAt_drop_zero c0 V k res hk
  · intro hf inp hin hgo
    rcases e2 with ⟨_, hinv⟩ | ⟨hfin, _⟩
    · exact renderNextBlock_drop E c0 res.ctx res.progress inp V hinv hin hgo
    · rw [hf] at hfin; exact absurd hfin (by decide)

/-- Claim C2, at the input on which the code departs from it.  The 60000 s render at
44.1 kHz in blocks of 512 samples through a root with 256 samples of latency, run to
completion with `juce::roundToInt` over 5168015 calls in which the leaves are ready, nothing
is cancelled and the writer is open: `roundToInt` returns an `int`, so the budget of
2646000256 samples is stored as -1648967040; `numLatencySamplesToDrop` starts at 256, the
first steady-state block lowers it by the negative number of samples taken, and when
`renderNextBlock` returns true it is 1648967296, not 0, and nothing was appended to the
writer. -/
theorem C2_latency_counter_after_int_overflow :
    longContext.samplesToWrite = -1648967040 ∧ longContext.numLatencySamplesToDrop = 256 ∧
    ∃ res w, renderBlocks juceExternals longContext.start (List.replicate 5168015 readyInput)
        = some res ∧
      res.finished = true ∧ res.ctx.samplesToWrite = 0 ∧
      res.ctx.numLatencySamplesToDrop = 1648967296 ∧
      res.ctx.writer = some w ∧ w.isOpen = true ∧ w.samplesAppended = 0 := by
  have hT := longContext_budget
  have S : LoopStart longContext :=
    construct_loopStart juceExternals longParams longParams (exampleProps 256) stoppedPlayHead
      exampleSetup longParams_valid (fun _ => rfl)
  obtain ⟨c1, c2, c3, _, c5, c6, _, c8, _, _, c11, _, _, c14, _⟩ :=
    construct_fields juceExternals longParams longParams (exampleProps 256) stoppedPlayHead
      exampleSetup rfl (fun _ => rfl)
  change longContext.r.time.start = _ at c1
  change longContext.r.time.endTime = _ at c2
  change longContext.r.endAllowance = _ at c3
  change longContext.r.blockSizeForAudio = _ at c5
  change longContext.blockLength = _ at c6
  change longContext.precount = _ at c8
  change longContext.numLatencySamplesToDrop = _ at c11
  change longContext.writer = _ at c14
  have hL : longContext.numLatencySamplesToDrop = 256 := c11
  have hpre : longContext.precount = 44 := by
    rw [c8]
    norm_num [longParams, exampleParams, truncToInt]
  have hm : longContext.r.time.getEnd + longContext.r.endAllowance
      < longContext.r.time.getStart + ((5167970 : Int) : ℚ) * longContext.blockLength := by
    unfold EditTimeRange.getEnd EditTimeRange.getStart
    rw [c1, c2, c3, c6]
    norm_num [longParams, exampleParams, exampleProps, sampleToTime]
  obtain ⟨res, r1, r2, r3, r4, r5⟩ :=
    wrappedBlocks_finish juceExternals longContext S (by rw [hT]; norm_num)
      (by rw [hL]; norm_num) (by rw [c5]; norm_num [longParams, exampleParams]) 5167970 hm
      5168014 longContext.start (List.replicate 5168015 readyInput) rfl
      (loopInv_start longContext S)
      ⟨rfl, fun _ => ⟨rfl, rfl⟩, fun h => absurd h (by
        show ¬ longContext.precount < 0
        rw [hpre]; norm_num)⟩
      (by
        intro inp hinp
        rw [List.eq_of_mem_replicate hinp]
        exact ⟨rfl, rfl⟩)
      (by
        show longContext.precount + 5167970 ≤ ((5168014 : Nat) : Int)
        rw [hpre]; norm_num)
      (by rw [List.length_replicate])
  refine ⟨hT, hL, res, _, r1, r2, r4, ?_, r3.trans c14, rfl, rfl⟩
  rw [r5, hT, hL]
  norm_num

/-- Claim C3.  For every context that has a writer and every call of `renderNextBlock` in which
no cancellation is pending, all leaf nodes are ready and the writer accepts what is appended,
the call returns a result, and returns true if and only if the stream time at which the block
starts is strictly greater than `end + endAllowance`, or is strictly greater than `end` while the
magnitude of the rendered block is at or below the stopping threshold.  Here `end` is the end
of the working parameters, which the constructor sets to the requested end plus the latency
time and which no call changes. -/
theorem C3_returns_true_iff_termination_test (E : Externals) (c : NodeRenderContext) (p : ℚ)
    (inp : BlockInput) (w : AudioFileWriter) (hw : c.writer = some w)
    (hexit : inp.shouldExit = false) (hready : inp.leafNodesReady = true)
    (hok : inp.appendOk = true) :
    (∃ res, c.renderNextBlock E p inp = some res ∧
      (res.finished = true ↔
        (c.blockStart > c.r.time.getEnd + c.r.endAllowance ∨
          (c.blockStart > c.r.time.getEnd ∧ inp.magnitudeAtEnd ≤ c.thresholdForStopping))) ∧
      res.ctx.r.time.getEnd = c.r.time.getEnd) ∧
    (∀ (params ownerParams : Parameters) (props : NodeProperties) (playHead : PlayHead)
        (sys : SetupInput),
      (NodeRenderContext.construct E params ownerParams props playHead sys).r.time.getEnd
        = params.time.getEnd
          + sampleToTime props.latencyNumSamples params.sampleRateForAudio) := by
  constructor
  · have hgo : (inp.leafNodesReady || inp.shouldExitWhileWaiting) = true := by simp [hready]
    obtain ⟨q1, q2, q3, q4, _⟩ := processed_fields E c inp
    have hproc := renderNextBlock_process E c p inp hexit hgo
    change c.renderNextBlock E p inp
        = match (c.processed E inp).writeOrWarmUp E (c.destBlock E inp) inp.appendOk with
          | none => none
          | some (WriteResult.failed, c') => some { finished := true, ctx := c', progress := p }
          | some (WriteResult.succeeded, c') =>
            some (c'.finishBlock c.blockEnd p inp.magnitudeAtEnd) at hproc
    obtain ⟨wr, c', e1, e2, e3, _⟩ := writeOrWarmUp_total E (c.processed E inp)
      (c.destBlock E inp) inp.appendOk w (q2.writer_eq.trans hw)
    have hs := q1.trans (sameSetup_writeOrWarmUp E _ _ _ _ _ e1)
    rw [e1] at hproc
    cases wr with
    | failed => rw [hok] at e2; exact absurd (e2 rfl) (by decide)
    | succeeded =>
      obtain ⟨f1, _, _, _⟩ := finishBlock_spec c' c.blockEnd p inp.magnitudeAtEnd
      have hs2 := sameSetup_finishBlock c' c.blockEnd p inp.magnitudeAtEnd
      refine ⟨_, hproc, ?_, ?_⟩
      · rw [f1, e3, q3, hs.r_eq, hs.threshold_eq]
      · rw [hs2.r_eq, hs.r_eq]
  · intro params ownerParams props playHead sys
    obtain ⟨_, f2, _⟩ := setupLatencyAndPostPass_fields
      (NodeRenderContext.initial params ownerParams playHead sys.hasSourceToUpdate) props sys
    have f2' : ((NodeRenderContext.initial params ownerParams playHead
        sys.hasSourceToUpdate).setupLatencyAndPostPass props sys).r.time.endTime
          = params.time.endTime
            + sampleToTime props.latencyNumSamples params.sampleRateForAudio := f2
    unfold EditTimeRange.getEnd
    cases ha : props.hasAudio with
    | false => rw [construct_noAudio E params ownerParams props playHead sys ha]; exact f2'
    | true =>
      by_cases hd : workingDestFile params sys ≠ "" ∧ sys.writerOpens = false
      · rw [construct_cannotWrite E params ownerParams props playHead sys ha hd.1 hd.2]
        exact (withWriter_fields params ownerParams props playHead sys).2.1
      · have hdest : workingDestFile params sys ≠ "" → sys.writerOpens = true := by
          intro h1
          cases ho : sys.writerOpens with
          | true => rfl
          | false => exact absurd ⟨h1, ho⟩ hd
        exact (construct_fields E params ownerParams props playHead sys ha hdest).2.1

/-- Witness of C3: the first call on the 2 s example render, a warm-up block, returns false. -/
theorem C3_witness :
    ∃ res, (NodeRenderContext.construct referenceExternals exampleParams exampleParams
        (exampleProps 256) stoppedPlayHead exampleSetup).renderNextBlock referenceExternals 0
          readyInput = some res ∧ res.finished = false := by
  have hw := (construct_fields referenceExternals exampleParams exampleParams (exampleProps 256)
    stoppedPlayHead exampleSetup rfl (fun _ => rfl)).2.2.2.2.2.2.2.2.2.2.2.2.2.1
  have S := construct_loopStart referenceExternals exampleParams exampleParams
    (exampleProps 256) stoppedPlayHead exampleSetup (exampleParams_valid 256 (by norm_num))
    (fun _ => rfl)
  obtain ⟨⟨res, h1, h2, _⟩, _⟩ := C3_returns_true_iff_termination_test referenceExternals
    (NodeRenderContext.construct referenceExternals exampleParams exampleParams
      (exampleProps 256) stoppedPlayHead exampleSetup) 0 readyInput _ hw rfl rfl rfl
  refine ⟨res, h1, ?_⟩
  cases hf : res.finished with
  | false => rfl
  | true =>
    have ht := h2.mp hf
    have hneg := terminates_steady_loop _ _ S (loopInv_start _ S) readyInput.magnitudeAtEnd ht
    have := S.precount_nonneg
    omega

/-- Claim C4.  If the should-exit predicate is true when `renderNextBlock` is entered (on a
context that has a writer), the call returns true having closed the writer, deleted the
destination file and stopped the playhead; it neither runs the node graph nor passes a block to
the write path nor appends samples, and it changes none of `streamTime`, `precount`,
`samplesToWrite`, `numLatencySamplesToDrop`, the peak, RMS and non-zero accumulators, and the
progress value. -/
theorem C4_cancellation_on_entry (E : Externals) (c : NodeRenderContext) (p : ℚ)
    (inp : BlockInput) (w : AudioFileWriter) (hw : c.writer = some w)
    (hexit : inp.shouldExit = true) :
    ∃ res, c.renderNextBlock E p inp = some res ∧ res.finished = true ∧
      res.ctx.writer = some w.closeForWriting ∧ w.closeForWriting.isOpen = false ∧
      w.closeForWriting.appended = w.appended ∧
      res.ctx.destFileDeleted = true ∧ res.ctx.playHead.isPlaying = false ∧
      res.ctx.numProcessCalls = c.numProcessCalls ∧
      res.ctx.analysedBlocks = c.analysedBlocks ∧
      res.ctx.streamTime = c.streamTime ∧ res.ctx.precount = c.precount ∧
      res.ctx.samplesToWrite = c.samplesToWrite ∧
      res.ctx.numLatencySamplesToDrop = c.numLatencySamplesToDrop ∧
      res.ctx.peak = c.peak ∧ res.ctx.rmsTotal = c.rmsTotal ∧
      res.ctx.rmsNumSamps = c.rmsNumSamps ∧ res.ctx.numNonZeroSamps = c.numNonZeroSamps ∧
      res.progress = p := by
  refine ⟨_, renderNextBlock_cancel E c p inp w hw hexit, rfl, rfl, rfl, rfl, rfl, rfl, ?_⟩
  rw [tickSleepCounter_eq]
  exact ⟨rfl, rfl, rfl, rfl, rfl, rfl, rfl, rfl, rfl, rfl, rfl⟩

/-- Witness of C4: cancelling the 2 s example render at its first call. -/
theorem C4_witness :
    ∃ res, (NodeRenderContext.construct referenceExternals exampleParams exampleParams
        (exampleProps 256) stoppedPlayHead exampleSetup).renderNextBlock referenceExternals 0
          cancelInput = some res ∧ res.finished = true ∧ res.ctx.destFileDeleted = true ∧
      res.progress = 0 := by
  have hw := (construct_fields referenceExternals exampleParams exampleParams (exampleProps 256)
    stoppedPlayHead exampleSetup rfl (fun _ => rfl)).2.2.2.2.2.2.2.2.2.2.2.2.2.1
  obtain ⟨res, h1, h2, _, _, _, h6, _, _, _, _, _, _, _, _, _, _, _, h18⟩ :=
    C4_cancellation_on_entry referenceExternals
      (NodeRenderContext.construct referenceExternals exampleParams exampleParams
        (exampleProps 256) stoppedPlayHead exampleSetup) 0 cancelInput _ hw rfl
  exact ⟨res, h1, h2, h6, h18⟩

/-- Claim C5, as amended.  If the writer rejects a block appended during `renderNextBlock` (a
steady-state call with a non-empty sub-block, on a context that has started saving and whose
writer is open), the call returns true at once: the progress value, `precount` and the
stream time of the block are not advanced and nothing is appended.  The status is not
changed by the call: `getStatus` keeps the status the constructor set. -/
theorem C5_write_failure_stops_and_keeps_status (E : Externals) (c : NodeRenderContext) (p : ℚ)
    (inp : BlockInput) (w : AudioFileWriter) (hexit : inp.shouldExit = false)
    (hgo : (inp.leafNodesReady || inp.shouldExitWhileWaiting) = true)
    (hw : c.writer = some w) (hopen : w.isOpen = true)
    (hs : c.hasStartedSavingToFile = true) (hpre : c.precount ≤ 0)
    (h0 : 0 ≤ c.samplesToWrite) (hd : 0 ≤ c.numLatencySamplesToDrop)
    (hB : 0 < c.r.blockSizeForAudio) (hB2 : c.r.blockSizeForAudio < 2 ^ 31)
    (hpos : 0 < c.samplesTaken - c.samplesDropped) (hrej : inp.appendOk = false) :
    ∃ res, c.renderNextBlock E p inp = some res ∧ res.finished = true ∧ res.progress = p ∧
      res.ctx.streamTime = c.blockStart ∧ res.ctx.precount = c.precount ∧
      res.ctx.writer = some w ∧ res.ctx.getStatus = c.getStatus :=
  renderNextBlock_rejected E c p inp w hexit hgo hw hopen hs hpre h0 hd hB hB2 hpos hrej

/-- Witness of C5 (amended): the rejected first block of the short render. -/
theorem C5_witness :
    ∃ res, (smallWarmedUp false).ctx.renderNextBlock referenceExternals (smallWarmedUp false).progress
        rejectInput = some res ∧
      res.finished = true ∧ res.progress = (smallWarmedUp false).progress ∧
      res.ctx.precount = 0 ∧ res.ctx.getStatus = (smallWarmedUp false).ctx.getStatus := by
  obtain ⟨b1, b2, b3, b4, b5, b6, b7, _, _, _, w, hw, hopen, _⟩ := smallWarmedUp_books false
  obtain ⟨res, h1, h2, h3, _, h5, _, h7⟩ := C5_write_failure_stops_and_keeps_status
    referenceExternals (smallWarmedUp false).ctx (smallWarmedUp false).progress rejectInput w rfl rfl hw hopen
    b7 (by rw [b1]) (by rw [b2]; decide) (by rw [b3])
    (by rw [b4]; decide) (by rw [b4]; decide) (by rw [b5, b6]; decide) rfl
  exact ⟨res, h1, h2, h3, h5.trans b1, h7⟩

/-- Counterexample to C5 as stated: in the short render, after the warm-up block, the
writer rejects the first block; the call returns true, nothing has been appended, and
`getStatus` still reports ok and not a failure. -/
theorem C5_counterexample :
    rejectInput.appendOk = false ∧
    ∃ res w, (smallWarmedUp false).ctx.renderNextBlock referenceExternals (smallWarmedUp false).progress
        rejectInput = some res ∧
      res.finished = true ∧ res.ctx.writer = some w ∧ w.isOpen = true ∧
      w.samplesAppended = 0 ∧ res.ctx.getStatus = Result.ok ∧
      res.ctx.getStatus.failed = false := by
  obtain ⟨b1, b2, b3, b4, b5, b6, b7, _, b9, _, w, hw, hopen, hsum⟩ := smallWarmedUp_books false
  obtain ⟨res, h1, h2, _, _, _, h6, h7⟩ := renderNextBlock_rejected
    referenceExternals (smallWarmedUp false).ctx (smallWarmedUp false).progress rejectInput w rfl rfl hw hopen
    b7 (by rw [b1]) (by rw [b2]; decide) (by rw [b3])
    (by rw [b4]; decide) (by rw [b4]; decide) (by rw [b5, b6]; decide) rfl
  have hst : res.ctx.getStatus = Result.ok := h7.trans b9
  exact ⟨rfl, res, w, h1, h2, h6, hopen, hsum, hst, by rw [hst]; rfl⟩

/-- Claim C6, as amended.  After construction `getStatus` is the failure "Didn't find any audio to
render" if the root node does not declare audio, and in that case no writer is created;
otherwise it is the failure "Couldn't write to target file" if the file that is rendered to
is not the empty file and the writer could not be opened; in every other case it is ok, and
that includes the case of an empty destination whose writer is not open. -/
theorem C6_status_after_construction (E : Externals) (p ownerParams : Parameters)
    (props : NodeProperties) (playHead : PlayHead) (sys : SetupInput) :
    (NodeRenderContext.construct E p ownerParams props playHead sys).getStatus
      = (if props.hasAudio = false then Result.fail "Didn't find any audio to render"
         else if workingDestFile p sys ≠ "" ∧ sys.writerOpens = false
           then Result.fail "Couldn't write to target file"
         else Result.ok) ∧
    (props.hasAudio = false →
      (NodeRenderContext.construct E p ownerParams props playHead sys).writer = none) ∧
    ((NodeRenderContext.construct E p ownerParams props playHead sys).getStatus.failed = true ↔
      (props.hasAudio = false ∨ (workingDestFile p sys ≠ "" ∧ sys.writerOpens = false))) := by
  obtain ⟨h1, h2, _⟩ := construct_status E p ownerParams props playHead sys
  refine ⟨h1, ?_, ?_⟩
  · intro ha; rw [h2, if_pos ha]
  · rw [h1]
    by_cases ha : props.hasAudio = false
    · rw [if_pos ha]; exact ⟨fun _ => Or.inl ha, fun _ => rfl⟩
    · rw [if_neg ha]
      by_cases hd : workingDestFile p sys ≠ "" ∧ sys.writerOpens = false
      · rw [if_pos hd]; exact ⟨fun _ => Or.inr hd, fun _ => rfl⟩
      · rw [if_neg hd]
        constructor
        · intro h; exact absurd h (by decide)
        · intro h
          rcases h with h | h
          · exact absurd h ha
          · exact absurd h hd

/-- Counterexample to C6 as stated: with an empty destination file and a root that declares
audio, the writer could not be opened and yet the status after construction is ok. -/
theorem C6_counterexample :
    (exampleProps 0).hasAudio = true ∧ closedSetup.writerOpens = false ∧
    (NodeRenderContext.construct referenceExternals noDestParams noDestParams (exampleProps 0)
      stoppedPlayHead closedSetup).writer
        = some { isOpen := false, numChannels := 2, appended := [] } ∧
    (NodeRenderContext.construct referenceExternals noDestParams noDestParams (exampleProps 0)
      stoppedPlayHead closedSetup).getStatus = Result.ok := by
  obtain ⟨h1, h2, _⟩ := construct_status referenceExternals noDestParams noDestParams
    (exampleProps 0) stoppedPlayHead closedSetup
  refine ⟨rfl, rfl, ?_, ?_⟩
  · rw [h2]; rfl
  · rw [h1]; rfl

/-- Claim C7.  For every root node that declares audio, the output channel count is 1 exactly
when mono is forced (`mustRenderInMono`) or mono is allowed (`canRenderInMono`) and the root
declares fewer than 2 channels, and is 2 otherwise; so `numOutputChans` is 1 or 2, within the
32 channel pointers of `writeAudioBlock` and the 256 ditherers, and it has the same value at
every point of the block loop. -/
theorem C7_output_channel_count (E : Externals) (p ownerParams : Parameters)
    (props : NodeProperties) (playHead : PlayHead) (sys : SetupInput)
    (hAudio : props.hasAudio = true) :
    ((NodeRenderContext.construct E p ownerParams props playHead sys).numOutputChans = 1 ↔
      (p.mustRenderInMono = true ∨
        (p.canRenderInMono = true ∧ props.numberOfChannels < 2))) ∧
    ((NodeRenderContext.construct E p ownerParams props playHead sys).numOutputChans = 2 ↔
      ¬ (p.mustRenderInMono = true ∨
        (p.canRenderInMono = true ∧ props.numberOfChannels < 2))) ∧
    (∀ (inps : List BlockInput) (res : StepResult),
      renderBlocks E (NodeRenderContext.construct E p ownerParams props playHead sys).start inps
        = some res →
      (res.ctx.numOutputChans = 1 ∨ res.ctx.numOutputChans = 2) ∧
      res.ctx.numOutputChans ≤ 32 ∧ res.ctx.numOutputChans ≤ 256) := by
  obtain ⟨_, _, h3⟩ := construct_status E p ownerParams props playHead sys
  rw [if_neg (by rw [hAudio]; decide)] at h3
  have hmono : outputChannels p props
      = if p.mustRenderInMono = true ∨ (p.canRenderInMono = true ∧ props.numberOfChannels < 2)
        then 1 else 2 := by
    unfold outputChannels
    by_cases h : p.mustRenderInMono = true ∨
        (p.canRenderInMono = true ∧ props.numberOfChannels < 2)
    · rw [if_pos h, if_pos (by simpa using h)]
    · rw [if_neg h, if_neg (by simpa using h)]
  refine ⟨?_, ?_, ?_⟩
  · rw [h3, hmono]
    split_ifs with h
    · exact ⟨fun _ => h, fun _ => rfl⟩
    · exact ⟨fun h1 => absurd h1 (by decide), fun h1 => absurd h1 h⟩
  · rw [h3, hmono]
    split_ifs with h
    · exact ⟨fun h1 => absurd h1 (by decide), fun h1 => absurd h h1⟩
    · exact ⟨fun _ => h, fun _ => rfl⟩
  · intro inps res hres
    have hs := renderBlocks_sameSetup E inps _ res hres
    have heq : res.ctx.numOutputChans = outputChannels p props := hs.numOutputChans_eq.trans h3
    rw [heq]
    rcases outputChannels_cases p props with h | h
    · rw [h]; exact ⟨Or.inl rfl, by decide, by decide⟩
    · rw [h]; exact ⟨Or.inr rfl, by decide, by decide⟩

/-- Witness of C7: the stereo root of the 2 s example render, with mono neither forced nor
allowed, is rendered to 2 channels. -/
theorem C7_witness :
    (NodeRenderContext.construct referenceExternals exampleParams exampleParams
      (exampleProps 0) stoppedPlayHead exampleSetup).numOutputChans = 2 := by
  have h := (C7_output_channel_count referenceExternals exampleParams exampleParams
    (exampleProps 0) stoppedPlayHead exampleSetup rfl).2.1
  exact h.mpr (by simp [exampleParams])

/-- Claim C8, as amended.  Whether or not trimming of silence was requested in the render
parameters, the constructor clears `trimSilenceAtEnds` in its working parameters (the trim is
left to the post-pass), so saving has started from construction on: in every state the block
loop reaches, `hasStartedSavingToFile` is true and `samplesTrimmed` is 0, and every
non-empty block passed to the write path is appended to the open writer that accepts it. -/
theorem C8_every_block_is_appended (E : Externals) (p ownerParams : Parameters)
    (props : NodeProperties) (playHead : PlayHead) (sys : SetupInput) (inps : List BlockInput)
    (VP : ValidParams E p props)
    (hdest : workingDestFile p sys ≠ "" → sys.writerOpens = true)
    (hacc : ∀ inp ∈ inps, inp.accepted) :
    (NodeRenderContext.construct E p ownerParams props playHead sys).r.trimSilenceAtEnds
      = false ∧
    ∃ res, renderBlocks E
        (NodeRenderContext.construct E p ownerParams props playHead sys).start inps = some res ∧
      res.ctx.hasStartedSavingToFile = true ∧ res.ctx.samplesTrimmed = 0 ∧
      (∀ (block : AudioBlock) (w : AudioFileWriter), res.ctx.writer = some w →
        w.isOpen = true → 0 < sizeTToInt block.numSamples →
        ∃ c', res.ctx.writeAudioBlock E block true = some (WriteResult.succeeded, c') ∧
          c'.writer = some (w.appendBuffer (sizeTToInt block.numSamples)) ∧
          c'.samplesTrimmed = 0) := by
  have S := construct_loopStart E p ownerParams props playHead sys VP hdest
  have htrim : (NodeRenderContext.construct E p ownerParams props playHead sys).r.trimSilenceAtEnds
      = false := by
    rw [construct_ok E p ownerParams props playHead sys VP.hasAudio hdest,
      (setupBookkeeping_fields E _ sys).1]
    exact (withWriter_fields p ownerParams props playHead sys).2.2.2.2.2.1
  refine ⟨htrim, ?_⟩
  obtain ⟨res, e1, ⟨_, e2, e3, _⟩, _⟩ :=
    loopBlocks_spec E _ S inps
      (NodeRenderContext.construct E p ownerParams props playHead sys).start rfl
      (loopInv_start _ S)
  refine ⟨res, e1, e2, e3, ?_⟩
  intro block w hw hopen hpos
  obtain ⟨c', h1, h2, h3, _⟩ := writeAudioBlock_appends E res.ctx block w hw e2 hopen hpos
  exact ⟨c', h1, h2, h3.trans e3⟩

/-- Witness of C8 (amended): the short render with trimming requested, after two calls. -/
theorem C8_witness :
    ∃ res, renderBlocks referenceExternals (smallContext true).start
        [constantInput 750 (1 / 2), constantInput 750 0] = some res ∧
      res.ctx.hasStartedSavingToFile = true ∧ res.ctx.samplesTrimmed = 0 := by
  obtain ⟨_, res, h1, h2, h3, _⟩ := C8_every_block_is_appended referenceExternals
    (smallParams true) (smallParams true) (exampleProps 0) stoppedPlayHead exampleSetup
    [constantInput 750 (1 / 2), constantInput 750 0] (smallParams_valid true) (fun _ => rfl)
    (by
      intro inp hinp
      simp only [List.mem_cons, List.mem_singleton, List.not_mem_nil, or_false] at hinp
      rcases hinp with h | h <;> rw [h] <;> exact ⟨rfl, rfl⟩)
  exact ⟨res, h1, h2, h3⟩

/-- Counterexample to C8 as stated: trimming of silence is requested in the parameters of the
short render and the first block that reaches the write path holds only zeros; that block is
nevertheless appended (the writer holds its 750 samples) and `samplesTrimmed` stays 0. -/
theorem C8_counterexample :
    (smallParams true).trimSilenceAtEnds = true ∧
    (constantInput 750 0).rendered = [List.replicate 750 0, List.replicate 750 0] ∧
    (smallWarmedUp true).ctx.renderNextBlock referenceExternals (smallWarmedUp true).progress
        (constantInput 750 0) = some (smallSteady true 0) ∧
    (∃ w0, (smallWarmedUp true).ctx.writer = some w0 ∧ w0.samplesAppended = 0) ∧
    ∃ w, (smallSteady true 0).ctx.writer = some w ∧ w.samplesAppended = 750 ∧
      (smallSteady true 0).ctx.samplesTrimmed = 0 := by
  obtain ⟨h1, _, _, _, h5, _, w, hw, _, hsum⟩ := smallSteady_spec true 0
  obtain ⟨_, _, _, _, _, _, _, _, _, _, w0, hw0, _, hsum0⟩ := smallWarmedUp_books true
  exact ⟨rfl, rfl, h1, ⟨w0, hw0, hsum0⟩, w, hw, hsum, h5⟩

/-- Claim C9, as amended.  After every `renderNextBlock` call that processes a block and returns
false (on a context with a writer, nothing cancelled, the append accepted), the stored progress
is the block's start stream time minus the render start, divided by the larger of 1 and the
length of the working render range, multiplied by 0.9 when a normalise/trim post-pass will
follow, and only then limited to [0, 1]. -/
theorem C9_progress_value (E : Externals) (c : NodeRenderContext) (p : ℚ)
    (inp : BlockInput) (w : AudioFileWriter) (hw : c.writer = some w)
    (hexit : inp.shouldExit = false)
    (hgo : (inp.leafNodesReady || inp.shouldExitWhileWaiting) = true)
    (hok : inp.appendOk = true) :
    ∃ res, c.renderNextBlock E p inp = some res ∧
      (res.finished = false →
        res.progress
          = jlimit 0 1 (if c.needsToNormaliseAndTrim = true
              then (c.blockStart - c.r.time.getStart) / max 1 c.r.time.getLength * (9 / 10)
              else (c.blockStart - c.r.time.getStart) / max 1 c.r.time.getLength)) := by
  obtain ⟨c', h1, h2, h3, _⟩ := renderNextBlock_accepted E c p inp w hw hexit hgo hok
  refine ⟨_, h1, fun hf => ?_⟩
  obtain ⟨_, _, f3, _⟩ := finishBlock_spec c' c.blockEnd p inp.magnitudeAtEnd
  rw [(f3 hf).2.2.2, h3, h2.r_eq, h2.needs_eq]

/-- Witness of C9 (amended): the third call of the short render stores the progress 3/4. -/
theorem C9_witness :
    ∃ res, (smallSteady false (1 / 2)).ctx.renderNextBlock referenceExternals
        (smallSteady false (1 / 2)).progress (constantInput 750 (1 / 2)) = some res ∧
      res.finished = false ∧ res.progress = 3 / 4 := by
  obtain ⟨_, _, _, _, _, _, w, hw, _⟩ := smallSteady_spec false (1 / 2)
  obtain ⟨res, h1, h2⟩ := C9_progress_value referenceExternals (smallSteady false (1 / 2)).ctx
    (smallSteady false (1 / 2)).progress (constantInput 750 (1 / 2)) w hw rfl rfl rfl
  obtain ⟨res', g1, g2, g3, g4, _⟩ := smallThird_spec
  have hres : res' = res := by rw [h1] at g1; exact (Option.some.inj g1).symm
  subst hres
  exact ⟨res', h1, g2, g3.trans g4⟩

/-- Counterexample to C9 as stated: the third call of the short render (7/8 s long) processes
the block that starts at 3/4 s and returns false; the stored progress is 3/4, because the code
divides by `max (1, length)`, whereas elapsed over total, (3/4) / (7/8), is 6/7. -/
theorem C9_counterexample :
    ∃ res, (smallSteady false (1 / 2)).ctx.renderNextBlock referenceExternals
        (smallSteady false (1 / 2)).progress (constantInput 750 (1 / 2)) = some res ∧
      res.finished = false ∧ res.progress = 3 / 4 ∧
      progressBySpec (smallSteady false (1 / 2)).ctx = 6 / 7 ∧
      res.progress ≠ progressBySpec (smallSteady false (1 / 2)).ctx := by
  obtain ⟨res, g1, g2, g3, g4, g5⟩ := smallThird_spec
  refine ⟨res, g1, g2, g3.trans g4, g5, ?_⟩
  rw [g3, g4, g5]
  norm_num

/-- Claim C10.  In every state the block loop reaches from a constructed context, `rmsNumSamps`
equals `numOutputChans` times the number of blocks passed to `writeAudioBlock` and `rmsTotal`
is the sum of the per-channel RMS levels of those blocks; at teardown the reported RMS is 0
when no block reached the write path and `rmsTotal / rmsNumSamps` otherwise, and in that case
`rmsNumSamps` is positive, so the division is never by zero. -/
theorem C10_reported_rms (E : Externals) (p ownerParams : Parameters)
    (props : NodeProperties) (playHead : PlayHead) (sys : SetupInput) (inps : List BlockInput)
    (res : StepResult)
    (hrun : renderBlocks E
      (NodeRenderContext.construct E p ownerParams props playHead sys).start inps = some res) :
    res.ctx.rmsNumSamps = res.ctx.numOutputChans * (res.ctx.analysedBlocks.length : Int) ∧
    res.ctx.rmsTotal
      = (res.ctx.analysedBlocks.map (fun b => rmsLevelSum E b (b.numSamples : Int))).sum ∧
    res.ctx.destroy.r.resultRMS
      = (if res.ctx.analysedBlocks = [] then 0
         else res.ctx.rmsTotal / (res.ctx.rmsNumSamps : ℚ)) ∧
    res.ctx.destroy.ownerParams.resultRMS = res.ctx.destroy.r.resultRMS ∧
    (res.ctx.analysedBlocks ≠ [] → 0 < res.ctx.rmsNumSamps) := by
  have hb := rmsBooked_renderBlocks E inps _ res hrun
    (rmsBooked_construct E p ownerParams props playHead sys)
  have hs := renderBlocks_sameSetup E inps _ res hrun
  obtain ⟨_, _, h3⟩ := construct_status E p ownerParams props playHead sys
  have hchan : res.ctx.numOutputChans = 1 ∨ res.ctx.numOutputChans = 2 := by
    have heq : res.ctx.numOutputChans
        = (NodeRenderContext.construct E p ownerParams props playHead sys).numOutputChans :=
      hs.numOutputChans_eq
    rw [heq, h3]
    split_ifs
    · exact Or.inr rfl
    · exact outputChannels_cases p props
  have htoNat : (res.ctx.numOutputChans.toNat : Int) = res.ctx.numOutputChans := by
    rcases hchan with h | h <;> rw [h] <;> rfl
  have hcount : res.ctx.rmsNumSamps
      = res.ctx.numOutputChans * (res.ctx.analysedBlocks.length : Int) := by
    rw [hb.count_eq, htoNat]
  have hpos : res.ctx.analysedBlocks ≠ [] → 0 < res.ctx.rmsNumSamps := by
    intro hne
    have hlen : 0 < (res.ctx.analysedBlocks.length : Int) := by
      have := List.length_pos.mpr hne
      exact_mod_cast this
    rw [hcount]
    rcases hchan with h | h <;> rw [h] <;> omega
  obtain ⟨d1, d2⟩ := destroy_resultRMS res.ctx
  refine ⟨hcount, hb.total_eq, ?_, d2.trans d1.symm, hpos⟩
  rw [d1]
  unfold NodeRenderContext.reportedRMS
  by_cases hne : res.ctx.analysedBlocks = []
  · rw [if_pos hne]
    have hz : res.ctx.rmsNumSamps = 0 := by rw [hcount, hne]; simp
    rw [if_neg (by rw [hz]; decide)]
  · rw [if_neg hne, if_pos (hpos hne)]

/-- Witness of C10: the short render after its warm-up block and its first steady-state
block. -/
theorem C10_witness :
    (smallSteady false (1 / 2)).ctx.rmsNumSamps
      = (smallSteady false (1 / 2)).ctx.numOutputChans
        * ((smallSteady false (1 / 2)).ctx.analysedBlocks.length : Int) ∧
    (smallSteady false (1 / 2)).ctx.destroy.r.resultRMS
      = (if (smallSteady false (1 / 2)).ctx.analysedBlocks = [] then 0
         else (smallSteady false (1 / 2)).ctx.rmsTotal
           / ((smallSteady false (1 / 2)).ctx.rmsNumSamps : ℚ)) := by
  obtain ⟨h1, h2, _⟩ := smallWarmedUp_spec false
  obtain ⟨g1, _⟩ := smallSteady_spec false (1 / 2)
  have hrun : renderBlocks referenceExternals
      (NodeRenderContext.construct referenceExternals (smallParams false) (smallParams false)
        (exampleProps 0) stoppedPlayHead exampleSetup).start
      [constantInput 750 (1 / 2), constantInput 750 (1 / 2)]
        = some (smallSteady false (1 / 2)) := by
    show renderBlocks referenceExternals (smallContext false).start
      [constantInput 750 (1 / 2), constantInput 750 (1 / 2)] = some (smallSteady false (1 / 2))
    rw [renderBlocks_cons referenceExternals _ (smallWarmedUp false) _ _ rfl h1,
      renderBlocks_cons referenceExternals _ (smallSteady false (1 / 2)) _ _ h2 g1]
    rfl
  obtain ⟨r1, _, r3, _⟩ := C10_reported_rms referenceExternals (smallParams false)
    (smallParams false) (exampleProps 0) stoppedPlayHead exampleSetup _ _ hrun
  exact ⟨r1, r3⟩

/-- C11: with a positive block size and sample rate and a wait for the leaf nodes that ends,
`renderMidi` returns, with the same result however many rounds are allowed beyond those it
needs.  It returns the empty string exactly when no cancellation was seen, at least one MIDI
message was harvested and the write of the sequence succeeded; it returns "Render cancelled"
when the cancellation is seen in the wait or at the top of a block, "No MIDI found to render"
when the loop ends without a message, "Unable to write to destination file" when the write
fails; and the write is attempted exactly when no cancellation was seen and a message was
harvested. -/
theorem C11_renderMidi_messages (E : Externals) (T : TempoSequence) (r : Parameters)
    (playHead : PlayHead) (progress : ℚ) (inp : MidiRenderInput)
    (hrate : 0 < r.sampleRateForAudio) (hsize : 0 < r.blockSizeForAudio)
    (hwait : ∃ n, inp.leafNodesReady n = true ∨ inp.shouldExitWhileWaiting n = true) :
    ∃ fuel res, renderMidi E T r playHead progress inp fuel = some res ∧
      (∀ fuel' res', renderMidi E T r playHead progress inp fuel' = some res' → res' = res) ∧
      (res.message = "" ↔ ¬ inp.cancelObserved r ∧ inp.harvested r ≠ [] ∧
        inp.writeToFile r.destFile res.outputSequence = true) ∧
      (inp.cancelObserved r → res.message = "Render cancelled") ∧
      (¬ inp.cancelObserved r → inp.harvested r = [] →
        res.message = "No MIDI found to render") ∧
      (¬ inp.cancelObserved r → inp.harvested r ≠ [] →
        inp.writeToFile r.destFile res.outputSequence = false →
        res.message = "Unable to write to destination file") ∧
      (res.written ≠ none ↔ ¬ inp.cancelObserved r ∧ inp.harvested r ≠ []) := by
  obtain ⟨fuel, res, hres, hcases⟩ :=
    renderMidi_cases E T r playHead progress inp hrate hsize hwait
  refine ⟨fuel, res, hres, ?_, ?_⟩
  · intro fuel' res' h'
    have h1 := renderMidi_le E T r playHead progress inp fuel (max fuel fuel') res
      (le_max_left _ _) hres
    have h2 := renderMidi_le E T r playHead progress inp fuel' (max fuel fuel') res'
      (le_max_right _ _) h'
    rw [h1] at h2
    exact (Option.some.inj h2).symm
  · rcases hcases with ⟨hc, hm, hw⟩ | ⟨hc, hh, hm, hw⟩ | ⟨hc, hh, hw, hf, hm⟩ | ⟨hc, hh, hw, hf, hm⟩
    · refine ⟨?_, fun _ => hm, fun h => absurd hc h, fun h => absurd hc h, ?_⟩
      · rw [hm]
        exact ⟨fun h => absurd h (by decide), fun h => absurd hc h.1⟩
      · rw [hw]
        exact ⟨fun h => absurd rfl h, fun h => absurd hc h.1⟩
    · refine ⟨?_, fun h => absurd h hc, fun _ _ => hm, fun _ h => absurd hh h, ?_⟩
      · rw [hm]
        exact ⟨fun h => absurd h (by decide), fun h => absurd hh h.2.1⟩
      · rw [hw]
        exact ⟨fun h => absurd rfl h, fun h => absurd hh h.2⟩
    · refine ⟨?_, fun h => absurd h hc, fun _ h => absurd h hh, fun _ _ _ => hm, ?_⟩
      · rw [hm, hf]
        exact ⟨fun h => absurd h (by decide), fun h => absurd h.2.2 (by decide)⟩
      · rw [hw]
        exact ⟨fun _ => ⟨hc, hh⟩, fun _ => by simp⟩
    · refine ⟨?_, fun h => absurd h hc, fun _ h => absurd h hh, ?_, ?_⟩
      · rw [hm]
        exact ⟨fun _ => ⟨hc, hh, hf⟩, fun _ => rfl⟩
      · intro _ _ h
        rw [hf] at h
        cases h
      · rw [hw]
        exact ⟨fun _ => ⟨hc, hh⟩, fun _ => by simp⟩

/-- C11 at a render of 7/8 s in blocks of 3/4 s whose leaf nodes are ready at the second
evaluation. -/
theorem C11_witness :
    (0 < (smallParams false).sampleRateForAudio ∧ 0 < (smallParams false).blockSizeForAudio ∧
      ∃ n, exampleMidiInput.leafNodesReady n = true
        ∨ exampleMidiInput.shouldExitWhileWaiting n = true) ∧
    ∃ fuel res, renderMidi referenceExternals exampleTempo (smallParams false) stoppedPlayHead 0
        exampleMidiInput fuel = some res ∧
      (∀ fuel' res', renderMidi referenceExternals exampleTempo (smallParams false)
        stoppedPlayHead 0 exampleMidiInput fuel' = some res' → res' = res) ∧
      (res.message = "" ↔ ¬ exampleMidiInput.cancelObserved (smallParams false) ∧
        exampleMidiInput.harvested (smallParams false) ≠ [] ∧
        exampleMidiInput.writeToFile (smallParams false).destFile res.outputSequence = true) ∧
      (exampleMidiInput.cancelObserved (smallParams false) → res.message = "Render cancelled") ∧
      (¬ exampleMidiInput.cancelObserved (smallParams false) →
        exampleMidiInput.harvested (smallParams false) = [] →
        res.message = "No MIDI found to render") ∧
      (¬ exampleMidiInput.cancelObserved (smallParams false) →
        exampleMidiInput.harvested (smallParams false) ≠ [] →
        exampleMidiInput.writeToFile (smallParams false).destFile res.outputSequence = false →
        res.message = "Unable to write to destination file") ∧
      (res.written ≠ none ↔ ¬ exampleMidiInput.cancelObserved (smallParams false) ∧
        exampleMidiInput.harvested (smallParams false) ≠ []) :=
  have hrate : 0 < (smallParams false).sampleRateForAudio := by norm_num [smallParams]
  have hsize : 0 < (smallParams false).blockSizeForAudio := by norm_num [smallParams]
  have hwait : ∃ n, exampleMidiInput.leafNodesReady n = true
      ∨ exampleMidiInput.shouldExitWhileWaiting n = true := ⟨1, Or.inl (by decide)⟩
  ⟨⟨hrate, hsize, hwait⟩,
    C11_renderMidi_messages referenceExternals exampleTempo (smallParams false) stoppedPlayHead 0
      exampleMidiInput hrate hsize hwait⟩

/-- C12: for every list of input nodes, the channel count that
`BasicSummingNode::getNodeProperties` declares is the maximum of the channel counts that the
inputs declare and 0 for the empty list: it bounds every count of an input, it is 0 or the count
of some input, and for a non-empty list of counts that are not negative it is the count of some
input.  The flags `hasAudio` and `hasMidi` are the disjunctions of the flags of the inputs, and
inputs of 1, 2 and 0 channels give 2. -/
theorem C12_summing_declares_max_channels (nodes : List NodeProperties) :
    (nodes = [] → (BasicSummingNode.getNodeProperties nodes).numberOfChannels = 0) ∧
    (∀ n ∈ nodes,
      n.numberOfChannels ≤ (BasicSummingNode.getNodeProperties nodes).numberOfChannels) ∧
    ((BasicSummingNode.getNodeProperties nodes).numberOfChannels = 0
      ∨ ∃ n ∈ nodes,
          n.numberOfChannels = (BasicSummingNode.getNodeProperties nodes).numberOfChannels) ∧
    (nodes ≠ [] → (∀ n ∈ nodes, 0 ≤ n.numberOfChannels) →
      ∃ n ∈ nodes,
        n.numberOfChannels = (BasicSummingNode.getNodeProperties nodes).numberOfChannels) ∧
    ((BasicSummingNode.getNodeProperties nodes).hasAudio = true
      ↔ ∃ n ∈ nodes, n.hasAudio = true) ∧
    ((BasicSummingNode.getNodeProperties nodes).hasMidi = true
      ↔ ∃ n ∈ nodes, n.hasMidi = true) ∧
    (∀ a b c : NodeProperties, a.numberOfChannels = 1 → b.numberOfChannels = 2 →
      c.numberOfChannels = 0 →
      (BasicSummingNode.getNodeProperties [a, b, c]).numberOfChannels = 2) := by
  obtain ⟨h1, h2, h3, h4, h5, _⟩ := summingFold_spec nodes
    { hasAudio := false, hasMidi := false, numberOfChannels := 0, latencyNumSamples := 0 }
  change 0 ≤ (BasicSummingNode.getNodeProperties nodes).numberOfChannels at h1
  change ∀ n ∈ nodes,
    n.numberOfChannels ≤ (BasicSummingNode.getNodeProperties nodes).numberOfChannels at h2
  change (BasicSummingNode.getNodeProperties nodes).numberOfChannels = 0 ∨ ∃ n ∈ nodes,
    n.numberOfChannels = (BasicSummingNode.getNodeProperties nodes).numberOfChannels at h3
  change (BasicSummingNode.getNodeProperties nodes).hasAudio = true
    ↔ false = true ∨ ∃ n ∈ nodes, n.hasAudio = true at h4
  change (BasicSummingNode.getNodeProperties nodes).hasMidi = true
    ↔ false = true ∨ ∃ n ∈ nodes, n.hasMidi = true at h5
  refine ⟨?_, h2, h3, ?_, ?_, ?_, ?_⟩
  · rintro rfl; rfl
  · intro hne hpos
    rcases h3 with h0 | h
    · obtain ⟨x, hx⟩ := List.exists_mem_of_ne_nil nodes hne
      exact ⟨x, hx, le_antisymm (h2 x hx) (h0 ▸ hpos x hx)⟩
    · exact h
  · rw [h4]; simp
  · rw [h5]; simp
  · intro a b c ha hb hc
    simp [BasicSummingNode.getNodeProperties, ha, hb, hc]

/-- C12 at a mono, a stereo and a MIDI input. -/
theorem C12_witness :
    ([exampleProps 0, { exampleProps 0 with numberOfChannels := 1 },
        { hasAudio := false, hasMidi := true, numberOfChannels := 0, latencyNumSamples := 0 }]
      ≠ ([] : List NodeProperties)) ∧
    (BasicSummingNode.getNodeProperties
      [exampleProps 0, { exampleProps 0 with numberOfChannels := 1 },
        { hasAudio := false, hasMidi := true, numberOfChannels := 0, latencyNumSamples := 0 }])
      = { hasAudio := true, hasMidi := true, numberOfChannels := 2, latencyNumSamples := 0 } ∧
    ∃ n ∈ [exampleProps 0, { exampleProps 0 with numberOfChannels := 1 },
        { hasAudio := false, hasMidi := true, numberOfChannels := 0, latencyNumSamples := 0 }],
      n.numberOfChannels = (BasicSummingNode.getNodeProperties
        [exampleProps 0, { exampleProps 0 with numberOfChannels := 1 },
          { hasAudio := false, hasMidi := true, numberOfChannels := 0,
            latencyNumSamples := 0 }]).numberOfChannels :=
  ⟨by decide, by decide,
    (C12_summing_declares_max_channels
      [exampleProps 0, { exampleProps 0 with numberOfChannels := 1 },
        { hasAudio := false, hasMidi := true, numberOfChannels := 0,
          latencyNumSamples := 0 }]).2.2.2.1 (by decide) (by decide)⟩

/-- C13: for every destination buffer that holds its samples and every list of inputs,
`BasicSummingNode::process` asks for no channel outside a block (it returns), keeps the channel
count and the sample count of the destination, and leaves channel `j` of the destination
holding its prior contents plus the sample-wise sum of channel `j` of every input that has more
than `j` channels (an input reaching as far as the sample): an input of no channels and the
channels of an input beyond those of the destination add nothing, and a channel that no input
covers is left as it was, silent when it was cleared. -/
theorem C13_summing_process_adds_inputs (nodes : List AudioAndMidiBuffer)
    (pc : AudioAndMidiBuffer) (halloc : pc.audio.Allocated) :
    ∃ out, BasicSummingNode.process nodes pc = some out ∧
      out.audio.numSamples = pc.audio.numSamples ∧
      out.audio.channels.length = pc.audio.channels.length ∧
      (∀ j t, j < pc.audio.channels.length → t < pc.audio.numSamples →
        out.audio.getSample j t = pc.audio.getSample j t +
          ((nodes.filter (fun inp =>
              decide (j < inp.audio.channels.length ∧ t < inp.audio.numSamples))).map
            (fun inp => inp.audio.getSample j t)).sum) ∧
      (∀ j, (∀ inp ∈ nodes, inp.audio.channels.length ≤ j) →
        out.audio.getChannelPointer j = pc.audio.getChannelPointer j) ∧
      (∀ j t, (∀ inp ∈ nodes, inp.audio.channels.length ≤ j) →
        pc.audio.getSample j t = 0 → out.audio.getSample j t = 0) := by
  obtain ⟨out, hout, o1, o2, _, o4, o5⟩ := summingLoop_spec nodes pc halloc
  refine ⟨out, hout, o1, o2, ?_, o4, ?_⟩
  · intro j t hj ht
    rw [o5 j t hj ht, sum_filter_map]
    simp only [decide_eq_true_eq]
  · intro j t hcov hz
    unfold AudioBlock.getSample at hz ⊢
    rw [o4 j hcov]
    exact hz

/-- C13 at a cleared stereo destination of two samples and inputs of one, two and no
channels. -/
theorem C13_witness :
    (constantBlock 2 2 0).Allocated ∧
    (BasicSummingNode.process
        [⟨constantBlock 1 2 1, []⟩, ⟨constantBlock 2 2 3, []⟩, ⟨constantBlock 0 2 0, []⟩]
        ⟨constantBlock 2 2 0, []⟩).map (fun b => b.audio.channels)
      = some [[4, 4], [3, 3]] ∧
    ∃ out, BasicSummingNode.process
        [⟨constantBlock 1 2 1, []⟩, ⟨constantBlock 2 2 3, []⟩, ⟨constantBlock 0 2 0, []⟩]
        ⟨constantBlock 2 2 0, []⟩ = some out ∧
      out.audio.getSample 1 0 = (constantBlock 2 2 0).getSample 1 0 +
        (([(⟨constantBlock 1 2 1, []⟩ : AudioAndMidiBuffer), ⟨constantBlock 2 2 3, []⟩,
            ⟨constantBlock 0 2 0, []⟩].filter (fun inp =>
              decide (1 < inp.audio.channels.length ∧ 0 < inp.audio.numSamples))).map
          (fun inp => inp.audio.getSample 1 0)).sum :=
  have halloc : (constantBlock 2 2 0).Allocated := by
    intro c hc
    simp only [constantBlock, List.mem_replicate] at hc
    rw [hc.2]
    simp [constantBlock]
  ⟨halloc,
    by
      simp [BasicSummingNode.process, BasicSummingNode.addInput, constantBlock,
        AudioBlock.getSubsetChannelBlock, ChannelSubset.add, List.mapIdx_cons,
        FloatVectorOperations.add, AudioBlock.getChannelPointer]
      norm_num,
    (C13_summing_process_adds_inputs
      [⟨constantBlock 1 2 1, []⟩, ⟨constantBlock 2 2 3, []⟩, ⟨constantBlock 0 2 0, []⟩]
      ⟨constantBlock 2 2 0, []⟩ halloc).imp
      (fun _ h => ⟨h.1, h.2.2.2.1 1 0 (by simp [constantBlock]) (by simp [constantBlock])⟩)⟩

/-- C14: in every graph without a cycle in which no `SendNode` carries the bus ID of a
`ReturnNode` that has not been initialised, `ReturnNode::prepareToPlay` returns, adds no node,
changes no node but the flag of the return, and leaves the direct inputs of every node as they
were, those of the return being its one original input; `process` of the return then gives a
destination of the shape of the processed output of that input the same channels. -/
theorem C14_return_without_sends_passes_input (g : NodeGraph) (rootNode this input : Nat)
    (busID : Int) (hacyc : g.Acyclic)
    (hret : g[this]? = some (Node.returnNode input busID false))
    (hnone : ∀ s, g.isSendOfBus busID s = false) :
    ∃ g', ReturnNode.prepareToPlay g rootNode this (g.length + 1) = some g' ∧
      g'.length = g.length ∧
      g'[this]? = some (Node.returnNode input busID true) ∧
      (∀ a, a ≠ this → g'[a]? = g[a]?) ∧
      (∀ a, g'.getDirectInputNodes a = g.getDirectInputNodes a) ∧
      g'.getDirectInputNodes this = [input] ∧
      ∀ (processedOutput : Nat → AudioAndMidiBuffer) (pc : AudioAndMidiBuffer),
        pc.audio.channels.length = (processedOutput input).audio.channels.length →
        pc.audio.numSamples = (processedOutput input).audio.numSamples →
        (∀ c ∈ pc.audio.channels, c.length = pc.audio.numSamples) →
        (∀ c ∈ (processedOutput input).audio.channels,
          c.length = (processedOutput input).audio.numSamples) →
        ∃ out, ReturnNode.processAt g' processedOutput this pc = some out ∧
          out.audio.channels = (processedOutput input).audio.channels := by
  obtain ⟨visited, _, hprep⟩ := prepareToPlay_total g rootNode this input busID hacyc hret
  have hfilter : visited.filter (g.isSendOfBus busID) = [] :=
    List.filter_eq_nil_iff.mpr (fun s _ => by rw [hnone s]; simp)
  rw [hfilter] at hprep
  simp only [List.length_nil, gt_iff_lt, lt_self_iff_false, if_false] at hprep
  obtain ⟨m1, m2, m3⟩ := marked_getElem g this input busID false hret
  refine ⟨_, hprep, m1, m2, m3, inputs_of_marked g this input busID false hret, ?_, ?_⟩
  · rw [inputs_of_marked g this input busID false hret]
    unfold NodeGraph.getDirectInputNodes
    rw [hret]
    rfl
  · intro processedOutput pc hch hns hd hs
    unfold ReturnNode.processAt
    rw [m2]
    exact ⟨_, rfl, copyFrom_same_shape pc.audio (processedOutput input).audio hch hns hd hs⟩

/-- C14 at the return of bus 1 of `plainGraph`, whose only send is of bus 2, and a processed
output of its input of two channels of two samples. -/
theorem C14_witness :
    (plainGraph.Acyclic ∧ plainGraph[1]? = some (Node.returnNode 0 1 false) ∧
      ∀ s, plainGraph.isSendOfBus 1 s = false) ∧
    ∃ g', ReturnNode.prepareToPlay plainGraph 4 1 (plainGraph.length + 1) = some g' ∧
      g'.getDirectInputNodes 1 = [0] ∧
      ∃ out, ReturnNode.processAt g' (fun _ => ⟨constantBlock 2 2 (1 / 2), []⟩) 1
          ⟨constantBlock 2 2 0, []⟩ = some out ∧
        out.audio.channels = (constantBlock 2 2 (1 / 2)).channels :=
  have hnone : ∀ s, plainGraph.isSendOfBus 1 s = false :=
    isSendOfBus_false plainGraph 1 (by decide)
  have hshape : ∀ v : ℚ, ∀ c ∈ (constantBlock 2 2 v).channels,
      c.length = (constantBlock 2 2 v).numSamples := by
    intro v c hc
    simp only [constantBlock, List.mem_replicate] at hc
    rw [hc.2]
    simp [constantBlock]
  ⟨⟨plainGraph_ordered.1, rfl, hnone⟩,
    (C14_return_without_sends_passes_input plainGraph 4 1 0 1 plainGraph_ordered.1 rfl
      hnone).imp
      (fun _ h => ⟨h.1, h.2.2.2.2.2.1,
        h.2.2.2.2.2.2 (fun _ => ⟨constantBlock 2 2 (1 / 2), []⟩) ⟨constantBlock 2 2 0, []⟩
          rfl rfl (hshape 0) (hshape (1 / 2))⟩)⟩

/-- C15: in every graph without a cycle, `ReturnNode::prepareToPlay` on a `ReturnNode` returns,
and every further call of it on that return, with any root, gives back the graph that the first
call left: the input reference of the return stays, and no further summing node is added.  The
same holds for whatever the first call returns within any bound of the search. -/
theorem C15_prepare_is_idempotent (g : NodeGraph) (rootNode this input : Nat) (busID : Int)
    (hasInitialised : Bool) (hacyc : g.Acyclic)
    (hret : g[this]? = some (Node.returnNode input busID hasInitialised)) :
    (∃ g', ReturnNode.prepareToPlay g rootNode this (g.length + 1) = some g') ∧
    ∀ fuel g', ReturnNode.prepareToPlay g rootNode this fuel = some g' →
      (∃ input', g'[this]? = some (Node.returnNode input' busID true)) ∧
      ∀ rootNode' fuel', ReturnNode.prepareToPlay g' rootNode' this fuel' = some g' := by
  have hsecond : ∀ (g' : NodeGraph) (input' : Nat),
      g'[this]? = some (Node.returnNode input' busID true) →
      (∃ input', g'[this]? = some (Node.returnNode input' busID true)) ∧
      ∀ rootNode' fuel', ReturnNode.prepareToPlay g' rootNode' this fuel' = some g' :=
    fun g' input' h =>
      ⟨⟨input', h⟩, fun rootNode' fuel' => prepareToPlay_initialised g' rootNode' this fuel' _ _ h⟩
  cases hasInitialised with
  | true =>
    refine ⟨⟨g, prepareToPlay_initialised g _ _ _ _ _ hret⟩, ?_⟩
    intro fuel g' h
    rw [prepareToPlay_initialised g _ _ _ _ _ hret] at h
    rw [← Option.some.inj h]
    exact hsecond g input hret
  | false =>
    constructor
    · obtain ⟨visited, _, hprep⟩ := prepareToPlay_total g rootNode this input busID hacyc hret
      exact ⟨_, hprep⟩
    · intro fuel g' h
      cases hv : visitInputs g fuel rootNode with
      | none =>
        unfold ReturnNode.prepareToPlay at h
        rw [hret] at h
        dsimp only at h
        rw [hv] at h
        simp at h
      | some visited =>
        rw [prepareToPlay_first g _ _ _ _ _ _ hret hv] at h
        rw [← Option.some.inj h]
        split_ifs
        · exact hsecond _ _ (inserted_getElem g this input busID _ hret).2.1
        · exact hsecond _ _ (marked_getElem g this input busID false hret).2.1

/-- C15 at the return of `busGraph`, whose first preparation adds a summing node. -/
theorem C15_witness :
    (busGraph.Acyclic ∧ busGraph[1]? = some (Node.returnNode 0 1 false)) ∧
    ReturnNode.prepareToPlay busGraph 5 1 7
      = some [Node.leafNode, Node.returnNode 6 1 true, Node.leafNode, Node.sendNode 2 1,
          Node.sendNode 3 2, Node.basicSummingNode [1, 4], Node.summingNode [0] [3]] ∧
    ∀ rootNode' fuel',
      ReturnNode.prepareToPlay
        [Node.leafNode, Node.returnNode 6 1 true, Node.leafNode, Node.sendNode 2 1,
          Node.sendNode 3 2, Node.basicSummingNode [1, 4], Node.summingNode [0] [3]]
        rootNode' 1 fuel'
      = some [Node.leafNode, Node.returnNode 6 1 true, Node.leafNode, Node.sendNode 2 1,
          Node.sendNode 3 2, Node.basicSummingNode [1, 4], Node.summingNode [0] [3]] :=
  ⟨⟨busGraph_ordered.1, rfl⟩, by decide,
    ((C15_prepare_is_idempotent busGraph 5 1 0 1 false busGraph_ordered.1 rfl).2 7 _
      (by decide)).2⟩

/-- C16: in every graph without a cycle in which the root reaches at least one `SendNode` of
the bus ID of a `ReturnNode` that has not been initialised, the first
`ReturnNode::prepareToPlay` returns and leaves the return with one direct input, a summing node
at an address that held no node before, whose inputs are the original input of the return
followed by sends: exactly the nodes reached from the root that are a `SendNode` of the bus ID
of the return.  The other nodes are as before. -/
theorem C16_return_sums_matching_sends (g : NodeGraph) (rootNode this input : Nat)
    (busID : Int) (hacyc : g.Acyclic)
    (hret : g[this]? = some (Node.returnNode input busID false))
    (hsend : ∃ s, g.Reaches rootNode s ∧ g.isSendOfBus busID s = true) :
    ∃ g' sends, ReturnNode.prepareToPlay g rootNode this (g.length + 1) = some g' ∧
      g'.length = g.length + 1 ∧
      g[g.length]? = none ∧
      g'[this]? = some (Node.returnNode g.length busID true) ∧
      g'.getDirectInputNodes this = [g.length] ∧
      g'[g.length]? = some (Node.summingNode [input] sends) ∧
      g'.getDirectInputNodes g.length = input :: sends ∧
      (∀ s, s ∈ sends ↔
        g.Reaches rootNode s ∧ ∃ i, g[s]? = some (Node.sendNode i busID)) ∧
      (∀ a, a ≠ this → a < g.length → g'[a]? = g[a]?) := by
  obtain ⟨visited, hvis, hprep⟩ := prepareToPlay_total g rootNode this input busID hacyc hret
  obtain ⟨s, hs1, hs2⟩ := hsend
  have hmem : s ∈ visited.filter (g.isSendOfBus busID) :=
    List.mem_filter.mpr ⟨(hvis s).mpr hs1, hs2⟩
  have hpos : (visited.filter (g.isSendOfBus busID)).length > 0 :=
    List.length_pos_of_mem hmem
  rw [if_pos hpos] at hprep
  obtain ⟨i1, i2, i3, i4⟩ := inserted_getElem g this input busID
    (visited.filter (g.isSendOfBus busID)) hret
  have hthis := getElem?_lt g _ _ hret
  refine ⟨_, visited.filter (g.isSendOfBus busID), hprep, i1,
    List.getElem?_eq_none (le_refl _), i2, ?_, i3, ?_, ?_, i4⟩
  · rw [inputs_of_inserted g this input busID _ hret, if_pos rfl]
  · rw [inputs_of_inserted g this input busID _ hret, if_neg (by omega), if_pos rfl]
  · intro x
    rw [List.mem_filter, hvis x, isSendOfBus_iff]

/-- C16 at the return of bus 1 of `busGraph`, whose root reaches a send of bus 1 and a send of
bus 2. -/
theorem C16_witness :
    (busGraph.Acyclic ∧ busGraph[1]? = some (Node.returnNode 0 1 false) ∧
      ∃ s, busGraph.Reaches 5 s ∧ busGraph.isSendOfBus 1 s = true) ∧
    ReturnNode.prepareToPlay busGraph 5 1 (busGraph.length + 1)
      = some [Node.leafNode, Node.returnNode 6 1 true, Node.leafNode, Node.sendNode 2 1,
          Node.sendNode 3 2, Node.basicSummingNode [1, 4], Node.summingNode [0] [3]] ∧
    ∃ g' sends, ReturnNode.prepareToPlay busGraph 5 1 (busGraph.length + 1) = some g' ∧
      g'.getDirectInputNodes 1 = [busGraph.length] ∧
      g'.getDirectInputNodes busGraph.length = 0 :: sends ∧
      (∀ s, s ∈ sends ↔
        busGraph.Reaches 5 s ∧ ∃ i, busGraph[s]? = some (Node.sendNode i 1)) :=
  have hsend : ∃ s, busGraph.Reaches 5 s ∧ busGraph.isSendOfBus 1 s = true :=
    ⟨3, busGraph_reaches_send, by decide⟩
  ⟨⟨busGraph_ordered.1, rfl, hsend⟩, by decide,
    (C16_return_sums_matching_sends busGraph 5 1 0 1 busGraph_ordered.1 rfl hsend).imp
      (fun _ h => h.imp (fun _ h' => ⟨h'.1, h'.2.2.2.2.1, h'.2.2.2.2.2.2.1, h'.2.2.2.2.2.2.2.1⟩))⟩

/-- C17, as the code has it: in every graph without a cycle and without a pointer to nowhere,
`ReturnNode::prepareToPlay` on a `ReturnNode` that has not been initialised returns a graph
without a pointer to nowhere, in which no node is reachable from itself through
`getDirectInputNodes` exactly when no `SendNode` of the bus ID of the return that the root
reaches has the return in its input chain. -/
theorem C17_prepare_keeps_acyclic_iff (g : NodeGraph) (rootNode this input : Nat)
    (busID : Int) (hacyc : g.Acyclic) (hclosed : g.Closed)
    (hret : g[this]? = some (Node.returnNode input busID false)) :
    ∃ g', ReturnNode.prepareToPlay g rootNode this (g.length + 1) = some g' ∧
      g'.Closed ∧
      (g'.Acyclic ↔
        ∀ s, g.Reaches rootNode s → g.isSendOfBus busID s = true → ¬ g.Reaches s this) := by
  obtain ⟨visited, hvis, hprep⟩ := prepareToPlay_total g rootNode this input busID hacyc hret
  refine ⟨_, hprep, ?_⟩
  split_ifs with hpos
  · obtain ⟨hc, hiff⟩ := inserted_acyclic g this input busID
      (visited.filter (g.isSendOfBus busID)) hret
      (fun s hs => isSendOfBus_lt g busID s (List.mem_filter.mp hs).2) hacyc hclosed
    refine ⟨hc, hiff.trans ?_⟩
    constructor
    · intro h s hr hb
      exact h s (List.mem_filter.mpr ⟨(hvis s).mpr hr, hb⟩)
    · intro h s hs
      exact h s ((hvis s).mp (List.mem_filter.mp hs).1) (List.mem_filter.mp hs).2
  · obtain ⟨ha, hc⟩ := marked_acyclic g this input busID hret hacyc hclosed
    refine ⟨hc, ⟨fun _ s hr hb => ?_, fun _ => ha⟩⟩
    exfalso
    exact hpos (List.length_pos_of_mem (List.mem_filter.mpr ⟨(hvis s).mpr hr, hb⟩))

/-- C17 at the return of `busGraph`, which its send of bus 1 does not reach. -/
theorem C17_witness :
    (busGraph.Acyclic ∧ busGraph.Closed ∧ busGraph[1]? = some (Node.returnNode 0 1 false)) ∧
    ∃ g', ReturnNode.prepareToPlay busGraph 5 1 (busGraph.length + 1) = some g' ∧
      g'.Closed ∧
      (g'.Acyclic ↔
        ∀ s, busGraph.Reaches 5 s → busGraph.isSendOfBus 1 s = true → ¬ busGraph.Reaches s 1) :=
  ⟨⟨busGraph_ordered.1, busGraph_ordered.2, rfl⟩,
    C17_prepare_keeps_acyclic_iff busGraph 5 1 0 1 busGraph_ordered.1 busGraph_ordered.2 rfl⟩

/-- C17 fails as stated: `feedbackGraph`, a leaf under a return of bus 1 under a send of bus 1,
has no cycle, and after the preparation of its only return the return is reachable from itself,
through the new summing node and the send. -/
theorem C17_counterexample :
    feedbackGraph.Acyclic ∧ feedbackGraph.Closed ∧
    ∃ g', ReturnNode.prepareToPlay feedbackGraph 2 1 (feedbackGraph.length + 1) = some g' ∧
      ¬ g'.Acyclic :=
  ⟨feedbackGraph_ordered.1, feedbackGraph_ordered.2, _, feedbackGraph_cycle.1,
    fun h => h 1 feedbackGraph_cycle.2⟩

/-- C18: for every channel map whose source and destination channels (as the `size_t` values
the code makes of them) are inside the source and the destination block, and every destination
that holds its samples, `ChannelMappingNode::process` returns, leaves every destination channel
that is not the destination of a pair exactly as it was, and leaves every destination channel
`d` holding its prior contents plus the sample-wise sum of source channel `s` over the pairs
`(s, d)` of the map (a source reaching as far as the sample). -/
theorem C18_channel_mapping_frame (channelMap : List (Int × Int)) (passMIDI : Bool)
    (inputBuffers pc : AudioAndMidiBuffer) (halloc : pc.audio.Allocated)
    (hrange : ∀ ch ∈ channelMap, toSizeT ch.1 < inputBuffers.audio.channels.length
      ∧ toSizeT ch.2 < pc.audio.channels.length) :
    ∃ out, ChannelMappingNode.process channelMap passMIDI inputBuffers pc = some out ∧
      out.audio.numSamples = pc.audio.numSamples ∧
      out.audio.channels.length = pc.audio.channels.length ∧
      (∀ j, (∀ ch ∈ channelMap, toSizeT ch.2 ≠ j) →
        out.audio.getChannelPointer j = pc.audio.getChannelPointer j) ∧
      (∀ j t, j < pc.audio.channels.length → t < pc.audio.numSamples →
        out.audio.getSample j t = pc.audio.getSample j t +
          ((channelMap.filter (fun ch =>
              decide (toSizeT ch.2 = j ∧ t < inputBuffers.audio.numSamples))).map
            (fun ch => inputBuffers.audio.getSample (toSizeT ch.1) t)).sum) := by
  obtain ⟨out, hout, o1, o2, _, o4, o5⟩ :=
    mappingLoop_spec channelMap inputBuffers.audio pc.audio halloc hrange
  unfold ChannelMappingNode.process
  dsimp only
  rw [hout]
  refine ⟨_, rfl, o1, o2, o4, ?_⟩
  intro j t hj ht
  dsimp only
  rw [o5 j t hj ht, sum_filter_map]
  simp only [decide_eq_true_eq]

/-- C18 at a map that sends both source channels to destination channel 0 and source channel 1
to destination channel 2. -/
theorem C18_witness :
    (destinationBlock.Allocated ∧
      ∀ ch ∈ [((0 : Int), (0 : Int)), (1, 0), (1, 2)],
        toSizeT ch.1 < sourceBlock.channels.length
          ∧ toSizeT ch.2 < destinationBlock.channels.length) ∧
    (ChannelMappingNode.process [(0, 0), (1, 0), (1, 2)] false ⟨sourceBlock, []⟩
        ⟨destinationBlock, []⟩).map (fun b => b.audio.channels)
      = some [[13, 13], [20, 20], [32, 32]] ∧
    ∃ out, ChannelMappingNode.process [(0, 0), (1, 0), (1, 2)] false ⟨sourceBlock, []⟩
        ⟨destinationBlock, []⟩ = some out ∧
      out.audio.getChannelPointer 1 = destinationBlock.getChannelPointer 1 :=
  have halloc : destinationBlock.Allocated := by
    intro c hc
    simp only [destinationBlock, List.mem_cons, List.mem_singleton, List.not_mem_nil,
      or_false] at hc
    rcases hc with rfl | rfl | rfl <;> simp [destinationBlock]
  have hrange : ∀ ch ∈ [((0 : Int), (0 : Int)), (1, 0), (1, 2)],
      toSizeT ch.1 < sourceBlock.channels.length
        ∧ toSizeT ch.2 < destinationBlock.channels.length := by decide
  ⟨⟨halloc, hrange⟩,
    by
      simp [ChannelMappingNode.process, ChannelMappingNode.addChannel,
        AudioBlock.getSubsetChannelBlock, ChannelSubset.add, List.mapIdx_cons,
        FloatVectorOperations.add, AudioBlock.getChannelPointer, sourceBlock, destinationBlock,
        toSizeT]
      norm_num,
    (C18_channel_mapping_frame [(0, 0), (1, 0), (1, 2)] false ⟨sourceBlock, []⟩
      ⟨destinationBlock, []⟩ halloc hrange).imp
      (fun _ h => ⟨h.1, h.2.2.2.1 1 (by decide)⟩)⟩

/-- C19: for every prepared graph without a cycle and states of its nodes that agree under the
root, the single-threaded player processes the block, the multi-threaded player has an order of
its workers that completes the block, and every run of the multi-threaded player that completes
the block, with whatever order of its workers, leaves the same output buffer at the root, and
the same output and the same new state at every node under the root. -/
theorem C19_players_give_same_output {σ : Type} (G : PreparedGraph σ)
    (hacyc : G.graph.Acyclic) (rootNode : Nat) (init1 init2 : Nat → σ)
    (hinit : ∀ b, G.graph.Reaches rootNode b → init1 b = init2 b) :
    ∃ s1 o, NodePlayer.process G rootNode init1 = some s1 ∧ s1.processed rootNode = some o ∧
      (∃ schedule s2, MultiThreadedNodePlayer.process G rootNode schedule init2 = some s2) ∧
      ∀ schedule s2, MultiThreadedNodePlayer.process G rootNode schedule init2 = some s2 →
        s2.processed rootNode = some o ∧
        ∀ b, G.graph.Reaches rootNode b →
          s2.processed b = s1.processed b ∧ s2.nodeState b = s1.nodeState b := by
  obtain ⟨s1, p1, c1, ⟨o, ho⟩, _⟩ := nodePlayer_total G hacyc rootNode init1
  obtain ⟨s0, _, _, _, l0, q0⟩ := nodePlayer_total G hacyc rootNode init2
  refine ⟨s1, o, p1, ho, ⟨l0, s0, q0⟩, ?_⟩
  intro schedule s2 h2
  unfold MultiThreadedNodePlayer.process at h2
  cases hrun : MultiThreadedNodePlayer.run G schedule (EpochState.start init2) with
  | none => rw [hrun] at h2; cases h2
  | some s =>
    rw [hrun] at h2
    dsimp only at h2
    by_cases hroot : (s.processed rootNode).isSome = true
    · rw [if_pos hroot] at h2
      have hs2 := Option.some.inj h2
      subst hs2
      have c2 := run_consistent G init2 schedule _ _ (consistent_start G init2) hrun
      have hall : ∀ b, G.graph.Reaches rootNode b →
          s.processed b = s1.processed b ∧ s.nodeState b = s1.nodeState b := by
        intro b hb
        obtain ⟨x1, hx1⟩ := Option.isSome_iff_exists.mp
          (consistent_closure G init1 s1 c1 rootNode b hb (by rw [ho]; rfl))
        obtain ⟨x2, hx2⟩ := Option.isSome_iff_exists.mp
          (consistent_closure G init2 s c2 rootNode b hb hroot)
        obtain ⟨e1, e2⟩ := consistent_unique G hacyc init1 init2 s1 s c1 c2 b
          (fun d hd => hinit d (hb.trans hd)) x1 x2 hx1 hx2
        exact ⟨by rw [hx1, hx2, e1], e2.symm⟩
      refine ⟨?_, hall⟩
      rw [(hall rootNode Relation.ReflTransGen.refl).1, ho]
    · rw [if_neg hroot] at h2
      cases h2

/-- C19 at `diamondGraph` with a source that starts at 3: both the single-threaded player and
the multi-threaded player, whose workers finish the second pass-through node before the first,
leave 6 on the mono channel of the root. -/
theorem C19_witness :
    (diamondGraph.graph.Acyclic ∧
      ∀ b, diamondGraph.graph.Reaches 3 b → (fun _ => (3 : ℚ)) b = (fun _ => (3 : ℚ)) b) ∧
    (∃ s2, MultiThreadedNodePlayer.process diamondGraph 3 [0, 2, 1, 3] (fun _ => 3) = some s2 ∧
      (s2.processed 3).map (fun b => b.audio.channels) = some [[6, 6]]) ∧
    ∃ s1 o, NodePlayer.process diamondGraph 3 (fun _ => 3) = some s1 ∧
      s1.processed 3 = some o ∧
      (∃ schedule s2, MultiThreadedNodePlayer.process diamondGraph 3 schedule (fun _ => 3)
        = some s2) ∧
      ∀ schedule s2, MultiThreadedNodePlayer.process diamondGraph 3 schedule (fun _ => 3)
          = some s2 →
        s2.processed 3 = some o ∧
        ∀ b, diamondGraph.graph.Reaches 3 b →
          s2.processed b = s1.processed b ∧ s2.nodeState b = s1.nodeState b :=
  ⟨⟨diamondGraph_ordered.1, fun _ _ => rfl⟩,
    by
      simp [MultiThreadedNodePlayer.process, MultiThreadedNodePlayer.run, PreparedGraph.ready,
        PreparedGraph.processNode, EpochState.start, diamondGraph, NodeGraph.getDirectInputNodes,
        Node.getDirectInputNodes, BasicSummingNode.process, BasicSummingNode.addInput,
        constantBlock, AudioBlock.getSubsetChannelBlock, ChannelSubset.add, List.mapIdx_cons,
        FloatVectorOperations.add, AudioBlock.getChannelPointer]
      norm_num,
    C19_players_give_same_output diamondGraph diamondGraph_ordered.1 3 (fun _ => 3) (fun _ => 3)
      (fun _ _ => rfl)⟩

/-- C20: for every well-formed rack of direct connections and every input provider, also one
that supplies fewer channels than the input bus of the rack declares, building and processing
the rack node does not fail (it returns a block of the channels of the output bus); an output
channel that is fed only from channels that the provider does not supply is silent; an output
channel that is fed by one connection, from a channel that the provider supplies, carries the
samples of that channel; and what the provider supplies beyond the channels of the input bus
is ignored. -/
theorem C20_rack_missing_channels_are_silent (rack : RackType) (provider : InputProvider)
    (numSamples : Nat) (hwf : rack.WellFormed) :
    ∃ out, RackNode.process rack provider numSamples = some out ∧
      out.channels.length = rack.numOutputNames - 1 ∧
      out.numSamples = numSamples ∧
      (∀ d t, d < rack.numOutputNames - 1 → t < numSamples →
        (∀ c ∈ rack.connections, 1 ≤ c.1 → c.2 = d + 1 → provider.numChannels ≤ c.1 - 1) →
        out.getSample d t = 0) ∧
      (∀ d s t, d < rack.numOutputNames - 1 → t < numSamples → s < provider.numChannels →
        rack.connections.filter (fun c => decide (1 ≤ c.1 ∧ c.2 = d + 1)) = [(s + 1, d + 1)] →
        out.getSample d t = provider.audio.getSample s t) ∧
      (∀ provider' : InputProvider,
        (∀ c t, c < rack.numInputNames - 1 → t < numSamples →
          (if c < provider'.numChannels then provider'.audio.getSample c t else 0)
            = (if c < provider.numChannels then provider.audio.getSample c t else 0)) →
        RackNode.process rack provider' numSamples = some out) := by
  obtain ⟨out, hout, h1, h2, h3⟩ := rackProcess_spec rack provider numSamples hwf
  refine ⟨out, hout, h1, h2, ?_, ?_, ?_⟩
  · intro d t hd ht hmissing
    rw [h3 d t hd ht]
    apply List.sum_eq_zero
    intro x hx
    obtain ⟨c, hc, rfl⟩ := List.mem_map.mp hx
    split_ifs with hcond
    · have := hmissing c hc hcond.1 hcond.2.1
      omega
    · rfl
  · intro d s t hd ht hs hfed
    rw [h3 d t hd ht]
    have hsplit : (rack.connections.map (fun c =>
          if 1 ≤ c.1 ∧ c.2 = d + 1 ∧ c.1 - 1 < provider.numChannels
            then provider.audio.getSample (c.1 - 1) t else 0))
        = rack.connections.map (fun c =>
          if decide (1 ≤ c.1 ∧ c.2 = d + 1) = true
            then (if c.1 - 1 < provider.numChannels
              then provider.audio.getSample (c.1 - 1) t else 0)
            else 0) := by
      apply List.map_congr_left
      intro c _
      by_cases hp : 1 ≤ c.1 ∧ c.2 = d + 1
      · have hdec : decide (1 ≤ c.1 ∧ c.2 = d + 1) = true := by simpa using hp
        rw [if_pos hdec]
        by_cases hq : c.1 - 1 < provider.numChannels
        · rw [if_pos ⟨hp.1, hp.2, hq⟩, if_pos hq]
        · rw [if_neg (fun h => hq h.2.2), if_neg hq]
      · have hdec : ¬ decide (1 ≤ c.1 ∧ c.2 = d + 1) = true := by simpa using hp
        rw [if_neg hdec, if_neg (fun h => hp ⟨h.1, h.2.1⟩)]
    rw [hsplit, ← sum_filter_map, hfed]
    simp [hs]
  · intro provider' hsame
    have hbus : provider'.busAudio (rack.numInputNames - 1) numSamples
        = provider.busAudio (rack.numInputNames - 1) numSamples := by
      unfold InputProvider.busAudio
      congr 1
      apply List.map_congr_left
      intro c hc
      apply List.map_congr_left
      intro t ht
      exact hsame c t (List.mem_range.mp hc) (List.mem_range.mp ht)
    rw [← hout]
    unfold RackNode.process
    rw [hbus]

/-- C20 at the rack of the test "Mismatched num input and Rack channels" and a provider of one
channel: the first output channel carries the samples of the provider, the second is silent. -/
theorem C20_witness :
    mismatchedRack.WellFormed ∧
    (RackNode.process mismatchedRack monoProvider 2).map (fun b => b.channels)
      = some [[1 / 2, -1 / 2], [0, 0]] ∧
    ∃ out, RackNode.process mismatchedRack monoProvider 2 = some out ∧
      out.getSample 1 0 = 0 ∧ out.getSample 0 1 = monoProvider.audio.getSample 0 1 :=
  have hwf : mismatchedRack.WellFormed :=
    ⟨by decide, by decide, by decide⟩
  ⟨hwf,
    by
      simp [RackNode.process, mismatchedRack, monoProvider, InputProvider.busAudio,
        RackType.channelMap, ChannelMappingNode.process, ChannelMappingNode.addChannel,
        AudioBlock.getSubsetChannelBlock, ChannelSubset.add, List.mapIdx_cons, constantBlock,
        List.range_succ, FloatVectorOperations.add, AudioBlock.getChannelPointer,
        AudioBlock.getSample, toSizeT],
    (C20_rack_missing_channels_are_silent mismatchedRack monoProvider 2 hwf).imp
      (fun _ h => ⟨h.1,
        h.2.2.2.1 1 0 (by decide) (by decide) (by decide),
        h.2.2.2.2.1 0 0 1 (by decide) (by decide) (by decide) (by decide)⟩)⟩

/-- C21, evaluated at a render shorter than one block (1/10 s at 1 kHz in blocks of 750
samples, through a root with 100 samples of latency): in the first steady-state block 200
samples are taken and 100 dropped, the destination block has the 750 samples of a whole block,
and the sub-block that reaches the write path is made of the samples 650 .. 749 of the rendered
block, the offset being 750 - 100 and not the 100 of the dropped samples. -/
theorem C21_short_block_is_written_from_its_tail :
    shortLatencyWarmedUp.ctx.precount = 0 ∧
    shortLatencyWarmedUp.ctx.samplesTaken = 200 ∧
    shortLatencyWarmedUp.ctx.samplesDropped = 100 ∧
    shortLatencyWarmedUp.ctx.destBlock referenceExternals rampInput
      = { channels := [ramp 750, ramp 750], numSamples := 750 } ∧
    ∃ res, shortLatencyWarmedUp.ctx.renderNextBlock referenceExternals
        shortLatencyWarmedUp.progress rampInput = some res ∧
      res.ctx.analysedBlocks
        = [{ channels := [(List.range' 650 100).map (fun (i : Nat) => (i : ℚ)),
                          (List.range' 650 100).map (fun (i : Nat) => (i : ℚ))],
             numSamples := 100 }] :=
  ⟨shortLatencyWarmedUp_spec.2.2.2.1, shortLatencyWarmedUp_spec.2.2.2.2.2.2.1,
    shortLatencyWarmedUp_spec.2.2.2.2.2.2.2, shortLatency_destBlock rampInput,
    shortLatency_handed⟩

/-- C22 (amended): in every warm-up call of `renderNextBlock` (`precount > 0`) no output is
produced: nothing reaches `writeAudioBlock`, and `samplesToWrite`, `numLatencySamplesToDrop`
and the peak, RMS and non-zero accumulators are unchanged.  When no cancellation is pending
the call returns a result, the writer is unchanged, and the playhead is positioned from the
current stream time: it is set to the sample of the stream time while `precount` is above half
of `numPreRenderBlocks`, is started from that sample when `precount` is that half, and is left
alone below it. -/
theorem C22_warm_up_follows_stream_time (E : Externals) (c : NodeRenderContext) (p : ℚ)
    (inp : BlockInput) (hp : 0 < c.precount) :
    (∀ res, c.renderNextBlock E p inp = some res →
      res.ctx.analysedBlocks = c.analysedBlocks ∧
      res.ctx.samplesToWrite = c.samplesToWrite ∧
      res.ctx.numLatencySamplesToDrop = c.numLatencySamplesToDrop ∧
      res.ctx.peak = c.peak ∧ res.ctx.rmsTotal = c.rmsTotal ∧
      res.ctx.rmsNumSamps = c.rmsNumSamps ∧ res.ctx.numNonZeroSamps = c.numNonZeroSamps) ∧
    (inp.shouldExit = false →
      ∃ res, c.renderNextBlock E p inp = some res ∧ res.ctx.writer = c.writer ∧
        res.ctx.playHead
          = (if c.precount > c.numPreRenderBlocks.tdiv 2 then
              c.playHead.setPosition (E.timeToSample c.streamTime c.r.sampleRateForAudio)
            else if c.precount = c.numPreRenderBlocks.tdiv 2 then
              c.playHead.playSyncedToRange
                (E.timeToSample c.streamTime c.r.sampleRateForAudio, int64Max)
            else c.playHead)) := by
  constructor
  · intro res h
    cases hexit : inp.shouldExit with
    | true =>
      obtain ⟨a1, a2, a3, a4, a5, a6, a7, _⟩ := cancelled_call_books E c p inp res hexit h
      exact ⟨a1, a2, a3, a4, a5, a6, a7⟩
    | false =>
      obtain ⟨res1, h1, _, h3, _⟩ := warmUp_call E c p inp hexit hp
      have hres : res1 = res := by rw [h1] at h; exact Option.some.inj h
      subst hres
      exact ⟨h3.analysed_eq, h3.budget_eq, h3.drop_eq, h3.peak_eq, h3.rmsTotal_eq,
        h3.rmsNumSamps_eq, h3.numNonZeroSamps_eq⟩
  · intro hexit
    obtain ⟨res, h1, h2, h3, _⟩ := warmUp_call E c p inp hexit hp
    refine ⟨res, h1, h3.writer_eq, ?_⟩
    rw [h2, positionedPlayHead_warm E c hp]

/-- The numbers of the warm-up call of the short render: the render starts at sample 0, there
is one warm-up block, and the stream time of that block is -3/4 s. -/
theorem smallContext_warmUp :
    (smallContext false).precount = 1 ∧ (smallContext false).numPreRenderBlocks = 1 ∧
    (smallContext false).streamTime = -(3 / 4) ∧
    (smallContext false).r.sampleRateForAudio = 1000 ∧
    (smallContext false).r.time.getStart = 0 := by
  obtain ⟨_, _, _, c4, _, c6, c7, c8, c9, _⟩ :=
    construct_fields referenceExternals (smallParams false) (smallParams false) (exampleProps 0)
      stoppedPlayHead exampleSetup rfl (fun _ => rfl)
  obtain ⟨f1, _, _, f4, _, f6, _⟩ := smallContext_fields false
  have h7 : (smallContext false).numPreRenderBlocks = 1 := by
    unfold smallContext; rw [c7]; norm_num [smallParams, truncToInt]
  have h9 : (smallContext false).streamTime = -(3 / 4) := by
    have h := c9
    change (smallContext false).streamTime
      = (smallParams false).time.start
        - ((smallContext false).precount : ℚ) * (smallContext false).blockLength at h
    rw [h, f1, f4]; norm_num [smallParams]
  exact ⟨f1, h7, h9, c4, f6⟩

/-- Witness of C22: the first call of the short render. -/
theorem C22_witness :
    (0 < (smallContext false).precount ∧ (constantInput 750 (1 / 2)).shouldExit = false) ∧
    ∃ res, (smallContext false).renderNextBlock referenceExternals 0
        (constantInput 750 (1 / 2)) = some res ∧
      res.ctx.playHead.position = -750 ∧
      res.ctx.analysedBlocks = (smallContext false).analysedBlocks ∧
      res.ctx.samplesToWrite = 875 := by
  obtain ⟨f1, f7, f9, f4, _⟩ := smallContext_warmUp
  have hp : 0 < (smallContext false).precount := by rw [f1]; decide
  have hC := C22_warm_up_follows_stream_time referenceExternals (smallContext false) 0
    (constantInput 750 (1 / 2)) hp
  obtain ⟨res, h1, _, h3⟩ := hC.2 rfl
  obtain ⟨g1, g2, _⟩ := hC.1 res h1
  refine ⟨⟨hp, rfl⟩, res, h1, ?_, g1, g2.trans (smallContext_fields false).2.1⟩
  rw [h3, f1, f7, f9, f4, if_pos (by decide)]
  simp only [PlayHead.setPosition, referenceExternals]
  rw [Int.floor_eq_iff]
  norm_num

/-- C22 fails as stated: the first call of the short render is a warm-up call (`precount` is
1), the render starts at sample 0, and the call leaves the playhead at sample -750, the sample
of the stream time -3/4 s. -/
theorem C22_counterexample :
    0 < (smallContext false).precount ∧
    referenceExternals.timeToSample (smallContext false).r.time.getStart
      (smallContext false).r.sampleRateForAudio = 0 ∧
    (smallContext false).renderNextBlock referenceExternals 0 (constantInput 750 (1 / 2))
      = some (smallWarmedUp false) ∧
    (smallWarmedUp false).ctx.playHead.position = -750 := by
  obtain ⟨f1, f7, f9, f4, f6⟩ := smallContext_warmUp
  have hp : 0 < (smallContext false).precount := by rw [f1]; decide
  obtain ⟨e1, _⟩ := smallWarmedUp_spec false
  obtain ⟨res, h1, h2, _⟩ := warmUp_call referenceExternals (smallContext false) 0
    (constantInput 750 (1 / 2)) rfl hp
  have hres : smallWarmedUp false = res := by rw [e1] at h1; exact Option.some.inj h1
  refine ⟨hp, ?_, e1, ?_⟩
  · rw [f6, f4]
    simp only [referenceExternals]
    rw [Int.floor_eq_iff]
    norm_num
  · rw [hres, h2, positionedPlayHead_warm _ _ hp, f1, f7, f9, f4, if_pos (by decide)]
    simp only [PlayHead.setPosition, referenceExternals]
    rw [Int.floor_eq_iff]
    norm_num

/-- C23 (amended): if some leaf node reports not ready, no cancellation is pending at the top
of the call and the should-exit predicate is false in the readiness test, `renderNextBlock`
returns false without running the node graph or writing, and leaves `precount`,
`samplesToWrite`, `numLatencySamplesToDrop`, the writer, the peak/RMS/non-zero accumulators
and the progress value unchanged, so that the same block is attempted again on the next
call.  The graph is processed only in calls in which every leaf is ready or the should-exit
predicate is true in the readiness test. -/
theorem C23_not_ready_call_waits (E : Externals) (c : NodeRenderContext) (p : ℚ)
    (inp : BlockInput) :
    (inp.shouldExit = false → inp.leafNodesReady = false →
      inp.shouldExitWhileWaiting = false →
      ∃ res, c.renderNextBlock E p inp = some res ∧ res.finished = false ∧
        res.progress = p ∧ res.ctx.numProcessCalls = c.numProcessCalls ∧
        res.ctx.analysedBlocks = c.analysedBlocks ∧ res.ctx.writer = c.writer ∧
        res.ctx.precount = c.precount ∧ res.ctx.samplesToWrite = c.samplesToWrite ∧
        res.ctx.numLatencySamplesToDrop = c.numLatencySamplesToDrop ∧
        res.ctx.peak = c.peak ∧ res.ctx.rmsTotal = c.rmsTotal ∧
        res.ctx.rmsNumSamps = c.rmsNumSamps ∧ res.ctx.numNonZeroSamps = c.numNonZeroSamps ∧
        res.ctx.blockStart = c.blockStart ∧ res.ctx.blockEnd = c.blockEnd) ∧
    (∀ res, c.renderNextBlock E p inp = some res →
      res.ctx.numProcessCalls ≠ c.numProcessCalls →
      inp.shouldExit = false ∧
        (inp.leafNodesReady = true ∨ inp.shouldExitWhileWaiting = true)) := by
  refine ⟨fun hexit hleaf hwait => ?_, fun res h hne => processed_only_when_go E c p inp res h hne⟩
  obtain ⟨res, h1, h2, h3, h4, h5, h6, _, h8, h9⟩ :=
    notReady_call E c p inp hexit (by rw [hleaf, hwait]; rfl)
  exact ⟨res, h1, h2, h3, h5, h6.analysed_eq, h6.writer_eq, h4, h6.budget_eq, h6.drop_eq,
    h6.peak_eq, h6.rmsTotal_eq, h6.rmsNumSamps_eq, h6.numNonZeroSamps_eq, h8, h9⟩

/-- Witness of C23: the first steady-state call of the short render waits when a leaf is not
ready, and the warm-up call before it, which processed a block, had every leaf ready. -/
theorem C23_witness :
    (notReadyInput.shouldExit = false ∧ notReadyInput.leafNodesReady = false ∧
      notReadyInput.shouldExitWhileWaiting = false) ∧
    (∃ res, (smallWarmedUp false).ctx.renderNextBlock referenceExternals
        (smallWarmedUp false).progress notReadyInput = some res ∧ res.finished = false ∧
      res.ctx.numProcessCalls = (smallWarmedUp false).ctx.numProcessCalls ∧
      res.ctx.samplesToWrite = 875 ∧ res.ctx.precount = 0) ∧
    ((smallContext false).renderNextBlock referenceExternals 0 (constantInput 750 (1 / 2))
        = some (smallWarmedUp false) ∧
      (smallWarmedUp false).ctx.numProcessCalls ≠ (smallContext false).numProcessCalls) ∧
    ((constantInput 750 (1 / 2)).shouldExit = false ∧
      ((constantInput 750 (1 / 2)).leafNodesReady = true ∨
        (constantInput 750 (1 / 2)).shouldExitWhileWaiting = true)) := by
  obtain ⟨b1, b2, _⟩ := smallWarmedUp_books false
  obtain ⟨e1, _⟩ := smallWarmedUp_spec false
  have V := smallContext_valid false
  obtain ⟨res1, g1, _, g3, _⟩ := renderInv_go referenceExternals (smallContext false)
    (smallContext false) 0 (constantInput 750 (1 / 2)) V (renderInv_start _ V) rfl rfl rfl
  have hres : smallWarmedUp false = res1 := by rw [e1] at g1; exact Option.some.inj g1
  have hne : (smallWarmedUp false).ctx.numProcessCalls ≠ (smallContext false).numProcessCalls := by
    rw [hres, g3]; omega
  obtain ⟨res, h1, h2, _, h4, _, _, h7, h8, _⟩ :=
    (C23_not_ready_call_waits referenceExternals (smallWarmedUp false).ctx
      (smallWarmedUp false).progress notReadyInput).1 rfl rfl rfl
  exact ⟨⟨rfl, rfl, rfl⟩, ⟨res, h1, h2, h4, h8.trans b2, h7.trans b1⟩, ⟨e1, hne⟩,
    (C23_not_ready_call_waits referenceExternals (smallContext false) 0
      (constantInput 750 (1 / 2))).2 (smallWarmedUp false) e1 hne⟩

/-- C23 fails as stated: in the first steady-state call of the short render a leaf is not
ready and no cancellation is pending at the top of the call, but the should-exit predicate is
true in the readiness test; the call processes the graph. -/
theorem C23_counterexample :
    exitWhileWaitingInput.shouldExit = false ∧ exitWhileWaitingInput.leafNodesReady = false ∧
    ∃ res, (smallWarmedUp false).ctx.renderNextBlock referenceExternals
        (smallWarmedUp false).progress exitWhileWaitingInput = some res ∧
      res.ctx.numProcessCalls = (smallWarmedUp false).ctx.numProcessCalls + 1 := by
  obtain ⟨_, _, hinv, _⟩ := smallWarmedUp_spec false
  obtain ⟨res, h1, _, h3, _⟩ := renderInv_go referenceExternals (smallContext false)
    (smallWarmedUp false).ctx (smallWarmedUp false).progress exitWhileWaitingInput
    (smallContext_valid false) hinv rfl rfl rfl
  exact ⟨rfl, rfl, res, h1, h3⟩

/-- C24 (amended): for every positive block size and sample rate, the pacing budget of a
successfully constructed context, `realTimePerBlock = trunc (blockLength * 1000 + 0.99)`, is
above the block length in milliseconds (`1000 * blockSize / sampleRate`) minus 0.01 and not
above that length plus 0.99; it is below the block length in milliseconds exactly when the
fractional part of that length lies strictly between 0 and 0.01.  The pacing to a budget sleeps
a whole number of milliseconds, so that the time since the previous call plus the sleep is
above the budget minus one millisecond. -/
theorem C24_pacing_budget_bounds (E : Externals) (p ownerParams : Parameters)
    (props : NodeProperties) (playHead : PlayHead) (sys : SetupInput)
    (hrate : 0 < p.sampleRateForAudio) (hsize : 0 < p.blockSizeForAudio)
    (haudio : props.hasAudio = true)
    (hdest : workingDestFile p sys ≠ "" → sys.writerOpens = true) :
    (NodeRenderContext.construct E p ownerParams props playHead sys).realTimePerBlock
      = truncToInt (blockLengthMs p + 99 / 100) ∧
    blockLengthMs p - 1 / 100
      < ((NodeRenderContext.construct E p ownerParams props playHead sys).realTimePerBlock : ℚ) ∧
    ((NodeRenderContext.construct E p ownerParams props playHead sys).realTimePerBlock : ℚ)
      ≤ blockLengthMs p + 99 / 100 ∧
    (((NodeRenderContext.construct E p ownerParams props playHead sys).realTimePerBlock : ℚ)
        < blockLengthMs p ↔
      0 < Int.fract (blockLengthMs p) ∧ Int.fract (blockLengthMs p) < 1 / 100) ∧
    (∀ (c : NodeRenderContext) (timeNow : ℚ), c.r.realTimeRender = true →
      (c.realTimePerBlock : ℚ) - 1
        < (timeNow - c.lastTime) + (((c.pace timeNow).sleptMs - c.sleptMs : Int) : ℚ)) := by
  have hms : 0 ≤ blockLengthMs p := by
    unfold blockLengthMs
    have : (0 : ℚ) < (p.blockSizeForAudio : ℚ) := by exact_mod_cast hsize
    positivity
  rw [construct_realTime E p ownerParams props playHead sys haudio hdest]
  obtain ⟨b1, b2, b3⟩ := truncToInt_add_bounds (blockLengthMs p) hms
  exact ⟨rfl, b1, b2, b3, pace_bound⟩

/-- Witness of C24: the 44.1 kHz example in blocks of 512 samples has a budget of 12 ms for
blocks of 11.6 ms. -/
theorem C24_witness :
    ((0 : ℚ) < exampleParams.sampleRateForAudio ∧ 0 < exampleParams.blockSizeForAudio) ∧
    (NodeRenderContext.construct referenceExternals exampleParams exampleParams (exampleProps 0)
      stoppedPlayHead exampleSetup).realTimePerBlock
      = truncToInt (blockLengthMs exampleParams + 99 / 100) ∧
    blockLengthMs exampleParams - 1 / 100
      < ((NodeRenderContext.construct referenceExternals exampleParams exampleParams
          (exampleProps 0) stoppedPlayHead exampleSetup).realTimePerBlock : ℚ) :=
  have h1 : (0 : ℚ) < exampleParams.sampleRateForAudio := by norm_num [exampleParams]
  have h2 : 0 < exampleParams.blockSizeForAudio := by norm_num [exampleParams]
  have h := C24_pacing_budget_bounds referenceExternals exampleParams exampleParams
    (exampleProps 0) stoppedPlayHead exampleSetup h1 h2 rfl (fun _ => rfl)
  ⟨⟨h1, h2⟩, h.1, h.2.1⟩

/-- C24 fails as stated: at 44.1 kHz in blocks of 265 samples a block lasts 2650/441 ms, which
is more than 6 ms, and the pacing budget is 6 ms. -/
theorem C24_counterexample :
    (0 : ℚ) < oddBlockParams.sampleRateForAudio ∧ 0 < oddBlockParams.blockSizeForAudio ∧
    (NodeRenderContext.construct referenceExternals oddBlockParams oddBlockParams
      (exampleProps 0) stoppedPlayHead exampleSetup).realTimePerBlock = 6 ∧
    ((6 : Int) : ℚ) < blockLengthMs oddBlockParams := by
  obtain ⟨h1, h2⟩ := oddBlock_realTime
  refine ⟨by norm_num [oddBlockParams, exampleParams], by norm_num [oddBlockParams], h1, ?_⟩
  rw [h2]; norm_num

/-- C25, evaluated: whatever the channel map and whatever its input declares,
`ChannelMappingNode::getNodeProperties` declares no MIDI, also for a node built with
`passMidiThrough` whose input declares MIDI and whose `process` merges the MIDI of the input
into the output; the declared channel count is not below any destination index plus one, is 0
for an empty map, and is otherwise 0 or one of the destination indices plus one. -/
theorem C25_channel_mapping_declares_no_midi :
    (∀ (channelMap : List (Int × Int)) (inputProps : NodeProperties),
      (ChannelMappingNode.getNodeProperties channelMap inputProps).hasMidi = false ∧
      (∀ ch ∈ channelMap,
        ch.2 + 1 ≤ (ChannelMappingNode.getNodeProperties channelMap inputProps).numberOfChannels) ∧
      ((ChannelMappingNode.getNodeProperties channelMap inputProps).numberOfChannels = 0
        ∨ ∃ ch ∈ channelMap, ch.2 + 1
            = (ChannelMappingNode.getNodeProperties channelMap inputProps).numberOfChannels)) ∧
    midiInputProps.hasMidi = true ∧
    (ChannelMappingNode.getNodeProperties [(0, 0)] midiInputProps).hasMidi = false ∧
    (ChannelMappingNode.process [(0, 0)] true ⟨sourceBlock, [noteOn]⟩
        ⟨destinationBlock, []⟩).map (fun b => b.midi) = some [noteOn] := by
  refine ⟨fun channelMap inputProps => ?_, rfl, rfl, ?_⟩
  · obtain ⟨_, h2, _, _, h5, h6⟩ := channelMappingProps_spec channelMap inputProps
    exact ⟨h2, h5, h6⟩
  · simp [ChannelMappingNode.process, ChannelMappingNode.addChannel,
      AudioBlock.getSubsetChannelBlock, ChannelSubset.add, List.mapIdx_cons,
      FloatVectorOperations.add, AudioBlock.getChannelPointer, sourceBlock, destinationBlock,
      toSizeT, MidiMessageArray.mergeFrom]

/-- C26, evaluated: `BasicSummingNode::getNodeProperties` declares a latency of 0 whatever its
inputs declare, also over an input that declares 100 samples; `ChannelMappingNode` declares the
latency of its input. -/
theorem C26_summing_declares_no_latency :
    (∀ nodes : List NodeProperties,
      (BasicSummingNode.getNodeProperties nodes).latencyNumSamples = 0) ∧
    (exampleProps 100).latencyNumSamples = 100 ∧
    (BasicSummingNode.getNodeProperties [exampleProps 100, exampleProps 0]).latencyNumSamples
      = 0 ∧
    (∀ (channelMap : List (Int × Int)) (inputProps : NodeProperties),
      (ChannelMappingNode.getNodeProperties channelMap inputProps).latencyNumSamples
        = inputProps.latencyNumSamples) :=
  ⟨summingProps_latency, rfl, summingProps_latency _,
    fun channelMap inputProps => (channelMappingProps_spec channelMap inputProps).2.2.1⟩

/-- C27: in a render with valid parameters on a successfully constructed context, `precount`
starts at `numPreRenderBlocks`; at the entry of every call of `renderNextBlock` (after any
calls that all returned false, whatever their inputs) the stream time is the render start
minus `precount` block lengths, and `precount` is `numPreRenderBlocks` minus the number of
blocks processed so far, so that it goes on below zero and is 0 at the entry of one processed
block only; and a call that returns false either processed no block and left `precount` and
the stream time as they were, or processed a block, lowered `precount` by exactly 1 and
advanced the stream time by exactly one block length. -/
theorem C27_stream_time_follows_precount (E : Externals) (p ownerParams : Parameters)
    (props : NodeProperties) (playHead : PlayHead) (sys : SetupInput)
    (pre : List BlockInput) (res0 : StepResult) (inp : BlockInput) (res : StepResult)
    (VP : ValidParams E p props)
    (hdest : workingDestFile p sys ≠ "" → sys.writerOpens = true)
    (hpre : renderBlocks E
      (NodeRenderContext.construct E p ownerParams props playHead sys).start pre = some res0)
    (h0 : res0.finished = false)
    (hcall : res0.ctx.renderNextBlock E res0.progress inp = some res) :
    (NodeRenderContext.construct E p ownerParams props playHead sys).precount
      = (NodeRenderContext.construct E p ownerParams props playHead sys).numPreRenderBlocks ∧
    res0.ctx.numPreRenderBlocks
      = (NodeRenderContext.construct E p ownerParams props playHead sys).numPreRenderBlocks ∧
    res0.ctx.blockLength = (p.blockSizeForAudio : ℚ) / p.sampleRateForAudio ∧
    res0.ctx.streamTime = p.time.start - (res0.ctx.precount : ℚ) * res0.ctx.blockLength ∧
    res0.ctx.precount = res0.ctx.numPreRenderBlocks - res0.ctx.numProcessCalls ∧
    (res.finished = false →
      (res.ctx.numProcessCalls = res0.ctx.numProcessCalls ∧
        res.ctx.precount = res0.ctx.precount ∧ res.ctx.streamTime = res0.ctx.streamTime) ∨
      (res.ctx.numProcessCalls = res0.ctx.numProcessCalls + 1 ∧
        res.ctx.precount = res0.ctx.precount - 1 ∧
        res.ctx.streamTime = res0.ctx.streamTime + res0.ctx.blockLength)) := by
  have S := construct_loopStart E p ownerParams props playHead sys VP hdest
  obtain ⟨c1, _, _, _, _, c6, c7, c8, _⟩ :=
    construct_fields E p ownerParams props playHead sys VP.hasAudio hdest
  have hn := construct_numProcessCalls E p ownerParams props playHead sys VP.hasAudio hdest
  generalize NodeRenderContext.construct E p ownerParams props playHead sys = c0 at *
  obtain ⟨r, e1, _, e3⟩ := loopBlocks_spec E c0 S pre c0.start rfl (loopInv_start c0 S)
  have hr : r = res0 := Option.some.inj (e1.symm.trans hpre)
  rw [hr] at e3
  obtain ⟨hinv, hcount⟩ := e3 h0
  have hcount' : res0.ctx.precount + res0.ctx.numProcessCalls = c0.precount + c0.numProcessCalls :=
    hcount
  have hpn : c0.precount = c0.numPreRenderBlocks := by rw [c8, c7]
  refine ⟨hpn, hinv.setup.numPreRenderBlocks_eq, by rw [hinv.setup.blockLength_eq, c6], ?_, ?_,
    fun hf => ?_⟩
  · rw [hinv.time_eq, hinv.setup.blockLength_eq]
    unfold EditTimeRange.getStart
    rw [c1]
  · rw [hinv.setup.numPreRenderBlocks_eq, ← hpn]
    rw [hn] at hcount'
    omega
  · obtain ⟨r2, f1, _, f3, _⟩ := loop_step E c0 res0.ctx res0.progress inp S hinv
    have hr2 : r2 = res := Option.some.inj (f1.symm.trans hcall)
    rw [hr2] at f3
    have h := (f3 hf).2
    rw [hinv.setup.blockLength_eq]
    exact h

/-- Witness of C27: the first two calls of the short render; the warm-up call takes `precount`
from 1 to 0 and the stream time from -3/4 s to 0. -/
theorem C27_witness :
    (ValidParams referenceExternals (smallParams false) (exampleProps 0) ∧
      renderBlocks referenceExternals (smallContext false).start [] = some (smallContext false).start ∧
      (smallContext false).renderNextBlock referenceExternals 0 (constantInput 750 (1 / 2))
        = some (smallWarmedUp false)) ∧
    (smallContext false).streamTime
      = (smallParams false).time.start
        - ((smallContext false).precount : ℚ) * (smallContext false).blockLength ∧
    (smallContext false).precount
      = (smallContext false).numPreRenderBlocks - (smallContext false).numProcessCalls ∧
    ((smallWarmedUp false).ctx.numProcessCalls = (smallContext false).numProcessCalls + 1 ∧
      (smallWarmedUp false).ctx.precount = (smallContext false).precount - 1 ∧
      (smallWarmedUp false).ctx.streamTime
        = (smallContext false).streamTime + (smallContext false).blockLength) := by
  obtain ⟨e1, e2, _, e4⟩ := smallWarmedUp_spec false
  obtain ⟨_, _, _, h4, h5, h6⟩ := C27_stream_time_follows_precount referenceExternals
    (smallParams false) (smallParams false) (exampleProps 0) stoppedPlayHead exampleSetup []
    (smallContext false).start (constantInput 750 (1 / 2)) (smallWarmedUp false)
    (smallParams_valid false) (fun _ => rfl) rfl rfl e1
  refine ⟨⟨smallParams_valid false, rfl, e1⟩, h4, h5, ?_⟩
  rcases h6 e2 with ⟨_, a2, _⟩ | h
  · have hp := (smallContext_fields false).1
    have a2' : (smallWarmedUp false).ctx.precount = (smallContext false).precount := a2
    rw [e4, hp] at a2'
    exact absurd a2' (by decide)
  · exact h

/-- C28: `thresholdForStopping` is 0 in every state that a render reaches from the
constructor, whatever the path of the constructor and the inputs of the calls, and the
destructor leaves it at 0.  Hence, in a call that processes a block which the writer accepts
and whose termination test measures the first `n` samples of `buffer`: the call returns true
exactly when the block starts after the end of the render range plus the end allowance, or
starts after the end of the render range and the magnitude of the buffer is exactly 0; and
when one of the measured samples is not 0 the call returns true exactly when the block starts
after the end of the render range plus the end allowance. -/
theorem C28_threshold_for_stopping_is_zero (E : Externals) (p ownerParams : Parameters)
    (props : NodeProperties) (playHead : PlayHead) (sys : SetupInput)
    (pre : List BlockInput) (res0 : StepResult) (w : AudioFileWriter) (q : ℚ)
    (inp : BlockInput) (buffer : AudioBlock) (n : Nat)
    (hpre : renderBlocks E
      (NodeRenderContext.construct E p ownerParams props playHead sys).start pre = some res0)
    (hw : res0.ctx.writer = some w) (hexit : inp.shouldExit = false)
    (hgo : (inp.leafNodesReady || inp.shouldExitWhileWaiting) = true)
    (hok : inp.appendOk = true) (hmag : inp.measuring buffer n) :
    res0.ctx.thresholdForStopping = 0 ∧ res0.ctx.destroy.thresholdForStopping = 0 ∧
    ∃ res, res0.ctx.renderNextBlock E q inp = some res ∧
      (res.finished = true ↔
        res0.ctx.blockStart > res0.ctx.r.time.getEnd + res0.ctx.r.endAllowance ∨
        (res0.ctx.blockStart > res0.ctx.r.time.getEnd ∧ buffer.getMagnitude 0 n = 0)) ∧
      ((∃ c ∈ buffer.channels, ∃ x ∈ c.take n, x ≠ 0) →
        (res.finished = true ↔
          res0.ctx.blockStart > res0.ctx.r.time.getEnd + res0.ctx.r.endAllowance)) := by
  have hth : res0.ctx.thresholdForStopping = 0 := by
    have h := (renderBlocks_sameSetup E pre _ res0 hpre).threshold_eq
    rw [h]
    exact construct_threshold E p ownerParams props playHead sys
  refine ⟨hth, (destroy_postPass res0.ctx).2.2.trans hth, ?_⟩
  obtain ⟨c', h1, h2, h3, _⟩ := renderNextBlock_accepted E res0.ctx q inp w hw hexit hgo hok
  obtain ⟨f1, _⟩ := finishBlock_spec c' res0.ctx.blockEnd q inp.magnitudeAtEnd
  rw [h3, h2.r_eq, h2.threshold_eq, hth] at f1
  have hm : inp.magnitudeAtEnd = buffer.getMagnitude 0 n := hmag
  have hnn := getMagnitude_nonneg buffer 0 n
  refine ⟨_, h1, ?_, ?_⟩
  · rw [f1, hm]
    constructor
    · rintro (h | ⟨h, h'⟩)
      · exact Or.inl h
      · exact Or.inr ⟨h, le_antisymm h' hnn⟩
    · rintro (h | ⟨h, h'⟩)
      · exact Or.inl h
      · exact Or.inr ⟨h, le_of_eq h'⟩
  · rintro ⟨c, hc, x, hx, hx0⟩
    have hpos : 0 < buffer.getMagnitude 0 n :=
      getMagnitude_pos buffer 0 n c x hc (by rw [List.drop_zero]; exact hx) hx0
    rw [f1, hm]
    constructor
    · rintro (h | ⟨_, h'⟩)
      · exact h
      · exact absurd hpos (not_lt.mpr h')
    · intro h
      exact Or.inl h

/-- Witness of C28: the first steady-state call of the short render, on a buffer that holds
the sample 1/2, does not return true, as its block starts at 0 s and the render ends at
7/8 s. -/
theorem C28_witness :
    (renderBlocks referenceExternals (smallContext false).start [constantInput 750 (1 / 2)]
        = some (smallWarmedUp false) ∧
      (constantInput 750 (1 / 2)).measuring { channels := [[1 / 2]], numSamples := 1 } 1) ∧
    (smallWarmedUp false).ctx.thresholdForStopping = 0 ∧
    ∃ res, (smallWarmedUp false).ctx.renderNextBlock referenceExternals 0
        (constantInput 750 (1 / 2)) = some res ∧
      (res.finished = true ↔
        (smallWarmedUp false).ctx.blockStart
          > (smallWarmedUp false).ctx.r.time.getEnd + (smallWarmedUp false).ctx.r.endAllowance) := by
  obtain ⟨e1, _⟩ := smallWarmedUp_spec false
  obtain ⟨_, _, _, _, _, _, _, _, _, _, w, hw, _⟩ := smallWarmedUp_books false
  have hpre : renderBlocks referenceExternals (smallContext false).start
      [constantInput 750 (1 / 2)] = some (smallWarmedUp false) :=
    renderBlocks_single referenceExternals (smallContext false).start (smallWarmedUp false)
      (constantInput 750 (1 / 2)) rfl e1
  have hmag : (constantInput 750 (1 / 2)).measuring { channels := [[1 / 2]], numSamples := 1 } 1 := by
    simp only [BlockInput.measuring, constantInput, AudioBlock.getMagnitude, channelMagnitude,
      List.foldl_cons, List.foldl_nil, List.drop_zero, List.take_succ_cons, List.take_zero]
    norm_num
  obtain ⟨h1, _, res, h3, _, h5⟩ := C28_threshold_for_stopping_is_zero referenceExternals
    (smallParams false) (smallParams false) (exampleProps 0) stoppedPlayHead exampleSetup
    [constantInput 750 (1 / 2)] (smallWarmedUp false) w 0 (constantInput 750 (1 / 2))
    { channels := [[1 / 2]], numSamples := 1 } 1 hpre hw rfl rfl rfl hmag
  exact ⟨⟨hpre, hmag⟩, h1, res, h3,
    h5 ⟨[1 / 2], List.mem_singleton.mpr rfl, 1 / 2, by simp, by norm_num⟩⟩

/-- C29: whatever the path of the constructor (also when it fails for want of audio or of a
writable target) and whatever the calls of `renderNextBlock` that follow (also a cancellation
or a failed write), the destructor runs the normalise/trim post-pass, once, exactly when one
of `shouldNormalise`, `trimSilenceAtEnds`, `shouldNormaliseByRMS` was set in the parameters
given to the constructor; in that case the three flags are off in the working parameters and
the original parameters are the ones that were given. -/
theorem C29_post_pass_runs_iff_requested (E : Externals) (p ownerParams : Parameters)
    (props : NodeProperties) (playHead : PlayHead) (sys : SetupInput)
    (inps : List BlockInput) (res : StepResult)
    (h : renderBlocks E
      (NodeRenderContext.construct E p ownerParams props playHead sys).start inps = some res) :
    (res.ctx.destroy.postPassCalls = 1 ↔
      (p.shouldNormalise = true ∨ p.trimSilenceAtEnds = true ∨ p.shouldNormaliseByRMS = true)) ∧
    (res.ctx.destroy.postPassCalls = 0 ∨ res.ctx.destroy.postPassCalls = 1) ∧
    res.ctx.destroy.originalParams = p ∧ res.ctx.originalParams = p ∧
    ((p.shouldNormalise = true ∨ p.trimSilenceAtEnds = true ∨ p.shouldNormaliseByRMS = true) →
      res.ctx.r.shouldNormalise = false ∧ res.ctx.r.trimSilenceAtEnds = false ∧
      res.ctx.r.shouldNormaliseByRMS = false) := by
  have hs := renderBlocks_sameSetup E inps _ res h
  obtain ⟨c1, c2, c3, c4, c5, c6⟩ := construct_postPass E p ownerParams props playHead sys
  obtain ⟨d1, d2, _⟩ := destroy_postPass res.ctx
  have hneeds : res.ctx.needsToNormaliseAndTrim = p.wantsPostPass := hs.needs_eq.trans c1
  have hcalls : res.ctx.postPassCalls = 0 := hs.postPassCalls_eq.trans c3
  have horig : res.ctx.originalParams = p := hs.originalParams_eq.trans c2
  have hr : res.ctx.r
      = (NodeRenderContext.construct E p ownerParams props playHead sys).r := hs.r_eq
  have hwants : p.wantsPostPass = true ↔
      (p.shouldNormalise = true ∨ p.trimSilenceAtEnds = true ∨ p.shouldNormaliseByRMS = true) := by
    unfold Parameters.wantsPostPass
    simp only [Bool.or_eq_true, or_assoc]
  rw [hneeds, hcalls] at d1
  refine ⟨?_, ?_, d2.trans horig, horig, fun hreq => ?_⟩
  · rw [d1, ← hwants]
    cases p.wantsPostPass <;> simp
  · rw [d1]
    cases p.wantsPostPass <;> simp
  · have hq := hwants.mpr hreq
    rw [hr, c4, c5, c6, hq]
    simp

/-- Witness of C29: the constructor fails for want of audio on parameters that ask to
normalise; the destructor runs the post-pass. -/
theorem C29_witness :
    renderBlocks referenceExternals
      (NodeRenderContext.construct referenceExternals normaliseParams normaliseParams
        { exampleProps 0 with hasAudio := false } stoppedPlayHead exampleSetup).start []
      = some (NodeRenderContext.construct referenceExternals normaliseParams normaliseParams
        { exampleProps 0 with hasAudio := false } stoppedPlayHead exampleSetup).start ∧
    (NodeRenderContext.construct referenceExternals normaliseParams normaliseParams
        { exampleProps 0 with hasAudio := false } stoppedPlayHead exampleSetup).status
      = Result.fail "Didn't find any audio to render" ∧
    (NodeRenderContext.construct referenceExternals normaliseParams normaliseParams
        { exampleProps 0 with hasAudio := false } stoppedPlayHead exampleSetup).destroy.postPassCalls
      = 1 := by
  have h := C29_post_pass_runs_iff_requested referenceExternals normaliseParams normaliseParams
    { exampleProps 0 with hasAudio := false } stoppedPlayHead exampleSetup [] _ rfl
  refine ⟨rfl, ?_, h.1.mpr (Or.inl rfl)⟩
  rw [construct_noAudio referenceExternals normaliseParams normaliseParams
    { exampleProps 0 with hasAudio := false } stoppedPlayHead exampleSetup rfl]

/-- C30: for every positive sample rate and block size, render range of positive length,
non-negative end allowance and non-negative latency, on a successfully constructed context:
if every leaf is ready in every call, the block loop returns true within
`numPreRenderBlocks + floor ((length + L / sampleRate + endAllowance) / blockLength) + 2`
calls; and at the entry of whatever call of the render, a warm-up call (`precount > 0`)
returns true only when a cancellation is pending. -/
theorem C30_block_loop_terminates (E : Externals) (p ownerParams : Parameters)
    (props : NodeProperties) (playHead : PlayHead) (sys : SetupInput)
    (inps : List BlockInput) (VP : ValidParams E p props)
    (hdest : workingDestFile p sys ≠ "" → sys.writerOpens = true)
    (hready : ∀ inp ∈ inps, inp.leafNodesReady = true)
    (hlen : callBound p props ≤ inps.length) :
    (∃ res, renderBlocks E
        (NodeRenderContext.construct E p ownerParams props playHead sys).start inps = some res ∧
      res.finished = true) ∧
    callBound p props
      = (NodeRenderContext.construct E p ownerParams props playHead sys).numPreRenderBlocks
        + ⌊(p.time.getLength + (props.latencyNumSamples : ℚ) / p.sampleRateForAudio
              + p.endAllowance)
            / (NodeRenderContext.construct E p ownerParams props playHead sys).blockLength⌋
        + 2 ∧
    (∀ (pre : List BlockInput) (res0 : StepResult) (inp : BlockInput) (res : StepResult),
      renderBlocks E
        (NodeRenderContext.construct E p ownerParams props playHead sys).start pre = some res0 →
      res0.finished = false → 0 < res0.ctx.precount →
      res0.ctx.renderNextBlock E res0.progress inp = some res → res.finished = true →
      inp.shouldExit = true) := by
  have S := construct_loopStart E p ownerParams props playHead sys VP hdest
  obtain ⟨_, _, _, _, _, c6, c7, _⟩ :=
    construct_fields E p ownerParams props playHead sys VP.hasAudio hdest
  refine ⟨loop_finishes E p ownerParams props playHead sys inps VP hdest hready hlen,
    ?_, fun pre res0 inp res hpre h0 hp hcall hf => ?_⟩
  · rw [c6, c7]
    unfold callBound sampleToTime EditTimeRange.getLength
    congr 3
    ring
  · obtain ⟨r, e1, _, e3⟩ := loopBlocks_spec E _ S pre
      (NodeRenderContext.construct E p ownerParams props playHead sys).start rfl
      (loopInv_start _ S)
    have hr : r = res0 := Option.some.inj (e1.symm.trans hpre)
    rw [hr] at e3
    obtain ⟨hinv, _⟩ := e3 h0
    obtain ⟨r2, f1, _, _, _, _, f6⟩ := loop_step E _ res0.ctx res0.progress inp S hinv
    have hr2 : r2 = res := Option.some.inj (f1.symm.trans hcall)
    rw [hr2] at f6
    exact f6 hf hp

/-- Witness of C30: the short render (7/8 s in blocks of 3/4 s, one warm-up block) returns
true within 4 calls. -/
theorem C30_witness :
    (ValidParams referenceExternals (smallParams false) (exampleProps 0) ∧
      callBound (smallParams false) (exampleProps 0) = 4) ∧
    ∃ res, renderBlocks referenceExternals (smallContext false).start
        (List.replicate 4 (constantInput 750 (1 / 2))) = some res ∧
      res.finished = true := by
  have hb : callBound (smallParams false) (exampleProps 0) = 4 := by
    norm_num [callBound, smallParams, exampleParams, exampleProps, truncToInt, sampleToTime]
  have h := C30_block_loop_terminates referenceExternals (smallParams false) (smallParams false)
    (exampleProps 0) stoppedPlayHead exampleSetup (List.replicate 4 (constantInput 750 (1 / 2)))
    (smallParams_valid false) (fun _ => rfl)
    (by
      intro inp hinp
      rw [List.eq_of_mem_replicate hinp]
      rfl)
    (by rw [hb]; rfl)
  exact ⟨⟨smallParams_valid false, hb⟩, h.1⟩

end tracktion_engine
